import Mathlib

/-!
# The resize engine of `magick/resize.c`

A shallow embedding of the resampling core: the filter catalogue, the filter
builder `AcquireResizeFilter`, the weight evaluator `GetResizeFilterWeight`, the
two separable passes `HorizontalFilter` / `VerticalFilter` and the orchestrator
`ResizeImage`.

Conventions.
* `MagickRealType` arithmetic is taken exactly, in an arbitrary linearly ordered
  field `R` with a floor function (`ℚ` when a definition is evaluated).
* A C cast `(ssize_t) d` is `castToInt d` (truncation toward zero).
* A function pointer is a tag of type `FilterFunction`; `FilterFunction.call`
  dispatches to the function of that name.
* What `resize.c` takes from headers and libraries that are not part of the
  sources at hand (libm, `MagickEpsilon`, `QuantumRange`, `ClampToQuantum`, ...)
  is a field of `MagickEnv`.
* A `Quantum` is a natural number: the model is that of a build with integer
  quanta (no HDRI), in which `ClampToQuantum` rounds a real to a quantum.
* The pixel cache and the allocator are outside the module: what they answer is
  given by an oracle (`PassOracle`, `ResizeOracle`), and the lines of a pass
  are processed in order.
-/

namespace Resize

/-! ## Types -/

/-- The enumeration `FilterTypes` of `magick/resample.h`, in the order the two
tables of `AcquireResizeFilter` document row by row.  `SentinelFilter`, the
count of the filters, is not a member: it is `SentinelFilter` below. -/
inductive FilterTypes
  | UndefinedFilter
  | PointFilter
  | BoxFilter
  | TriangleFilter
  | HermiteFilter
  | HanningFilter
  | HammingFilter
  | BlackmanFilter
  | GaussianFilter
  | QuadraticFilter
  | CubicFilter
  | CatromFilter
  | MitchellFilter
  | LanczosFilter
  | BesselFilter
  | SincFilter
  | KaiserFilter
  | WelshFilter
  | ParzenFilter
  | LagrangeFilter
  | BohmanFilter
  | BartlettFilter
  | SincPolynomialFilter
  deriving DecidableEq, Repr

/-- The numeric value of an enumeration member. -/
def FilterTypes.toInt : FilterTypes → ℤ
  | .UndefinedFilter => 0
  | .PointFilter => 1
  | .BoxFilter => 2
  | .TriangleFilter => 3
  | .HermiteFilter => 4
  | .HanningFilter => 5
  | .HammingFilter => 6
  | .BlackmanFilter => 7
  | .GaussianFilter => 8
  | .QuadraticFilter => 9
  | .CubicFilter => 10
  | .CatromFilter => 11
  | .MitchellFilter => 12
  | .LanczosFilter => 13
  | .BesselFilter => 14
  | .SincFilter => 15
  | .KaiserFilter => 16
  | .WelshFilter => 17
  | .ParzenFilter => 18
  | .LagrangeFilter => 19
  | .BohmanFilter => 20
  | .BartlettFilter => 21
  | .SincPolynomialFilter => 22

/-- The count of the filters, one past the last member of `FilterTypes`. -/
def SentinelFilter : ℤ := 23

/-- The cast `(FilterTypes) option` of an integer the caller has checked to lie
strictly between `UndefinedFilter` and `SentinelFilter`; any other integer is
sent to `UndefinedFilter`. -/
def FilterTypes.ofInt : ℤ → FilterTypes
  | 1 => .PointFilter
  | 2 => .BoxFilter
  | 3 => .TriangleFilter
  | 4 => .HermiteFilter
  | 5 => .HanningFilter
  | 6 => .HammingFilter
  | 7 => .BlackmanFilter
  | 8 => .GaussianFilter
  | 9 => .QuadraticFilter
  | 10 => .CubicFilter
  | 11 => .CatromFilter
  | 12 => .MitchellFilter
  | 13 => .LanczosFilter
  | 14 => .BesselFilter
  | 15 => .SincFilter
  | 16 => .KaiserFilter
  | 17 => .WelshFilter
  | 18 => .ParzenFilter
  | 19 => .LagrangeFilter
  | 20 => .BohmanFilter
  | 21 => .BartlettFilter
  | 22 => .SincPolynomialFilter
  | _ => .UndefinedFilter

/-- The static weighting / windowing functions of the module, as the values a
function pointer of `struct _ResizeFilter` can take. -/
inductive FilterFunction
  | Bessel
  | Blackman
  | Bohman
  | Box
  | CubicBC
  | Gaussian
  | Hanning
  | Hamming
  | Kaiser
  | Lagrange
  | Quadratic
  | Sinc
  | SincPolynomial
  | Triangle
  | Welsh
  deriving DecidableEq, Repr

/-- The record `struct _ResizeFilter` (the `signature` field apart).  `cubic` is
the array `cubic[8]`; only the indices 0..7 are ever read. -/
structure ResizeFilter (R : Type) where
  filter : FilterFunction
  window : FilterFunction
  support : R
  window_support : R
  scale : R
  blur : R
  cubic : ℕ → R

/-- What `resize.c` uses and does not define: the libm functions, the constants
`MagickEpsilon` and `MagickPI`, the quantum depth with its `QuantumRange`, and
the rounding `ClampToQuantum` of `magick/quantum.h`.  `fuel` bounds the number
of turns of the one loop of the module that has no static bound (`I0`). -/
structure MagickEnv (R : Type) where
  MagickEpsilon : R
  MagickPI : R
  QuantumDepth : ℕ
  QuantumRange : ℕ
  ClampToQuantum : R → ℕ
  sin : R → R
  cos : R → R
  exp : R → R
  log : R → R
  sqrt : R → R
  fuel : ℕ

section Catalog

variable {R : Type} [LinearOrderedField R] [FloorRing R]

/-- The macro `QuantumScale`, the reciprocal of `QuantumRange`. -/
def MagickEnv.QuantumScale (env : MagickEnv R) : R :=
  1 / (env.QuantumRange : R)

/-- The C conversion `(ssize_t) d` of a real: truncation toward zero. -/
def castToInt (d : R) : ℤ :=
  if 0 ≤ d then ⌊d⌋ else ⌈d⌉

/-- The helper `MagickMax` of the module. -/
def MagickMax (x y : R) : R :=
  if x > y then x else y

/-- The helper `MagickMin` of the module. -/
def MagickMin (x y : R) : R :=
  if x < y then x else y

/-- The constant `MagickPIL`. -/
def MagickPIL : R := 3.14159265358979323846264338327950288420

/-! ## The filter functions -/

/-- The series loop of `I0`: `for (i=2; t > MagickEpsilon; i++) { sum+=t;
t*=y/(i*i); }`, with `none` when the loop is still running after `fuel`
turns. -/
def I0Loop (eps y : R) : ℕ → ℕ → R → R → Option R
  | 0, _, _, _ => none
  | fuel + 1, i, t, sum =>
    if t > eps then I0Loop eps y fuel (i + 1) (t * (y / ((i : R) * (i : R)))) (sum + t)
    else some sum

/-- The function `I0`: zeroth order Bessel function of the first kind. -/
def I0 (env : MagickEnv R) (x : R) : Option R :=
  I0Loop env.MagickEpsilon (x * x / 4) env.fuel 2 (x * x / 4) 1

/-- The Horner loops of `J1`, `P1` and `Q1`: `p=tbl[top]; for (i=top-1; i >= 0;
i--) p=step(p)+tbl[i];`. -/
def hornerLoop (tbl : List R) (top : ℕ) (step : R → R) : R :=
  (List.range top).reverse.foldl (fun p i => step p + tbl.getD i 0) (tbl.getD top 0)

/-- The table `Pone` of `J1`. -/
def J1_Pone : List R :=
  [0.581199354001606143928050809e+21, -0.6672106568924916298020941484e+20,
   0.2316433580634002297931815435e+19, -0.3588817569910106050743641413e+17,
   0.2908795263834775409737601689e+15, -0.1322983480332126453125473247e+13,
   0.3413234182301700539091292655e+10, -0.4695753530642995859767162166e+7,
   0.270112271089232341485679099e+4]

/-- The table `Qone` of `J1`. -/
def J1_Qone : List R :=
  [0.11623987080032122878585294e+22, 0.1185770712190320999837113348e+20,
   0.6092061398917521746105196863e+17, 0.2081661221307607351240184229e+15,
   0.5243710262167649715406728642e+12, 0.1013863514358673989967045588e+10,
   0.1501793594998585505921097578e+7, 0.1606931573481487801970916749e+4, 0.1e+1]

/-- The function `J1`. -/
def J1 (x : R) : R :=
  hornerLoop J1_Pone 8 (fun p => p * x * x) / hornerLoop J1_Qone 8 (fun q => q * x * x)

/-- The table `Pone` of `P1`. -/
def P1_Pone : List R :=
  [0.352246649133679798341724373e+5, 0.62758845247161281269005675e+5,
   0.313539631109159574238669888e+5, 0.49854832060594338434500455e+4,
   0.2111529182853962382105718e+3, 0.12571716929145341558495e+1]

/-- The table `Qone` of `P1`. -/
def P1_Qone : List R :=
  [0.352246649133679798068390431e+5, 0.626943469593560511888833731e+5,
   0.312404063819041039923015703e+5, 0.4930396490181088979386097e+4,
   0.2030775189134759322293574e+3, 0.1e+1]

/-- The function `P1`. -/
def P1 (x : R) : R :=
  hornerLoop P1_Pone 5 (fun p => p * (8 / x) * (8 / x)) /
    hornerLoop P1_Qone 5 (fun q => q * (8 / x) * (8 / x))

/-- The table `Pone` of `Q1`. -/
def Q1_Pone : List R :=
  [0.3511751914303552822533318e+3, 0.7210391804904475039280863e+3,
   0.4259873011654442389886993e+3, 0.831898957673850827325226e+2,
   0.45681716295512267064405e+1, 0.3532840052740123642735e-1]

/-- The table `Qone` of `Q1`. -/
def Q1_Qone : List R :=
  [0.74917374171809127714519505e+4, 0.154141773392650970499848051e+5,
   0.91522317015169922705904727e+4, 0.18111867005523513506724158e+4,
   0.1038187585462133728776636e+3, 0.1e+1]

/-- The function `Q1`. -/
def Q1 (x : R) : R :=
  hornerLoop Q1_Pone 5 (fun p => p * (8 / x) * (8 / x)) /
    hornerLoop Q1_Qone 5 (fun q => q * (8 / x) * (8 / x))

/-- The function `BesselOrderOne`. -/
def BesselOrderOne (env : MagickEnv R) (x : R) : R :=
  if x = 0 then 0
  else
    let p := x
    let x := if x < 0 then -x else x
    if x < 8 then p * J1 x
    else
      let q := env.sqrt (2 / (env.MagickPI * x)) *
        (P1 x * (1 / env.sqrt 2 * (env.sin x - env.cos x)) -
          8 / x * Q1 x * (-1 / env.sqrt 2 * (env.sin x + env.cos x)))
      if p < 0 then -q else q

/-- The filter function `Bessel` (an x-scaled Jinc). -/
def Bessel (env : MagickEnv R) (x : R) : R :=
  if x = 0 then (1 / 4) * MagickPIL
  else BesselOrderOne env (MagickPIL * x) / (x + x)

/-- The window function `Blackman`. -/
def Blackman (env : MagickEnv R) (x : R) : R :=
  let pix := MagickPIL * x
  let cospix := env.cos pix
  (34 / 100) + cospix * ((1 / 2) + cospix * (16 / 100))

/-- The window function `Bohman`. -/
def Bohman (env : MagickEnv R) (x : R) : R :=
  let pix := MagickPIL * x
  (1 - x) * env.cos pix + (1 / MagickPIL) * env.sin pix

/-- The filter function `Box`. -/
def Box (_x : R) : R := 1

/-- The filter function `CubicBC`. -/
def CubicBC (x : R) (resize_filter : ResizeFilter R) : R :=
  if x < 1 then
    resize_filter.cubic 0 + x * (resize_filter.cubic 1 + x *
      (resize_filter.cubic 2 + x * resize_filter.cubic 3))
  else if x < 2 then
    resize_filter.cubic 4 + x * (resize_filter.cubic 5 + x *
      (resize_filter.cubic 6 + x * resize_filter.cubic 7))
  else 0

/-- The filter function `Gaussian`. -/
def Gaussian (env : MagickEnv R) (x : R) : R :=
  let alpha := -env.sqrt (8 / MagickPIL)
  env.exp (alpha * x * x)

/-- The window function `Hanning`. -/
def Hanning (env : MagickEnv R) (x : R) : R :=
  let pix := MagickPIL * x
  let cospix := env.cos pix
  (1 / 2) + (1 / 2) * cospix

/-- The window function `Hamming`. -/
def Hamming (env : MagickEnv R) (x : R) : R :=
  let pix := MagickPIL * x
  let cospix := env.cos pix
  (54 / 100) + (46 / 100) * cospix

/-- The window function `Kaiser`, with `Alpha` 6.5 and `I0A = 1.0/I0(Alpha)`.
The value is 0 when a run of `I0` has not finished within `env.fuel` turns. -/
def Kaiser (env : MagickEnv R) (x : R) : R :=
  match I0 env (65 / 10), I0 env ((65 / 10) * env.sqrt (1 - x * x)) with
  | some a, some b => (1 / a) * b
  | _, _ => 0

/-- The filter function `Lagrange`. -/
def Lagrange (x : R) (resize_filter : ResizeFilter R) : R :=
  if x > resize_filter.support then 0
  else
    let order : ℤ := castToInt (2 * resize_filter.window_support)
    let n : ℤ := castToInt ((1 * (order : R)) / 2 + x)
    (List.range order.toNat).foldl
      (fun (value : R) (i : ℕ) =>
        if (i : ℤ) ≠ n then value * (((n : R) - (i : R) - x) / ((n : R) - (i : R))) else value)
      1

/-- The filter function `Quadratic`. -/
def Quadratic (x : R) : R :=
  if x < 1 / 2 then 3 / 4 - x * x
  else if x < 3 / 2 then (1 / 2) * (x - 3 / 2) * (x - 3 / 2)
  else 0

/-- The filter function `Sinc`. -/
def Sinc (env : MagickEnv R) (x : R) : R :=
  if x = 0 then 1
  else
    let pix := MagickPIL * x
    let sinpix := env.sin pix
    sinpix / pix

/-- The constants `c0, c1, ...` of `SincPolynomial` for
`MAGICKCORE_QUANTUM_DEPTH <= 8`. -/
def SincPolynomial_c8 : List R :=
  [0.173456131023616172130931138332417073143e-2, -0.380364743836376263041954887553883370815e-3,
   0.374219191965003105059092491853033171168e-4, -0.207789976431855699043820493597151957343e-5,
   0.643040460008483757431732461799962454945e-7, -0.865087318355486581259138486910631069838e-9]

/-- The constants of `SincPolynomial` for `MAGICKCORE_QUANTUM_DEPTH <= 16`. -/
def SincPolynomial_c16 : List R :=
  [0.173610016489197553621906385078711564924e-2, -0.384186115075660162081071290162149315834e-3,
   0.393684603287860108352720146121813443561e-4, -0.248947210682259168029030370205389323899e-5,
   0.107791837839662283066379987646635416692e-6, -0.324874073895735800961260474028013982211e-8,
   0.628155216606695311524920882748052490116e-10, -0.586110644039348333520104379959307242711e-12]

/-- The constants of `SincPolynomial` for `MAGICKCORE_QUANTUM_DEPTH <= 32`. -/
def SincPolynomial_c32 : List R :=
  [0.173611107357320220183368594093166520811e-2, -0.384240921114946632192116762889211361285e-3,
   0.3942011823593181282212298917249470487713e-4, -0.2509633016091172176600688891655505348562e-5,
   0.1119020328180957844142377820713688051202e-6, -0.3728951014087795493684656143211370488753e-8,
   0.9576941966775725703198167801887185183299e-10, -0.187208577776590710853865174371617338991e-11,
   0.253524321426864752676094495396308636823e-13, -0.177084805010701112639035485248501049364e-15]

/-- The constants `c0 .. c15` declared by `SincPolynomial` for a quantum depth
above 32. -/
def SincPolynomial_c64 : List R :=
  [0.173611111111111105469252061071302221602e-2, -0.384241242599157132427086439742003984072e-3,
   0.394206128796992679471568863267961806723e-4, -0.250994617676394984418111934858133321048e-5,
   0.112007374042376446971339807322892870623e-6, -0.375009284680048744128306355614156758655e-8,
   0.984472073682512367869077201164827198558e-10, -0.209062908997015343777869669751033754285e-11,
   0.367641628743512654638053448370066260797e-13, -0.545242123349894319701665127995675600908e-15,
   0.692018191260376553697599848860742319691e-17, -0.760012485650215194550499686240155234683e-19,
   0.725162722620595651887717538635218514803e-21, -0.589967180075110891970034733495852828580e-23,
   0.374841980075726557899013574367932640586e-25, -0.138632329047117683500928913798808544919e-27]

/-- The nested form `c0+xx*(c1+xx*(...+xx*last))` in which `SincPolynomial`
evaluates `p`. -/
def nested (xx : R) : List R → R
  | [] => 0
  | [c] => c
  | c :: cs => c + xx * nested xx cs

/-- The filter function `SincPolynomial`.  In the last tier the innermost term
of the source expression is the literal `15`: `(c14+xx*15)`. -/
def SincPolynomial (env : MagickEnv R) (x : R) : R :=
  let xx := x * x
  if xx > 16 then
    let pix := MagickPIL * x
    let sinpix := env.sin pix
    sinpix / pix
  else
    let p : R :=
      if env.QuantumDepth ≤ 8 then nested xx SincPolynomial_c8
      else if env.QuantumDepth ≤ 16 then nested xx SincPolynomial_c16
      else if env.QuantumDepth ≤ 32 then nested xx SincPolynomial_c32
      else nested xx ((SincPolynomial_c64 : List R).take 15 ++ [15])
    (xx - 1) * (xx - 4) * (xx - 9) * (xx - 16) * p

/-- The filter function `Triangle`. -/
def Triangle (x : R) : R :=
  if x < 1 then 1 - x else 0

/-- The window function `Welsh`. -/
def Welsh (x : R) : R :=
  if x < 1 then 1 - x * x else 0

/-- The call `(*function)(x,resize_filter)` through a function pointer. -/
def FilterFunction.call (env : MagickEnv R) (fn : FilterFunction) (x : R)
    (resize_filter : ResizeFilter R) : R :=
  match fn with
  | .Bessel => Resize.Bessel env x
  | .Blackman => Resize.Blackman env x
  | .Bohman => Resize.Bohman env x
  | .Box => Resize.Box x
  | .CubicBC => Resize.CubicBC x resize_filter
  | .Gaussian => Resize.Gaussian env x
  | .Hanning => Resize.Hanning env x
  | .Hamming => Resize.Hamming env x
  | .Kaiser => Resize.Kaiser env x
  | .Lagrange => Resize.Lagrange x resize_filter
  | .Quadratic => Resize.Quadratic x
  | .Sinc => Resize.Sinc env x
  | .SincPolynomial => Resize.SincPolynomial env x
  | .Triangle => Resize.Triangle x
  | .Welsh => Resize.Welsh x

/-- The function `GetResizeFilterSupport`. -/
def GetResizeFilterSupport (resize_filter : ResizeFilter R) : R :=
  resize_filter.support * resize_filter.blur

/-- The function `GetResizeFilterWeight`. -/
def GetResizeFilterWeight (env : MagickEnv R) (resize_filter : ResizeFilter R) (x : R) : R :=
  let x_blur := |x| / resize_filter.blur
  let scale :=
    if resize_filter.window_support < env.MagickEpsilon ∨ resize_filter.window = FilterFunction.Box
    then 1
    else resize_filter.window.call env (x_blur * resize_filter.scale) resize_filter
  scale * resize_filter.filter.call env x_blur resize_filter

end Catalog

/-! ## Images -/

/-- The storage classes of `ClassType`. -/
inductive ClassType
  | UndefinedClass
  | DirectClass
  | PseudoClass
  deriving DecidableEq, Repr

/-- The colorspaces, as far as the module tells them apart: it only tests for
`CMYKColorspace`. -/
inductive ColorspaceType
  | RGBColorspace
  | CMYKColorspace
  deriving DecidableEq, Repr

/-- The record `PixelPacket`: four `Quantum` channels. -/
structure PixelPacket where
  red : ℕ
  green : ℕ
  blue : ℕ
  opacity : ℕ
  deriving DecidableEq, Repr

/-- The record `MagickPixelPacket`, as far as the passes use it: the channel
accumulators. -/
structure MagickPixelPacket (R : Type) where
  red : R
  green : R
  blue : R
  opacity : R
  index : R

/-- The artifacts of an image that `AcquireResizeFilter` reads, each `none` when
the image does not carry it and otherwise the value the module gets from its
parser: `StringToDouble` for "filter:blur", "filter:support",
"filter:win-support", "filter:b" and "filter:c", `StringToLong` for
"filter:lobes", `ParseMagickOption(MagickFilterOptions,...)` for "filter:filter"
and "filter:window" (an integer, negative for a name that is no filter).
`verbose` says whether "filter:verbose" is set. -/
structure Artifacts (R : Type) where
  blur : Option R
  filter : Option ℤ
  window : Option ℤ
  lobes : Option ℤ
  support : Option R
  win_support : Option R
  b : Option R
  c : Option R
  verbose : Bool

/-- An image without artifacts. -/
def Artifacts.none {R : Type} : Artifacts R :=
  ⟨Option.none, Option.none, Option.none, Option.none, Option.none, Option.none, Option.none,
    Option.none, false⟩

/-- The record `Image`, as far as the module uses it.  `pixels x y` and
`indexes x y` are what the pixel cache holds at column `x` and row `y`; outside
the image they are the virtual pixels.  `progress_monitor`, when set, maps the
offset and the span of `SetImageProgress` to its answer. -/
structure Image (R : Type) where
  columns : ℕ
  rows : ℕ
  storage_class : ClassType
  colorspace : ColorspaceType
  matte : Bool
  type : ℕ
  pixels : ℤ → ℤ → PixelPacket
  indexes : ℤ → ℤ → ℕ
  artifacts : Artifacts R
  progress_monitor : Option (ℤ → ℕ → Bool)

/-! ## The filter builder -/

section Builder

variable {R : Type} [LinearOrderedField R] [FloorRing R]

/-- A row of the table `mapping` of `AcquireResizeFilter`. -/
structure MappingEntry where
  filter : FilterTypes
  window : FilterTypes

/-- The table `mapping`: the weighting and the windowing function of each
filter. -/
def mapping : FilterTypes → MappingEntry
  | .UndefinedFilter => ⟨.UndefinedFilter, .BoxFilter⟩
  | .PointFilter => ⟨.PointFilter, .BoxFilter⟩
  | .BoxFilter => ⟨.BoxFilter, .BoxFilter⟩
  | .TriangleFilter => ⟨.TriangleFilter, .BoxFilter⟩
  | .HermiteFilter => ⟨.HermiteFilter, .BoxFilter⟩
  | .HanningFilter => ⟨.SincFilter, .HanningFilter⟩
  | .HammingFilter => ⟨.SincFilter, .HammingFilter⟩
  | .BlackmanFilter => ⟨.SincFilter, .BlackmanFilter⟩
  | .GaussianFilter => ⟨.GaussianFilter, .BoxFilter⟩
  | .QuadraticFilter => ⟨.QuadraticFilter, .BoxFilter⟩
  | .CubicFilter => ⟨.CubicFilter, .BoxFilter⟩
  | .CatromFilter => ⟨.CatromFilter, .BoxFilter⟩
  | .MitchellFilter => ⟨.MitchellFilter, .BoxFilter⟩
  | .LanczosFilter => ⟨.LanczosFilter, .SincFilter⟩
  | .BesselFilter => ⟨.BesselFilter, .BlackmanFilter⟩
  | .SincFilter => ⟨.SincFilter, .BlackmanFilter⟩
  | .KaiserFilter => ⟨.SincFilter, .KaiserFilter⟩
  | .WelshFilter => ⟨.SincFilter, .WelshFilter⟩
  | .ParzenFilter => ⟨.SincFilter, .CubicFilter⟩
  | .LagrangeFilter => ⟨.LagrangeFilter, .BoxFilter⟩
  | .BohmanFilter => ⟨.SincFilter, .BohmanFilter⟩
  | .BartlettFilter => ⟨.SincFilter, .TriangleFilter⟩
  | .SincPolynomialFilter => ⟨.SincPolynomialFilter, .BlackmanFilter⟩

/-- A row of the table `filters` of `AcquireResizeFilter`. -/
structure FilterEntry (R : Type) where
  function : FilterFunction
  support : R
  scale : R
  B : R
  C : R

/-- The table `filters`: the function, its default support, its scale as a
window, and the B, C of a cubic. -/
def filters : FilterTypes → FilterEntry R
  | .UndefinedFilter => ⟨.Box, 0, 1 / 2, 0, 0⟩
  | .PointFilter => ⟨.Box, 0, 1 / 2, 0, 0⟩
  | .BoxFilter => ⟨.Box, 1 / 2, 1 / 2, 0, 0⟩
  | .TriangleFilter => ⟨.Triangle, 1, 1, 0, 0⟩
  | .HermiteFilter => ⟨.CubicBC, 1, 1, 0, 0⟩
  | .HanningFilter => ⟨.Hanning, 1, 1, 0, 0⟩
  | .HammingFilter => ⟨.Hamming, 1, 1, 0, 0⟩
  | .BlackmanFilter => ⟨.Blackman, 1, 1, 0, 0⟩
  | .GaussianFilter => ⟨.Gaussian, 3 / 2, 3 / 2, 0, 0⟩
  | .QuadraticFilter => ⟨.Quadratic, 3 / 2, 3 / 2, 0, 0⟩
  | .CubicFilter => ⟨.CubicBC, 2, 2, 1, 0⟩
  | .CatromFilter => ⟨.CubicBC, 2, 1, 0, 1 / 2⟩
  | .MitchellFilter => ⟨.CubicBC, 2, 1, 1 / 3, 1 / 3⟩
  | .LanczosFilter => ⟨.Sinc, 3, 1, 0, 0⟩
  | .BesselFilter => ⟨.Bessel, 3.2383, 1.2197, 0, 0⟩
  | .SincFilter => ⟨.Sinc, 4, 1, 0, 0⟩
  | .KaiserFilter => ⟨.Kaiser, 1, 1, 0, 0⟩
  | .WelshFilter => ⟨.Welsh, 1, 1, 0, 0⟩
  | .ParzenFilter => ⟨.CubicBC, 2, 2, 1, 0⟩
  | .LagrangeFilter => ⟨.Lagrange, 2, 1, 0, 0⟩
  | .BohmanFilter => ⟨.Bohman, 1, 1, 0, 0⟩
  | .BartlettFilter => ⟨.Triangle, 1, 1, 0, 0⟩
  | .SincPolynomialFilter => ⟨.SincPolynomial, 4, 1, 0, 0⟩

/-- The table `bessel_zeros`: the first sixteen zero crossings of `Bessel`. -/
def bessel_zeros : List R :=
  [1.21966989126651, 2.23313059438153, 3.23831548416624, 4.24106286379607,
   5.24276437687019, 6.24392168986449, 7.24475986871996, 8.24539491395205,
   9.24589268494948, 10.2462933487549, 11.2466227948779, 12.2468984611381,
   13.2471325221811, 14.2473337358069, 15.2475085630373, 16.247661874701]

/-- The eight assignments `resize_filter->cubic[0..7]=...` of
`AcquireResizeFilter`. -/
def cubicCoefficients (B C : R) : ℕ → R
  | 0 => (6 - 2 * B) / 6
  | 1 => 0
  | 2 => (-18 + 12 * B + 6 * C) / 6
  | 3 => (12 - 9 * B - 6 * C) / 6
  | 4 => (8 * B + 24 * C) / 6
  | 5 => (-12 * B - 48 * C) / 6
  | 6 => (6 * B + 30 * C) / 6
  | 7 => (-1 * B - 6 * C) / 6
  | _ => 0

/-- The test `(UndefinedFilter < option) && (option < SentinelFilter)`. -/
def validOption (option : ℤ) : Bool :=
  decide (FilterTypes.UndefinedFilter.toInt < option ∧ option < SentinelFilter)

/-- The first part of `AcquireResizeFilter`: the blur of the filter, from the
argument, the artifact "filter:blur", the floor `MagickEpsilon` and the
rescaling of the cylindrical Gaussian and Bessel filters. -/
def acquireBlur (env : MagickEnv R) (image : Image R) (filter : FilterTypes) (blur : R)
    (cylindrical : Bool) : R :=
  let blur := match image.artifacts.blur with
    | some artifact => artifact
    | none => blur
  let blur := if blur < env.MagickEpsilon then env.MagickEpsilon else blur
  if cylindrical ∧ filter ≠ FilterTypes.SincFilter then
    match (mapping filter).filter with
    | .GaussianFilter => blur * (2 * env.log 2 / env.sqrt (2 / env.MagickPI))
    | .BesselFilter => blur * (bessel_zeros : List R).getD 0 0
    | _ => blur
  else blur

/-- The second part of `AcquireResizeFilter`: the pair `(filter_type,
window_type)` after the promotion `switch` and the artifacts "filter:filter"
and "filter:window". -/
def acquireTypes (image : Image R) (filter : FilterTypes) (cylindrical : Bool) :
    FilterTypes × FilterTypes :=
  let filter_type := (mapping filter).filter
  let window_type := (mapping filter).window
  let promoted : FilterTypes × FilterTypes :=
    if cylindrical ∧ filter ≠ FilterTypes.SincFilter then
      match filter_type with
      | .SincFilter => (.BesselFilter, window_type)
      | .LanczosFilter => (.BesselFilter, .BesselFilter)
      | _ => (filter_type, window_type)
    else (filter_type, window_type)
  match image.artifacts.filter with
  | some option =>
    let raw : FilterTypes × FilterTypes :=
      if validOption option then (FilterTypes.ofInt option, .BoxFilter) else promoted
    let lanczos : FilterTypes × FilterTypes :=
      if option = FilterTypes.LanczosFilter.toInt then
        (if cylindrical then .BesselFilter else .LanczosFilter,
         if cylindrical then .BesselFilter else .SincFilter)
      else raw
    match image.artifacts.window with
    | some option =>
      if validOption option then
        if option ≠ FilterTypes.LanczosFilter.toInt then (lanczos.1, FilterTypes.ofInt option)
        else (lanczos.1, if cylindrical then .BesselFilter else .SincFilter)
      else lanczos
    | none => lanczos
  | none =>
    match image.artifacts.window with
    | some option =>
      if validOption option then
        let option := if cylindrical then FilterTypes.BesselFilter else FilterTypes.SincFilter
        (promoted.1, option)
      else promoted
    | none => promoted

/-- The third part of `AcquireResizeFilter`: the support, from the table and
the artifacts "filter:lobes" and "filter:support". -/
def acquireSupport (image : Image R) (filter_type : FilterTypes) : R :=
  let support := (filters filter_type : FilterEntry R).support
  let support := match image.artifacts.lobes with
    | some artifact =>
      let lobes : ℤ := if artifact < 1 then 1 else artifact
      if filter_type = FilterTypes.BesselFilter then
        let lobes : ℤ := if lobes > 16 then 16 else lobes
        (bessel_zeros : List R).getD (lobes - 1).toNat 0
      else (lobes : R)
    | none => support
  match image.artifacts.support with
  | some artifact => |artifact|
  | none => support

/-- The last part of `AcquireResizeFilter`: the values B and C of a cubic, from
the table and the artifacts "filter:b" and "filter:c". -/
def acquireBC (image : Image R) (filter_type window_type : FilterTypes) : R × R :=
  let preset : R × R :=
    if (filters filter_type : FilterEntry R).function = FilterFunction.CubicBC then
      ((filters filter_type : FilterEntry R).B, (filters filter_type : FilterEntry R).C)
    else if (filters window_type : FilterEntry R).function = FilterFunction.CubicBC then
      ((filters window_type : FilterEntry R).B, (filters window_type : FilterEntry R).C)
    else (0, 0)
  match image.artifacts.b with
  | some artifact =>
    let B := artifact
    let C := (1 - B) / 2
    match image.artifacts.c with
    | some artifact => (B, artifact)
    | none => (B, C)
  | none =>
    match image.artifacts.c with
    | some artifact =>
      let C := artifact
      (1 - 2 * C, C)
    | none => preset

/-- The function `AcquireResizeFilter`.  The array `cubic` is written only when
the weighting or the windowing function is `CubicBC`; the memory it is left
with otherwise is taken to be zero.  The report that "filter:verbose" prints
does not change the filter and is left out. -/
def AcquireResizeFilter (env : MagickEnv R) (image : Image R) (filter : FilterTypes) (blur : R)
    (cylindrical : Bool) : ResizeFilter R :=
  let types := acquireTypes image filter cylindrical
  let filter_type := types.1
  let window_type := types.2
  let support := acquireSupport image filter_type
  let window_support := match image.artifacts.win_support with
    | some artifact => |artifact|
    | none => support
  { filter := (filters filter_type : FilterEntry R).function
    window := (filters window_type : FilterEntry R).function
    support := support
    window_support := window_support
    scale := (filters window_type : FilterEntry R).scale / window_support
    blur := acquireBlur env image filter blur cylindrical
    cubic :=
      if (filters filter_type : FilterEntry R).function = FilterFunction.CubicBC ∨
          (filters window_type : FilterEntry R).function = FilterFunction.CubicBC then
        cubicCoefficients (acquireBC image filter_type window_type).1
          (acquireBC image filter_type window_type).2
      else fun _ => 0 }

end Builder

/-! ## The two passes -/

section Passes

variable {R : Type} [LinearOrderedField R] [FloorRing R]

/-- The record `ContributionInfo`. -/
structure ContributionInfo (R : Type) where
  weight : R
  pixel : ℤ

/-- The outcomes of what a pass asks of the memory allocator and of the pixel
cache, per output line: `SetImageStorageClass`, `AcquireContributionThreadSet`,
`GetCacheViewVirtualPixels`, `QueueCacheViewAuthenticPixels` and
`SyncCacheViewAuthenticPixels` (`true` for success). -/
structure PassOracle where
  setStorageClass : Bool
  acquireContributions : Bool
  getVirtualPixels : ℕ → Bool
  queueAuthenticPixels : ℕ → Bool
  syncAuthenticPixels : ℕ → Bool

/-- The oracle of a pass in which nothing fails. -/
def PassOracle.ok : PassOracle :=
  ⟨true, true, fun _ => true, fun _ => true, fun _ => true⟩

/-- The value of `scale` at the head of a pass:
`MagickMax(1.0/factor+MagickEpsilon,1.0)`. -/
def passScale (env : MagickEnv R) (factor : R) : R :=
  MagickMax (1 / factor + env.MagickEpsilon) 1

/-- The value `scale*GetResizeFilterSupport(resize_filter)` that selects the
storage class of the destination. -/
def rawSupport (env : MagickEnv R) (resize_filter : ResizeFilter R) (factor : R) : R :=
  passScale env factor * GetResizeFilterSupport resize_filter

/-- The storage class a pass gives its destination. -/
def passStorageClass (env : MagickEnv R) (resize_filter : ResizeFilter R)
    (image : Image R) (factor : R) : ClassType :=
  if rawSupport env resize_filter factor > 1 / 2 then ClassType.DirectClass
  else image.storage_class

/-- The value of `support` in the loop of a pass, after the reduction to point
sampling. -/
def passSupport (env : MagickEnv R) (resize_filter : ResizeFilter R) (factor : R) : R :=
  if rawSupport env resize_filter factor < 1 / 2 then 1 / 2
  else rawSupport env resize_filter factor

/-- The value of `scale` in the loop of a pass, after the reduction to point
sampling and `scale=1.0/scale`. -/
def loopScale (env : MagickEnv R) (resize_filter : ResizeFilter R) (factor : R) : R :=
  if rawSupport env resize_filter factor < 1 / 2 then 1 / 1
  else 1 / passScale env factor

/-- The count given to `AcquireContributionThreadSet`:
`(size_t) (2.0*support+3.0)`. -/
def contributionCapacity (env : MagickEnv R) (resize_filter : ResizeFilter R)
    (factor : R) : ℤ :=
  castToInt (2 * passSupport env resize_filter factor + 3)

/-- The value `center=(x+0.5)/factor` of output coordinate `x`. -/
def passCenter (factor : R) (x : ℕ) : R :=
  ((x : R) + 1 / 2) / factor

/-- The value `start=(ssize_t) MagickMax(center-support+0.5,0.0)`. -/
def passStart (support center : R) : ℤ :=
  castToInt (MagickMax (center - support + 1 / 2) 0)

/-- The value `stop=(ssize_t) MagickMin(center+support+0.5,(double) extent)`,
`extent` being the columns of the source in the horizontal pass and its rows
in the vertical one. -/
def passStop (support center : R) (extent : ℕ) : ℤ :=
  castToInt (MagickMin (center + support + 1 / 2) (extent : R))

/-- The entries `contribution[0..n-1]` the first loop over `n` writes, weights
not yet normalized. -/
def rawContribution (env : MagickEnv R) (resize_filter : ResizeFilter R)
    (scale center : R) (start stop : ℤ) : List (ContributionInfo R) :=
  (List.range (stop - start).toNat).map fun (n : ℕ) =>
    { pixel := start + (n : ℤ)
      weight := GetResizeFilterWeight env resize_filter
        (scale * (((start + (n : ℤ) : ℤ) : R) - center + 1 / 2)) }

/-- The value of `density` after the first loop: the weights added up in
order, from 0. -/
def density (contribution : List (ContributionInfo R)) : R :=
  contribution.foldl (fun d c => d + c.weight) 0

/-- The step `Normalize` of a pass. -/
def normalize (contribution : List (ContributionInfo R)) : List (ContributionInfo R) :=
  if density contribution ≠ 0 ∧ density contribution ≠ 1 then
    let d := 1 / density contribution
    contribution.map fun c => { c with weight := c.weight * d }
  else contribution

/-- The contribution list of output coordinate `x` of a pass over a source of
extent `extent` with scale factor `factor`, as it stands after the
normalization step. -/
def contributionList (env : MagickEnv R) (resize_filter : ResizeFilter R) (factor : R)
    (extent : ℕ) (x : ℕ) : List (ContributionInfo R) :=
  let support := passSupport env resize_filter factor
  let scale := loopScale env resize_filter factor
  let center := passCenter factor x
  normalize (rawContribution env resize_filter scale center (passStart support center)
    (passStop support center extent))

/-- The read `contribution[i]` of the buffer; an entry that was never written is
taken to be zero. -/
def contributionAt (contribution : List (ContributionInfo R)) (i : ℤ) : ContributionInfo R :=
  if 0 ≤ i then contribution.getD i.toNat ⟨0, 0⟩ else ⟨0, 0⟩

/-- The width `contribution[n-1].pixel-contribution[0].pixel+1` of the span of
source pixels a line reads. -/
def spanWidth (contribution : List (ContributionInfo R)) : ℤ :=
  (contributionAt contribution ((contribution.length : ℤ) - 1)).pixel -
    (contributionAt contribution 0).pixel + 1

/-- The buffer `GetCacheViewVirtualPixels(image_view,x,y,columns,rows,...)`
returns: the pixels of the region row by row, by offset into the buffer. -/
def GetCacheViewVirtualPixels (image : Image R) (x y : ℤ) (columns : ℤ) : ℤ → PixelPacket :=
  fun j => image.pixels (x + j % columns) (y + j / columns)

/-- The buffer `GetCacheViewVirtualIndexQueue(image_view)` returns: the indexes
of the region last read, row by row. -/
def GetCacheViewVirtualIndexQueue (image : Image R) (x y : ℤ) (columns : ℤ) : ℤ → ℕ :=
  fun j => image.indexes (x + j % columns) (y + j / columns)

/-- The macro `GetAlphaPixelComponent`: `QuantumRange` minus the opacity. -/
def GetAlphaPixelComponent (env : MagickEnv R) (p : PixelPacket) : R :=
  (env.QuantumRange : R) - (p.opacity : R)

/-- The value `zero` of a `MagickPixelPacket`. -/
def MagickPixelPacket.zero : MagickPixelPacket R := ⟨0, 0, 0, 0, 0⟩

/-- The accumulation loop of the branch `image->matte == MagickFalse`, over the
buffer `p` with `offset i` the offset `j` of contribution `i`. -/
def accumulate (contribution : List (ContributionInfo R)) (p : ℤ → PixelPacket)
    (offset : ContributionInfo R → ℤ) : MagickPixelPacket R :=
  contribution.foldl
    (fun pixel c =>
      let j := offset c
      let alpha := c.weight
      { pixel with
        red := pixel.red + alpha * ((p j).red : R)
        green := pixel.green + alpha * ((p j).green : R)
        blue := pixel.blue + alpha * ((p j).blue : R)
        opacity := pixel.opacity + alpha * ((p j).opacity : R) })
    MagickPixelPacket.zero

/-- The accumulation loop of the branch of an image with an alpha channel: the
pixel accumulated and `gamma`. -/
def accumulateAlpha (env : MagickEnv R) (contribution : List (ContributionInfo R))
    (p : ℤ → PixelPacket) (offset : ContributionInfo R → ℤ) : MagickPixelPacket R × R :=
  contribution.foldl
    (fun (acc : MagickPixelPacket R × R) c =>
      let pixel := acc.1
      let j := offset c
      let alpha := c.weight * env.QuantumScale * GetAlphaPixelComponent env (p j)
      ({ pixel with
          red := pixel.red + alpha * ((p j).red : R)
          green := pixel.green + alpha * ((p j).green : R)
          blue := pixel.blue + alpha * ((p j).blue : R)
          opacity := pixel.opacity + c.weight * ((p j).opacity : R) },
        acc.2 + alpha))
    (MagickPixelPacket.zero, 0)

/-- The loops that accumulate `pixel.index` for a CMYK image; `alpha` is the
weight of a contribution in the branch at hand. -/
def accumulateIndex (contribution : List (ContributionInfo R)) (indexes : ℤ → ℕ)
    (offset : ContributionInfo R → ℤ) (alpha : ContributionInfo R → R) : R :=
  contribution.foldl (fun index c => index + alpha c * ((indexes (offset c) : ℕ) : R)) 0

/-- The value `1.0/(fabs(gamma) <= MagickEpsilon ? 1.0 : gamma)`. -/
def gammaInverse (env : MagickEnv R) (gamma : R) : R :=
  1 / (if |gamma| ≤ env.MagickEpsilon then 1 else gamma)

/-- The body of the inner loop of a pass: the pixel and the index written for
one sample of the output line, from the contribution list of the line, the
buffers `p` and `indexes`, and the offset `j` of a contribution.  `center`,
`start` and `stop` are those of the line, `old` the index the destination
holds. -/
def filterSample (env : MagickEnv R) (image resize_image : Image R)
    (contribution : List (ContributionInfo R)) (p : ℤ → PixelPacket) (indexes : ℤ → ℕ)
    (offset : ContributionInfo R → ℤ) (center : R) (start stop : ℤ) (old : ℕ) :
    PixelPacket × ℕ :=
  let cmyk : Bool := image.colorspace = ColorspaceType.CMYKColorspace ∧
    resize_image.colorspace = ColorspaceType.CMYKColorspace
  let result : PixelPacket × ℕ :=
    if image.matte = false then
      let pixel := accumulate contribution p offset
      let q : PixelPacket :=
        { red := env.ClampToQuantum pixel.red
          green := env.ClampToQuantum pixel.green
          blue := env.ClampToQuantum pixel.blue
          opacity := env.ClampToQuantum pixel.opacity }
      if cmyk then
        (q, env.ClampToQuantum (accumulateIndex contribution indexes offset fun c => c.weight))
      else (q, old)
    else
      let acc := accumulateAlpha env contribution p offset
      let pixel := acc.1
      let gamma := gammaInverse env acc.2
      let q : PixelPacket :=
        { red := env.ClampToQuantum (gamma * pixel.red)
          green := env.ClampToQuantum (gamma * pixel.green)
          blue := env.ClampToQuantum (gamma * pixel.blue)
          opacity := env.ClampToQuantum pixel.opacity }
      if cmyk then
        (q, env.ClampToQuantum (gamma * accumulateIndex contribution indexes offset fun c =>
          c.weight * env.QuantumScale * GetAlphaPixelComponent env (p (offset c))))
      else (q, old)
  if resize_image.storage_class = ClassType.PseudoClass ∧
      image.storage_class = ClassType.PseudoClass then
    let i : ℤ := castToInt (MagickMin (MagickMax center (start : R)) ((stop : R) - 1) + 1 / 2)
    (result.1, indexes (offset (contributionAt contribution (i - start))))
  else result

/-- The pixel whose channels are the clamped half sums of the channels of two
pixels: what a pass writes from two contributions of weight 1/2 over an image
without alpha. -/
def meanPixel (env : MagickEnv R) (u v : PixelPacket) : PixelPacket :=
  { red := env.ClampToQuantum (1 / 2 * (u.red : R) + 1 / 2 * (v.red : R))
    green := env.ClampToQuantum (1 / 2 * (u.green : R) + 1 / 2 * (v.green : R))
    blue := env.ClampToQuantum (1 / 2 * (u.blue : R) + 1 / 2 * (v.blue : R))
    opacity := env.ClampToQuantum (1 / 2 * (u.opacity : R) + 1 / 2 * (v.opacity : R)) }

/-- The state of the loop of a pass over the output lines: `status`, the
destination image and the progress `offset`. -/
structure PassState (R : Type) where
  status : Bool
  resize_image : Image R
  offset : ℤ

/-- The sample `(x, y)` that the horizontal pass computes for its destination:
column `x` of the output, row `y`. -/
def horizontalSample (env : MagickEnv R) (resize_filter : ResizeFilter R)
    (image resize_image : Image R) (x_factor : R) (x y : ℕ) : PixelPacket × ℕ :=
  let support := passSupport env resize_filter x_factor
  let center := passCenter x_factor x
  let start := passStart support center
  let stop := passStop support center image.columns
  let contribution := contributionList env resize_filter x_factor image.columns x
  let width := spanWidth contribution
  let first := (contributionAt contribution 0).pixel
  filterSample env image resize_image contribution
    (GetCacheViewVirtualPixels image first 0 width)
    (GetCacheViewVirtualIndexQueue image first 0 width)
    (fun c => (y : ℤ) * width + (c.pixel - first))
    center start stop (resize_image.indexes x y)

/-- One turn of the loop `for (x=0; x < resize_image->columns; x++)` of
`HorizontalFilter`.  A line whose sync fails is not committed to the
destination. -/
def horizontalLine (env : MagickEnv R) (oracle : PassOracle) (resize_filter : ResizeFilter R)
    (image : Image R) (x_factor : R) (span : ℕ) (state : PassState R) (x : ℕ) : PassState R :=
  if state.status = false then state
  else if oracle.getVirtualPixels x = false ∨ oracle.queueAuthenticPixels x = false then
    { state with status := false }
  else
    let resize_image := state.resize_image
    let written : Image R :=
      { resize_image with
        pixels := fun a b =>
          if a = (x : ℤ) ∧ 0 ≤ b ∧ b < (resize_image.rows : ℤ) then
            (horizontalSample env resize_filter image resize_image x_factor x b.toNat).1
          else resize_image.pixels a b
        indexes := fun a b =>
          if a = (x : ℤ) ∧ 0 ≤ b ∧ b < (resize_image.rows : ℤ) then
            (horizontalSample env resize_filter image resize_image x_factor x b.toNat).2
          else resize_image.indexes a b }
    let synced : PassState R :=
      if oracle.syncAuthenticPixels x = false then { state with status := false }
      else { state with resize_image := written }
    match image.progress_monitor with
    | some monitor =>
      let proceed := monitor synced.offset span
      { synced with
        offset := synced.offset + 1
        status := if proceed = false then false else synced.status }
    | none => synced

/-- The function `HorizontalFilter`: the status it returns, the destination
image and the progress offset it leaves. -/
def HorizontalFilter (env : MagickEnv R) (oracle : PassOracle) (resize_filter : ResizeFilter R)
    (image resize_image : Image R) (x_factor : R) (span : ℕ) (offset : ℤ) : PassState R :=
  if oracle.setStorageClass = false then ⟨false, resize_image, offset⟩
  else
    let resize_image : Image R :=
      { resize_image with storage_class := passStorageClass env resize_filter image x_factor }
    if oracle.acquireContributions = false then ⟨false, resize_image, offset⟩
    else
      (List.range resize_image.columns).foldl
        (horizontalLine env oracle resize_filter image x_factor span)
        ⟨true, resize_image, offset⟩

/-- The sample `(x, y)` that the vertical pass computes for its destination:
row `y` of the output, column `x`. -/
def verticalSample (env : MagickEnv R) (resize_filter : ResizeFilter R)
    (image resize_image : Image R) (y_factor : R) (x y : ℕ) : PixelPacket × ℕ :=
  let support := passSupport env resize_filter y_factor
  let center := passCenter y_factor y
  let start := passStart support center
  let stop := passStop support center image.rows
  let contribution := contributionList env resize_filter y_factor image.rows y
  let first := (contributionAt contribution 0).pixel
  filterSample env image resize_image contribution
    (GetCacheViewVirtualPixels image 0 first (image.columns : ℤ))
    (GetCacheViewVirtualIndexQueue image 0 first (image.columns : ℤ))
    (fun c => (c.pixel - first) * (image.columns : ℤ) + (x : ℤ))
    center start stop (resize_image.indexes x y)

/-- One turn of the loop `for (y=0; y < resize_image->rows; y++)` of
`VerticalFilter`.  A line whose sync fails is not committed to the
destination. -/
def verticalLine (env : MagickEnv R) (oracle : PassOracle) (resize_filter : ResizeFilter R)
    (image : Image R) (y_factor : R) (span : ℕ) (state : PassState R) (y : ℕ) : PassState R :=
  if state.status = false then state
  else if oracle.getVirtualPixels y = false ∨ oracle.queueAuthenticPixels y = false then
    { state with status := false }
  else
    let resize_image := state.resize_image
    let written : Image R :=
      { resize_image with
        pixels := fun a b =>
          if b = (y : ℤ) ∧ 0 ≤ a ∧ a < (resize_image.columns : ℤ) then
            (verticalSample env resize_filter image resize_image y_factor a.toNat y).1
          else resize_image.pixels a b
        indexes := fun a b =>
          if b = (y : ℤ) ∧ 0 ≤ a ∧ a < (resize_image.columns : ℤ) then
            (verticalSample env resize_filter image resize_image y_factor a.toNat y).2
          else resize_image.indexes a b }
    let synced : PassState R :=
      if oracle.syncAuthenticPixels y = false then { state with status := false }
      else { state with resize_image := written }
    match image.progress_monitor with
    | some monitor =>
      let proceed := monitor synced.offset span
      { synced with
        offset := synced.offset + 1
        status := if proceed = false then false else synced.status }
    | none => synced

/-- The function `VerticalFilter`: the status it returns, the destination image
and the progress offset it leaves. -/
def VerticalFilter (env : MagickEnv R) (oracle : PassOracle) (resize_filter : ResizeFilter R)
    (image resize_image : Image R) (y_factor : R) (span : ℕ) (offset : ℤ) : PassState R :=
  if oracle.setStorageClass = false then ⟨false, resize_image, offset⟩
  else
    let resize_image : Image R :=
      { resize_image with storage_class := passStorageClass env resize_filter image y_factor }
    if oracle.acquireContributions = false then ⟨false, resize_image, offset⟩
    else
      (List.range resize_image.rows).foldl
        (verticalLine env oracle resize_filter image y_factor span)
        ⟨true, resize_image, offset⟩

end Passes

/-! ## The orchestrator -/

section Orchestrator

variable {R : Type} [LinearOrderedField R] [FloorRing R]

/-- The pixel content of a newly allocated image: whatever the allocation holds
before the first write. -/
structure Scratch where
  pixels : ℤ → ℤ → PixelPacket
  indexes : ℤ → ℤ → ℕ

/-- The outcomes of what `ResizeImage` asks of its collaborators: each of the
three `CloneImage` calls (`none` for a failed allocation, otherwise the content
the new image starts with) and the oracles of the two passes, in the order
they run. -/
structure ResizeOracle where
  cloneSource : Bool
  cloneResize : Option Scratch
  cloneFilter : Option Scratch
  first : PassOracle
  second : PassOracle

/-- The oracle of a resize in which nothing fails; the new images start with
the content `scratch`. -/
def ResizeOracle.ok (scratch : Scratch) : ResizeOracle :=
  ⟨true, some scratch, some scratch, PassOracle.ok, PassOracle.ok⟩

/-- Modelled from the spec: `CloneImage` of `magick/image.c`, which is not among
the sources.  With `columns = 0` and `rows = 0` the result is the cheap clone of
the identity fast path, equal to the image; otherwise it is the newly allocated
destination image of the same class lineage, with the dimensions asked for and
pixels not yet written.  `none` is a failed allocation. -/
def CloneImage (image : Image R) (columns rows : ℕ) (outcome : Option Scratch) :
    Option (Image R) :=
  match outcome with
  | none => none
  | some scratch =>
    if columns = 0 ∧ rows = 0 then some image
    else some { image with
      columns := columns, rows := rows, pixels := scratch.pixels, indexes := scratch.indexes }

/-- What `ResizeImage` hands back: an image, or no image after
`ThrowImageException(severity,reason)`, or no image without an exception of its
own. -/
inductive ResizeOutcome (R : Type)
  | image (resize_image : Image R)
  | thrown (severity : String) (reason : String)
  | null

/-- The constant `WorkLoadFactor`. -/
def WorkLoadFactor : R := 265 / 1000

/-- The filter `ResizeImage` gives to `AcquireResizeFilter`. -/
def resizeFilterType (image : Image R) (filter : FilterTypes) (x_factor y_factor : R) :
    FilterTypes :=
  if filter ≠ FilterTypes.UndefinedFilter then filter
  else if x_factor = 1 ∧ y_factor = 1 then FilterTypes.PointFilter
  else if image.storage_class = ClassType.PseudoClass ∨ image.matte ≠ false ∨
      x_factor * y_factor > 1 then FilterTypes.MitchellFilter
  else FilterTypes.LanczosFilter

/-- The function `ResizeImage`. -/
def ResizeImage (env : MagickEnv R) (oracle : ResizeOracle) (image : Image R)
    (columns rows : ℕ) (filter : FilterTypes) (blur : R) : ResizeOutcome R :=
  if columns = 0 ∨ rows = 0 then ResizeOutcome.thrown "ImageError" "NegativeOrZeroImageSize"
  else if columns = image.columns ∧ rows = image.rows ∧
      filter = FilterTypes.UndefinedFilter ∧ blur = 1 then
    match CloneImage image 0 0 (if oracle.cloneSource then some ⟨image.pixels, image.indexes⟩
      else none) with
    | some clone => ResizeOutcome.image clone
    | none => ResizeOutcome.null
  else
    match CloneImage image columns rows oracle.cloneResize with
    | none => ResizeOutcome.null
    | some resize_image =>
      let x_factor : R := (columns : R) / (image.columns : R)
      let y_factor : R := (rows : R) / (image.rows : R)
      let filter_clone :=
        if x_factor * y_factor > WorkLoadFactor then
          CloneImage image columns image.rows oracle.cloneFilter
        else CloneImage image image.columns rows oracle.cloneFilter
      match filter_clone with
      | none => ResizeOutcome.null
      | some filter_image =>
        let filter_type := resizeFilterType image filter x_factor y_factor
        let resize_filter := AcquireResizeFilter env image filter_type blur false
        let final : PassState R :=
          if x_factor * y_factor > WorkLoadFactor then
            let span := filter_image.columns + rows
            let pass1 := HorizontalFilter env oracle.first resize_filter image filter_image
              x_factor span 0
            let pass2 := VerticalFilter env oracle.second resize_filter pass1.resize_image
              resize_image y_factor span pass1.offset
            { pass2 with status := pass1.status && pass2.status }
          else
            let span := filter_image.rows + columns
            let pass1 := VerticalFilter env oracle.first resize_filter image filter_image
              y_factor span 0
            let pass2 := HorizontalFilter env oracle.second resize_filter pass1.resize_image
              resize_image x_factor span pass1.offset
            { pass2 with status := pass1.status && pass2.status }
        if final.status = false then ResizeOutcome.null
        else ResizeOutcome.image { final.resize_image with type := image.type }

end Orchestrator

/-! ## The orchestrator, by parts -/

section OrchestratorParts

variable {R : Type} [LinearOrderedField R] [FloorRing R]

/-- The intermediate image `filter_image` of `ResizeImage`: the clone
`CloneImage(image,columns,image->rows,...)` when
`(x_factor*y_factor) > WorkLoadFactor` and
`CloneImage(image,image->columns,rows,...)` otherwise. -/
def filterImage (image : Image R) (columns rows : ℕ) (outcome : Option Scratch) :
    Option (Image R) :=
  let x_factor : R := (columns : R) / (image.columns : R)
  let y_factor : R := (rows : R) / (image.rows : R)
  if x_factor * y_factor > WorkLoadFactor then CloneImage image columns image.rows outcome
  else CloneImage image image.columns rows outcome

/-- The two passes of `ResizeImage`, in the order it runs them: the state the
second pass leaves, with the status `status` of `ResizeImage` (the `&` of the
two). -/
def resizePasses (env : MagickEnv R) (oracle : ResizeOracle) (resize_filter : ResizeFilter R)
    (image filter_image resize_image : Image R) (columns rows : ℕ) : PassState R :=
  let x_factor : R := (columns : R) / (image.columns : R)
  let y_factor : R := (rows : R) / (image.rows : R)
  if x_factor * y_factor > WorkLoadFactor then
    let span := filter_image.columns + rows
    let pass1 := HorizontalFilter env oracle.first resize_filter image filter_image
      x_factor span 0
    let pass2 := VerticalFilter env oracle.second resize_filter pass1.resize_image
      resize_image y_factor span pass1.offset
    { pass2 with status := pass1.status && pass2.status }
  else
    let span := filter_image.rows + columns
    let pass1 := VerticalFilter env oracle.first resize_filter image filter_image
      y_factor span 0
    let pass2 := HorizontalFilter env oracle.second resize_filter pass1.resize_image
      resize_image x_factor span pass1.offset
    { pass2 with status := pass1.status && pass2.status }

end OrchestratorParts

/-! ## The two passes without the rounding of the intermediate image -/

section Unrounded

variable {R : Type} [LinearOrderedField R] [FloorRing R]

/-- The weighted sum a pass forms for one channel of one output sample, before
`ClampToQuantum`: the sum over the contribution list of the weight times the
value of the line read at the source index.  The line is given by unrounded
values, so that the sums of one pass can be fed to the other unrounded. -/
def unroundedChannel (contribution : List (ContributionInfo R)) (line : ℤ → R) : R :=
  (contribution.map fun c => c.weight * line c.pixel).sum

/-- The pixel a pass writes for an image without alpha, from the contribution
list of the output sample and the line of source pixels it reads: each channel
is the weighted sum of the channel, clamped to a quantum. -/
def clampedPass (env : MagickEnv R) (contribution : List (ContributionInfo R))
    (line : ℤ → PixelPacket) : PixelPacket :=
  { red := env.ClampToQuantum (unroundedChannel contribution fun a => ((line a).red : R))
    green := env.ClampToQuantum (unroundedChannel contribution fun a => ((line a).green : R))
    blue := env.ClampToQuantum (unroundedChannel contribution fun a => ((line a).blue : R))
    opacity :=
      env.ClampToQuantum (unroundedChannel contribution fun a => ((line a).opacity : R)) }

end Unrounded

/-! ## Pixel sampling -/

section Sampling

variable {R : Type} [LinearOrderedField R] [FloorRing R]

/-- The outcomes of what `SampleImage` asks of its collaborators: the two
`CloneImage` calls (`none` for a failed allocation of the sampled image),
`AcquireQuantumMemory` for the column offsets, and per output row
`GetCacheViewVirtualPixels`, `QueueCacheViewAuthenticPixels` and
`SyncCacheViewAuthenticPixels` (`true` for success). -/
structure SampleOracle where
  cloneSource : Bool
  cloneSample : Option Scratch
  acquireOffsets : Bool
  getVirtualPixels : ℕ → Bool
  queueAuthenticPixels : ℕ → Bool
  syncAuthenticPixels : ℕ → Bool

/-- The oracle of a sampling in which nothing fails; the sampled image starts
with the content `scratch`. -/
def SampleOracle.ok (scratch : Scratch) : SampleOracle :=
  ⟨true, some scratch, true, fun _ => true, fun _ => true, fun _ => true⟩

end Sampling

/-! ## The filter functions as the specification words them -/

section Documented

variable {R : Type} [LinearOrderedField R] [FloorRing R]

/-- The polynomial `c0 + c1*t + c2*t^2 + ...` with the coefficients `cs`: the
`p` of the specification of `SincPolynomial`, to be compared with the nested
form the source evaluates. -/
def polynomialValue (cs : List R) (t : R) : R :=
  ((List.range cs.length).map fun i => cs.getD i 0 * t ^ i).sum

/-- The factors the loop of `Lagrange` multiplies into `value` for the argument
`x`, in order: one `(n-i-x)/(n-i)` for each `i < order` other than `n`. -/
def lagrangeFactors (x : R) (resize_filter : ResizeFilter R) : List R :=
  let order : ℤ := castToInt (2 * resize_filter.window_support)
  let n : ℤ := castToInt ((1 * (order : R)) / 2 + x)
  ((List.range order.toNat).filter fun (i : ℕ) => decide ((i : ℤ) ≠ n)).map fun (i : ℕ) =>
    ((n : R) - (i : R) - x) / ((n : R) - (i : R))

end Documented

/-! ## Concrete inputs -/

/-- The function `ClampToQuantum` of `magick/quantum.h` in a build with integer
quanta: 0 below 0, `QuantumRange` above it, and `(Quantum) (value+0.5)` in
between.  The header is not among the sources at hand; `ScaleMapToQuantum` of
`magick/quantum-private.h` clamps and rounds in the same way. -/
def ClampToQuantumInteger {R : Type} [LinearOrderedField R] [FloorRing R] (QuantumRange : ℕ)
    (value : R) : ℕ :=
  if value ≤ 0 then 0
  else if value ≥ (QuantumRange : R) then QuantumRange
  else (castToInt (value + 1 / 2)).toNat

/-- The stock build over the rationals: quantum depth 16, `QuantumRange` 65535,
`MagickEpsilon` 1.0e-10, integer quanta.  The libm functions are rational
stand-ins; no filter evaluated on this environment calls them. -/
def envQ16 : MagickEnv ℚ where
  MagickEpsilon := 1 / 10000000000
  MagickPI := 3.14159265358979323846264338327950288419716939937510
  QuantumDepth := 16
  QuantumRange := 65535
  ClampToQuantum := ClampToQuantumInteger 65535
  sin := fun _ => 0
  cos := fun _ => 1
  exp := fun _ => 1
  log := fun _ => 0
  sqrt := fun _ => 1
  fuel := 1000

/-- An image of one colour: `columns` by `rows`, direct class, RGB, no alpha
channel, no artifacts, every pixel equal to `colour`. -/
def solidImage (columns rows : ℕ) (colour : PixelPacket) : Image ℚ where
  columns := columns
  rows := rows
  storage_class := ClassType.DirectClass
  colorspace := ColorspaceType.RGBColorspace
  matte := false
  type := 0
  pixels := fun _ _ => colour
  indexes := fun _ _ => 0
  artifacts := Artifacts.none
  progress_monitor := none

/-- The content of a newly allocated image in the concrete runs: black. -/
def blackScratch : Scratch := ⟨fun _ _ => ⟨0, 0, 0, 0⟩, fun _ _ => 0⟩

/-- A 2 by 1 image without alpha: red 60000 at column 0, black at column 1. -/
def stepImage : Image ℚ :=
  { solidImage 2 1 ⟨0, 0, 0, 0⟩ with
    pixels := fun x _ => if x = 0 then ⟨60000, 0, 0, 0⟩ else ⟨0, 0, 0, 0⟩ }

/-- A 2 by 2 image without alpha: red 1 at column 0, row 0, black elsewhere. -/
def dotImage : Image ℚ :=
  { solidImage 2 2 ⟨0, 0, 0, 0⟩ with
    pixels := fun x y => if x = 0 ∧ y = 0 then ⟨1, 0, 0, 0⟩ else ⟨0, 0, 0, 0⟩ }

/-- A 2 by 1 image with an alpha channel: opaque red (opacity 0) at column 0,
a fully transparent pixel (opacity `QuantumRange`) of another colour at
column 1. -/
def alphaImage : Image ℚ :=
  { solidImage 2 1 ⟨0, 0, 0, 0⟩ with
    matte := true
    pixels := fun x _ => if x = 0 then ⟨65535, 0, 0, 0⟩ else ⟨12, 34, 56, 65535⟩ }

/-- A 2 by 1 palette-class image without alpha: colormap index 7 at column 0,
index 9 at column 1. -/
def paletteImage : Image ℚ :=
  { solidImage 2 1 ⟨0, 0, 0, 0⟩ with
    storage_class := ClassType.PseudoClass
    indexes := fun x _ => if x = 0 then 7 else 9 }

/-- The oracle of a pass in which the read of output line `k` fails and nothing
else does. -/
def readFailsAt (k : ℕ) : PassOracle :=
  ⟨true, true, fun x => decide (x ≠ k), fun _ => true, fun _ => true⟩

/-- A 2 by 1 image of one colour without alpha whose progress monitor declines
at every call. -/
def cancelImage : Image ℚ :=
  { solidImage 2 1 ⟨30000, 30000, 30000, 0⟩ with progress_monitor := some fun _ _ => false }

/-- A 2 by 2 image without alpha whose red channel is 0 and 65535 in row 0 and
10000 and 0 in row 1; the other channels are 0. -/
def lobeImage : Image ℚ :=
  { solidImage 2 2 ⟨0, 0, 0, 0⟩ with
    pixels := fun x y =>
      if x = 1 ∧ y = 0 then ⟨65535, 0, 0, 0⟩
      else if x = 0 ∧ y = 1 then ⟨10000, 0, 0, 0⟩
      else ⟨0, 0, 0, 0⟩ }

/-! ## The filter builder: theorems -/

section BuilderTheorems

variable {R : Type} [LinearOrderedField R]

/-- C7: with no artifacts set, `AcquireResizeFilter` for `LanczosFilter` gives a
filter whose weighting and windowing functions are both `Bessel` when
`cylindrical` is true, and both `Sinc` when it is false. -/
theorem lanczos_bessel_or_sinc (env : MagickEnv R) (image : Image R) (blur : R) :
    (AcquireResizeFilter env { image with artifacts := Artifacts.none }
        FilterTypes.LanczosFilter blur true).filter = FilterFunction.Bessel ∧
    (AcquireResizeFilter env { image with artifacts := Artifacts.none }
        FilterTypes.LanczosFilter blur true).window = FilterFunction.Bessel ∧
    (AcquireResizeFilter env { image with artifacts := Artifacts.none }
        FilterTypes.LanczosFilter blur false).filter = FilterFunction.Sinc ∧
    (AcquireResizeFilter env { image with artifacts := Artifacts.none }
        FilterTypes.LanczosFilter blur false).window = FilterFunction.Sinc := by
  simp [AcquireResizeFilter, acquireTypes, mapping, filters, Artifacts.none]

/-- C8, as the code has it: with `cylindrical` true and no artifacts, every
requested filter other than `SincFilter` itself whose table weighting is
`SincFilter` is built with the weighting function `Bessel`, while a direct
request for `SincFilter` keeps the weighting function `Sinc`. -/
theorem sinc_promoted_unless_requested (env : MagickEnv R) (image : Image R) (blur : R)
    (filter : FilterTypes) (hmap : (mapping filter).filter = FilterTypes.SincFilter) :
    (filter ≠ FilterTypes.SincFilter →
      (AcquireResizeFilter env { image with artifacts := Artifacts.none }
        filter blur true).filter = FilterFunction.Bessel) ∧
    (filter = FilterTypes.SincFilter →
      (AcquireResizeFilter env { image with artifacts := Artifacts.none }
        filter blur true).filter = FilterFunction.Sinc) := by
  cases filter <;>
    simp_all [AcquireResizeFilter, acquireTypes, mapping, filters, Artifacts.none]

/-- Witness of C8: the Hanning filter, whose table weighting is `SincFilter`. -/
theorem sinc_promoted_unless_requested_witness :
    (mapping FilterTypes.HanningFilter).filter = FilterTypes.SincFilter ∧
    (AcquireResizeFilter envQ16 (solidImage 1 1 ⟨0, 0, 0, 0⟩)
      FilterTypes.HanningFilter 1 true).filter = FilterFunction.Bessel :=
  ⟨rfl, (sinc_promoted_unless_requested envQ16 (solidImage 1 1 ⟨0, 0, 0, 0⟩) 1
    FilterTypes.HanningFilter rfl).1 (by decide)⟩

/-- C8 as stated fails: `SincFilter` has the table weighting `SincFilter`, and
with `cylindrical` true and no artifacts the filter built for it has the
weighting function `Sinc`, not `Bessel`. -/
theorem sinc_request_not_promoted :
    (mapping FilterTypes.SincFilter).filter = FilterTypes.SincFilter ∧
    (AcquireResizeFilter envQ16 (solidImage 1 1 ⟨0, 0, 0, 0⟩)
      FilterTypes.SincFilter 1 true).filter = FilterFunction.Sinc ∧
    (AcquireResizeFilter envQ16 (solidImage 1 1 ⟨0, 0, 0, 0⟩)
      FilterTypes.SincFilter 1 true).filter ≠ FilterFunction.Bessel := by
  simp [AcquireResizeFilter, acquireTypes, mapping, filters, Artifacts.none, solidImage]

/-- C9, what the code does instead: when the image carries a "filter:window"
artifact naming a valid filter `W` and no "filter:filter" artifact, the
windowing function of the built filter is `Sinc` (orthogonal) or `Bessel`
(cylindrical) whatever `W` names: the branch overwrites `option` before it
assigns `window_type`. -/
theorem window_artifact_overwritten (env : MagickEnv R) (image : Image R)
    (filter : FilterTypes) (blur : R) (cylindrical : Bool) (W : ℤ)
    (hvalid : validOption W = true)
    (hfilter : image.artifacts.filter = none)
    (hwindow : image.artifacts.window = some W) :
    (AcquireResizeFilter env image filter blur cylindrical).window =
      (if cylindrical then FilterFunction.Bessel else FilterFunction.Sinc) := by
  cases cylindrical <;>
    simp [AcquireResizeFilter, acquireTypes, hfilter, hwindow, hvalid, filters]

/-- The failing input of C9: the Blackman filter with the artifact
"filter:window" set to Hanning (option 5), orthogonal mode.  The window
function built is `Sinc`, not `Hanning`. -/
theorem window_artifact_overwritten_witness :
    validOption 5 = true ∧
    (filters FilterTypes.HanningFilter : FilterEntry ℚ).function = FilterFunction.Hanning ∧
    (AcquireResizeFilter envQ16
      { solidImage 1 1 ⟨0, 0, 0, 0⟩ with
        artifacts := { (Artifacts.none : Artifacts ℚ) with window := some 5 } }
      FilterTypes.BlackmanFilter 1 false).window = FilterFunction.Sinc :=
  ⟨by decide, rfl,
    window_artifact_overwritten envQ16
      { solidImage 1 1 ⟨0, 0, 0, 0⟩ with
        artifacts := { (Artifacts.none : Artifacts ℚ) with window := some 5 } }
      FilterTypes.BlackmanFilter 1 false 5 (by decide) rfl rfl⟩

/-- C10: for a filter whose weighting or windowing function is `CubicBC`, with
`(B, C)` the pair `acquireBC` the builder computes: "filter:b" alone gives
`B` that value and `C = (1-B)/2`; "filter:c" alone gives `C` that value and
`B = 1-2C`; in both cases `B + 2C = 1`; both given are both used as given; and
the eight coefficients `cubic[0..7]` are the documented functions of `(B, C)`. -/
theorem cubic_keys_coefficients (env : MagickEnv R) (image : Image R) (filter : FilterTypes)
    (blur : R) (cylindrical : Bool)
    (hcubic : (AcquireResizeFilter env image filter blur cylindrical).filter =
        FilterFunction.CubicBC ∨
      (AcquireResizeFilter env image filter blur cylindrical).window =
        FilterFunction.CubicBC) :
    let types := acquireTypes image filter cylindrical
    let B := (acquireBC image types.1 types.2).1
    let C := (acquireBC image types.1 types.2).2
    let cubic := (AcquireResizeFilter env image filter blur cylindrical).cubic
    (∀ b, image.artifacts.b = some b → image.artifacts.c = none →
      B = b ∧ C = (1 - b) / 2 ∧ B + 2 * C = 1) ∧
    (∀ c, image.artifacts.b = none → image.artifacts.c = some c →
      C = c ∧ B = 1 - 2 * c ∧ B + 2 * C = 1) ∧
    (∀ b c, image.artifacts.b = some b → image.artifacts.c = some c → B = b ∧ C = c) ∧
    cubic 0 = (6 - 2 * B) / 6 ∧
    cubic 1 = 0 ∧
    cubic 2 = (-18 + 12 * B + 6 * C) / 6 ∧
    cubic 3 = (12 - 9 * B - 6 * C) / 6 ∧
    cubic 4 = (8 * B + 24 * C) / 6 ∧
    cubic 5 = (-12 * B - 48 * C) / 6 ∧
    cubic 6 = (6 * B + 30 * C) / 6 ∧
    cubic 7 = (-1 * B - 6 * C) / 6 := by
  intro types B C cubic
  have hcond : (filters types.1 : FilterEntry R).function = FilterFunction.CubicBC ∨
      (filters types.2 : FilterEntry R).function = FilterFunction.CubicBC := hcubic
  have hc : cubic = cubicCoefficients B C := by
    show (AcquireResizeFilter env image filter blur cylindrical).cubic = _
    simp only [AcquireResizeFilter]
    rw [if_pos hcond]
  refine ⟨?_, ?_, ?_, ?_⟩
  · intro b hb hcn
    have hB : B = b := by simp [B, acquireBC, hb, hcn]
    have hC : C = (1 - b) / 2 := by simp [C, acquireBC, hb, hcn]
    refine ⟨hB, hC, ?_⟩
    rw [hB, hC]; ring
  · intro c hbn hcs
    have hB : B = 1 - 2 * c := by simp [B, acquireBC, hbn, hcs]
    have hC : C = c := by simp [C, acquireBC, hbn, hcs]
    refine ⟨hC, hB, ?_⟩
    rw [hB, hC]; ring
  · intro b c hb hcs
    exact ⟨by simp [B, acquireBC, hb, hcs], by simp [C, acquireBC, hb, hcs]⟩
  · rw [hc]
    simp [cubicCoefficients]

/-- Witness of C10: the Mitchell filter with the artifact "filter:b" set to
1/2. -/
theorem cubic_keys_coefficients_witness :
    let image : Image ℚ :=
      { solidImage 1 1 ⟨0, 0, 0, 0⟩ with
        artifacts := { (Artifacts.none : Artifacts ℚ) with b := some (1 / 2) } }
    (AcquireResizeFilter envQ16 image FilterTypes.MitchellFilter 1 false).filter =
      FilterFunction.CubicBC ∧
    (AcquireResizeFilter envQ16 image FilterTypes.MitchellFilter 1 false).cubic 0 =
      (6 - 2 * (acquireBC image FilterTypes.MitchellFilter FilterTypes.BoxFilter).1) / 6 :=
  ⟨rfl, (cubic_keys_coefficients envQ16
    { solidImage 1 1 ⟨0, 0, 0, 0⟩ with
      artifacts := { (Artifacts.none : Artifacts ℚ) with b := some (1 / 2) } }
    FilterTypes.MitchellFilter 1 false (Or.inl rfl)).2.2.2.1⟩

end BuilderTheorems

/-! ## The contribution list: theorems -/

set_option linter.unusedSectionVars false

section ContributionTheorems

variable {R : Type} [LinearOrderedField R] [FloorRing R]

/-- The cast of a non-negative real lying in `[z, z+1)` is `z`. -/
theorem castToInt_eq_of_mem (d : R) (z : ℤ) (h0 : 0 ≤ d) (h1 : (z : R) ≤ d)
    (h2 : d < (z : R) + 1) : castToInt d = z := by
  unfold castToInt
  rw [if_pos h0]
  exact Int.floor_eq_iff.mpr ⟨h1, h2⟩

/-- The cast of a non-negative real is non-negative. -/
theorem castToInt_nonneg (d : R) (h0 : 0 ≤ d) : 0 ≤ castToInt d := by
  unfold castToInt
  rw [if_pos h0]
  exact Int.floor_nonneg.mpr h0

/-- The cast of a real that is at most `n` is at most `n`. -/
theorem castToInt_le_natCast (d : R) (n : ℕ) (h : d ≤ (n : R)) : castToInt d ≤ (n : ℤ) := by
  unfold castToInt
  split_ifs with h0
  · have h1 : ((⌊d⌋ : ℤ) : R) ≤ ((n : ℤ) : R) := by
      push_cast
      exact le_trans (Int.floor_le d) h
    exact_mod_cast h1
  · have h1 : d ≤ ((0 : ℤ) : R) := by
      push_cast
      exact le_of_lt (not_le.mp h0)
    exact le_trans (Int.ceil_le.mpr h1) (Int.natCast_nonneg n)

/-- A maximum with 0 is non-negative. -/
theorem MagickMax_nonneg (a : R) : 0 ≤ MagickMax a 0 := by
  unfold MagickMax
  split_ifs with h
  · exact le_of_lt h
  · exact le_refl 0

/-- A minimum is at most its second argument. -/
theorem MagickMin_le_right (a b : R) : MagickMin a b ≤ b := by
  unfold MagickMin
  split_ifs with h
  · exact le_of_lt h
  · exact le_refl b

/-- The bound `start` of a contribution window is never negative. -/
theorem passStart_nonneg (support center : R) : 0 ≤ passStart support center :=
  castToInt_nonneg _ (MagickMax_nonneg _)

/-- The bound `stop` of a contribution window never exceeds the extent of the
source. -/
theorem passStop_le (support center : R) (extent : ℕ) :
    passStop support center extent ≤ (extent : ℤ) :=
  castToInt_le_natCast _ _ (MagickMin_le_right _ _)

/-- The loop that adds up the weights, from any start value. -/
theorem foldl_weight (l : List (ContributionInfo R)) (a : R) :
    l.foldl (fun d c => d + c.weight) a = a + (l.map ContributionInfo.weight).sum := by
  induction l generalizing a with
  | nil => simp
  | cons c cs ih => simp [ih, add_assoc]

/-- The value of `density` is the sum of the weights. -/
theorem density_eq_sum (l : List (ContributionInfo R)) :
    density l = (l.map ContributionInfo.weight).sum := by
  unfold density
  rw [foldl_weight, zero_add]

/-- The normalization step leaves the source indices as they are. -/
theorem normalize_pixels (l : List (ContributionInfo R)) :
    (normalize l).map ContributionInfo.pixel = l.map ContributionInfo.pixel := by
  unfold normalize
  split_ifs
  · simp [List.map_map, Function.comp_def]
  · rfl

/-- The normalization step leaves the number of contributions as it is. -/
theorem normalize_length (l : List (ContributionInfo R)) : (normalize l).length = l.length := by
  have := congrArg List.length (normalize_pixels l)
  simpa using this

/-- After the normalization step the weights of a list of non-zero `density`
sum to 1. -/
theorem normalize_sum (l : List (ContributionInfo R)) (h : density l ≠ 0) :
    ((normalize l).map ContributionInfo.weight).sum = 1 := by
  unfold normalize
  split_ifs with h1
  · simp only [List.map_map, Function.comp_def]
    rw [List.sum_map_mul_right, ← density_eq_sum]
    field_simp
  · have h2 : density l = 1 := by
      by_contra h3
      exact h1 ⟨h, h3⟩
    rw [← density_eq_sum, h2]

/-- The normalization step is skipped for a list of `density` 0. -/
theorem normalize_of_density_zero (l : List (ContributionInfo R)) (h : density l = 0) :
    normalize l = l := by
  unfold normalize
  rw [if_neg]
  simp [h]

/-- The source indices the first loop writes are `start, start+1, ...`. -/
theorem rawContribution_pixels (env : MagickEnv R) (f : ResizeFilter R) (scale center : R)
    (start stop : ℤ) :
    (rawContribution env f scale center start stop).map ContributionInfo.pixel =
      (List.range (stop - start).toNat).map fun (n : ℕ) => start + (n : ℤ) := by
  simp [rawContribution, List.map_map, Function.comp_def]


/-- C1, as the code has it: for every filter, source extent, scale factor and
output coordinate `x` whose raw weight sum (`density`) is not 0, the weights of
the contribution list sum to 1 after the normalization step. -/
theorem weights_sum_one (env : MagickEnv R) (resize_filter : ResizeFilter R) (factor : R)
    (extent x : ℕ)
    (hdensity : density (rawContribution env resize_filter
      (loopScale env resize_filter factor) (passCenter factor x)
      (passStart (passSupport env resize_filter factor) (passCenter factor x))
      (passStop (passSupport env resize_filter factor) (passCenter factor x) extent)) ≠ 0) :
    ((contributionList env resize_filter factor extent x).map ContributionInfo.weight).sum = 1 :=
  normalize_sum _ hdensity

/-- The pixels of the contribution list of a pass, in closed form. -/
theorem contributionList_pixels (env : MagickEnv R) (f : ResizeFilter R) (factor : R)
    (extent x : ℕ) :
    (contributionList env f factor extent x).map ContributionInfo.pixel =
      (List.range (passStop (passSupport env f factor) (passCenter factor x) extent -
          passStart (passSupport env f factor) (passCenter factor x)).toNat).map
        fun (n : ℕ) => passStart (passSupport env f factor) (passCenter factor x) + (n : ℤ) := by
  unfold contributionList
  simp only []
  rw [normalize_pixels, rawContribution_pixels]

/-- Every source index of a contribution list lies inside the source. -/
theorem contributionList_bounds (env : MagickEnv R) (f : ResizeFilter R) (factor : R)
    (extent x : ℕ) (c : ContributionInfo R) (hc : c ∈ contributionList env f factor extent x) :
    0 ≤ c.pixel ∧ c.pixel < (extent : ℤ) := by
  have hmem : c.pixel ∈ (contributionList env f factor extent x).map ContributionInfo.pixel :=
    List.mem_map_of_mem _ hc
  rw [contributionList_pixels] at hmem
  obtain ⟨n, hn, hcn⟩ := List.mem_map.mp hmem
  have hlt := List.mem_range.mp hn
  have hstart := passStart_nonneg (passSupport env f factor) (passCenter factor x)
  have hstop := passStop_le (passSupport env f factor) (passCenter factor x) extent
  omega

/-- C2: the source indices of the contribution list of an output coordinate
are the consecutive integers `start, start+1, ..., stop-1`, and each of them
lies in `[0, extent)`: no index is reflected or wrapped. -/
theorem contribution_indices (env : MagickEnv R) (resize_filter : ResizeFilter R) (factor : R)
    (extent x : ℕ) :
    let start := passStart (passSupport env resize_filter factor) (passCenter factor x)
    let stop := passStop (passSupport env resize_filter factor) (passCenter factor x) extent
    (contributionList env resize_filter factor extent x).map ContributionInfo.pixel =
      (List.range (stop - start).toNat).map (fun (n : ℕ) => start + (n : ℤ)) ∧
    ∀ c ∈ contributionList env resize_filter factor extent x,
      0 ≤ c.pixel ∧ c.pixel < (extent : ℤ) :=
  ⟨contributionList_pixels env resize_filter factor extent x,
    contributionList_bounds env resize_filter factor extent x⟩

end ContributionTheorems

/-! ## The samples of a pass: theorems -/

section SampleTheorems

variable {R : Type} [LinearOrderedField R] [FloorRing R]

/-- The pixel of an entry read from the buffer is the entry of the list of
pixels at the same place. -/
theorem getD_pixel (l : List (ContributionInfo R)) (i : ℕ) :
    (l.getD i ⟨0, 0⟩).pixel = (l.map ContributionInfo.pixel).getD i 0 := by
  have h := List.getD_map (l := l) (d := (⟨0, 0⟩ : ContributionInfo R)) (n := i)
    ContributionInfo.pixel
  exact h.symm

/-- Reading entry `i < n` of the image of `0, ..., n-1` under `g`. -/
theorem getD_range_map (g : ℕ → ℤ) (n i : ℕ) (hi : i < n) :
    ((List.range n).map g).getD i 0 = g i := by
  rw [List.getD_eq_getElem _ _ (by simpa using hi)]
  simp

/-- A contribution list whose pixels are `start, ..., start+n-1` with `0 < n`
starts at `start` and spans `n` source pixels. -/
theorem span_of_pixels (l : List (ContributionInfo R)) (start : ℤ) (n : ℕ) (hn : 0 < n)
    (h : l.map ContributionInfo.pixel = (List.range n).map fun (i : ℕ) => start + (i : ℤ)) :
    (contributionAt l 0).pixel = start ∧ spanWidth l = (n : ℤ) := by
  have hlen : l.length = n := by
    have := congrArg List.length h
    simpa using this
  have h0 : (contributionAt l 0).pixel = start := by
    unfold contributionAt
    rw [if_pos (le_refl 0)]
    show (l.getD 0 ⟨0, 0⟩).pixel = start
    rw [getD_pixel, h, getD_range_map _ _ _ hn]
    simp
  have h1 : (contributionAt l ((l.length : ℤ) - 1)).pixel = start + ((n - 1 : ℕ) : ℤ) := by
    unfold contributionAt
    have hpos : (0 : ℤ) ≤ (l.length : ℤ) - 1 := by omega
    rw [if_pos hpos]
    have hidx : ((l.length : ℤ) - 1).toNat = n - 1 := by omega
    rw [hidx, getD_pixel, h, getD_range_map _ _ _ (by omega)]
  refine ⟨h0, ?_⟩
  unfold spanWidth
  rw [h1, h0]
  omega

/-- Every pixel of such a list lies in `[start, start+n)`. -/
theorem pixel_mem_range (l : List (ContributionInfo R)) (start : ℤ) (n : ℕ)
    (h : l.map ContributionInfo.pixel = (List.range n).map fun (i : ℕ) => start + (i : ℤ))
    (c : ContributionInfo R) (hc : c ∈ l) : start ≤ c.pixel ∧ c.pixel < start + (n : ℤ) := by
  have hmem : c.pixel ∈ (List.range n).map fun (i : ℕ) => start + (i : ℤ) := by
    rw [← h]
    exact List.mem_map_of_mem _ hc
  obtain ⟨i, hi, hci⟩ := List.mem_map.mp hmem
  have hlt : i < n := List.mem_range.mp hi
  omega

/-- A list with a member is not empty. -/
theorem length_pos_of_mem (l : List (ContributionInfo R)) (start : ℤ) (n : ℕ)
    (h : l.map ContributionInfo.pixel = (List.range n).map fun (i : ℕ) => start + (i : ℤ))
    (c : ContributionInfo R) (hc : c ∈ l) : 0 < n := by
  have := pixel_mem_range l start n h c hc
  omega

/-- The offset `j=y*width+(pixel-first)` of the horizontal pass addresses the
source pixel at column `pixel`, row `y`. -/
theorem horizontal_buffer (image : Image R) (first width : ℤ) (y : ℕ) (pixel : ℤ)
    (h0 : first ≤ pixel) (h1 : pixel < first + width) :
    GetCacheViewVirtualPixels image first 0 width ((y : ℤ) * width + (pixel - first)) =
      image.pixels pixel (y : ℤ) := by
  have hw : 0 < width := by omega
  have hd0 : 0 ≤ pixel - first := by omega
  have hd1 : pixel - first < width := by omega
  unfold GetCacheViewVirtualPixels
  have hmod : ((y : ℤ) * width + (pixel - first)) % width = pixel - first := by
    rw [add_comm, Int.add_mul_emod_self]
    exact Int.emod_eq_of_lt hd0 hd1
  have hdiv : ((y : ℤ) * width + (pixel - first)) / width = (y : ℤ) := by
    rw [add_comm, Int.add_mul_ediv_right _ _ (ne_of_gt hw), Int.ediv_eq_zero_of_lt hd0 hd1]
    simp
  rw [hmod, hdiv]
  congr 1 <;> omega

/-- The offset `j=(pixel-first)*columns+x` of the vertical pass addresses the
source pixel at column `x`, row `pixel`. -/
theorem vertical_buffer (image : Image R) (first : ℤ) (x : ℕ) (pixel : ℤ)
    (hx : x < image.columns) :
    GetCacheViewVirtualPixels image 0 first (image.columns : ℤ)
        ((pixel - first) * (image.columns : ℤ) + (x : ℤ)) =
      image.pixels (x : ℤ) pixel := by
  have hw : (0 : ℤ) < (image.columns : ℤ) := by omega
  have hx0 : (0 : ℤ) ≤ (x : ℤ) := Int.natCast_nonneg x
  have hx1 : (x : ℤ) < (image.columns : ℤ) := by exact_mod_cast hx
  unfold GetCacheViewVirtualPixels
  have hmod : ((pixel - first) * (image.columns : ℤ) + (x : ℤ)) % (image.columns : ℤ) = (x : ℤ) := by
    rw [add_comm, Int.add_mul_emod_self]
    exact Int.emod_eq_of_lt hx0 hx1
  have hdiv : ((pixel - first) * (image.columns : ℤ) + (x : ℤ)) / (image.columns : ℤ) =
      pixel - first := by
    rw [add_comm, Int.add_mul_ediv_right _ _ (ne_of_gt hw), Int.ediv_eq_zero_of_lt hx0 hx1]
    simp
  rw [hmod, hdiv]
  congr 1 <;> omega

end SampleTheorems

section AccumulateTheorems

variable {R : Type} [LinearOrderedField R] [FloorRing R]

/-- The loop of `accumulate`, from any start value: each channel is the start
value plus the weighted sum of that channel. -/
theorem accumulate_foldl (l : List (ContributionInfo R)) (p : ℤ → PixelPacket)
    (offset : ContributionInfo R → ℤ) (init : MagickPixelPacket R) :
    l.foldl
      (fun pixel c =>
        let j := offset c
        let alpha := c.weight
        { pixel with
          red := pixel.red + alpha * ((p j).red : R)
          green := pixel.green + alpha * ((p j).green : R)
          blue := pixel.blue + alpha * ((p j).blue : R)
          opacity := pixel.opacity + alpha * ((p j).opacity : R) })
      init =
    { red := init.red + (l.map fun c => c.weight * ((p (offset c)).red : R)).sum
      green := init.green + (l.map fun c => c.weight * ((p (offset c)).green : R)).sum
      blue := init.blue + (l.map fun c => c.weight * ((p (offset c)).blue : R)).sum
      opacity := init.opacity + (l.map fun c => c.weight * ((p (offset c)).opacity : R)).sum
      index := init.index } := by
  induction l generalizing init with
  | nil => simp
  | cons c cs ih =>
    rw [List.foldl_cons, ih]
    simp [add_assoc]

/-- The accumulator of the branch without alpha, channel by channel. -/
theorem accumulate_eq (l : List (ContributionInfo R)) (p : ℤ → PixelPacket)
    (offset : ContributionInfo R → ℤ) :
    accumulate l p offset =
    { red := (l.map fun c => c.weight * ((p (offset c)).red : R)).sum
      green := (l.map fun c => c.weight * ((p (offset c)).green : R)).sum
      blue := (l.map fun c => c.weight * ((p (offset c)).blue : R)).sum
      opacity := (l.map fun c => c.weight * ((p (offset c)).opacity : R)).sum
      index := 0 } := by
  unfold accumulate
  rw [accumulate_foldl]
  simp [MagickPixelPacket.zero]

/-- The loop of `accumulateAlpha`, from any start value. -/
theorem accumulateAlpha_foldl (env : MagickEnv R) (l : List (ContributionInfo R))
    (p : ℤ → PixelPacket) (offset : ContributionInfo R → ℤ) (init : MagickPixelPacket R × R) :
    l.foldl
      (fun (acc : MagickPixelPacket R × R) c =>
        let pixel := acc.1
        let j := offset c
        let alpha := c.weight * env.QuantumScale * GetAlphaPixelComponent env (p j)
        ({ pixel with
            red := pixel.red + alpha * ((p j).red : R)
            green := pixel.green + alpha * ((p j).green : R)
            blue := pixel.blue + alpha * ((p j).blue : R)
            opacity := pixel.opacity + c.weight * ((p j).opacity : R) },
          acc.2 + alpha))
      init =
    ({ red := init.1.red + (l.map fun c => c.weight * env.QuantumScale *
          GetAlphaPixelComponent env (p (offset c)) * ((p (offset c)).red : R)).sum
       green := init.1.green + (l.map fun c => c.weight * env.QuantumScale *
          GetAlphaPixelComponent env (p (offset c)) * ((p (offset c)).green : R)).sum
       blue := init.1.blue + (l.map fun c => c.weight * env.QuantumScale *
          GetAlphaPixelComponent env (p (offset c)) * ((p (offset c)).blue : R)).sum
       opacity := init.1.opacity + (l.map fun c => c.weight * ((p (offset c)).opacity : R)).sum
       index := init.1.index },
     init.2 + (l.map fun c => c.weight * env.QuantumScale *
          GetAlphaPixelComponent env (p (offset c))).sum) := by
  induction l generalizing init with
  | nil => simp
  | cons c cs ih =>
    rw [List.foldl_cons, ih]
    simp [add_assoc]

/-- The accumulator and `gamma` of the alpha branch, channel by channel. -/
theorem accumulateAlpha_eq (env : MagickEnv R) (l : List (ContributionInfo R))
    (p : ℤ → PixelPacket) (offset : ContributionInfo R → ℤ) :
    accumulateAlpha env l p offset =
    ({ red := (l.map fun c => c.weight * env.QuantumScale *
          GetAlphaPixelComponent env (p (offset c)) * ((p (offset c)).red : R)).sum
       green := (l.map fun c => c.weight * env.QuantumScale *
          GetAlphaPixelComponent env (p (offset c)) * ((p (offset c)).green : R)).sum
       blue := (l.map fun c => c.weight * env.QuantumScale *
          GetAlphaPixelComponent env (p (offset c)) * ((p (offset c)).blue : R)).sum
       opacity := (l.map fun c => c.weight * ((p (offset c)).opacity : R)).sum
       index := 0 },
     (l.map fun c => c.weight * env.QuantumScale *
          GetAlphaPixelComponent env (p (offset c))).sum) := by
  unfold accumulateAlpha
  rw [accumulateAlpha_foldl]
  simp [MagickPixelPacket.zero]

/-- The pixel a sample writes does not depend on the destination image nor on
the index it holds. -/
theorem filterSample_fst (env : MagickEnv R) (image r1 r2 : Image R)
    (l : List (ContributionInfo R)) (p : ℤ → PixelPacket) (indexes : ℤ → ℕ)
    (offset : ContributionInfo R → ℤ) (center : R) (start stop : ℤ) (old1 old2 : ℕ) :
    (filterSample env image r1 l p indexes offset center start stop old1).1 =
      (filterSample env image r2 l p indexes offset center start stop old2).1 := by
  unfold filterSample
  simp only []
  split_ifs <;> rfl

/-- The pixel a sample writes for an image without alpha: each channel is the
weighted sum of the channel over the contribution list, clamped. -/
theorem filterSample_noAlpha (env : MagickEnv R) (image r : Image R)
    (l : List (ContributionInfo R)) (p : ℤ → PixelPacket) (indexes : ℤ → ℕ)
    (offset : ContributionInfo R → ℤ) (center : R) (start stop : ℤ) (old : ℕ)
    (hmatte : image.matte = false) :
    (filterSample env image r l p indexes offset center start stop old).1 =
    { red := env.ClampToQuantum (l.map fun c => c.weight * ((p (offset c)).red : R)).sum
      green := env.ClampToQuantum (l.map fun c => c.weight * ((p (offset c)).green : R)).sum
      blue := env.ClampToQuantum (l.map fun c => c.weight * ((p (offset c)).blue : R)).sum
      opacity :=
        env.ClampToQuantum (l.map fun c => c.weight * ((p (offset c)).opacity : R)).sum } := by
  unfold filterSample
  simp only [hmatte, if_true, accumulate_eq]
  split_ifs <;> rfl

/-- The pixel a sample writes for an image with an alpha channel. -/
theorem filterSample_alpha (env : MagickEnv R) (image r : Image R)
    (l : List (ContributionInfo R)) (p : ℤ → PixelPacket) (indexes : ℤ → ℕ)
    (offset : ContributionInfo R → ℤ) (center : R) (start stop : ℤ) (old : ℕ)
    (hmatte : image.matte = true) :
    (filterSample env image r l p indexes offset center start stop old).1 =
    { red := env.ClampToQuantum (gammaInverse env (accumulateAlpha env l p offset).2 *
        (accumulateAlpha env l p offset).1.red)
      green := env.ClampToQuantum (gammaInverse env (accumulateAlpha env l p offset).2 *
        (accumulateAlpha env l p offset).1.green)
      blue := env.ClampToQuantum (gammaInverse env (accumulateAlpha env l p offset).2 *
        (accumulateAlpha env l p offset).1.blue)
      opacity := env.ClampToQuantum (accumulateAlpha env l p offset).1.opacity } := by
  unfold filterSample
  simp only [hmatte]
  split_ifs <;> first | rfl | simp_all

end AccumulateTheorems

/-! ## The loops of the passes: theorems -/

section PassTheorems

variable {R : Type} [LinearOrderedField R] [FloorRing R]

/-- The pixel of a horizontal sample does not depend on the destination. -/
theorem horizontalSample_fst (env : MagickEnv R) (f : ResizeFilter R) (image r1 r2 : Image R)
    (x_factor : R) (x y : ℕ) :
    (horizontalSample env f image r1 x_factor x y).1 =
      (horizontalSample env f image r2 x_factor x y).1 := by
  unfold horizontalSample
  exact filterSample_fst _ _ _ _ _ _ _ _ _ _ _ _ _

/-- One line of the horizontal pass when nothing fails and the monitor, if
any, never cancels. -/
theorem horizontalLine_ok (env : MagickEnv R) (f : ResizeFilter R) (image : Image R)
    (x_factor : R) (span : ℕ)
    (hmon : ∀ m, image.progress_monitor = some m → ∀ o s, m o s = true)
    (st : PassState R) (hst : st.status = true) (x : ℕ) :
    (horizontalLine env PassOracle.ok f image x_factor span st x).status = true ∧
    (horizontalLine env PassOracle.ok f image x_factor span st x).resize_image =
      { st.resize_image with
        pixels := fun a b =>
          if a = (x : ℤ) ∧ 0 ≤ b ∧ b < (st.resize_image.rows : ℤ) then
            (horizontalSample env f image st.resize_image x_factor x b.toNat).1
          else st.resize_image.pixels a b
        indexes := fun a b =>
          if a = (x : ℤ) ∧ 0 ≤ b ∧ b < (st.resize_image.rows : ℤ) then
            (horizontalSample env f image st.resize_image x_factor x b.toNat).2
          else st.resize_image.indexes a b } := by
  unfold horizontalLine
  cases hm : image.progress_monitor with
  | none => simp [hst, PassOracle.ok]
  | some m => simp [hst, PassOracle.ok, hmon m hm]

/-- The loop of the horizontal pass over the first `k` columns when nothing
fails: the status stays true, only pixels and indexes of the destination
change, the columns below `k` hold their samples and every other pixel is
untouched. -/
theorem horizontal_loop (env : MagickEnv R) (f : ResizeFilter R) (image : Image R)
    (x_factor : R) (span : ℕ)
    (hmon : ∀ m, image.progress_monitor = some m → ∀ o s, m o s = true)
    (init : PassState R) (hinit : init.status = true) (k : ℕ) :
    ((List.range k).foldl (horizontalLine env PassOracle.ok f image x_factor span) init).status
      = true ∧
    (∃ px ix, ((List.range k).foldl (horizontalLine env PassOracle.ok f image x_factor span)
      init).resize_image = { init.resize_image with pixels := px, indexes := ix }) ∧
    (∀ x y : ℕ, x < k → y < init.resize_image.rows →
      ((List.range k).foldl (horizontalLine env PassOracle.ok f image x_factor span)
        init).resize_image.pixels x y =
          (horizontalSample env f image init.resize_image x_factor x y).1) ∧
    (∀ a b : ℤ, ¬ (0 ≤ a ∧ a < (k : ℤ) ∧ 0 ≤ b ∧ b < (init.resize_image.rows : ℤ)) →
      ((List.range k).foldl (horizontalLine env PassOracle.ok f image x_factor span)
        init).resize_image.pixels a b = init.resize_image.pixels a b) := by
  induction k with
  | zero =>
    refine ⟨by simpa using hinit, ⟨init.resize_image.pixels, init.resize_image.indexes, ?_⟩, ?_, ?_⟩
    · simp
    · intro x y hx; omega
    · intro a b _; simp
  | succ k ih =>
    obtain ⟨hs, ⟨px, ix, himg⟩, hpix, hout⟩ := ih
    rw [List.range_succ, List.foldl_append, List.foldl_cons, List.foldl_nil]
    obtain ⟨hs', himg'⟩ := horizontalLine_ok env f image x_factor span hmon _ hs k
    have hrows : ((List.range k).foldl (horizontalLine env PassOracle.ok f image x_factor span)
        init).resize_image.rows = init.resize_image.rows := by rw [himg]
    refine ⟨hs', ?_, ?_, ?_⟩
    · rw [himg', himg]
      exact ⟨_, _, rfl⟩
    · intro x y hx hy
      rw [himg']
      simp only []
      by_cases hxk : x = k
      · subst hxk
        have hy' : ((y : ℤ)) < (((List.range x).foldl
            (horizontalLine env PassOracle.ok f image x_factor span) init).resize_image.rows : ℤ) := by
          rw [hrows]; exact_mod_cast hy
        rw [if_pos ⟨rfl, Int.natCast_nonneg y, hy'⟩]
        simp only [Int.toNat_natCast]
        exact horizontalSample_fst _ _ _ _ _ _ _ _
      · have hne : ¬ ((x : ℤ) = (k : ℤ) ∧ 0 ≤ (y : ℤ) ∧ (y : ℤ) < (((List.range k).foldl
            (horizontalLine env PassOracle.ok f image x_factor span) init).resize_image.rows : ℤ)) := by
          intro h
          exact hxk (by exact_mod_cast h.1)
        rw [if_neg hne]
        exact hpix x y (by omega) hy
    · intro a b hab
      rw [himg']
      simp only []
      have hne : ¬ (a = (k : ℤ) ∧ 0 ≤ b ∧ b < (((List.range k).foldl
            (horizontalLine env PassOracle.ok f image x_factor span) init).resize_image.rows : ℤ)) := by
        rw [hrows]
        intro h
        apply hab
        omega
      rw [if_neg hne]
      apply hout
      intro h
      apply hab
      omega


/-- The pixel of a vertical sample does not depend on the destination. -/
theorem verticalSample_fst (env : MagickEnv R) (f : ResizeFilter R) (image r1 r2 : Image R)
    (y_factor : R) (x y : ℕ) :
    (verticalSample env f image r1 y_factor x y).1 =
      (verticalSample env f image r2 y_factor x y).1 := by
  unfold verticalSample
  exact filterSample_fst _ _ _ _ _ _ _ _ _ _ _ _ _

/-- One line of the vertical pass when nothing fails and the monitor, if any,
never cancels. -/
theorem verticalLine_ok (env : MagickEnv R) (f : ResizeFilter R) (image : Image R)
    (y_factor : R) (span : ℕ)
    (hmon : ∀ m, image.progress_monitor = some m → ∀ o s, m o s = true)
    (st : PassState R) (hst : st.status = true) (y : ℕ) :
    (verticalLine env PassOracle.ok f image y_factor span st y).status = true ∧
    (verticalLine env PassOracle.ok f image y_factor span st y).resize_image =
      { st.resize_image with
        pixels := fun a b =>
          if b = (y : ℤ) ∧ 0 ≤ a ∧ a < (st.resize_image.columns : ℤ) then
            (verticalSample env f image st.resize_image y_factor a.toNat y).1
          else st.resize_image.pixels a b
        indexes := fun a b =>
          if b = (y : ℤ) ∧ 0 ≤ a ∧ a < (st.resize_image.columns : ℤ) then
            (verticalSample env f image st.resize_image y_factor a.toNat y).2
          else st.resize_image.indexes a b } := by
  unfold verticalLine
  cases hm : image.progress_monitor with
  | none => simp [hst, PassOracle.ok]
  | some m => simp [hst, PassOracle.ok, hmon m hm]

/-- The loop of the vertical pass over the first `k` rows when nothing fails:
the status stays true, only pixels and indexes of the destination change, the
rows below `k` hold their samples and every other pixel is untouched. -/
theorem vertical_loop (env : MagickEnv R) (f : ResizeFilter R) (image : Image R)
    (y_factor : R) (span : ℕ)
    (hmon : ∀ m, image.progress_monitor = some m → ∀ o s, m o s = true)
    (init : PassState R) (hinit : init.status = true) (k : ℕ) :
    ((List.range k).foldl (verticalLine env PassOracle.ok f image y_factor span) init).status
      = true ∧
    (∃ px ix, ((List.range k).foldl (verticalLine env PassOracle.ok f image y_factor span)
      init).resize_image = { init.resize_image with pixels := px, indexes := ix }) ∧
    (∀ x y : ℕ, y < k → x < init.resize_image.columns →
      ((List.range k).foldl (verticalLine env PassOracle.ok f image y_factor span)
        init).resize_image.pixels x y =
          (verticalSample env f image init.resize_image y_factor x y).1) ∧
    (∀ a b : ℤ, ¬ (0 ≤ b ∧ b < (k : ℤ) ∧ 0 ≤ a ∧ a < (init.resize_image.columns : ℤ)) →
      ((List.range k).foldl (verticalLine env PassOracle.ok f image y_factor span)
        init).resize_image.pixels a b = init.resize_image.pixels a b) := by
  induction k with
  | zero =>
    refine ⟨by simpa using hinit, ⟨init.resize_image.pixels, init.resize_image.indexes, ?_⟩, ?_, ?_⟩
    · simp
    · intro x y hy; omega
    · intro a b _; simp
  | succ k ih =>
    obtain ⟨hs, ⟨px, ix, himg⟩, hpix, hout⟩ := ih
    rw [List.range_succ, List.foldl_append, List.foldl_cons, List.foldl_nil]
    obtain ⟨hs', himg'⟩ := verticalLine_ok env f image y_factor span hmon _ hs k
    have hcols : ((List.range k).foldl (verticalLine env PassOracle.ok f image y_factor span)
        init).resize_image.columns = init.resize_image.columns := by rw [himg]
    refine ⟨hs', ?_, ?_, ?_⟩
    · rw [himg', himg]
      exact ⟨_, _, rfl⟩
    · intro x y hy hx
      rw [himg']
      simp only []
      by_cases hyk : y = k
      · subst hyk
        have hx' : ((x : ℤ)) < (((List.range y).foldl
            (verticalLine env PassOracle.ok f image y_factor span) init).resize_image.columns : ℤ) := by
          rw [hcols]; exact_mod_cast hx
        rw [if_pos ⟨rfl, Int.natCast_nonneg x, hx'⟩]
        simp only [Int.toNat_natCast]
        exact verticalSample_fst _ _ _ _ _ _ _ _
      · have hne : ¬ ((y : ℤ) = (k : ℤ) ∧ 0 ≤ (x : ℤ) ∧ (x : ℤ) < (((List.range k).foldl
            (verticalLine env PassOracle.ok f image y_factor span) init).resize_image.columns : ℤ)) := by
          intro h
          exact hyk (by exact_mod_cast h.1)
        rw [if_neg hne]
        exact hpix x y (by omega) hx
    · intro a b hab
      rw [himg']
      simp only []
      have hne : ¬ (b = (k : ℤ) ∧ 0 ≤ a ∧ a < (((List.range k).foldl
            (verticalLine env PassOracle.ok f image y_factor span) init).resize_image.columns : ℤ)) := by
        rw [hcols]
        intro h
        apply hab
        omega
      rw [if_neg hne]
      apply hout
      intro h
      apply hab
      omega

/-- The horizontal pass when nothing fails: it returns true, it changes the
storage class, the pixels and the indexes of the destination only, and every
pixel of the destination holds its sample. -/
theorem HorizontalFilter_ok (env : MagickEnv R) (f : ResizeFilter R) (image resize_image : Image R)
    (x_factor : R) (span : ℕ) (offset : ℤ)
    (hmon : ∀ m, image.progress_monitor = some m → ∀ o s, m o s = true) :
    (HorizontalFilter env PassOracle.ok f image resize_image x_factor span offset).status = true ∧
    (∃ px ix,
      (HorizontalFilter env PassOracle.ok f image resize_image x_factor span offset).resize_image =
        { resize_image with
          storage_class := passStorageClass env f image x_factor, pixels := px, indexes := ix }) ∧
    (∀ x y : ℕ, x < resize_image.columns → y < resize_image.rows →
      (HorizontalFilter env PassOracle.ok f image resize_image x_factor span
        offset).resize_image.pixels x y = (horizontalSample env f image image x_factor x y).1) := by
  have h := horizontal_loop env f image x_factor span hmon
    ⟨true, { resize_image with storage_class := passStorageClass env f image x_factor }, offset⟩
    rfl resize_image.columns
  obtain ⟨hs, ⟨px, ix, himg⟩, hpix, _⟩ := h
  have hdef : HorizontalFilter env PassOracle.ok f image resize_image x_factor span offset =
      (List.range resize_image.columns).foldl
        (horizontalLine env PassOracle.ok f image x_factor span)
        ⟨true, { resize_image with storage_class := passStorageClass env f image x_factor },
          offset⟩ := by
    simp [HorizontalFilter, PassOracle.ok]
  rw [hdef]
  refine ⟨hs, ⟨px, ix, ?_⟩, ?_⟩
  · rw [himg]
  · intro x y hx hy
    rw [hpix x y hx hy]
    exact horizontalSample_fst _ _ _ _ _ _ _ _

/-- The vertical pass when nothing fails: it returns true, it changes the
storage class, the pixels and the indexes of the destination only, and every
pixel of the destination holds its sample. -/
theorem VerticalFilter_ok (env : MagickEnv R) (f : ResizeFilter R) (image resize_image : Image R)
    (y_factor : R) (span : ℕ) (offset : ℤ)
    (hmon : ∀ m, image.progress_monitor = some m → ∀ o s, m o s = true) :
    (VerticalFilter env PassOracle.ok f image resize_image y_factor span offset).status = true ∧
    (∃ px ix,
      (VerticalFilter env PassOracle.ok f image resize_image y_factor span offset).resize_image =
        { resize_image with
          storage_class := passStorageClass env f image y_factor, pixels := px, indexes := ix }) ∧
    (∀ x y : ℕ, x < resize_image.columns → y < resize_image.rows →
      (VerticalFilter env PassOracle.ok f image resize_image y_factor span
        offset).resize_image.pixels x y = (verticalSample env f image image y_factor x y).1) := by
  have h := vertical_loop env f image y_factor span hmon
    ⟨true, { resize_image with storage_class := passStorageClass env f image y_factor }, offset⟩
    rfl resize_image.rows
  obtain ⟨hs, ⟨px, ix, himg⟩, hpix, _⟩ := h
  have hdef : VerticalFilter env PassOracle.ok f image resize_image y_factor span offset =
      (List.range resize_image.rows).foldl
        (verticalLine env PassOracle.ok f image y_factor span)
        ⟨true, { resize_image with storage_class := passStorageClass env f image y_factor },
          offset⟩ := by
    simp [VerticalFilter, PassOracle.ok]
  rw [hdef]
  refine ⟨hs, ⟨px, ix, ?_⟩, ?_⟩
  · rw [himg]
  · intro x y hx hy
    rw [hpix x y hy hx]
    exact verticalSample_fst _ _ _ _ _ _ _ _

end PassTheorems

section ReadTheorems

variable {R : Type} [LinearOrderedField R] [FloorRing R]

/-- In the horizontal pass every contribution reads the source pixel of its
column, in the row of the sample. -/
theorem horizontal_read (env : MagickEnv R) (f : ResizeFilter R) (image : Image R) (factor : R)
    (x y : ℕ) (c : ContributionInfo R)
    (hc : c ∈ contributionList env f factor image.columns x) :
    GetCacheViewVirtualPixels image
        (contributionAt (contributionList env f factor image.columns x) 0).pixel 0
        (spanWidth (contributionList env f factor image.columns x))
        ((y : ℤ) * spanWidth (contributionList env f factor image.columns x) +
          (c.pixel - (contributionAt (contributionList env f factor image.columns x) 0).pixel)) =
      image.pixels c.pixel (y : ℤ) := by
  have hpix := contributionList_pixels env f factor image.columns x
  have hn := length_pos_of_mem _ _ _ hpix c hc
  obtain ⟨hfirst, hwidth⟩ := span_of_pixels _ _ _ hn hpix
  obtain ⟨h0, h1⟩ := pixel_mem_range _ _ _ hpix c hc
  rw [hfirst, hwidth]
  exact horizontal_buffer image _ _ y c.pixel h0 h1

/-- In the vertical pass every contribution reads the source pixel of its row,
in the column of the sample. -/
theorem vertical_read (env : MagickEnv R) (f : ResizeFilter R) (image : Image R) (factor : R)
    (x y : ℕ) (hx : x < image.columns) (c : ContributionInfo R)
    (hc : c ∈ contributionList env f factor image.rows y) :
    GetCacheViewVirtualPixels image 0
        (contributionAt (contributionList env f factor image.rows y) 0).pixel
        (image.columns : ℤ)
        ((c.pixel - (contributionAt (contributionList env f factor image.rows y) 0).pixel) *
          (image.columns : ℤ) + (x : ℤ)) =
      image.pixels (x : ℤ) c.pixel := by
  have hpix := contributionList_pixels env f factor image.rows y
  have hn := length_pos_of_mem _ _ _ hpix c hc
  obtain ⟨hfirst, _⟩ := span_of_pixels _ _ _ hn hpix
  rw [hfirst]
  exact vertical_buffer image _ x c.pixel hx

/-- The pixel the horizontal pass computes from an image without alpha: each
channel is the clamped weighted sum, over the contribution list of the column,
of the channel of the source pixels of the row. -/
theorem horizontalSample_noAlpha (env : MagickEnv R) (f : ResizeFilter R) (image r : Image R)
    (x_factor : R) (x y : ℕ) (hmatte : image.matte = false) :
    (horizontalSample env f image r x_factor x y).1 =
    { red := env.ClampToQuantum ((contributionList env f x_factor image.columns x).map
        fun c => c.weight * ((image.pixels c.pixel (y : ℤ)).red : R)).sum
      green := env.ClampToQuantum ((contributionList env f x_factor image.columns x).map
        fun c => c.weight * ((image.pixels c.pixel (y : ℤ)).green : R)).sum
      blue := env.ClampToQuantum ((contributionList env f x_factor image.columns x).map
        fun c => c.weight * ((image.pixels c.pixel (y : ℤ)).blue : R)).sum
      opacity := env.ClampToQuantum ((contributionList env f x_factor image.columns x).map
        fun c => c.weight * ((image.pixels c.pixel (y : ℤ)).opacity : R)).sum } := by
  unfold horizontalSample
  simp only []
  rw [filterSample_noAlpha _ _ _ _ _ _ _ _ _ _ _ hmatte]
  have hread := horizontal_read env f image x_factor x y
  congr 2 <;>
  · apply congrArg List.sum
    apply List.map_congr_left
    intro c hc
    rw [hread c hc]

/-- The pixel the vertical pass computes from an image without alpha. -/
theorem verticalSample_noAlpha (env : MagickEnv R) (f : ResizeFilter R) (image r : Image R)
    (y_factor : R) (x y : ℕ) (hmatte : image.matte = false) (hx : x < image.columns) :
    (verticalSample env f image r y_factor x y).1 =
    { red := env.ClampToQuantum ((contributionList env f y_factor image.rows y).map
        fun c => c.weight * ((image.pixels (x : ℤ) c.pixel).red : R)).sum
      green := env.ClampToQuantum ((contributionList env f y_factor image.rows y).map
        fun c => c.weight * ((image.pixels (x : ℤ) c.pixel).green : R)).sum
      blue := env.ClampToQuantum ((contributionList env f y_factor image.rows y).map
        fun c => c.weight * ((image.pixels (x : ℤ) c.pixel).blue : R)).sum
      opacity := env.ClampToQuantum ((contributionList env f y_factor image.rows y).map
        fun c => c.weight * ((image.pixels (x : ℤ) c.pixel).opacity : R)).sum } := by
  unfold verticalSample
  simp only []
  rw [filterSample_noAlpha _ _ _ _ _ _ _ _ _ _ _ hmatte]
  have hread := vertical_read env f image y_factor x y hx
  congr 2 <;>
  · apply congrArg List.sum
    apply List.map_congr_left
    intro c hc
    rw [hread c hc]

end ReadTheorems

/-! ## The orchestrator: theorems -/

section ResizeTheorems

variable {R : Type} [LinearOrderedField R] [FloorRing R]

/-- A successful clone to non-zero dimensions. -/
theorem CloneImage_sized (image : Image R) (columns rows : ℕ) (scratch : Scratch)
    (h : 0 < columns ∨ 0 < rows) :
    CloneImage image columns rows (some scratch) =
      some { image with
        columns := columns, rows := rows, pixels := scratch.pixels,
        indexes := scratch.indexes } := by
  unfold CloneImage
  have hne : ¬ (columns = 0 ∧ rows = 0) := by omega
  simp [hne]

/-- `ResizeImage` off the fast path when nothing fails and the monitor never
cancels: an image of the size asked for comes back; when the horizontal pass
runs first, the intermediate image `mid` holds the horizontal samples of the
source and the result holds the vertical samples of `mid`; and the other way
round when the vertical pass runs first. -/
theorem ResizeImage_two_pass (env : MagickEnv R) (scratch : Scratch) (image : Image R)
    (columns rows : ℕ) (filter : FilterTypes) (blur : R)
    (hc : 0 < columns) (hr : 0 < rows)
    (hslow : ¬ (columns = image.columns ∧ rows = image.rows ∧
      filter = FilterTypes.UndefinedFilter ∧ blur = 1))
    (hmon : ∀ m, image.progress_monitor = some m → ∀ o s, m o s = true) :
    ∃ mid r : Image R,
      ResizeImage env (ResizeOracle.ok scratch) image columns rows filter blur =
        ResizeOutcome.image r ∧
      r.columns = columns ∧ r.rows = rows ∧ r.matte = image.matte ∧ mid.matte = image.matte ∧
      (((columns : R) / (image.columns : R)) * ((rows : R) / (image.rows : R)) > WorkLoadFactor →
        mid.columns = columns ∧ mid.rows = image.rows ∧
        (∀ x y : ℕ, x < columns → y < image.rows → mid.pixels x y =
          (horizontalSample env
            (AcquireResizeFilter env image
              (resizeFilterType image filter ((columns : R) / (image.columns : R))
                ((rows : R) / (image.rows : R))) blur false)
            image image ((columns : R) / (image.columns : R)) x y).1) ∧
        (∀ x y : ℕ, x < columns → y < rows → r.pixels x y =
          (verticalSample env
            (AcquireResizeFilter env image
              (resizeFilterType image filter ((columns : R) / (image.columns : R))
                ((rows : R) / (image.rows : R))) blur false)
            mid mid ((rows : R) / (image.rows : R)) x y).1)) ∧
      (¬ ((columns : R) / (image.columns : R)) * ((rows : R) / (image.rows : R)) > WorkLoadFactor →
        mid.columns = image.columns ∧ mid.rows = rows ∧
        (∀ x y : ℕ, x < image.columns → y < rows → mid.pixels x y =
          (verticalSample env
            (AcquireResizeFilter env image
              (resizeFilterType image filter ((columns : R) / (image.columns : R))
                ((rows : R) / (image.rows : R))) blur false)
            image image ((rows : R) / (image.rows : R)) x y).1) ∧
        (∀ x y : ℕ, x < columns → y < rows → r.pixels x y =
          (horizontalSample env
            (AcquireResizeFilter env image
              (resizeFilterType image filter ((columns : R) / (image.columns : R))
                ((rows : R) / (image.rows : R))) blur false)
            mid mid ((columns : R) / (image.columns : R)) x y).1)) := by
  have hzero : ¬ (columns = 0 ∨ rows = 0) := by omega
  generalize hxf : (columns : R) / (image.columns : R) = xf
  generalize hyf : (rows : R) / (image.rows : R) = yf
  generalize hf : AcquireResizeFilter env image (resizeFilterType image filter xf yf) blur
    false = f
  by_cases hw : xf * yf > WorkLoadFactor
  · -- horizontal pass first
    obtain ⟨hs1, ⟨px1, ix1, himg1⟩, hpix1⟩ := HorizontalFilter_ok env f image
      { image with
        columns := columns, rows := image.rows, pixels := scratch.pixels,
        indexes := scratch.indexes }
      xf (columns + rows) 0 hmon
    have hmon2 : ∀ m, (HorizontalFilter env PassOracle.ok f image
        { image with
          columns := columns, rows := image.rows, pixels := scratch.pixels,
          indexes := scratch.indexes }
        xf (columns + rows) 0).resize_image.progress_monitor
          = some m → ∀ o s, m o s = true := by
      rw [himg1]; exact hmon
    obtain ⟨hs2, ⟨px2, ix2, himg2⟩, hpix2⟩ := VerticalFilter_ok env f
      (HorizontalFilter env PassOracle.ok f image
        { image with
          columns := columns, rows := image.rows, pixels := scratch.pixels,
          indexes := scratch.indexes }
        xf (columns + rows) 0).resize_image
      { image with
        columns := columns, rows := rows, pixels := scratch.pixels,
        indexes := scratch.indexes }
      yf (columns + rows)
      (HorizontalFilter env PassOracle.ok f image
        { image with
          columns := columns, rows := image.rows, pixels := scratch.pixels,
          indexes := scratch.indexes }
        xf (columns + rows) 0).offset hmon2
    refine ⟨(HorizontalFilter env PassOracle.ok f image
        { image with
          columns := columns, rows := image.rows, pixels := scratch.pixels,
          indexes := scratch.indexes }
        xf (columns + rows) 0).resize_image,
      { (VerticalFilter env PassOracle.ok f
          (HorizontalFilter env PassOracle.ok f image
            { image with
              columns := columns, rows := image.rows, pixels := scratch.pixels,
              indexes := scratch.indexes }
            xf (columns + rows) 0).resize_image
          { image with
            columns := columns, rows := rows, pixels := scratch.pixels,
            indexes := scratch.indexes }
          yf (columns + rows)
          (HorizontalFilter env PassOracle.ok f image
            { image with
              columns := columns, rows := image.rows, pixels := scratch.pixels,
              indexes := scratch.indexes }
            xf (columns + rows) 0).offset).resize_image with type := image.type },
      ?_, ?_, ?_, ?_, ?_, ?_, ?_⟩
    · unfold ResizeImage
      rw [if_neg hzero, if_neg hslow]
      simp only [ResizeOracle.ok, CloneImage_sized image columns rows scratch (Or.inl hc),
        CloneImage_sized image columns image.rows scratch (Or.inl hc), hxf, hyf, hf, if_pos hw,
        hs1, hs2, Bool.and_self]
      rfl
    · simp only [himg2]
    · simp only [himg2]
    · simp only [himg2]
    · rw [himg1]
    · intro _
      refine ⟨by rw [himg1], by rw [himg1], ?_, ?_⟩
      · intro x y hx hy
        exact hpix1 x y hx hy
      · intro x y hx hy
        exact hpix2 x y hx hy
    · intro h
      exact absurd hw h
  · -- vertical pass first
    obtain ⟨hs1, ⟨px1, ix1, himg1⟩, hpix1⟩ := VerticalFilter_ok env f image
      { image with
        columns := image.columns, rows := rows, pixels := scratch.pixels,
        indexes := scratch.indexes }
      yf (rows + columns) 0 hmon
    have hmon2 : ∀ m, (VerticalFilter env PassOracle.ok f image
        { image with
          columns := image.columns, rows := rows, pixels := scratch.pixels,
          indexes := scratch.indexes }
        yf (rows + columns) 0).resize_image.progress_monitor
          = some m → ∀ o s, m o s = true := by
      rw [himg1]; exact hmon
    obtain ⟨hs2, ⟨px2, ix2, himg2⟩, hpix2⟩ := HorizontalFilter_ok env f
      (VerticalFilter env PassOracle.ok f image
        { image with
          columns := image.columns, rows := rows, pixels := scratch.pixels,
          indexes := scratch.indexes }
        yf (rows + columns) 0).resize_image
      { image with
        columns := columns, rows := rows, pixels := scratch.pixels,
        indexes := scratch.indexes }
      xf (rows + columns)
      (VerticalFilter env PassOracle.ok f image
        { image with
          columns := image.columns, rows := rows, pixels := scratch.pixels,
          indexes := scratch.indexes }
        yf (rows + columns) 0).offset hmon2
    refine ⟨(VerticalFilter env PassOracle.ok f image
        { image with
          columns := image.columns, rows := rows, pixels := scratch.pixels,
          indexes := scratch.indexes }
        yf (rows + columns) 0).resize_image,
      { (HorizontalFilter env PassOracle.ok f
          (VerticalFilter env PassOracle.ok f image
            { image with
              columns := image.columns, rows := rows, pixels := scratch.pixels,
              indexes := scratch.indexes }
            yf (rows + columns) 0).resize_image
          { image with
            columns := columns, rows := rows, pixels := scratch.pixels,
            indexes := scratch.indexes }
          xf (rows + columns)
          (VerticalFilter env PassOracle.ok f image
            { image with
              columns := image.columns, rows := rows, pixels := scratch.pixels,
              indexes := scratch.indexes }
            yf (rows + columns) 0).offset).resize_image with type := image.type },
      ?_, ?_, ?_, ?_, ?_, ?_, ?_⟩
    · unfold ResizeImage
      rw [if_neg hzero, if_neg hslow]
      simp only [ResizeOracle.ok, CloneImage_sized image columns rows scratch (Or.inl hc),
        CloneImage_sized image image.columns rows scratch (Or.inr hr), hxf, hyf, hf, if_neg hw,
        hs1, hs2, Bool.and_self]
      rfl
    · simp only [himg2]
    · simp only [himg2]
    · simp only [himg2]
    · rw [himg1]
    · intro h
      exact absurd h hw
    · intro _
      refine ⟨by rw [himg1], by rw [himg1], ?_, ?_⟩
      · intro x y hx hy
        exact hpix1 x y hx hy
      · intro x y hx hy
        exact hpix2 x y hx hy

end ResizeTheorems

/-! ## The Box filter at 2:1: theorems -/

section BoxTheorems

variable {R : Type} [LinearOrderedField R] [FloorRing R]

/-- The Box filter built with blur 1 and no artifacts. -/
theorem box_filter_fields (env : MagickEnv R) (image : Image R)
    (hart : image.artifacts = Artifacts.none) (heps : env.MagickEpsilon ≤ 1) :
    (AcquireResizeFilter env image FilterTypes.BoxFilter 1 false).filter = FilterFunction.Box ∧
    (AcquireResizeFilter env image FilterTypes.BoxFilter 1 false).window = FilterFunction.Box ∧
    (AcquireResizeFilter env image FilterTypes.BoxFilter 1 false).support = 1 / 2 ∧
    (AcquireResizeFilter env image FilterTypes.BoxFilter 1 false).blur = 1 := by
  refine ⟨?_, ?_, ?_, ?_⟩ <;>
    simp [AcquireResizeFilter, acquireTypes, acquireSupport, acquireBlur, mapping, filters, hart,
      Artifacts.none, not_lt.mpr heps]

/-- A filter whose weighting and windowing functions are both `Box` weighs
every offset 1. -/
theorem weight_box (env : MagickEnv R) (f : ResizeFilter R) (t : R)
    (hf : f.filter = FilterFunction.Box) (hw : f.window = FilterFunction.Box) :
    GetResizeFilterWeight env f t = 1 := by
  simp [GetResizeFilterWeight, hf, hw, FilterFunction.call, Box]

/-- The raw contribution list of output coordinate `x` of a 2:1 Box pass: the
source indices `2x` and `2x+1`, each of weight 1. -/
theorem box_half_raw (env : MagickEnv R) (f : ResizeFilter R)
    (hf : f.filter = FilterFunction.Box) (hw : f.window = FilterFunction.Box)
    (hs : f.support = 1 / 2) (hb : f.blur = 1)
    (heps0 : 0 < env.MagickEpsilon) (heps1 : env.MagickEpsilon < 1) (m x : ℕ) (hx : x < m) :
    rawContribution env f (loopScale env f (1 / 2)) (passCenter (1 / 2) x)
      (passStart (passSupport env f (1 / 2)) (passCenter (1 / 2) x))
      (passStop (passSupport env f (1 / 2)) (passCenter (1 / 2) x) (2 * m)) =
    [⟨1, 2 * (x : ℤ)⟩, ⟨1, 2 * (x : ℤ) + 1⟩] := by
  have hscale : passScale env (1 / 2 : R) = 2 + env.MagickEpsilon := by
    unfold passScale MagickMax
    rw [if_pos]
    · norm_num
    · norm_num
      linarith
  have hraw : rawSupport env f (1 / 2) = 1 + env.MagickEpsilon / 2 := by
    unfold rawSupport GetResizeFilterSupport
    rw [hscale, hs, hb]
    ring
  have hsup : passSupport env f (1 / 2) = 1 + env.MagickEpsilon / 2 := by
    unfold passSupport
    rw [hraw, if_neg]
    linarith
  have hcen : passCenter (1 / 2 : R) x = 2 * (x : R) + 1 := by
    unfold passCenter
    field_simp
    ring
  have hstart : passStart (1 + env.MagickEpsilon / 2) (2 * (x : R) + 1) = 2 * (x : ℤ) := by
    unfold passStart MagickMax
    have hx0 : (0 : R) ≤ (x : R) := Nat.cast_nonneg x
    rw [if_pos (by linarith)]
    apply castToInt_eq_of_mem
    · linarith
    · push_cast; linarith
    · push_cast; linarith
  have hstop : passStop (1 + env.MagickEpsilon / 2) (2 * (x : R) + 1) (2 * m) =
      2 * (x : ℤ) + 2 := by
    unfold passStop MagickMin
    have hx0 : (0 : R) ≤ (x : R) := Nat.cast_nonneg x
    have hxm : (x : R) + 1 ≤ (m : R) := by exact_mod_cast hx
    split_ifs with h
    · apply castToInt_eq_of_mem
      · linarith
      · push_cast; linarith
      · push_cast; linarith
    · have h' : (((2 * m : ℕ) : R)) ≤ 2 * (x : R) + 1 + (1 + env.MagickEpsilon / 2) + 1 / 2 :=
        not_lt.mp h
      have hm2 : ((2 * m : ℕ) : R) = 2 * (m : R) := by push_cast; ring
      have hlt : (m : R) < (x : R) + 2 := by
        rw [hm2] at h'
        linarith
      have hlt' : m < x + 2 := by exact_mod_cast hlt
      have hmx : m = x + 1 := by omega
      subst hmx
      apply castToInt_eq_of_mem
      · positivity
      · push_cast; linarith
      · push_cast; linarith
  rw [hsup, hcen, hstart, hstop]
  have hn : (2 * (x : ℤ) + 2 - 2 * (x : ℤ)).toNat = 2 := by
    have : 2 * (x : ℤ) + 2 - 2 * (x : ℤ) = 2 := by ring
    rw [this]; rfl
  unfold rawContribution
  rw [hn]
  simp [List.range_succ, weight_box env f _ hf hw]

/-- The contribution list of output coordinate `x < m` of a 2:1 Box pass at
blur 1 over a source of even extent `2m`: the source indices `2x` and `2x+1`,
each with normalized weight 1/2. -/
theorem box_half_contributions (env : MagickEnv R) (f : ResizeFilter R)
    (hf : f.filter = FilterFunction.Box) (hw : f.window = FilterFunction.Box)
    (hs : f.support = 1 / 2) (hb : f.blur = 1)
    (heps0 : 0 < env.MagickEpsilon) (heps1 : env.MagickEpsilon < 1) (m x : ℕ) (hx : x < m) :
    contributionList env f (1 / 2) (2 * m) x =
      [⟨1 / 2, 2 * (x : ℤ)⟩, ⟨1 / 2, 2 * (x : ℤ) + 1⟩] := by
  unfold contributionList
  simp only []
  rw [box_half_raw env f hf hw hs hb heps0 heps1 m x hx]
  have hd : density ([⟨1, 2 * (x : ℤ)⟩, ⟨1, 2 * (x : ℤ) + 1⟩] : List (ContributionInfo R)) = 2 := by
    simp [density]; norm_num
  unfold normalize
  rw [hd]
  norm_num

end BoxTheorems

section BoxResizeTheorems

variable {R : Type} [LinearOrderedField R] [FloorRing R]

/-- The integer `ClampToQuantum` leaves a quantum in range as it is. -/
theorem ClampToQuantumInteger_natCast (QuantumRange q : ℕ) (h : q ≤ QuantumRange) :
    ClampToQuantumInteger QuantumRange (q : R) = q := by
  unfold ClampToQuantumInteger
  by_cases h0 : q = 0
  · subst h0
    simp
  · have hpos : (0 : R) < (q : R) := by
      exact_mod_cast Nat.pos_of_ne_zero h0
    rw [if_neg (not_le.mpr hpos)]
    by_cases h1 : (q : R) ≥ (QuantumRange : R)
    · rw [if_pos h1]
      have : QuantumRange ≤ q := by exact_mod_cast h1
      omega
    · rw [if_neg h1]
      have hc : castToInt ((q : R) + 1 / 2) = (q : ℤ) := by
        apply castToInt_eq_of_mem
        · linarith
        · push_cast; linarith
        · push_cast; linarith
      rw [hc]
      simp

/-- The mean of a pixel with itself is the pixel, for a `ClampToQuantum` that
leaves the quanta in range as they are. -/
theorem meanPixel_self (env : MagickEnv R) (v : PixelPacket)
    (hclamp : ∀ q : ℕ, q ≤ env.QuantumRange → env.ClampToQuantum (q : R) = q)
    (hv : v.red ≤ env.QuantumRange ∧ v.green ≤ env.QuantumRange ∧
      v.blue ≤ env.QuantumRange ∧ v.opacity ≤ env.QuantumRange) :
    meanPixel env v v = v := by
  have h2 : ∀ t : R, 1 / 2 * t + 1 / 2 * t = t := fun t => by ring
  unfold meanPixel
  rw [h2, h2, h2, h2, hclamp _ hv.1, hclamp _ hv.2.1, hclamp _ hv.2.2.1, hclamp _ hv.2.2.2]

/-- A 2:1 horizontal Box pass over an image without alpha writes the mean of
the source pixels of columns `2x` and `2x+1`. -/
theorem horizontal_box_sample (env : MagickEnv R) (f : ResizeFilter R) (image r : Image R)
    (hf : f.filter = FilterFunction.Box) (hw : f.window = FilterFunction.Box)
    (hs : f.support = 1 / 2) (hb : f.blur = 1)
    (heps0 : 0 < env.MagickEpsilon) (heps1 : env.MagickEpsilon < 1)
    (hmatte : image.matte = false) (m : ℕ) (hcols : image.columns = 2 * m)
    (x y : ℕ) (hx : x < m) :
    (horizontalSample env f image r (1 / 2) x y).1 =
      meanPixel env (image.pixels (2 * (x : ℤ)) (y : ℤ)) (image.pixels (2 * (x : ℤ) + 1) (y : ℤ)) := by
  rw [horizontalSample_noAlpha env f image r (1 / 2) x y hmatte, hcols,
    box_half_contributions env f hf hw hs hb heps0 heps1 m x hx]
  simp [meanPixel]

/-- A 2:1 vertical Box pass over an image without alpha writes the mean of the
source pixels of rows `2y` and `2y+1`. -/
theorem vertical_box_sample (env : MagickEnv R) (f : ResizeFilter R) (image r : Image R)
    (hf : f.filter = FilterFunction.Box) (hw : f.window = FilterFunction.Box)
    (hs : f.support = 1 / 2) (hb : f.blur = 1)
    (heps0 : 0 < env.MagickEpsilon) (heps1 : env.MagickEpsilon < 1)
    (hmatte : image.matte = false) (k : ℕ) (hrows : image.rows = 2 * k)
    (x y : ℕ) (hx : x < image.columns) (hy : y < k) :
    (verticalSample env f image r (1 / 2) x y).1 =
      meanPixel env (image.pixels (x : ℤ) (2 * (y : ℤ))) (image.pixels (x : ℤ) (2 * (y : ℤ) + 1)) := by
  rw [verticalSample_noAlpha env f image r (1 / 2) x y hmatte hx, hrows,
    box_half_contributions env f hf hw hs hb heps0 heps1 k y hy]
  simp [meanPixel]

/-- A 2:1 Box resize on both axes of an image without alpha runs the vertical
pass first, and each pixel it returns is the mean, along the row, of the two
column means of its 2x2 source block. -/
theorem box_half_pixels (env : MagickEnv R) (scratch : Scratch) (image : Image R) (m k : ℕ)
    (hm : 0 < m) (hk : 0 < k) (hcols : image.columns = 2 * m) (hrows : image.rows = 2 * k)
    (hart : image.artifacts = Artifacts.none) (hmatte : image.matte = false)
    (hmon : ∀ mon, image.progress_monitor = some mon → ∀ o s, mon o s = true)
    (heps0 : 0 < env.MagickEpsilon) (heps1 : env.MagickEpsilon < 1) :
    ∃ r : Image R,
      ResizeImage env (ResizeOracle.ok scratch) image m k FilterTypes.BoxFilter 1 =
        ResizeOutcome.image r ∧
      r.columns = m ∧ r.rows = k ∧
      ∀ x y : ℕ, x < m → y < k →
        r.pixels x y =
          meanPixel env
            (meanPixel env (image.pixels (2 * (x : ℤ)) (2 * (y : ℤ)))
              (image.pixels (2 * (x : ℤ)) (2 * (y : ℤ) + 1)))
            (meanPixel env (image.pixels (2 * (x : ℤ) + 1) (2 * (y : ℤ)))
              (image.pixels (2 * (x : ℤ) + 1) (2 * (y : ℤ) + 1))) := by
  have hslow : ¬ (m = image.columns ∧ k = image.rows ∧
      FilterTypes.BoxFilter = FilterTypes.UndefinedFilter ∧ (1 : R) = 1) := by
    intro h
    exact absurd h.2.2.1 (by decide)
  obtain ⟨mid, r, hres, hrc, hrr, _, hmm, _, hv⟩ :=
    ResizeImage_two_pass env scratch image m k FilterTypes.BoxFilter 1 hm hk hslow hmon
  have hmR : (m : R) ≠ 0 := by exact_mod_cast (Nat.pos_iff_ne_zero.mp hm)
  have hkR : (k : R) ≠ 0 := by exact_mod_cast (Nat.pos_iff_ne_zero.mp hk)
  have hxf : (m : R) / (image.columns : R) = 1 / 2 := by
    rw [hcols]; push_cast; field_simp; ring
  have hyf : (k : R) / (image.rows : R) = 1 / 2 := by
    rw [hrows]; push_cast; field_simp; ring
  have hft : resizeFilterType image FilterTypes.BoxFilter ((m : R) / (image.columns : R))
      ((k : R) / (image.rows : R)) = FilterTypes.BoxFilter := by
    simp [resizeFilterType]
  have hnw : ¬ ((m : R) / (image.columns : R)) * ((k : R) / (image.rows : R)) > WorkLoadFactor := by
    rw [hxf, hyf]
    unfold WorkLoadFactor
    norm_num
  obtain ⟨hmc, hmr, hmid, hr⟩ := hv hnw
  rw [hft, hyf] at hmid
  rw [hft, hxf] at hr
  obtain ⟨hf, hw, hs, hb⟩ := box_filter_fields env image hart (le_of_lt heps1)
  refine ⟨r, hres, hrc, hrr, ?_⟩
  intro x y hx hy
  have hmidm : mid.matte = false := by rw [hmm, hmatte]
  have hmidc : mid.columns = 2 * m := by rw [hmc, hcols]
  rw [hr x y hx hy,
    horizontal_box_sample env _ mid mid hf hw hs hb heps0 heps1 hmidm m hmidc x y hx]
  have e0 : (2 * (x : ℤ)) = ((2 * x : ℕ) : ℤ) := by push_cast; ring
  have e1 : (2 * (x : ℤ) + 1) = ((2 * x + 1 : ℕ) : ℤ) := by push_cast; ring
  rw [e1, e0, hmid (2 * x) y (by omega) hy, hmid (2 * x + 1) y (by omega) hy,
    vertical_box_sample env _ image image hf hw hs hb heps0 heps1 hmatte k hrows (2 * x) y
      (by omega) hy,
    vertical_box_sample env _ image image hf hw hs hb heps0 heps1 hmatte k hrows (2 * x + 1) y
      (by omega) hy]

end BoxResizeTheorems

/-! ## The Triangle filter on a solid image: theorems -/

section TriangleTheorems

variable {R : Type} [LinearOrderedField R] [FloorRing R]

/-- The Triangle filter built with blur 1 and no artifacts. -/
theorem triangle_filter_fields (env : MagickEnv R) (image : Image R)
    (hart : image.artifacts = Artifacts.none) (heps : env.MagickEpsilon ≤ 1) :
    (AcquireResizeFilter env image FilterTypes.TriangleFilter 1 false).filter =
      FilterFunction.Triangle ∧
    (AcquireResizeFilter env image FilterTypes.TriangleFilter 1 false).window =
      FilterFunction.Box ∧
    (AcquireResizeFilter env image FilterTypes.TriangleFilter 1 false).support = 1 ∧
    (AcquireResizeFilter env image FilterTypes.TriangleFilter 1 false).blur = 1 := by
  refine ⟨?_, ?_, ?_, ?_⟩ <;>
    simp [AcquireResizeFilter, acquireTypes, acquireSupport, acquireBlur, mapping, filters, hart,
      Artifacts.none, not_lt.mpr heps]

/-- The function `Triangle` is never negative. -/
theorem Triangle_nonneg (t : R) : 0 ≤ Triangle t := by
  unfold Triangle
  split_ifs with h
  · linarith
  · exact le_refl 0

/-- The weight of the unwindowed Triangle filter at blur 1. -/
theorem weight_triangle (env : MagickEnv R) (f : ResizeFilter R) (t : R)
    (hf : f.filter = FilterFunction.Triangle) (hw : f.window = FilterFunction.Box)
    (hb : f.blur = 1) :
    GetResizeFilterWeight env f t = Triangle |t| := by
  simp [GetResizeFilterWeight, hf, hw, hb, FilterFunction.call]

/-- The scale of a pass is at least 1. -/
theorem passScale_ge_one (env : MagickEnv R) (factor : R) : 1 ≤ passScale env factor := by
  unfold passScale MagickMax
  split_ifs with h
  · exact le_of_lt h
  · exact le_refl 1

/-- The centre of output coordinate `x < T` of a pass from extent `N` to extent
`T` lies in `(0, N)`. -/
theorem passCenter_mem (N T x : ℕ) (hN : 0 < N) (hT : 0 < T) (hx : x < T) :
    0 < passCenter ((T : R) / (N : R)) x ∧ passCenter ((T : R) / (N : R)) x < (N : R) := by
  have hNR : (0 : R) < (N : R) := by exact_mod_cast hN
  have hTR : (0 : R) < (T : R) := by exact_mod_cast hT
  have hxR : (x : R) + 1 ≤ (T : R) := by exact_mod_cast hx
  have hx0 : (0 : R) ≤ (x : R) := Nat.cast_nonneg x
  have hc : passCenter ((T : R) / (N : R)) x = ((x : R) + 1 / 2) * (N : R) / (T : R) := by
    unfold passCenter
    field_simp
  rw [hc]
  constructor
  · positivity
  · rw [div_lt_iff₀ hTR]
    nlinarith

/-- The window of a centre `c` in `[0, N)` with support at least 1/2 holds the
source index `⌊c⌋`. -/
theorem floor_center_in_window (support c : R) (N : ℕ) (hs : 1 / 2 ≤ support) (hc0 : 0 ≤ c)
    (hcN : c < (N : R)) :
    passStart support c ≤ ⌊c⌋ ∧ ⌊c⌋ + 1 ≤ passStop support c N := by
  have hfl : ((⌊c⌋ : ℤ) : R) ≤ c := Int.floor_le c
  have hfl0 : (0 : ℤ) ≤ ⌊c⌋ := Int.floor_nonneg.mpr hc0
  have hflN : ⌊c⌋ < (N : ℤ) := by
    have : ((⌊c⌋ : ℤ) : R) < ((N : ℤ) : R) := by
      push_cast
      exact lt_of_le_of_lt hfl hcN
    exact_mod_cast this
  constructor
  · unfold passStart
    have hmax : MagickMax (c - support + 1 / 2) 0 ≤ c := by
      unfold MagickMax
      split_ifs <;> linarith
    have h0 := MagickMax_nonneg (c - support + 1 / 2)
    unfold castToInt
    rw [if_pos h0]
    exact Int.floor_mono hmax
  · unfold passStop
    have hmin : ((⌊c⌋ + 1 : ℤ) : R) ≤ MagickMin (c + support + 1 / 2) (N : R) := by
      have hN' : ((⌊c⌋ + 1 : ℤ) : R) ≤ ((N : ℤ) : R) := by exact_mod_cast hflN
      push_cast at hN' ⊢
      unfold MagickMin
      split_ifs <;> linarith
    have h0 : 0 ≤ MagickMin (c + support + 1 / 2) (N : R) := by
      have : (0 : R) ≤ ((⌊c⌋ + 1 : ℤ) : R) := by exact_mod_cast (by omega : (0 : ℤ) ≤ ⌊c⌋ + 1)
      linarith
    unfold castToInt
    rw [if_pos h0]
    exact Int.le_floor.mpr hmin


/-- The raw weights of the Triangle filter at blur 1 add up to a positive
`density` at every output coordinate `x < T` of a pass from extent `N` to
extent `T`: none is negative, and the weight of source index `⌊center⌋`, which
lies in the window, is at least 1/2. -/
theorem triangle_density_pos (env : MagickEnv R) (f : ResizeFilter R)
    (hf : f.filter = FilterFunction.Triangle) (hw : f.window = FilterFunction.Box)
    (hs : f.support = 1) (hb : f.blur = 1) (N T x : ℕ) (hN : 0 < N) (hT : 0 < T) (hx : x < T) :
    0 < density (rawContribution env f (loopScale env f ((T : R) / (N : R)))
      (passCenter ((T : R) / (N : R)) x)
      (passStart (passSupport env f ((T : R) / (N : R))) (passCenter ((T : R) / (N : R)) x))
      (passStop (passSupport env f ((T : R) / (N : R))) (passCenter ((T : R) / (N : R)) x) N)) := by
  obtain ⟨hc0, hcN⟩ := @passCenter_mem R _ _ N T x hN hT hx
  generalize passCenter ((T : R) / (N : R)) x = c at hc0 hcN ⊢
  generalize hfac : (T : R) / (N : R) = factor
  have hsc := passScale_ge_one env factor
  have hraw : rawSupport env f factor = passScale env factor := by
    unfold rawSupport GetResizeFilterSupport
    rw [hs, hb]; ring
  have hsup : passSupport env f factor = passScale env factor := by
    unfold passSupport
    rw [hraw, if_neg (by linarith)]
  have hls : loopScale env f factor = 1 / passScale env factor := by
    unfold loopScale
    rw [hraw, if_neg (by linarith)]
  rw [hsup, hls]
  generalize passScale env factor = s at hsc
  obtain ⟨hst, hsp⟩ := floor_center_in_window s c N (by linarith) (le_of_lt hc0) hcN
  have hfl : ((⌊c⌋ : ℤ) : R) ≤ c := Int.floor_le c
  have hfl1 : c < ((⌊c⌋ : ℤ) : R) + 1 := Int.lt_floor_add_one c
  rw [density_eq_sum]
  have hnonneg : ∀ w ∈ (rawContribution env f (1 / s) c (passStart s c) (passStop s c N)).map
      ContributionInfo.weight, (0 : R) ≤ w := by
    intro w hwm
    obtain ⟨e, _, rfl⟩ := List.mem_map.mp hwm
    unfold rawContribution at *
    simp only [List.mem_map] at *
    rename_i hmem
    obtain ⟨n, _, rfl⟩ := hmem
    simp only [weight_triangle env f _ hf hw hb]
    exact Triangle_nonneg _
  have hmem : GetResizeFilterWeight env f (1 / s * (((⌊c⌋ : ℤ) : R) - c + 1 / 2)) ∈
      (rawContribution env f (1 / s) c (passStart s c) (passStop s c N)).map
        ContributionInfo.weight := by
    unfold rawContribution
    simp only [List.map_map, List.mem_map, Function.comp_def, List.mem_range]
    refine ⟨(⌊c⌋ - passStart s c).toNat, by omega, ?_⟩
    have : passStart s c + (((⌊c⌋ - passStart s c).toNat : ℕ) : ℤ) = ⌊c⌋ := by omega
    rw [this]
  have hle := List.single_le_sum hnonneg _ hmem
  have hpos : (0 : R) < GetResizeFilterWeight env f (1 / s * (((⌊c⌋ : ℤ) : R) - c + 1 / 2)) := by
    rw [weight_triangle env f _ hf hw hb]
    have hs0 : (0 : R) < s := by linarith
    have habs : |1 / s * (((⌊c⌋ : ℤ) : R) - c + 1 / 2)| ≤ 1 / 2 := by
      rw [abs_mul, abs_of_pos (by positivity : (0 : R) < 1 / s)]
      have h1 : |((⌊c⌋ : ℤ) : R) - c + 1 / 2| ≤ 1 / 2 := by
        rw [abs_le]; constructor <;> linarith
      have h2 : 1 / s ≤ 1 := by
        rw [div_le_one hs0]; exact hsc
      calc 1 / s * |((⌊c⌋ : ℤ) : R) - c + 1 / 2| ≤ 1 * (1 / 2) := by
            apply mul_le_mul h2 h1 (abs_nonneg _) (by norm_num)
        _ = 1 / 2 := by ring
    unfold Triangle
    rw [if_pos (by linarith)]
    linarith
  linarith

end TriangleTheorems

section SolidTheorems

variable {R : Type} [LinearOrderedField R] [FloorRing R]

/-- A horizontal sample of an image without alpha whose pixels all have one
colour is that colour, when the weights of its contribution list sum to 1. -/
theorem horizontalSample_solid (env : MagickEnv R) (f : ResizeFilter R) (image r : Image R)
    (factor : R) (x y : ℕ) (colour : PixelPacket) (hmatte : image.matte = false)
    (hsolid : ∀ a b : ℕ, a < image.columns → b < image.rows → image.pixels a b = colour)
    (hy : y < image.rows)
    (hsum : ((contributionList env f factor image.columns x).map ContributionInfo.weight).sum = 1)
    (hclamp : ∀ q : ℕ, q ≤ env.QuantumRange → env.ClampToQuantum (q : R) = q)
    (hcolour : colour.red ≤ env.QuantumRange ∧ colour.green ≤ env.QuantumRange ∧
      colour.blue ≤ env.QuantumRange ∧ colour.opacity ≤ env.QuantumRange) :
    (horizontalSample env f image r factor x y).1 = colour := by
  rw [horizontalSample_noAlpha env f image r factor x y hmatte]
  have hpix : ∀ c ∈ contributionList env f factor image.columns x,
      image.pixels c.pixel (y : ℤ) = colour := by
    intro c hc
    obtain ⟨h0, h1⟩ := contributionList_bounds env f factor image.columns x c hc
    have hcast : c.pixel = ((c.pixel.toNat : ℕ) : ℤ) := by omega
    rw [hcast]
    exact hsolid _ _ (by omega) hy
  have hch : ∀ g : PixelPacket → ℕ,
      ((contributionList env f factor image.columns x).map
        fun c => c.weight * ((g (image.pixels c.pixel (y : ℤ)) : ℕ) : R)).sum =
        ((g colour : ℕ) : R) := by
    intro g
    have : ((contributionList env f factor image.columns x).map
        fun c => c.weight * ((g (image.pixels c.pixel (y : ℤ)) : ℕ) : R)) =
        ((contributionList env f factor image.columns x).map
          fun c => c.weight * ((g colour : ℕ) : R)) := by
      apply List.map_congr_left
      intro c hc
      rw [hpix c hc]
    rw [this, List.sum_map_mul_right, hsum, one_mul]
  rw [hch PixelPacket.red, hch PixelPacket.green, hch PixelPacket.blue, hch PixelPacket.opacity,
    hclamp _ hcolour.1, hclamp _ hcolour.2.1, hclamp _ hcolour.2.2.1, hclamp _ hcolour.2.2.2]

/-- A vertical sample of an image without alpha whose pixels all have one
colour is that colour, when the weights of its contribution list sum to 1. -/
theorem verticalSample_solid (env : MagickEnv R) (f : ResizeFilter R) (image r : Image R)
    (factor : R) (x y : ℕ) (colour : PixelPacket) (hmatte : image.matte = false)
    (hsolid : ∀ a b : ℕ, a < image.columns → b < image.rows → image.pixels a b = colour)
    (hx : x < image.columns)
    (hsum : ((contributionList env f factor image.rows y).map ContributionInfo.weight).sum = 1)
    (hclamp : ∀ q : ℕ, q ≤ env.QuantumRange → env.ClampToQuantum (q : R) = q)
    (hcolour : colour.red ≤ env.QuantumRange ∧ colour.green ≤ env.QuantumRange ∧
      colour.blue ≤ env.QuantumRange ∧ colour.opacity ≤ env.QuantumRange) :
    (verticalSample env f image r factor x y).1 = colour := by
  rw [verticalSample_noAlpha env f image r factor x y hmatte hx]
  have hpix : ∀ c ∈ contributionList env f factor image.rows y,
      image.pixels (x : ℤ) c.pixel = colour := by
    intro c hc
    obtain ⟨h0, h1⟩ := contributionList_bounds env f factor image.rows y c hc
    have hcast : c.pixel = ((c.pixel.toNat : ℕ) : ℤ) := by omega
    rw [hcast]
    exact hsolid _ _ hx (by omega)
  have hch : ∀ g : PixelPacket → ℕ,
      ((contributionList env f factor image.rows y).map
        fun c => c.weight * ((g (image.pixels (x : ℤ) c.pixel) : ℕ) : R)).sum =
        ((g colour : ℕ) : R) := by
    intro g
    have : ((contributionList env f factor image.rows y).map
        fun c => c.weight * ((g (image.pixels (x : ℤ) c.pixel) : ℕ) : R)) =
        ((contributionList env f factor image.rows y).map
          fun c => c.weight * ((g colour : ℕ) : R)) := by
      apply List.map_congr_left
      intro c hc
      rw [hpix c hc]
    rw [this, List.sum_map_mul_right, hsum, one_mul]
  rw [hch PixelPacket.red, hch PixelPacket.green, hch PixelPacket.blue, hch PixelPacket.opacity,
    hclamp _ hcolour.1, hclamp _ hcolour.2.1, hclamp _ hcolour.2.2.1, hclamp _ hcolour.2.2.2]

/-- The weights of the Triangle filter at blur 1 sum to 1 after the
normalization step, at every output coordinate of a pass between non-empty
extents. -/
theorem triangle_weights_sum (env : MagickEnv R) (f : ResizeFilter R)
    (hf : f.filter = FilterFunction.Triangle) (hw : f.window = FilterFunction.Box)
    (hs : f.support = 1) (hb : f.blur = 1) (N T x : ℕ) (hN : 0 < N) (hT : 0 < T) (hx : x < T) :
    ((contributionList env f ((T : R) / (N : R)) N x).map ContributionInfo.weight).sum = 1 :=
  normalize_sum _ (ne_of_gt (triangle_density_pos env f hf hw hs hb N T x hN hT hx))

/-- C5: resizing a solid-colour image without alpha to any non-zero size with
the Triangle filter at blur 1 gives every output pixel the colour of the
source; and the raw weight sum (`density`) is strictly positive at every output
coordinate of either axis. -/
theorem triangle_constant_invariance (env : MagickEnv R) (scratch : Scratch) (image : Image R)
    (columns rows : ℕ) (colour : PixelPacket)
    (hc : 0 < columns) (hr : 0 < rows) (hic : 0 < image.columns) (hir : 0 < image.rows)
    (hart : image.artifacts = Artifacts.none) (hmatte : image.matte = false)
    (hmon : ∀ mon, image.progress_monitor = some mon → ∀ o s, mon o s = true)
    (heps : env.MagickEpsilon ≤ 1)
    (hsolid : ∀ a b : ℕ, a < image.columns → b < image.rows → image.pixels a b = colour)
    (hclamp : ∀ q : ℕ, q ≤ env.QuantumRange → env.ClampToQuantum (q : R) = q)
    (hcolour : colour.red ≤ env.QuantumRange ∧ colour.green ≤ env.QuantumRange ∧
      colour.blue ≤ env.QuantumRange ∧ colour.opacity ≤ env.QuantumRange) :
    (∀ x : ℕ, x < columns →
      0 < density (rawContribution env
        (AcquireResizeFilter env image FilterTypes.TriangleFilter 1 false)
        (loopScale env (AcquireResizeFilter env image FilterTypes.TriangleFilter 1 false)
          ((columns : R) / (image.columns : R)))
        (passCenter ((columns : R) / (image.columns : R)) x)
        (passStart (passSupport env
          (AcquireResizeFilter env image FilterTypes.TriangleFilter 1 false)
          ((columns : R) / (image.columns : R))) (passCenter ((columns : R) / (image.columns : R)) x))
        (passStop (passSupport env
          (AcquireResizeFilter env image FilterTypes.TriangleFilter 1 false)
          ((columns : R) / (image.columns : R))) (passCenter ((columns : R) / (image.columns : R)) x)
          image.columns))) ∧
    (∀ y : ℕ, y < rows →
      0 < density (rawContribution env
        (AcquireResizeFilter env image FilterTypes.TriangleFilter 1 false)
        (loopScale env (AcquireResizeFilter env image FilterTypes.TriangleFilter 1 false)
          ((rows : R) / (image.rows : R)))
        (passCenter ((rows : R) / (image.rows : R)) y)
        (passStart (passSupport env
          (AcquireResizeFilter env image FilterTypes.TriangleFilter 1 false)
          ((rows : R) / (image.rows : R))) (passCenter ((rows : R) / (image.rows : R)) y))
        (passStop (passSupport env
          (AcquireResizeFilter env image FilterTypes.TriangleFilter 1 false)
          ((rows : R) / (image.rows : R))) (passCenter ((rows : R) / (image.rows : R)) y)
          image.rows))) ∧
    ∃ r : Image R,
      ResizeImage env (ResizeOracle.ok scratch) image columns rows FilterTypes.TriangleFilter 1 =
        ResizeOutcome.image r ∧
      r.columns = columns ∧ r.rows = rows ∧
      ∀ x y : ℕ, x < columns → y < rows → r.pixels x y = colour := by
  obtain ⟨hf, hw, hs, hb⟩ := triangle_filter_fields env image hart heps
  refine ⟨fun x hx => triangle_density_pos env _ hf hw hs hb image.columns columns x hic hc hx,
    fun y hy => triangle_density_pos env _ hf hw hs hb image.rows rows y hir hr hy, ?_⟩
  have hslow : ¬ (columns = image.columns ∧ rows = image.rows ∧
      FilterTypes.TriangleFilter = FilterTypes.UndefinedFilter ∧ (1 : R) = 1) := by
    intro h
    exact absurd h.2.2.1 (by decide)
  obtain ⟨mid, r, hres, hrc, hrr, _, hmm, hh, hv⟩ :=
    ResizeImage_two_pass env scratch image columns rows FilterTypes.TriangleFilter 1 hc hr hslow
      hmon
  have hft : resizeFilterType image FilterTypes.TriangleFilter
      ((columns : R) / (image.columns : R)) ((rows : R) / (image.rows : R)) =
        FilterTypes.TriangleFilter := by
    simp [resizeFilterType]
  rw [hft] at hh hv
  have hmidm : mid.matte = false := by rw [hmm, hmatte]
  refine ⟨r, hres, hrc, hrr, ?_⟩
  intro x y hx hy
  by_cases hwl : ((columns : R) / (image.columns : R)) * ((rows : R) / (image.rows : R)) >
      WorkLoadFactor
  · obtain ⟨hmc, hmr, hmid, hrp⟩ := hh hwl
    have hmsolid : ∀ a b : ℕ, a < mid.columns → b < mid.rows → mid.pixels a b = colour := by
      intro a b ha hb'
      rw [hmc] at ha
      rw [hmr] at hb'
      rw [hmid a b ha hb']
      exact horizontalSample_solid env _ image image _ a b colour hmatte hsolid hb'
        (triangle_weights_sum env _ hf hw hs hb image.columns columns a hic hc ha) hclamp hcolour
    rw [hrp x y hx hy]
    apply verticalSample_solid env _ mid mid _ x y colour hmidm hmsolid (by rw [hmc]; exact hx)
      _ hclamp hcolour
    rw [hmr]
    exact triangle_weights_sum env _ hf hw hs hb image.rows rows y hir hr hy
  · obtain ⟨hmc, hmr, hmid, hrp⟩ := hv hwl
    have hmsolid : ∀ a b : ℕ, a < mid.columns → b < mid.rows → mid.pixels a b = colour := by
      intro a b ha hb'
      rw [hmc] at ha
      rw [hmr] at hb'
      rw [hmid a b ha hb']
      exact verticalSample_solid env _ image image _ a b colour hmatte hsolid ha
        (triangle_weights_sum env _ hf hw hs hb image.rows rows b hir hr hb') hclamp hcolour
    rw [hrp x y hx hy]
    apply horizontalSample_solid env _ mid mid _ x y colour hmidm hmsolid (by rw [hmr]; exact hy)
      _ hclamp hcolour
    rw [hmc]
    exact triangle_weights_sum env _ hf hw hs hb image.columns columns x hic hc hx

/-- Witness of C5: the 4 by 4 solid gray image resized to 8 by 8 in the stock
build. -/
theorem triangle_constant_invariance_witness :
    ∃ r : Image ℚ,
      ResizeImage envQ16 (ResizeOracle.ok blackScratch) (solidImage 4 4 ⟨30000, 30000, 30000, 0⟩)
        8 8 FilterTypes.TriangleFilter 1 = ResizeOutcome.image r ∧
      r.columns = 8 ∧ r.rows = 8 ∧
      ∀ x y : ℕ, x < 8 → y < 8 → r.pixels x y = ⟨30000, 30000, 30000, 0⟩ :=
  (triangle_constant_invariance envQ16 blackScratch (solidImage 4 4 ⟨30000, 30000, 30000, 0⟩)
    8 8 ⟨30000, 30000, 30000, 0⟩ (by decide) (by decide) (by decide) (by decide) rfl rfl
    (by intro mon h; cases h) (by norm_num [envQ16]) (fun _ _ _ _ => rfl)
    (fun q hq => ClampToQuantumInteger_natCast 65535 q hq)
    (by decide)).2.2

end SolidTheorems

section BoxClaim

variable {R : Type} [LinearOrderedField R] [FloorRing R]

/-- C6, as the code has it: in a 2:1 Box pass at blur 1 (`0 < MagickEpsilon <
1`) over a source of even extent `2m`, output sample `x` has exactly the two
contributions `2x` and `2x+1`, each of normalized weight 1/2, so that over an
image without alpha a pass writes the clamped mean of the two source samples;
on both axes (the vertical pass runs first) each output pixel is the clamped
mean of the two clamped column means of its 2x2 source block, which is the
colour of the block when its four pixels are equal. -/
theorem box_half_block_mean (env : MagickEnv R) (scratch : Scratch) (image : Image R) (m k : ℕ)
    (hm : 0 < m) (hk : 0 < k) (hcols : image.columns = 2 * m) (hrows : image.rows = 2 * k)
    (hart : image.artifacts = Artifacts.none) (hmatte : image.matte = false)
    (hmon : ∀ mon, image.progress_monitor = some mon → ∀ o s, mon o s = true)
    (heps0 : 0 < env.MagickEpsilon) (heps1 : env.MagickEpsilon < 1) :
    (∀ x : ℕ, x < m →
      contributionList env (AcquireResizeFilter env image FilterTypes.BoxFilter 1 false)
        (1 / 2) (2 * m) x = [⟨1 / 2, 2 * (x : ℤ)⟩, ⟨1 / 2, 2 * (x : ℤ) + 1⟩]) ∧
    (∀ x y : ℕ, x < m →
      (horizontalSample env (AcquireResizeFilter env image FilterTypes.BoxFilter 1 false)
        image image (1 / 2) x y).1 =
          meanPixel env (image.pixels (2 * (x : ℤ)) (y : ℤ))
            (image.pixels (2 * (x : ℤ) + 1) (y : ℤ))) ∧
    ∃ r : Image R,
      ResizeImage env (ResizeOracle.ok scratch) image m k FilterTypes.BoxFilter 1 =
        ResizeOutcome.image r ∧
      r.columns = m ∧ r.rows = k ∧
      ∀ x y : ℕ, x < m → y < k →
        r.pixels x y =
          meanPixel env
            (meanPixel env (image.pixels (2 * (x : ℤ)) (2 * (y : ℤ)))
              (image.pixels (2 * (x : ℤ)) (2 * (y : ℤ) + 1)))
            (meanPixel env (image.pixels (2 * (x : ℤ) + 1) (2 * (y : ℤ)))
              (image.pixels (2 * (x : ℤ) + 1) (2 * (y : ℤ) + 1))) ∧
        ∀ v : PixelPacket,
          (∀ q : ℕ, q ≤ env.QuantumRange → env.ClampToQuantum (q : R) = q) →
          (v.red ≤ env.QuantumRange ∧ v.green ≤ env.QuantumRange ∧
            v.blue ≤ env.QuantumRange ∧ v.opacity ≤ env.QuantumRange) →
          image.pixels (2 * (x : ℤ)) (2 * (y : ℤ)) = v →
          image.pixels (2 * (x : ℤ)) (2 * (y : ℤ) + 1) = v →
          image.pixels (2 * (x : ℤ) + 1) (2 * (y : ℤ)) = v →
          image.pixels (2 * (x : ℤ) + 1) (2 * (y : ℤ) + 1) = v →
          r.pixels x y = v := by
  obtain ⟨hf, hw, hs, hb⟩ := box_filter_fields env image hart (le_of_lt heps1)
  refine ⟨fun x hx => box_half_contributions env _ hf hw hs hb heps0 heps1 m x hx,
    fun x y hx => horizontal_box_sample env _ image image hf hw hs hb heps0 heps1 hmatte m hcols
      x y hx, ?_⟩
  obtain ⟨r, hres, hrc, hrr, hpix⟩ :=
    box_half_pixels env scratch image m k hm hk hcols hrows hart hmatte hmon heps0 heps1
  refine ⟨r, hres, hrc, hrr, ?_⟩
  intro x y hx hy
  refine ⟨hpix x y hx hy, ?_⟩
  intro v hclamp hv ha hc hb' hd
  rw [hpix x y hx hy, ha, hc, hb', hd, meanPixel_self env v hclamp hv,
    meanPixel_self env v hclamp hv]

/-- Witness of C6: the 4 by 4 solid gray image resized to 2 by 2 in the stock
build. -/
theorem box_half_block_mean_witness :
    ∃ r : Image ℚ,
      ResizeImage envQ16 (ResizeOracle.ok blackScratch) (solidImage 4 4 ⟨30000, 30000, 30000, 0⟩)
        2 2 FilterTypes.BoxFilter 1 = ResizeOutcome.image r ∧
      ∀ x y : ℕ, x < 2 → y < 2 → r.pixels x y = ⟨30000, 30000, 30000, 0⟩ := by
  obtain ⟨r, hres, _, _, hpix⟩ :=
    (box_half_block_mean envQ16 blackScratch (solidImage 4 4 ⟨30000, 30000, 30000, 0⟩) 2 2
      (by decide) (by decide) rfl rfl rfl rfl (by intro mon h; cases h)
      (by norm_num [envQ16]) (by norm_num [envQ16])).2.2
  exact ⟨r, hres, fun x y hx hy =>
    (hpix x y hx hy).2 ⟨30000, 30000, 30000, 0⟩
      (fun q hq => ClampToQuantumInteger_natCast 65535 q hq) (by decide) rfl rfl rfl rfl⟩

end BoxClaim

/-- In the stock build a half rounds up to 1. -/
theorem clamp_half : ClampToQuantumInteger 65535 (2⁻¹ : ℚ) = 1 := by
  unfold ClampToQuantumInteger
  rw [if_neg (by norm_num), if_neg (by norm_num)]
  have : castToInt ((2⁻¹ : ℚ) + 1 / 2) = 1 := by
    apply castToInt_eq_of_mem <;> norm_num
  rw [this]
  rfl

/-- In the stock build zero stays zero. -/
theorem clamp_zero : ClampToQuantumInteger 65535 (0 : ℚ) = 0 := by
  simp [ClampToQuantumInteger]

/-- C6 as stated fails: in the stock build, the 2 by 2 image whose pixels have
red 1, 0, 0, 0 is resized to 1 by 1 with the Box filter into a pixel of red 1,
while the exact average of the block is 1/4. -/
theorem box_half_not_block_average :
    ∃ r : Image ℚ,
      ResizeImage envQ16 (ResizeOracle.ok blackScratch) dotImage 1 1 FilterTypes.BoxFilter 1 =
        ResizeOutcome.image r ∧
      (r.pixels 0 0).red = 1 ∧
      (((dotImage.pixels 0 0).red + (dotImage.pixels 1 0).red + (dotImage.pixels 0 1).red +
        (dotImage.pixels 1 1).red : ℕ) : ℚ) / 4 = 1 / 4 ∧
      ((r.pixels 0 0).red : ℚ) ≠
        (((dotImage.pixels 0 0).red + (dotImage.pixels 1 0).red + (dotImage.pixels 0 1).red +
          (dotImage.pixels 1 1).red : ℕ) : ℚ) / 4 := by
  obtain ⟨r, hres, _, _, hpix⟩ :=
    box_half_pixels envQ16 blackScratch dotImage 1 1 (by decide) (by decide) rfl rfl rfl rfl
      (by intro mon h; cases h) (by norm_num [envQ16]) (by norm_num [envQ16])
  have h00 := hpix 0 0 (by decide) (by decide)
  have hred : (r.pixels 0 0).red = 1 := by
    have h := congrArg PixelPacket.red h00
    simp only [Nat.cast_zero] at h
    rw [h]
    simp [meanPixel, dotImage, envQ16, clamp_half, clamp_zero]
  refine ⟨r, hres, hred, ?_, ?_⟩
  · simp [dotImage]
  · rw [hred]
    simp [dotImage]

/-! ## The normalization step at work: theorems -/

/-- Witness of C1: output coordinate 1 of the 2:1 Box pass over a source of
extent 4 in the stock build, whose raw weights add up to 2. -/
theorem weights_sum_one_witness :
    ((contributionList envQ16
      (AcquireResizeFilter envQ16 (solidImage 4 4 ⟨0, 0, 0, 0⟩) FilterTypes.BoxFilter 1 false)
      (1 / 2) (2 * 2) 1).map ContributionInfo.weight).sum = 1 :=
  weights_sum_one envQ16 _ (1 / 2) (2 * 2) 1 (by
    obtain ⟨hf, hw, hs, hb⟩ := box_filter_fields envQ16 (solidImage 4 4 ⟨0, 0, 0, 0⟩) rfl
      (by norm_num [envQ16])
    rw [box_half_raw envQ16 _ hf hw hs hb (by norm_num [envQ16]) (by norm_num [envQ16]) 2 1
      (by decide)]
    simp [density])

/-- The weight of an unwindowed Triangle filter. -/
theorem weight_triangle_blur {R : Type} [LinearOrderedField R] [FloorRing R] (env : MagickEnv R)
    (f : ResizeFilter R) (t : R)
    (hf : f.filter = FilterFunction.Triangle) (hw : f.window = FilterFunction.Box) :
    GetResizeFilterWeight env f t = Triangle (|t| / f.blur) := by
  simp [GetResizeFilterWeight, hf, hw, FilterFunction.call]

/-- C1 as stated fails: with the Triangle filter at blur 1/4, the one
contribution of output coordinate 0 of a pass from extent 1 to extent 2 (scale
factor 2) has raw weight 0, the normalization step is skipped, and the weights
sum to 0. -/
theorem weights_sum_zero_triangle_quarter :
    contributionList envQ16
      (AcquireResizeFilter envQ16 (solidImage 1 1 ⟨0, 0, 0, 0⟩) FilterTypes.TriangleFilter (1 / 4)
        false) 2 1 0 = [⟨0, 0⟩] ∧
    ((contributionList envQ16
      (AcquireResizeFilter envQ16 (solidImage 1 1 ⟨0, 0, 0, 0⟩) FilterTypes.TriangleFilter (1 / 4)
        false) 2 1 0).map ContributionInfo.weight).sum ≠ 1 := by
  have hf : (AcquireResizeFilter envQ16 (solidImage 1 1 ⟨0, 0, 0, 0⟩) FilterTypes.TriangleFilter
      (1 / 4) false).filter = FilterFunction.Triangle := rfl
  have hw : (AcquireResizeFilter envQ16 (solidImage 1 1 ⟨0, 0, 0, 0⟩) FilterTypes.TriangleFilter
      (1 / 4) false).window = FilterFunction.Box := rfl
  have hs : (AcquireResizeFilter envQ16 (solidImage 1 1 ⟨0, 0, 0, 0⟩) FilterTypes.TriangleFilter
      (1 / 4) false).support = 1 := rfl
  have hb : (AcquireResizeFilter envQ16 (solidImage 1 1 ⟨0, 0, 0, 0⟩) FilterTypes.TriangleFilter
      (1 / 4) false).blur = 1 / 4 := by
    norm_num [AcquireResizeFilter, acquireBlur, solidImage, Artifacts.none, envQ16]
  generalize AcquireResizeFilter envQ16 (solidImage 1 1 ⟨0, 0, 0, 0⟩) FilterTypes.TriangleFilter
      (1 / 4) false = f at hf hw hs hb
  have hscale : passScale envQ16 (2 : ℚ) = 1 := by
    norm_num [passScale, MagickMax, envQ16]
  have hraw : rawSupport envQ16 f 2 = 1 / 4 := by
    unfold rawSupport GetResizeFilterSupport
    rw [hscale, hs, hb]; norm_num
  have hsup : passSupport envQ16 f 2 = 1 / 2 := by
    unfold passSupport
    rw [hraw]; norm_num
  have hls : loopScale envQ16 f 2 = 1 := by
    unfold loopScale
    rw [hraw]; norm_num
  have hcen : passCenter (2 : ℚ) 0 = 1 / 4 := by
    norm_num [passCenter]
  have hstart : passStart (1 / 2 : ℚ) (1 / 4) = 0 := by
    unfold passStart
    apply castToInt_eq_of_mem <;> norm_num [MagickMax]
  have hstop : passStop (1 / 2 : ℚ) (1 / 4) 1 = 1 := by
    unfold passStop
    apply castToInt_eq_of_mem <;> norm_num [MagickMin]
  have hlist : contributionList envQ16 f 2 1 0 = [⟨0, 0⟩] := by
    unfold contributionList
    simp only []
    rw [hsup, hls, hcen, hstart, hstop]
    have hrawl : rawContribution envQ16 f 1 (1 / 4) 0 1 = [⟨0, 0⟩] := by
      unfold rawContribution
      simp [List.range_succ, weight_triangle_blur envQ16 f _ hf hw, hb, Triangle]
      rw [show |(-4⁻¹ + 2⁻¹ : ℚ)| = 1 / 4 from by rw [abs_of_pos] <;> norm_num]
      norm_num
    rw [hrawl]
    simp [normalize, density]
  refine ⟨hlist, ?_⟩
  rw [hlist]
  simp

/-! ## The identity resize: theorems -/

/-- C4, as the code has it: `ResizeImage(image, image.columns, image.rows,
UndefinedFilter, 1.0)` takes the identity fast path and, when the clone is
allocated, returns an image equal to the source, pixel for pixel. -/
theorem identity_resize_undefined {R : Type} [LinearOrderedField R] [FloorRing R]
    (env : MagickEnv R) (oracle : ResizeOracle) (image : Image R)
    (hc : 0 < image.columns) (hr : 0 < image.rows) (hclone : oracle.cloneSource = true) :
    ResizeImage env oracle image image.columns image.rows FilterTypes.UndefinedFilter 1 =
      ResizeOutcome.image image ∧
    ∀ r : Image R,
      ResizeImage env oracle image image.columns image.rows FilterTypes.UndefinedFilter 1 =
        ResizeOutcome.image r →
      ∀ x y : ℤ, r.pixels x y = image.pixels x y := by
  have hres : ResizeImage env oracle image image.columns image.rows FilterTypes.UndefinedFilter 1 =
      ResizeOutcome.image image := by
    unfold ResizeImage
    have hzero : ¬ (image.columns = 0 ∨ image.rows = 0) := by omega
    rw [if_neg hzero, if_pos ⟨rfl, rfl, rfl, rfl⟩, hclone]
    simp [CloneImage]
  refine ⟨hres, ?_⟩
  intro r h x y
  rw [hres] at h
  cases h
  rfl

/-- Witness of C4: the 2 by 1 step image in the stock build. -/
theorem identity_resize_undefined_witness :
    ResizeImage envQ16 (ResizeOracle.ok blackScratch) stepImage stepImage.columns stepImage.rows
      FilterTypes.UndefinedFilter 1 = ResizeOutcome.image stepImage :=
  (identity_resize_undefined envQ16 (ResizeOracle.ok blackScratch) stepImage (by decide)
    (by decide) rfl).1

/-- The Cubic filter built with blur 1 and no artifacts in the stock build. -/
theorem cubic_filter_fields (image : Image ℚ) (hart : image.artifacts = Artifacts.none) :
    (AcquireResizeFilter envQ16 image FilterTypes.CubicFilter 1 false).filter =
      FilterFunction.CubicBC ∧
    (AcquireResizeFilter envQ16 image FilterTypes.CubicFilter 1 false).window =
      FilterFunction.Box ∧
    (AcquireResizeFilter envQ16 image FilterTypes.CubicFilter 1 false).support = 2 ∧
    (AcquireResizeFilter envQ16 image FilterTypes.CubicFilter 1 false).blur = 1 ∧
    (AcquireResizeFilter envQ16 image FilterTypes.CubicFilter 1 false).cubic =
      cubicCoefficients 1 0 := by
  refine ⟨?_, ?_, ?_, ?_, ?_⟩ <;>
    norm_num [AcquireResizeFilter, acquireTypes, acquireSupport, acquireBlur, acquireBC, mapping,
      filters, hart, Artifacts.none, envQ16]

/-- The weight of an unwindowed cubic filter at blur 1. -/
theorem weight_cubic (env : MagickEnv ℚ) (f : ResizeFilter ℚ) (t : ℚ)
    (hf : f.filter = FilterFunction.CubicBC) (hw : f.window = FilterFunction.Box)
    (hb : f.blur = 1) :
    GetResizeFilterWeight env f t = CubicBC |t| f := by
  simp [GetResizeFilterWeight, hf, hw, hb, FilterFunction.call]

/-- The contribution list of output column 0 of the identity pass of the Cubic
filter over two columns, in the stock build. -/
theorem cubic_identity_contributions (f : ResizeFilter ℚ)
    (hf : f.filter = FilterFunction.CubicBC) (hw : f.window = FilterFunction.Box)
    (hs : f.support = 2) (hb : f.blur = 1) (hcub : f.cubic = cubicCoefficients 1 0) :
    contributionList envQ16 f 1 2 0 =
      [⟨1000000000300000000030000000001 / 1250000000450000000060000000002, 0⟩,
       ⟨250000000150000000030000000001 / 1250000000450000000060000000002, 1⟩] := by
  have hscale : passScale envQ16 (1 : ℚ) = 10000000001 / 10000000000 := by
    norm_num [passScale, MagickMax, envQ16]
  have hraw : rawSupport envQ16 f 1 = 10000000001 / 5000000000 := by
    unfold rawSupport GetResizeFilterSupport
    rw [hscale, hs, hb]; norm_num
  have hsup : passSupport envQ16 f 1 = 10000000001 / 5000000000 := by
    unfold passSupport
    rw [hraw]; norm_num
  have hls : loopScale envQ16 f 1 = 10000000000 / 10000000001 := by
    unfold loopScale
    rw [hraw, hscale]; norm_num
  have hcen : passCenter (1 : ℚ) 0 = 1 / 2 := by
    norm_num [passCenter]
  have hstart : passStart (10000000001 / 5000000000 : ℚ) (1 / 2) = 0 := by
    unfold passStart
    apply castToInt_eq_of_mem <;> norm_num [MagickMax]
  have hstop : passStop (10000000001 / 5000000000 : ℚ) (1 / 2) 2 = 2 := by
    unfold passStop
    apply castToInt_eq_of_mem <;> norm_num [MagickMin]
  have hw0 : GetResizeFilterWeight envQ16 f 0 = 2 / 3 := by
    rw [weight_cubic envQ16 f _ hf hw hb]
    norm_num [CubicBC, hcub, cubicCoefficients]
  have hw1 : GetResizeFilterWeight envQ16 f (10000000000 / 10000000001) =
      250000000150000000030000000001 / 1500000000450000000045000000001500000000 * 1000000000 := by
    rw [weight_cubic envQ16 f _ hf hw hb,
      show |(10000000000 / 10000000001 : ℚ)| = 10000000000 / 10000000001 from
        abs_of_pos (by norm_num)]
    norm_num [CubicBC, hcub, cubicCoefficients]
  unfold contributionList
  simp only []
  rw [hsup, hls, hcen, hstart, hstop]
  have hrawl : rawContribution envQ16 f (10000000000 / 10000000001) (1 / 2) 0 2 =
      [⟨2 / 3, 0⟩,
       ⟨250000000150000000030000000001 / 1500000000450000000045000000001500000000 * 1000000000,
        1⟩] := by
    unfold rawContribution
    have e0 : (10000000000 / 10000000001 : ℚ) * (((0 + ((0 : ℕ) : ℤ) : ℤ) : ℚ) - 1 / 2 + 1 / 2) = 0 := by
      norm_num
    have e1 : (10000000000 / 10000000001 : ℚ) * (((0 + ((1 : ℕ) : ℤ) : ℤ) : ℚ) - 1 / 2 + 1 / 2) =
        10000000000 / 10000000001 := by
      norm_num
    simp only [show (2 - 0 : ℤ).toNat = 2 from rfl, List.range_succ, List.range_zero,
      List.nil_append, List.cons_append, List.map_cons, List.map_nil, e0, e1, hw0, hw1]
    norm_num
  rw [hrawl]
  norm_num [normalize, density]

/-- The contribution list of the one output row of the identity pass of the
Cubic filter over one row, in the stock build. -/
theorem cubic_identity_single (f : ResizeFilter ℚ)
    (hf : f.filter = FilterFunction.CubicBC) (hw : f.window = FilterFunction.Box)
    (hs : f.support = 2) (hb : f.blur = 1) (hcub : f.cubic = cubicCoefficients 1 0) :
    contributionList envQ16 f 1 1 0 = [⟨1, 0⟩] := by
  have hscale : passScale envQ16 (1 : ℚ) = 10000000001 / 10000000000 := by
    norm_num [passScale, MagickMax, envQ16]
  have hraw : rawSupport envQ16 f 1 = 10000000001 / 5000000000 := by
    unfold rawSupport GetResizeFilterSupport
    rw [hscale, hs, hb]; norm_num
  have hsup : passSupport envQ16 f 1 = 10000000001 / 5000000000 := by
    unfold passSupport
    rw [hraw]; norm_num
  have hls : loopScale envQ16 f 1 = 10000000000 / 10000000001 := by
    unfold loopScale
    rw [hraw, hscale]; norm_num
  have hcen : passCenter (1 : ℚ) 0 = 1 / 2 := by
    norm_num [passCenter]
  have hstart : passStart (10000000001 / 5000000000 : ℚ) (1 / 2) = 0 := by
    unfold passStart
    apply castToInt_eq_of_mem <;> norm_num [MagickMax]
  have hstop : passStop (10000000001 / 5000000000 : ℚ) (1 / 2) 1 = 1 := by
    unfold passStop
    apply castToInt_eq_of_mem <;> norm_num [MagickMin]
  have hw0 : GetResizeFilterWeight envQ16 f 0 = 2 / 3 := by
    rw [weight_cubic envQ16 f _ hf hw hb]
    norm_num [CubicBC, hcub, cubicCoefficients]
  unfold contributionList
  simp only []
  rw [hsup, hls, hcen, hstart, hstop]
  have hrawl : rawContribution envQ16 f (10000000000 / 10000000001) (1 / 2) 0 1 =
      [⟨2 / 3, 0⟩] := by
    unfold rawContribution
    have e0 : (10000000000 / 10000000001 : ℚ) * (((0 + ((0 : ℕ) : ℤ) : ℤ) : ℚ) - 1 / 2 + 1 / 2) = 0 := by
      norm_num
    simp only [show (1 - 0 : ℤ).toNat = 1 from rfl, List.range_succ, List.range_zero,
      List.nil_append, List.map_cons, List.map_nil, e0, hw0]
    norm_num
  rw [hrawl]
  norm_num [normalize, density]

/-- C4 as stated fails: in the stock build the identity resize of the 2 by 1
step image (red 60000, 0) with the Cubic filter at blur 1 returns an image
whose pixel at column 0 has red 48000. -/
theorem identity_resize_cubic_blurs :
    ∃ r : Image ℚ,
      ResizeImage envQ16 (ResizeOracle.ok blackScratch) stepImage stepImage.columns
        stepImage.rows FilterTypes.CubicFilter 1 = ResizeOutcome.image r ∧
      (r.pixels 0 0).red = 48000 ∧ (stepImage.pixels 0 0).red = 60000 ∧
      r.pixels 0 0 ≠ stepImage.pixels 0 0 := by
  have hslow : ¬ (stepImage.columns = stepImage.columns ∧ stepImage.rows = stepImage.rows ∧
      FilterTypes.CubicFilter = FilterTypes.UndefinedFilter ∧ (1 : ℚ) = 1) := by
    intro h
    exact absurd h.2.2.1 (by decide)
  obtain ⟨mid, r, hres, _, _, _, hmm, hh, _⟩ :=
    ResizeImage_two_pass envQ16 blackScratch stepImage stepImage.columns stepImage.rows
      FilterTypes.CubicFilter 1 (by decide) (by decide) hslow (by intro mon h; cases h)
  have hxf : ((stepImage.columns : ℕ) : ℚ) / ((stepImage.columns : ℕ) : ℚ) = 1 := by
    norm_num [stepImage, solidImage]
  have hyf : ((stepImage.rows : ℕ) : ℚ) / ((stepImage.rows : ℕ) : ℚ) = 1 := by
    norm_num [stepImage, solidImage]
  have hft : resizeFilterType stepImage FilterTypes.CubicFilter (1 : ℚ) 1 =
      FilterTypes.CubicFilter := by
    simp [resizeFilterType]
  rw [hxf, hyf, hft] at hh
  obtain ⟨hmc, hmr, hmid, hrp⟩ := hh (by norm_num [WorkLoadFactor])
  obtain ⟨hf, hw, hs, hb, hcub⟩ := cubic_filter_fields stepImage rfl
  have hmidm : mid.matte = false := by rw [hmm]; rfl
  have hmid00 : (mid.pixels 0 0).red = 48000 := by
    have h := hmid 0 0 (by decide) (by decide)
    simp only [Nat.cast_zero] at h
    rw [h, horizontalSample_noAlpha envQ16 _ stepImage stepImage 1 0 0 rfl,
      show stepImage.columns = 2 from rfl,
      cubic_identity_contributions _ hf hw hs hb hcub]
    simp only [List.map_cons, List.map_nil, List.sum_cons, List.sum_nil]
    show envQ16.ClampToQuantum _ = 48000
    have hval : ClampToQuantumInteger 65535
        ((1000000000300000000030000000001 / 1250000000450000000060000000002 : ℚ) *
          (((stepImage.pixels 0 ((0 : ℕ) : ℤ)).red : ℕ) : ℚ) +
        ((250000000150000000030000000001 / 1250000000450000000060000000002 : ℚ) *
          (((stepImage.pixels 1 ((0 : ℕ) : ℤ)).red : ℕ) : ℚ) + 0)) = 48000 := by
      have e : ((1000000000300000000030000000001 / 1250000000450000000060000000002 : ℚ) *
          (((stepImage.pixels 0 ((0 : ℕ) : ℤ)).red : ℕ) : ℚ) +
        ((250000000150000000030000000001 / 1250000000450000000060000000002 : ℚ) *
          (((stepImage.pixels 1 ((0 : ℕ) : ℤ)).red : ℕ) : ℚ) + 0)) =
          30000000009000000000900000000030000 / 625000000225000000030000000001 := by
        norm_num [stepImage]
      rw [e]
      unfold ClampToQuantumInteger
      rw [if_neg (by norm_num), if_neg (by norm_num)]
      have hc : castToInt ((30000000009000000000900000000030000 /
          625000000225000000030000000001 : ℚ) + 1 / 2) = 48000 := by
        apply castToInt_eq_of_mem <;> norm_num
      rw [hc]
      rfl
    exact hval
  have hr00 : (r.pixels 0 0).red = 48000 := by
    have h := hrp 0 0 (by decide) (by decide)
    simp only [Nat.cast_zero] at h
    rw [h, verticalSample_noAlpha envQ16 _ mid mid 1 0 0 hmidm (by rw [hmc]; decide), hmr,
      show stepImage.rows = 1 from rfl, cubic_identity_single _ hf hw hs hb hcub]
    simp only [List.map_cons, List.map_nil, List.sum_cons, List.sum_nil, Nat.cast_zero, one_mul,
      add_zero, hmid00]
    exact @ClampToQuantumInteger_natCast ℚ _ _ 65535 48000 (by decide)
  refine ⟨r, hres, hr00, rfl, ?_⟩
  intro heq
  have := congrArg PixelPacket.red heq
  rw [hr00] at this
  exact absurd this (by decide)

/-! ## The alpha channel: theorems -/

section AlphaTheorems

variable {R : Type} [LinearOrderedField R] [FloorRing R]

/-- The alpha weight of a fully transparent pixel is 0. -/
theorem alpha_weight_transparent (env : MagickEnv R) (w : R) (q : PixelPacket)
    (h : q.opacity = env.QuantumRange) :
    w * env.QuantumScale * GetAlphaPixelComponent env q = 0 := by
  unfold GetAlphaPixelComponent
  rw [h, sub_self, mul_zero]

/-- The alpha weight of an opaque pixel is its weight. -/
theorem alpha_weight_solid (env : MagickEnv R) (w : R) (q : PixelPacket)
    (hQR : 0 < env.QuantumRange) (h : q.opacity = 0) :
    w * env.QuantumScale * GetAlphaPixelComponent env q = w := by
  have hne : (env.QuantumRange : R) ≠ 0 := by
    exact_mod_cast (Nat.pos_iff_ne_zero.mp hQR)
  unfold GetAlphaPixelComponent MagickEnv.QuantumScale
  rw [h]
  field_simp

/-- The sums of the alpha branch over contributions that are all fully
transparent vanish. -/
theorem alpha_sum_transparent (env : MagickEnv R) (l : List (ContributionInfo R))
    (p : ℤ → PixelPacket) (offset : ContributionInfo R → ℤ) (g : PixelPacket → R)
    (h : ∀ c ∈ l, (p (offset c)).opacity = env.QuantumRange) :
    (l.map fun c => c.weight * env.QuantumScale * GetAlphaPixelComponent env (p (offset c)) *
      g (p (offset c))).sum = 0 := by
  apply List.sum_eq_zero
  intro t ht
  obtain ⟨c, hc, rfl⟩ := List.mem_map.mp ht
  rw [alpha_weight_transparent env _ _ (h c hc), zero_mul]

/-- The value of `gamma` over contributions that are all fully transparent is
0. -/
theorem gamma_sum_transparent (env : MagickEnv R) (l : List (ContributionInfo R))
    (p : ℤ → PixelPacket) (offset : ContributionInfo R → ℤ)
    (h : ∀ c ∈ l, (p (offset c)).opacity = env.QuantumRange) :
    (l.map fun c => c.weight * env.QuantumScale *
      GetAlphaPixelComponent env (p (offset c))).sum = 0 := by
  apply List.sum_eq_zero
  intro t ht
  obtain ⟨c, hc, rfl⟩ := List.mem_map.mp ht
  exact alpha_weight_transparent env _ _ (h c hc)

/-- The sample written from one opaque pixel `A` among fully transparent ones:
red, green and blue are those of `A`, whatever the colours of the transparent
pixels, and the opacity is the clamped weighted sum of the opacities. -/
theorem filterSample_one_solid (env : MagickEnv R) (image r : Image R)
    (before after : List (ContributionInfo R)) (A : ContributionInfo R) (p : ℤ → PixelPacket)
    (indexes : ℤ → ℕ) (offset : ContributionInfo R → ℤ) (center : R) (start stop : ℤ) (old : ℕ)
    (hmatte : image.matte = true) (hQR : 0 < env.QuantumRange)
    (heps : 0 ≤ env.MagickEpsilon) (hweight : env.MagickEpsilon < A.weight)
    (hsolidA : (p (offset A)).opacity = 0)
    (htransparent : ∀ c ∈ before ++ after, (p (offset c)).opacity = env.QuantumRange)
    (hclamp : ∀ q : ℕ, q ≤ env.QuantumRange → env.ClampToQuantum (q : R) = q)
    (hA : (p (offset A)).red ≤ env.QuantumRange ∧ (p (offset A)).green ≤ env.QuantumRange ∧
      (p (offset A)).blue ≤ env.QuantumRange) :
    (filterSample env image r (before ++ A :: after) p indexes offset center start stop old).1 =
      { red := (p (offset A)).red
        green := (p (offset A)).green
        blue := (p (offset A)).blue
        opacity := env.ClampToQuantum
          ((before ++ A :: after).map fun c => c.weight * ((p (offset c)).opacity : R)).sum } := by
  have hb : ∀ c ∈ before, (p (offset c)).opacity = env.QuantumRange :=
    fun c hc => htransparent c (List.mem_append_left _ hc)
  have ha : ∀ c ∈ after, (p (offset c)).opacity = env.QuantumRange :=
    fun c hc => htransparent c (List.mem_append_right _ hc)
  have hwpos : 0 < A.weight := lt_of_le_of_lt heps hweight
  have hgamma : (accumulateAlpha env (before ++ A :: after) p offset).2 = A.weight := by
    rw [accumulateAlpha_eq]
    simp only [List.map_append, List.map_cons, List.sum_append, List.sum_cons]
    rw [gamma_sum_transparent env before p offset hb, gamma_sum_transparent env after p offset ha,
      alpha_weight_solid env _ _ hQR hsolidA]
    ring
  have hch : ∀ g : PixelPacket → R,
      ((before ++ A :: after).map fun c => c.weight * env.QuantumScale *
        GetAlphaPixelComponent env (p (offset c)) * g (p (offset c))).sum =
      A.weight * g (p (offset A)) := by
    intro g
    simp only [List.map_append, List.map_cons, List.sum_append, List.sum_cons]
    rw [alpha_sum_transparent env before p offset g hb,
      alpha_sum_transparent env after p offset g ha, alpha_weight_solid env _ _ hQR hsolidA]
    ring
  have hinv : gammaInverse env A.weight = 1 / A.weight := by
    unfold gammaInverse
    rw [if_neg]
    rw [abs_of_pos hwpos]
    exact not_le.mpr hweight
  have hmul : ∀ t : R, 1 / A.weight * (A.weight * t) = t := by
    intro t
    field_simp
  rw [filterSample_alpha env image r _ p indexes offset center start stop old hmatte, hgamma, hinv]
  have hred := hch fun q => (q.red : R)
  have hgreen := hch fun q => (q.green : R)
  have hblue := hch fun q => (q.blue : R)
  simp only [accumulateAlpha_eq] at *
  rw [hred, hgreen, hblue, hmul, hmul, hmul, hclamp _ hA.1, hclamp _ hA.2.1, hclamp _ hA.2.2]


/-- The 2x1 -> 1x1 Box case over an image with an alpha channel: from an opaque
pixel at column 0 and a fully transparent pixel at column 1, the horizontal
pass writes the colour of the opaque pixel with the opacity
`ClampToQuantum(QuantumRange/2)`. -/
theorem horizontal_box_alpha (env : MagickEnv R) (image r : Image R) (y : ℕ)
    (hart : image.artifacts = Artifacts.none) (hmatte : image.matte = true)
    (hcols : image.columns = 2)
    (heps0 : 0 < env.MagickEpsilon) (heps1 : env.MagickEpsilon < 1 / 2)
    (hQR : 0 < env.QuantumRange)
    (hsolidA : (image.pixels 0 (y : ℤ)).opacity = 0)
    (htransparent : (image.pixels 1 (y : ℤ)).opacity = env.QuantumRange)
    (hclamp : ∀ q : ℕ, q ≤ env.QuantumRange → env.ClampToQuantum (q : R) = q)
    (hA : (image.pixels 0 (y : ℤ)).red ≤ env.QuantumRange ∧
      (image.pixels 0 (y : ℤ)).green ≤ env.QuantumRange ∧
      (image.pixels 0 (y : ℤ)).blue ≤ env.QuantumRange) :
    (horizontalSample env (AcquireResizeFilter env image FilterTypes.BoxFilter 1 false)
      image r (1 / 2) 0 y).1 =
      { red := (image.pixels 0 (y : ℤ)).red
        green := (image.pixels 0 (y : ℤ)).green
        blue := (image.pixels 0 (y : ℤ)).blue
        opacity := env.ClampToQuantum ((env.QuantumRange : R) / 2) } := by
  obtain ⟨hf, hw, hs, hb⟩ := box_filter_fields env image hart (by linarith)
  have hL : contributionList env (AcquireResizeFilter env image FilterTypes.BoxFilter 1 false)
      (1 / 2) image.columns 0 = [⟨1 / 2, 0⟩, ⟨1 / 2, 1⟩] := by
    have h := box_half_contributions env _ hf hw hs hb heps0 (by linarith) 1 0 (by decide)
    rw [hcols]
    simpa using h
  have hread := horizontal_read env (AcquireResizeFilter env image FilterTypes.BoxFilter 1 false)
    image (1 / 2) 0 y
  unfold horizontalSample
  simp only []
  rw [hL] at hread ⊢
  have hrA := hread ⟨1 / 2, 0⟩ (by simp)
  have hrB := hread ⟨1 / 2, 1⟩ (by simp)
  have key := filterSample_one_solid env image r [] [⟨1 / 2, 1⟩] ⟨1 / 2, 0⟩
    (GetCacheViewVirtualPixels image
      (contributionAt ([⟨1 / 2, 0⟩, ⟨1 / 2, 1⟩] : List (ContributionInfo R)) 0).pixel 0
      (spanWidth ([⟨1 / 2, 0⟩, ⟨1 / 2, 1⟩] : List (ContributionInfo R))))
    (GetCacheViewVirtualIndexQueue image
      (contributionAt ([⟨1 / 2, 0⟩, ⟨1 / 2, 1⟩] : List (ContributionInfo R)) 0).pixel 0
      (spanWidth ([⟨1 / 2, 0⟩, ⟨1 / 2, 1⟩] : List (ContributionInfo R))))
    (fun c => (y : ℤ) * spanWidth ([⟨1 / 2, 0⟩, ⟨1 / 2, 1⟩] : List (ContributionInfo R)) +
      (c.pixel -
        (contributionAt ([⟨1 / 2, 0⟩, ⟨1 / 2, 1⟩] : List (ContributionInfo R)) 0).pixel))
    (passCenter (1 / 2) 0)
    (passStart (passSupport env (AcquireResizeFilter env image FilterTypes.BoxFilter 1 false)
      (1 / 2)) (passCenter (1 / 2) 0))
    (passStop (passSupport env (AcquireResizeFilter env image FilterTypes.BoxFilter 1 false)
      (1 / 2)) (passCenter (1 / 2) 0) image.columns)
    (r.indexes ((0 : ℕ) : ℤ) (y : ℤ))
    hmatte hQR (le_of_lt heps0) heps1
    (by rw [hrA]; exact hsolidA)
    (by
      intro c hc
      simp only [List.nil_append, List.mem_singleton] at hc
      subst hc
      rw [hrB]; exact htransparent)
    hclamp
    (by rw [hrA]; exact hA)
  simp only [List.nil_append] at key
  rw [key]
  simp only [List.map_cons, List.map_nil, List.sum_cons, List.sum_nil]
  rw [hrA, hrB, hsolidA, htransparent]
  congr 2
  push_cast
  ring

/-- C3: in a pass over an image with an alpha channel, a sample whose
contributions are one opaque pixel `A`, of weight above `MagickEpsilon`, and
otherwise only fully transparent pixels has the red, green and blue of `A`,
whatever the colours of the transparent pixels, and the clamped weighted sum of
the opacities as its opacity; in the 2x1 -> 1x1 Box case that is the colour of
`A` with the opacity `ClampToQuantum(QuantumRange/2)`. -/
theorem alpha_no_colour_bleed (env : MagickEnv R) (image r : Image R)
    (hmatte : image.matte = true) (hQR : 0 < env.QuantumRange)
    (heps0 : 0 < env.MagickEpsilon) (heps1 : env.MagickEpsilon < 1 / 2)
    (hclamp : ∀ q : ℕ, q ≤ env.QuantumRange → env.ClampToQuantum (q : R) = q) :
    (∀ (before after : List (ContributionInfo R)) (A : ContributionInfo R) (p : ℤ → PixelPacket)
      (indexes : ℤ → ℕ) (offset : ContributionInfo R → ℤ) (center : R) (start stop : ℤ) (old : ℕ),
      env.MagickEpsilon < A.weight →
      (p (offset A)).opacity = 0 →
      (∀ c ∈ before ++ after, (p (offset c)).opacity = env.QuantumRange) →
      ((p (offset A)).red ≤ env.QuantumRange ∧ (p (offset A)).green ≤ env.QuantumRange ∧
        (p (offset A)).blue ≤ env.QuantumRange) →
      (filterSample env image r (before ++ A :: after) p indexes offset center start stop old).1 =
        { red := (p (offset A)).red
          green := (p (offset A)).green
          blue := (p (offset A)).blue
          opacity := env.ClampToQuantum
            ((before ++ A :: after).map fun c => c.weight * ((p (offset c)).opacity : R)).sum }) ∧
    (∀ y : ℕ, image.artifacts = Artifacts.none → image.columns = 2 →
      (image.pixels 0 (y : ℤ)).opacity = 0 →
      (image.pixels 1 (y : ℤ)).opacity = env.QuantumRange →
      ((image.pixels 0 (y : ℤ)).red ≤ env.QuantumRange ∧
        (image.pixels 0 (y : ℤ)).green ≤ env.QuantumRange ∧
        (image.pixels 0 (y : ℤ)).blue ≤ env.QuantumRange) →
      (horizontalSample env (AcquireResizeFilter env image FilterTypes.BoxFilter 1 false)
        image r (1 / 2) 0 y).1 =
        { red := (image.pixels 0 (y : ℤ)).red
          green := (image.pixels 0 (y : ℤ)).green
          blue := (image.pixels 0 (y : ℤ)).blue
          opacity := env.ClampToQuantum ((env.QuantumRange : R) / 2) }) :=
  ⟨fun before after A p indexes offset center start stop old hweight hsolidA htransparent hA =>
      filterSample_one_solid env image r before after A p indexes offset center start stop old
        hmatte hQR (le_of_lt heps0) hweight hsolidA htransparent hclamp hA,
    fun y hart hcols hsolidA htransparent hA =>
      horizontal_box_alpha env image r y hart hmatte hcols heps0 heps1 hQR hsolidA htransparent
        hclamp hA⟩

end AlphaTheorems

/-- In the stock build half of `QuantumRange` rounds up to 32768. -/
theorem clamp_half_range : ClampToQuantumInteger 65535 ((65535 : ℚ) / 2) = 32768 := by
  unfold ClampToQuantumInteger
  rw [if_neg (by norm_num), if_neg (by norm_num)]
  have : castToInt ((65535 : ℚ) / 2 + 1 / 2) = 32768 := by
    apply castToInt_eq_of_mem <;> norm_num
  rw [this]
  rfl

/-- Witness of C3: the 2 by 1 image of an opaque red pixel and a fully
transparent pixel of another colour, in the stock build: the horizontal Box
pass to one column writes red at opacity 32768, half of `QuantumRange` rounded
up. -/
theorem alpha_no_colour_bleed_witness :
    (horizontalSample envQ16
      (AcquireResizeFilter envQ16 alphaImage FilterTypes.BoxFilter 1 false)
      alphaImage alphaImage (1 / 2) 0 0).1 = ⟨65535, 0, 0, 32768⟩ := by
  have h := (alpha_no_colour_bleed envQ16 alphaImage alphaImage rfl (by decide)
    (by norm_num [envQ16]) (by norm_num [envQ16])
    (fun q hq => ClampToQuantumInteger_natCast 65535 q hq)).2 0 rfl rfl rfl rfl (by decide)
  rw [h]
  have hc : envQ16.ClampToQuantum (((envQ16.QuantumRange : ℕ) : ℚ) / 2) = 32768 := by
    show ClampToQuantumInteger 65535 (((65535 : ℕ) : ℚ) / 2) = 32768
    have := clamp_half_range
    push_cast
    exact this
  rw [hc]
  rfl

/-! ## The support and the blur of a built filter: theorems -/

section BuilderSupportTheorems

variable {R : Type} [LinearOrderedField R] [FloorRing R]

/-- Only the row `BesselFilter` of the table `filters` has the function
`Bessel`. -/
theorem filters_function_bessel (t : FilterTypes) :
    (filters t : FilterEntry R).function = FilterFunction.Bessel ↔
      t = FilterTypes.BesselFilter := by
  cases t <;> simp [filters]

/-- The entry of `bessel_zeros` a clamped lobe count selects. -/
theorem bessel_zeros_getD (c : ℤ) (h1 : 1 ≤ c) (h16 : c ≤ 16) :
    (bessel_zeros : List R)[(c - 1).toNat]? =
      some ((bessel_zeros : List R).getD (c - 1).toNat 0) ∧
    0 < (bessel_zeros : List R).getD (c - 1).toNat 0 := by
  interval_cases c <;> simp [bessel_zeros] <;> norm_num

/-- The support the builder derives from a "filter:lobes" artifact when no
"filter:support" artifact is set. -/
theorem acquireSupport_lobes (image : Image R) (t : FilterTypes) (lobes : ℤ)
    (hl : image.artifacts.lobes = some lobes) (hs : image.artifacts.support = none) :
    acquireSupport image t =
      if t = FilterTypes.BesselFilter then
        (bessel_zeros : List R).getD (max 1 (min lobes 16) - 1).toNat 0
      else ((max lobes 1 : ℤ) : R) := by
  unfold acquireSupport
  simp only [hl, hs]
  by_cases ht : t = FilterTypes.BesselFilter
  · simp only [ht, if_true]
    congr 2
    split_ifs <;> omega
  · simp only [ht, if_false]
    congr 1
    split_ifs <;> omega

/-- A valid option casts to a filter other than `UndefinedFilter`. -/
theorem ofInt_ne_undefined (option : ℤ) (h : validOption option = true) :
    FilterTypes.ofInt option ≠ FilterTypes.UndefinedFilter := by
  simp only [validOption, FilterTypes.toInt, SentinelFilter, decide_eq_true_eq] at h
  obtain ⟨h0, h1⟩ := h
  interval_cases option <;> simp [FilterTypes.ofInt]

/-- The weighting filter type the builder resolves is never `UndefinedFilter`
for a requested filter other than `UndefinedFilter`. -/
theorem acquireTypes_ne_undefined (image : Image R) (filter : FilterTypes) (cylindrical : Bool)
    (hf : filter ≠ FilterTypes.UndefinedFilter) :
    (acquireTypes image filter cylindrical).1 ≠ FilterTypes.UndefinedFilter := by
  have hmap : (mapping filter).filter ≠ FilterTypes.UndefinedFilter := by
    cases filter <;> simp_all [mapping]
  unfold acquireTypes
  simp only []
  repeat' split
  all_goals first
    | exact hmap
    | exact ofInt_ne_undefined _ (by assumption)
    | simp

/-- The default support of every table row other than those of `UndefinedFilter`
and `PointFilter` is positive; the support of every row is non-negative. -/
theorem filters_support (t : FilterTypes) :
    0 ≤ (filters t : FilterEntry R).support ∧
    (t ≠ FilterTypes.UndefinedFilter → t ≠ FilterTypes.PointFilter →
      0 < (filters t : FilterEntry R).support) := by
  cases t <;> norm_num [filters]

/-- The support the builder computes is non-negative. -/
theorem acquireSupport_nonneg (image : Image R) (t : FilterTypes) :
    0 ≤ acquireSupport image t := by
  cases hs : image.artifacts.support with
  | some s =>
    unfold acquireSupport
    rw [hs]
    exact abs_nonneg s
  | none =>
    cases hl : image.artifacts.lobes with
    | none =>
      unfold acquireSupport
      rw [hs, hl]
      exact (filters_support t).1
    | some l =>
      rw [acquireSupport_lobes image t l hl hs]
      split_ifs
      · exact le_of_lt (bessel_zeros_getD (max 1 (min l 16)) (by omega) (by omega)).2
      · have : (0 : ℤ) ≤ max l 1 := by omega
        exact_mod_cast this

/-- The support the builder computes is positive when the weighting filter
type is neither `UndefinedFilter` nor `PointFilter` and a "filter:support"
artifact, if set, is not 0. -/
theorem acquireSupport_pos (image : Image R) (t : FilterTypes)
    (hu : t ≠ FilterTypes.UndefinedFilter) (hp : t ≠ FilterTypes.PointFilter)
    (hs : ∀ s, image.artifacts.support = some s → s ≠ 0) :
    0 < acquireSupport image t := by
  cases hsa : image.artifacts.support with
  | some s =>
    unfold acquireSupport
    rw [hsa]
    exact abs_pos.mpr (hs s hsa)
  | none =>
    cases hl : image.artifacts.lobes with
    | none =>
      unfold acquireSupport
      rw [hsa, hl]
      exact (filters_support t).2 hu hp
    | some l =>
      rw [acquireSupport_lobes image t l hl hsa]
      split_ifs
      · exact (bessel_zeros_getD (max 1 (min l 16)) (by omega) (by omega)).2
      · have : (0 : ℤ) < max l 1 := by omega
        exact_mod_cast this

/-- C11: for every integer value of the "filter:lobes" artifact (no
"filter:support" artifact overriding it), when the weighting function of the
built filter is `Bessel` its support is `bessel_zeros[clamp(lobes, 1, 16) - 1]`,
the index lying in `[0, 15]`; when the weighting function is not `Bessel` the
support is `max(lobes, 1)`. -/
theorem lobes_support (env : MagickEnv R) (image : Image R) (filter : FilterTypes) (blur : R)
    (cylindrical : Bool) (lobes : ℤ)
    (hlobes : image.artifacts.lobes = some lobes)
    (hsupport : image.artifacts.support = none) :
    ((AcquireResizeFilter env image filter blur cylindrical).filter = FilterFunction.Bessel →
      0 ≤ max 1 (min lobes 16) - 1 ∧ max 1 (min lobes 16) - 1 ≤ 15 ∧
      (bessel_zeros : List R)[(max 1 (min lobes 16) - 1).toNat]? =
        some (AcquireResizeFilter env image filter blur cylindrical).support) ∧
    ((AcquireResizeFilter env image filter blur cylindrical).filter ≠ FilterFunction.Bessel →
      (AcquireResizeFilter env image filter blur cylindrical).support =
        ((max lobes 1 : ℤ) : R)) := by
  have hsup : (AcquireResizeFilter env image filter blur cylindrical).support =
      acquireSupport image (acquireTypes image filter cylindrical).1 := rfl
  have hfun : (AcquireResizeFilter env image filter blur cylindrical).filter =
      (filters (acquireTypes image filter cylindrical).1 : FilterEntry R).function := rfl
  rw [hsup, hfun, acquireSupport_lobes image _ lobes hlobes hsupport]
  constructor
  · intro hb
    rw [if_pos ((filters_function_bessel _).mp hb)]
    refine ⟨by omega, by omega, ?_⟩
    exact (bessel_zeros_getD (max 1 (min lobes 16)) (by omega) (by omega)).1
  · intro hb
    rw [if_neg (fun h => hb ((filters_function_bessel _).mpr h))]

/-- Witness of C11: the Bessel filter with the artifact "filter:lobes" set to
40, which the builder clamps to 16. -/
theorem lobes_support_witness :
    (bessel_zeros : List ℚ)[(max 1 (min (40 : ℤ) 16) - 1).toNat]? =
      some (AcquireResizeFilter envQ16
        { solidImage 1 1 ⟨0, 0, 0, 0⟩ with
          artifacts := { (Artifacts.none : Artifacts ℚ) with lobes := some 40 } }
        FilterTypes.BesselFilter 1 false).support :=
  ((lobes_support envQ16
    { solidImage 1 1 ⟨0, 0, 0, 0⟩ with
      artifacts := { (Artifacts.none : Artifacts ℚ) with lobes := some 40 } }
    FilterTypes.BesselFilter 1 false 40 rfl rfl).1 rfl).2.2

/-- The window support the builder computes, from the artifact
"filter:win-support" or else from the support. -/
theorem acquire_window_support (env : MagickEnv R) (image : Image R) (filter : FilterTypes)
    (blur : R) (cylindrical : Bool) :
    (AcquireResizeFilter env image filter blur cylindrical).window_support =
      match image.artifacts.win_support with
      | some artifact => |artifact|
      | none => acquireSupport image (acquireTypes image filter cylindrical).1 := rfl

/-- C12, as the code has it: every filter `AcquireResizeFilter` returns has
`support >= 0` and `window_support >= 0`; for a filter type strictly between
Undefined and Sentinel both are positive when the weighting filter type the
builder resolves is not `PointFilter` and neither a "filter:support" nor a
"filter:win-support" artifact is 0. -/
theorem support_positive_unless_point (env : MagickEnv R) (image : Image R)
    (filter : FilterTypes) (blur : R) (cylindrical : Bool) :
    (0 ≤ (AcquireResizeFilter env image filter blur cylindrical).support ∧
      0 ≤ (AcquireResizeFilter env image filter blur cylindrical).window_support) ∧
    (filter ≠ FilterTypes.UndefinedFilter →
      (acquireTypes image filter cylindrical).1 ≠ FilterTypes.PointFilter →
      (∀ s, image.artifacts.support = some s → s ≠ 0) →
      (∀ w, image.artifacts.win_support = some w → w ≠ 0) →
      0 < (AcquireResizeFilter env image filter blur cylindrical).support ∧
      0 < (AcquireResizeFilter env image filter blur cylindrical).window_support) := by
  have hsup : (AcquireResizeFilter env image filter blur cylindrical).support =
      acquireSupport image (acquireTypes image filter cylindrical).1 := rfl
  rw [acquire_window_support, hsup]
  refine ⟨⟨acquireSupport_nonneg image _, ?_⟩, ?_⟩
  · cases hw : image.artifacts.win_support with
    | some w => exact abs_nonneg w
    | none => exact acquireSupport_nonneg image _
  · intro hfilter hpoint hsupport hwin
    have hs : 0 < acquireSupport image (acquireTypes image filter cylindrical).1 :=
      acquireSupport_pos image _ (acquireTypes_ne_undefined image filter cylindrical hfilter)
        hpoint hsupport
    refine ⟨hs, ?_⟩
    cases hw : image.artifacts.win_support with
    | some w => exact abs_pos.mpr (hwin w hw)
    | none => exact hs

/-- Witness of C12: the Triangle filter over an image without artifacts. -/
theorem support_positive_unless_point_witness :
    0 < (AcquireResizeFilter envQ16 (solidImage 1 1 ⟨0, 0, 0, 0⟩)
      FilterTypes.TriangleFilter 1 false).support ∧
    0 < (AcquireResizeFilter envQ16 (solidImage 1 1 ⟨0, 0, 0, 0⟩)
      FilterTypes.TriangleFilter 1 false).window_support :=
  (support_positive_unless_point envQ16 (solidImage 1 1 ⟨0, 0, 0, 0⟩)
    FilterTypes.TriangleFilter 1 false).2 (by decide) (by decide)
    (fun s h => by simp [solidImage, Artifacts.none] at h)
    (fun w h => by simp [solidImage, Artifacts.none] at h)

/-- C12 as stated fails: the filter built for `PointFilter`, with blur 1 and no
artifacts, has `support = 0` and `window_support = 0`, the support of its table
row. -/
theorem point_support_zero :
    (AcquireResizeFilter envQ16 (solidImage 1 1 ⟨0, 0, 0, 0⟩)
      FilterTypes.PointFilter 1 false).support = 0 ∧
    (AcquireResizeFilter envQ16 (solidImage 1 1 ⟨0, 0, 0, 0⟩)
      FilterTypes.PointFilter 1 false).window_support = 0 ∧
    ¬ (0 < (AcquireResizeFilter envQ16 (solidImage 1 1 ⟨0, 0, 0, 0⟩)
      FilterTypes.PointFilter 1 false).support ∧
    0 < (AcquireResizeFilter envQ16 (solidImage 1 1 ⟨0, 0, 0, 0⟩)
      FilterTypes.PointFilter 1 false).window_support) := by
  simp [AcquireResizeFilter, acquireTypes, acquireSupport, mapping, filters, Artifacts.none,
    solidImage]

end BuilderSupportTheorems

section BlurTheorems

variable {R : Type} [LinearOrderedField R] [FloorRing R]

/-- The blur the builder computes is at least `MagickEpsilon`, as long as the
factor `2*log(2)/sqrt(2/MagickPI)` of the cylindrical Gaussian is at least 1. -/
theorem acquireBlur_ge (env : MagickEnv R) (image : Image R) (filter : FilterTypes) (blur : R)
    (cylindrical : Bool) (heps : 0 < env.MagickEpsilon)
    (hlibm : 1 ≤ 2 * env.log 2 / env.sqrt (2 / env.MagickPI)) :
    env.MagickEpsilon ≤ acquireBlur env image filter blur cylindrical := by
  have hz : (1 : R) ≤ (bessel_zeros : List R).getD 0 0 := by norm_num [bessel_zeros]
  have key : ∀ b : R, env.MagickEpsilon ≤ b → env.MagickEpsilon ≤
      (if (cylindrical : Prop) ∧ filter ≠ FilterTypes.SincFilter then
        match (mapping filter).filter with
        | .GaussianFilter => b * (2 * env.log 2 / env.sqrt (2 / env.MagickPI))
        | .BesselFilter => b * (bessel_zeros : List R).getD 0 0
        | _ => b
      else b) := by
    intro b hb
    have hpos : 0 < b := lt_of_lt_of_le heps hb
    split_ifs
    · split
      · exact le_trans hb (le_mul_of_one_le_right (le_of_lt hpos) hlibm)
      · exact le_trans hb (le_mul_of_one_le_right (le_of_lt hpos) hz)
      · exact hb
    · exact hb
  have hb : ∀ requested : R, env.MagickEpsilon ≤
      (if requested < env.MagickEpsilon then env.MagickEpsilon else requested) := by
    intro requested
    split_ifs with h
    · exact le_refl _
    · exact not_lt.mp h
  exact key _ (hb _)

/-- C13: for every requested blur, every "filter:blur" artifact value, every
filter type and both cylindrical modes, the filter `AcquireResizeFilter` builds
has `blur >= MagickEpsilon > 0` (given that the constant `MagickEpsilon` is
positive and that libm's `2*log(2)/sqrt(2/MagickPI)` is at least 1), so the
division by `blur` in `GetResizeFilterWeight` is not a division by zero. -/
theorem blur_at_least_epsilon (env : MagickEnv R) (image : Image R) (filter : FilterTypes)
    (blur : R) (cylindrical : Bool) (heps : 0 < env.MagickEpsilon)
    (hlibm : 1 ≤ 2 * env.log 2 / env.sqrt (2 / env.MagickPI)) :
    env.MagickEpsilon ≤ (AcquireResizeFilter env image filter blur cylindrical).blur ∧
    0 < (AcquireResizeFilter env image filter blur cylindrical).blur ∧
    (AcquireResizeFilter env image filter blur cylindrical).blur ≠ 0 := by
  have h : env.MagickEpsilon ≤ (AcquireResizeFilter env image filter blur cylindrical).blur :=
    acquireBlur_ge env image filter blur cylindrical heps hlibm
  have hpos := lt_of_lt_of_le heps h
  exact ⟨h, hpos, ne_of_gt hpos⟩

end BlurTheorems

/-- Witness of C13: the cylindrical Gaussian filter requested with blur 0, in
the stock build over the reals with libm's own functions. -/
theorem blur_at_least_epsilon_witness :
    (0 : ℝ) < 1 / 10000000000 ∧
    (1 : ℝ) ≤ 2 * Real.log 2 / Real.sqrt (2 / 3.14159265358979323846264338327950288419716939937510) ∧
    (1 / 10000000000 : ℝ) ≤ (AcquireResizeFilter
      (⟨1 / 10000000000, 3.14159265358979323846264338327950288419716939937510, 16, 65535,
        ClampToQuantumInteger 65535, Real.sin, Real.cos, Real.exp, Real.log, Real.sqrt, 1000⟩ :
        MagickEnv ℝ)
      (⟨1, 1, ClassType.DirectClass, ColorspaceType.RGBColorspace, false, 0,
        fun _ _ => ⟨0, 0, 0, 0⟩, fun _ _ => 0, Artifacts.none, none⟩ : Image ℝ)
      FilterTypes.GaussianFilter 0 true).blur := by
  have heps : (0 : ℝ) < 1 / 10000000000 := by norm_num
  have hlibm : (1 : ℝ) ≤ 2 * Real.log 2 /
      Real.sqrt (2 / 3.14159265358979323846264338327950288419716939937510) := by
    have h1 : Real.sqrt (2 / 3.14159265358979323846264338327950288419716939937510) ≤ 1 := by
      exact Real.sqrt_le_iff.mpr ⟨by norm_num, by norm_num⟩
    have h0 : 0 < Real.sqrt (2 / 3.14159265358979323846264338327950288419716939937510) :=
      Real.sqrt_pos.mpr (by norm_num)
    have h2 : (0.6931471803 : ℝ) < Real.log 2 := Real.log_two_gt_d9
    rw [le_div_iff₀ h0]
    linarith
  exact ⟨heps, hlibm, (blur_at_least_epsilon
    (⟨1 / 10000000000, 3.14159265358979323846264338327950288419716939937510, 16, 65535,
        ClampToQuantumInteger 65535, Real.sin, Real.cos, Real.exp, Real.log, Real.sqrt, 1000⟩ :
        MagickEnv ℝ)
    (⟨1, 1, ClassType.DirectClass, ColorspaceType.RGBColorspace, false, 0,
        fun _ _ => ⟨0, 0, 0, 0⟩, fun _ _ => 0, Artifacts.none, none⟩ : Image ℝ)
    FilterTypes.GaussianFilter 0 true heps hlibm).1⟩

section WeightTheorems

variable {R : Type} [LinearOrderedField R] [FloorRing R]

/-- C14: for every filter `f` and every `x`, `GetResizeFilterWeight(f, x)` is
`m * f.filter(|x| / f.blur)`, with `m = 1` if `f.window_support < MagickEpsilon`
or `f.window` is `Box` and `m = f.window((|x| / f.blur) * f.scale)` otherwise;
the weight is an even function of `x`. -/
theorem weight_formula_even (env : MagickEnv R) (f : ResizeFilter R) (x : R) :
    GetResizeFilterWeight env f x =
      (if f.window_support < env.MagickEpsilon ∨ f.window = FilterFunction.Box then 1
        else f.window.call env (|x| / f.blur * f.scale) f) *
      f.filter.call env (|x| / f.blur) f ∧
    GetResizeFilterWeight env f (-x) = GetResizeFilterWeight env f x := by
  constructor
  · rfl
  · unfold GetResizeFilterWeight
    rw [abs_neg]

end WeightTheorems

section SelectionTheorems

variable {R : Type} [LinearOrderedField R] [FloorRing R]

/-- A filter other than `UndefinedFilter` is the filter `ResizeImage` builds. -/
theorem resizeFilterType_defined (image : Image R) (filter : FilterTypes) (x_factor y_factor : R)
    (h : filter ≠ FilterTypes.UndefinedFilter) :
    resizeFilterType image filter x_factor y_factor = filter := by
  unfold resizeFilterType
  rw [if_pos h]

/-- The filter `ResizeImage` selects for `UndefinedFilter` is not
`UndefinedFilter`. -/
theorem resizeFilterType_ne_undefined (image : Image R) (x_factor y_factor : R) :
    resizeFilterType image FilterTypes.UndefinedFilter x_factor y_factor ≠
      FilterTypes.UndefinedFilter := by
  unfold resizeFilterType
  split_ifs <;> simp_all

/-- C20: when `ResizeImage` is called with `UndefinedFilter` off the clone fast
path, it runs as it does for the filter `Point` if `x_factor = 1` and
`y_factor = 1`, otherwise `Mitchell` if the image is palette-class, or has
alpha, or `x_factor * y_factor > 1`, otherwise `Lanczos`; a defined filter is
used unchanged. -/
theorem default_filter_selection (env : MagickEnv R) (oracle : ResizeOracle) (image : Image R)
    (columns rows : ℕ) (blur : R)
    (hslow : ¬ (columns = image.columns ∧ rows = image.rows ∧ blur = 1)) :
    resizeFilterType image FilterTypes.UndefinedFilter
        ((columns : R) / (image.columns : R)) ((rows : R) / (image.rows : R)) =
      (if (columns : R) / (image.columns : R) = 1 ∧ (rows : R) / (image.rows : R) = 1 then
        FilterTypes.PointFilter
      else if image.storage_class = ClassType.PseudoClass ∨ image.matte = true ∨
          (columns : R) / (image.columns : R) * ((rows : R) / (image.rows : R)) > 1 then
        FilterTypes.MitchellFilter
      else FilterTypes.LanczosFilter) ∧
    ResizeImage env oracle image columns rows FilterTypes.UndefinedFilter blur =
      ResizeImage env oracle image columns rows
        (resizeFilterType image FilterTypes.UndefinedFilter
          ((columns : R) / (image.columns : R)) ((rows : R) / (image.rows : R))) blur ∧
    ∀ filter x_factor y_factor, filter ≠ FilterTypes.UndefinedFilter →
      resizeFilterType image filter x_factor y_factor = filter := by
  refine ⟨?_, ?_, fun filter x_factor y_factor h =>
    resizeFilterType_defined image filter x_factor y_factor h⟩
  · unfold resizeFilterType
    simp
  · have hne := resizeFilterType_ne_undefined image
      ((columns : R) / (image.columns : R)) ((rows : R) / (image.rows : R))
    have hsel := resizeFilterType_defined image _
      ((columns : R) / (image.columns : R)) ((rows : R) / (image.rows : R)) hne
    unfold ResizeImage
    by_cases hz : columns = 0 ∨ rows = 0
    · rw [if_pos hz, if_pos hz]
    · have hfast1 : ¬ (columns = image.columns ∧ rows = image.rows ∧
          FilterTypes.UndefinedFilter = FilterTypes.UndefinedFilter ∧ blur = 1) :=
        fun h => hslow ⟨h.1, h.2.1, h.2.2.2⟩
      have hfast2 : ¬ (columns = image.columns ∧ rows = image.rows ∧
          resizeFilterType image FilterTypes.UndefinedFilter
            ((columns : R) / (image.columns : R)) ((rows : R) / (image.rows : R)) =
            FilterTypes.UndefinedFilter ∧ blur = 1) :=
        fun h => hslow ⟨h.1, h.2.1, h.2.2.2⟩
      rw [if_neg hz, if_neg hz, if_neg hfast1, if_neg hfast2]
      simp only [hsel]

/-- Witness of C20: a 2 by 2 direct-class image without alpha reduced to 1 by 1
with `UndefinedFilter`; the filter selected is `Lanczos`. -/
theorem default_filter_selection_witness :
    ¬ ((1 : ℕ) = (solidImage 2 2 ⟨0, 0, 0, 0⟩).columns ∧
      (1 : ℕ) = (solidImage 2 2 ⟨0, 0, 0, 0⟩).rows ∧ (1 : ℚ) = 1) ∧
    resizeFilterType (solidImage 2 2 ⟨0, 0, 0, 0⟩) FilterTypes.UndefinedFilter
        (((1 : ℕ) : ℚ) / ((solidImage 2 2 ⟨0, 0, 0, 0⟩).columns : ℚ))
        (((1 : ℕ) : ℚ) / ((solidImage 2 2 ⟨0, 0, 0, 0⟩).rows : ℚ)) =
      FilterTypes.LanczosFilter ∧
    ResizeImage envQ16 (ResizeOracle.ok blackScratch) (solidImage 2 2 ⟨0, 0, 0, 0⟩) 1 1
        FilterTypes.UndefinedFilter 1 =
      ResizeImage envQ16 (ResizeOracle.ok blackScratch) (solidImage 2 2 ⟨0, 0, 0, 0⟩) 1 1
        FilterTypes.LanczosFilter 1 := by
  have hslow : ¬ ((1 : ℕ) = (solidImage 2 2 ⟨0, 0, 0, 0⟩).columns ∧
      (1 : ℕ) = (solidImage 2 2 ⟨0, 0, 0, 0⟩).rows ∧ (1 : ℚ) = 1) := by
    simp [solidImage]
  have hsel : resizeFilterType (solidImage 2 2 ⟨0, 0, 0, 0⟩) FilterTypes.UndefinedFilter
        (((1 : ℕ) : ℚ) / ((solidImage 2 2 ⟨0, 0, 0, 0⟩).columns : ℚ))
        (((1 : ℕ) : ℚ) / ((solidImage 2 2 ⟨0, 0, 0, 0⟩).rows : ℚ)) =
      FilterTypes.LanczosFilter := by
    norm_num [resizeFilterType, solidImage]
    intro h
    cases h
  have h := default_filter_selection envQ16 (ResizeOracle.ok blackScratch)
    (solidImage 2 2 ⟨0, 0, 0, 0⟩) 1 1 1 hslow
  refine ⟨hslow, hsel, ?_⟩
  rw [← hsel]
  exact h.2.1

end SelectionTheorems

/-! ## The contribution window of a pass: theorems -/

section WindowTheorems

variable {R : Type} [LinearOrderedField R] [FloorRing R]

/-- The cast of a maximum with 0 is the floor, clamped below at 0. -/
theorem castToInt_MagickMax_zero (a : R) : castToInt (MagickMax a 0) = max ⌊a⌋ 0 := by
  unfold MagickMax castToInt
  split_ifs with h h0 h0
  · have : (0 : ℤ) ≤ ⌊a⌋ := Int.floor_nonneg.mpr h0
    omega
  · exact absurd (le_of_lt h) h0
  · have : ⌊a⌋ ≤ 0 := by
      have h1 : ⌊a⌋ ≤ ⌊(0 : R)⌋ := Int.floor_mono (not_lt.mp h)
      simpa using h1
    rw [Int.floor_zero]
    omega
  · exact absurd (le_refl (0 : R)) h0

/-- The cast of a minimum of a non-negative real with an extent is the floor,
clamped above at the extent. -/
theorem castToInt_MagickMin_natCast (b : R) (N : ℕ) (hb : 0 ≤ b) :
    castToInt (MagickMin b (N : R)) = min ⌊b⌋ (N : ℤ) := by
  unfold MagickMin castToInt
  have hN : (0 : R) ≤ (N : R) := Nat.cast_nonneg N
  split_ifs with h
  · have h1 : ⌊b⌋ < (N : ℤ) := by
      have : ((⌊b⌋ : ℤ) : R) < ((N : ℤ) : R) := by
        push_cast
        exact lt_of_le_of_lt (Int.floor_le b) h
      exact_mod_cast this
    omega
  · have h1 : (N : ℤ) ≤ ⌊b⌋ := by
      apply Int.le_floor.mpr
      push_cast
      exact not_lt.mp h
    have h2 : ⌊(N : R)⌋ = (N : ℤ) := Int.floor_natCast N
    rw [h2]
    omega

/-- The support of the loop of a pass is at least 1/2. -/
theorem passSupport_ge_half (env : MagickEnv R) (f : ResizeFilter R) (factor : R) :
    1 / 2 ≤ passSupport env f factor := by
  unfold passSupport
  split_ifs with h
  · exact le_refl _
  · exact not_lt.mp h

/-- The centre of an output coordinate is not negative when the scale factor is
not. -/
theorem passCenter_nonneg (factor : R) (x : ℕ) (hfactor : 0 ≤ factor) :
    0 ≤ passCenter factor x := by
  unfold passCenter
  have : (0 : R) ≤ (x : R) := Nat.cast_nonneg x
  exact div_nonneg (by linarith) hfactor

/-- The cast to `ssize_t` differs from its argument by less than 1. -/
theorem castToInt_near (d : R) : d - 1 < (castToInt d : R) ∧ (castToInt d : R) < d + 1 := by
  unfold castToInt
  split_ifs with h
  · exact ⟨Int.sub_one_lt_floor d, lt_of_le_of_lt (Int.floor_le d) (by linarith)⟩
  · exact ⟨lt_of_lt_of_le (by linarith) (Int.le_ceil d), Int.ceil_lt_add_one d⟩

/-- The width `stop - start` of a contribution window is below
`2*support + 3`. -/
theorem window_width_lt (support center : R) (extent : ℕ) :
    ((passStop support center extent - passStart support center : ℤ) : R) <
      2 * support + 3 := by
  have h1 := (castToInt_near (MagickMin (center + support + 1 / 2) (extent : R))).2
  have h2 := (castToInt_near (MagickMax (center - support + 1 / 2) 0)).1
  have h3 : MagickMin (center + support + 1 / 2) (extent : R) ≤ center + support + 1 / 2 := by
    unfold MagickMin
    split_ifs with h
    · exact le_refl _
    · exact not_lt.mp h
  have h4 : center - support + 1 / 2 ≤ MagickMax (center - support + 1 / 2) 0 := by
    unfold MagickMax
    split_ifs with h
    · exact le_refl _
    · exact not_lt.mp h
  unfold passStop passStart
  push_cast
  linarith

/-- C15, as the code has it: for every output coordinate of a pass with a
positive scale factor, the contribution window is
`start = max(floor(center - support + 0.5), 0)` and
`stop = min(floor(center + support + 0.5), sourceExtent)`, with
`center = (x + 0.5) / scaleFactor` and `support` the effective support of the
pass; the contribution list holds the source indices from `start` to
`stop - 1`. -/
theorem contribution_window_floor (env : MagickEnv R) (resize_filter : ResizeFilter R)
    (factor : R) (extent x : ℕ) (hfactor : 0 < factor) :
    passStart (passSupport env resize_filter factor) (passCenter factor x) =
      max ⌊passCenter factor x - passSupport env resize_filter factor + 1 / 2⌋ 0 ∧
    passStop (passSupport env resize_filter factor) (passCenter factor x) extent =
      min ⌊passCenter factor x + passSupport env resize_filter factor + 1 / 2⌋ (extent : ℤ) ∧
    (contributionList env resize_filter factor extent x).map ContributionInfo.pixel =
      (List.range
        (min ⌊passCenter factor x + passSupport env resize_filter factor + 1 / 2⌋ (extent : ℤ) -
          max ⌊passCenter factor x - passSupport env resize_filter factor + 1 / 2⌋ 0).toNat).map
        fun (n : ℕ) =>
          max ⌊passCenter factor x - passSupport env resize_filter factor + 1 / 2⌋ 0 + (n : ℤ) := by
  have hstart : passStart (passSupport env resize_filter factor) (passCenter factor x) =
      max ⌊passCenter factor x - passSupport env resize_filter factor + 1 / 2⌋ 0 :=
    castToInt_MagickMax_zero _
  have hstop : passStop (passSupport env resize_filter factor) (passCenter factor x) extent =
      min ⌊passCenter factor x + passSupport env resize_filter factor + 1 / 2⌋ (extent : ℤ) := by
    apply castToInt_MagickMin_natCast
    have h1 := passSupport_ge_half env resize_filter factor
    have h2 := passCenter_nonneg factor x (le_of_lt hfactor)
    linarith
  refine ⟨hstart, hstop, ?_⟩
  rw [contributionList_pixels, hstart, hstop]

/-- C16: for every output coordinate of a pass, the number of contributions
`n = stop - start` is at most `floor(2*support + 3)`, the capacity given to
`AcquireContributionThreadSet`, where `support` is the effective support of the
pass after the degenerate-support correction, which is at least 0.5; the
contribution list is no longer than the buffer. -/
theorem contributions_fit_buffer (env : MagickEnv R) (resize_filter : ResizeFilter R)
    (factor : R) (extent x : ℕ) :
    1 / 2 ≤ passSupport env resize_filter factor ∧
    contributionCapacity env resize_filter factor =
      ⌊2 * passSupport env resize_filter factor + 3⌋ ∧
    passStop (passSupport env resize_filter factor) (passCenter factor x) extent -
        passStart (passSupport env resize_filter factor) (passCenter factor x) ≤
      contributionCapacity env resize_filter factor ∧
    ((contributionList env resize_filter factor extent x).length : ℤ) ≤
      contributionCapacity env resize_filter factor := by
  have hs := passSupport_ge_half env resize_filter factor
  have hpos : (0 : R) ≤ 2 * passSupport env resize_filter factor + 3 := by linarith
  have hcap : contributionCapacity env resize_filter factor =
      ⌊2 * passSupport env resize_filter factor + 3⌋ := by
    unfold contributionCapacity castToInt
    rw [if_pos hpos]
  have hw : passStop (passSupport env resize_filter factor) (passCenter factor x) extent -
        passStart (passSupport env resize_filter factor) (passCenter factor x) ≤
      contributionCapacity env resize_filter factor := by
    rw [hcap]
    exact Int.le_floor.mpr (le_of_lt (window_width_lt _ _ _))
  have hcap0 : 0 ≤ contributionCapacity env resize_filter factor := by
    rw [hcap]
    exact Int.floor_nonneg.mpr hpos
  refine ⟨hs, hcap, hw, ?_⟩
  have hlen : (contributionList env resize_filter factor extent x).length =
      (passStop (passSupport env resize_filter factor) (passCenter factor x) extent -
        passStart (passSupport env resize_filter factor) (passCenter factor x)).toNat := by
    have h := congrArg List.length (contributionList_pixels env resize_filter factor extent x)
    simpa using h
  rw [hlen]
  omega

end WindowTheorems

/-! ## The storage class and the indexes of a pass: theorems -/

section ClassTheorems

variable {R : Type} [LinearOrderedField R] [FloorRing R]

/-- A line of the horizontal pass leaves the storage class of the destination
as it is, whatever fails. -/
theorem horizontalLine_storage_class (env : MagickEnv R) (oracle : PassOracle)
    (f : ResizeFilter R) (image : Image R) (x_factor : R) (span : ℕ) (st : PassState R) (x : ℕ) :
    (horizontalLine env oracle f image x_factor span st x).resize_image.storage_class =
      st.resize_image.storage_class := by
  unfold horizontalLine
  simp only []
  repeat' split
  all_goals rfl

/-- A line of the vertical pass leaves the storage class of the destination as
it is, whatever fails. -/
theorem verticalLine_storage_class (env : MagickEnv R) (oracle : PassOracle)
    (f : ResizeFilter R) (image : Image R) (y_factor : R) (span : ℕ) (st : PassState R) (y : ℕ) :
    (verticalLine env oracle f image y_factor span st y).resize_image.storage_class =
      st.resize_image.storage_class := by
  unfold verticalLine
  simp only []
  repeat' split
  all_goals rfl

/-- A loop over lines that each leave the storage class as it is leaves it as
it is. -/
theorem foldl_storage_class (step : PassState R → ℕ → PassState R)
    (hstep : ∀ st x, (step st x).resize_image.storage_class = st.resize_image.storage_class)
    (l : List ℕ) (init : PassState R) :
    (l.foldl step init).resize_image.storage_class = init.resize_image.storage_class := by
  induction l generalizing init with
  | nil => rfl
  | cons a l ih => rw [List.foldl_cons, ih, hstep]

/-- The storage class the horizontal pass leaves its destination with, once
`SetImageStorageClass` has succeeded. -/
theorem HorizontalFilter_storage_class (env : MagickEnv R) (oracle : PassOracle)
    (f : ResizeFilter R) (image resize_image : Image R) (x_factor : R) (span : ℕ) (offset : ℤ)
    (hset : oracle.setStorageClass = true) :
    (HorizontalFilter env oracle f image resize_image x_factor span
      offset).resize_image.storage_class = passStorageClass env f image x_factor := by
  unfold HorizontalFilter
  rw [if_neg (by simp [hset])]
  simp only []
  split_ifs
  · rfl
  · rw [foldl_storage_class _ (horizontalLine_storage_class env oracle f image x_factor span)]

/-- The storage class the vertical pass leaves its destination with, once
`SetImageStorageClass` has succeeded. -/
theorem VerticalFilter_storage_class (env : MagickEnv R) (oracle : PassOracle)
    (f : ResizeFilter R) (image resize_image : Image R) (y_factor : R) (span : ℕ) (offset : ℤ)
    (hset : oracle.setStorageClass = true) :
    (VerticalFilter env oracle f image resize_image y_factor span
      offset).resize_image.storage_class = passStorageClass env f image y_factor := by
  unfold VerticalFilter
  rw [if_neg (by simp [hset])]
  simp only []
  split_ifs
  · rfl
  · rw [foldl_storage_class _ (verticalLine_storage_class env oracle f image y_factor span)]

/-- C17: a pass in which `SetImageStorageClass` succeeds sets the storage class
of its destination to Direct whenever
`scale * GetResizeFilterSupport(filter) > 0.5`, with
`scale = max(1/factor + MagickEpsilon, 1)`, and otherwise gives the destination
the storage class of the source image; so a filter whose effective support
exceeds 0.5 promotes a palette image to direct class. -/
theorem pass_storage_class (env : MagickEnv R) (oracle : PassOracle)
    (resize_filter : ResizeFilter R) (image resize_image : Image R) (factor : R) (span : ℕ)
    (offset : ℤ) (hset : oracle.setStorageClass = true) :
    (HorizontalFilter env oracle resize_filter image resize_image factor span
        offset).resize_image.storage_class =
      (if MagickMax (1 / factor + env.MagickEpsilon) 1 * GetResizeFilterSupport resize_filter >
          1 / 2 then ClassType.DirectClass else image.storage_class) ∧
    (VerticalFilter env oracle resize_filter image resize_image factor span
        offset).resize_image.storage_class =
      (if MagickMax (1 / factor + env.MagickEpsilon) 1 * GetResizeFilterSupport resize_filter >
          1 / 2 then ClassType.DirectClass else image.storage_class) ∧
    (image.storage_class = ClassType.PseudoClass →
      MagickMax (1 / factor + env.MagickEpsilon) 1 * GetResizeFilterSupport resize_filter >
        1 / 2 →
      (HorizontalFilter env oracle resize_filter image resize_image factor span
        offset).resize_image.storage_class = ClassType.DirectClass ∧
      (VerticalFilter env oracle resize_filter image resize_image factor span
        offset).resize_image.storage_class = ClassType.DirectClass) := by
  have hh := HorizontalFilter_storage_class env oracle resize_filter image resize_image factor
    span offset hset
  have hv := VerticalFilter_storage_class env oracle resize_filter image resize_image factor
    span offset hset
  refine ⟨hh, hv, ?_⟩
  intro _ hsup
  rw [hh, hv]
  unfold passStorageClass rawSupport passScale
  rw [if_pos hsup]
  exact ⟨rfl, rfl⟩

end ClassTheorems

section IndexTheorems

variable {R : Type} [LinearOrderedField R] [FloorRing R]

/-- The index of a sample depends on the destination only through its storage
class, its colorspace and the index it holds. -/
theorem filterSample_snd_congr (env : MagickEnv R) (image r1 r2 : Image R)
    (l : List (ContributionInfo R)) (p : ℤ → PixelPacket) (indexes : ℤ → ℕ)
    (offset : ContributionInfo R → ℤ) (center : R) (start stop : ℤ) (old : ℕ)
    (hclass : r1.storage_class = r2.storage_class) (hspace : r1.colorspace = r2.colorspace) :
    (filterSample env image r1 l p indexes offset center start stop old).2 =
      (filterSample env image r2 l p indexes offset center start stop old).2 := by
  unfold filterSample
  simp only [hclass, hspace]

/-- The index of a horizontal sample depends on the destination only through
its storage class, its colorspace and the index it holds at the sample. -/
theorem horizontalSample_snd_congr (env : MagickEnv R) (f : ResizeFilter R)
    (image r1 r2 : Image R) (x_factor : R) (x y : ℕ)
    (hclass : r1.storage_class = r2.storage_class) (hspace : r1.colorspace = r2.colorspace)
    (hold : r1.indexes x y = r2.indexes x y) :
    (horizontalSample env f image r1 x_factor x y).2 =
      (horizontalSample env f image r2 x_factor x y).2 := by
  unfold horizontalSample
  simp only [hold]
  exact filterSample_snd_congr _ _ _ _ _ _ _ _ _ _ _ _ hclass hspace

/-- The index of a vertical sample depends on the destination only through its
storage class, its colorspace and the index it holds at the sample. -/
theorem verticalSample_snd_congr (env : MagickEnv R) (f : ResizeFilter R)
    (image r1 r2 : Image R) (y_factor : R) (x y : ℕ)
    (hclass : r1.storage_class = r2.storage_class) (hspace : r1.colorspace = r2.colorspace)
    (hold : r1.indexes x y = r2.indexes x y) :
    (verticalSample env f image r1 y_factor x y).2 =
      (verticalSample env f image r2 y_factor x y).2 := by
  unfold verticalSample
  simp only [hold]
  exact filterSample_snd_congr _ _ _ _ _ _ _ _ _ _ _ _ hclass hspace

/-- The indexes the loop of the horizontal pass leaves after the first `k`
columns when nothing fails: the columns below `k` hold the index of their
sample and every other index is untouched. -/
theorem horizontal_loop_indexes (env : MagickEnv R) (f : ResizeFilter R) (image : Image R)
    (x_factor : R) (span : ℕ)
    (hmon : ∀ m, image.progress_monitor = some m → ∀ o s, m o s = true)
    (init : PassState R) (hinit : init.status = true) (k : ℕ) :
    (∀ x y : ℕ, x < k → y < init.resize_image.rows →
      ((List.range k).foldl (horizontalLine env PassOracle.ok f image x_factor span)
        init).resize_image.indexes x y =
          (horizontalSample env f image init.resize_image x_factor x y).2) ∧
    (∀ a b : ℤ, ¬ (0 ≤ a ∧ a < (k : ℤ) ∧ 0 ≤ b ∧ b < (init.resize_image.rows : ℤ)) →
      ((List.range k).foldl (horizontalLine env PassOracle.ok f image x_factor span)
        init).resize_image.indexes a b = init.resize_image.indexes a b) := by
  induction k with
  | zero =>
    refine ⟨?_, ?_⟩
    · intro x y hx; omega
    · intro a b _; simp
  | succ k ih =>
    obtain ⟨hidx, hout⟩ := ih
    obtain ⟨hs, ⟨px, ix, himg⟩, _, _⟩ :=
      horizontal_loop env f image x_factor span hmon init hinit k
    rw [List.range_succ, List.foldl_append, List.foldl_cons, List.foldl_nil]
    obtain ⟨_, himg'⟩ := horizontalLine_ok env f image x_factor span hmon _ hs k
    have hrows : ((List.range k).foldl (horizontalLine env PassOracle.ok f image x_factor span)
        init).resize_image.rows = init.resize_image.rows := by rw [himg]
    have hclass : ((List.range k).foldl (horizontalLine env PassOracle.ok f image x_factor span)
        init).resize_image.storage_class = init.resize_image.storage_class := by rw [himg]
    have hspace : ((List.range k).foldl (horizontalLine env PassOracle.ok f image x_factor span)
        init).resize_image.colorspace = init.resize_image.colorspace := by rw [himg]
    refine ⟨?_, ?_⟩
    · intro x y hx hy
      rw [himg']
      simp only []
      by_cases hxk : x = k
      · subst hxk
        have hy' : ((y : ℤ)) < (((List.range x).foldl
            (horizontalLine env PassOracle.ok f image x_factor span) init).resize_image.rows : ℤ) := by
          rw [hrows]; exact_mod_cast hy
        rw [if_pos ⟨rfl, Int.natCast_nonneg y, hy'⟩]
        simp only [Int.toNat_natCast]
        apply horizontalSample_snd_congr _ _ _ _ _ _ _ _ hclass hspace
        apply hout
        intro h
        omega
      · have hne : ¬ ((x : ℤ) = (k : ℤ) ∧ 0 ≤ (y : ℤ) ∧ (y : ℤ) < (((List.range k).foldl
            (horizontalLine env PassOracle.ok f image x_factor span) init).resize_image.rows : ℤ)) := by
          intro h
          exact hxk (by exact_mod_cast h.1)
        rw [if_neg hne]
        exact hidx x y (by omega) hy
    · intro a b hab
      rw [himg']
      simp only []
      have hne : ¬ (a = (k : ℤ) ∧ 0 ≤ b ∧ b < (((List.range k).foldl
            (horizontalLine env PassOracle.ok f image x_factor span) init).resize_image.rows : ℤ)) := by
        rw [hrows]
        intro h
        apply hab
        omega
      rw [if_neg hne]
      apply hout
      intro h
      apply hab
      omega

/-- The indexes the horizontal pass leaves when nothing fails: every index of
the destination holds the index of its sample. -/
theorem HorizontalFilter_indexes (env : MagickEnv R) (f : ResizeFilter R)
    (image resize_image : Image R) (x_factor : R) (span : ℕ) (offset : ℤ)
    (hmon : ∀ m, image.progress_monitor = some m → ∀ o s, m o s = true)
    (x y : ℕ) (hx : x < resize_image.columns) (hy : y < resize_image.rows) :
    (HorizontalFilter env PassOracle.ok f image resize_image x_factor span
      offset).resize_image.indexes x y =
        (horizontalSample env f image
          { resize_image with storage_class := passStorageClass env f image x_factor }
          x_factor x y).2 := by
  have h := horizontal_loop_indexes env f image x_factor span hmon
    ⟨true, { resize_image with storage_class := passStorageClass env f image x_factor }, offset⟩
    rfl resize_image.columns
  have hdef : HorizontalFilter env PassOracle.ok f image resize_image x_factor span offset =
      (List.range resize_image.columns).foldl
        (horizontalLine env PassOracle.ok f image x_factor span)
        ⟨true, { resize_image with storage_class := passStorageClass env f image x_factor },
          offset⟩ := by
    simp [HorizontalFilter, PassOracle.ok]
  rw [hdef]
  exact h.1 x y hx hy

/-- The indexes the loop of the vertical pass leaves after the first `k` rows
when nothing fails: the rows below `k` hold the index of their sample and every
other index is untouched. -/
theorem vertical_loop_indexes (env : MagickEnv R) (f : ResizeFilter R) (image : Image R)
    (y_factor : R) (span : ℕ)
    (hmon : ∀ m, image.progress_monitor = some m → ∀ o s, m o s = true)
    (init : PassState R) (hinit : init.status = true) (k : ℕ) :
    (∀ x y : ℕ, y < k → x < init.resize_image.columns →
      ((List.range k).foldl (verticalLine env PassOracle.ok f image y_factor span)
        init).resize_image.indexes x y =
          (verticalSample env f image init.resize_image y_factor x y).2) ∧
    (∀ a b : ℤ, ¬ (0 ≤ b ∧ b < (k : ℤ) ∧ 0 ≤ a ∧ a < (init.resize_image.columns : ℤ)) →
      ((List.range k).foldl (verticalLine env PassOracle.ok f image y_factor span)
        init).resize_image.indexes a b = init.resize_image.indexes a b) := by
  induction k with
  | zero =>
    refine ⟨?_, ?_⟩
    · intro x y hy; omega
    · intro a b _; simp
  | succ k ih =>
    obtain ⟨hidx, hout⟩ := ih
    obtain ⟨hs, ⟨px, ix, himg⟩, _, _⟩ :=
      vertical_loop env f image y_factor span hmon init hinit k
    rw [List.range_succ, List.foldl_append, List.foldl_cons, List.foldl_nil]
    obtain ⟨_, himg'⟩ := verticalLine_ok env f image y_factor span hmon _ hs k
    have hcols : ((List.range k).foldl (verticalLine env PassOracle.ok f image y_factor span)
        init).resize_image.columns = init.resize_image.columns := by rw [himg]
    have hclass : ((List.range k).foldl (verticalLine env PassOracle.ok f image y_factor span)
        init).resize_image.storage_class = init.resize_image.storage_class := by rw [himg]
    have hspace : ((List.range k).foldl (verticalLine env PassOracle.ok f image y_factor span)
        init).resize_image.colorspace = init.resize_image.colorspace := by rw [himg]
    refine ⟨?_, ?_⟩
    · intro x y hy hx
      rw [himg']
      simp only []
      by_cases hyk : y = k
      · subst hyk
        have hx' : ((x : ℤ)) < (((List.range y).foldl
            (verticalLine env PassOracle.ok f image y_factor span) init).resize_image.columns : ℤ) := by
          rw [hcols]; exact_mod_cast hx
        rw [if_pos ⟨rfl, Int.natCast_nonneg x, hx'⟩]
        simp only [Int.toNat_natCast]
        apply verticalSample_snd_congr _ _ _ _ _ _ _ _ hclass hspace
        apply hout
        intro h
        omega
      · have hne : ¬ ((y : ℤ) = (k : ℤ) ∧ 0 ≤ (x : ℤ) ∧ (x : ℤ) < (((List.range k).foldl
            (verticalLine env PassOracle.ok f image y_factor span) init).resize_image.columns : ℤ)) := by
          intro h
          exact hyk (by exact_mod_cast h.1)
        rw [if_neg hne]
        exact hidx x y (by omega) hx
    · intro a b hab
      rw [himg']
      simp only []
      have hne : ¬ (b = (k : ℤ) ∧ 0 ≤ a ∧ a < (((List.range k).foldl
            (verticalLine env PassOracle.ok f image y_factor span) init).resize_image.columns : ℤ)) := by
        rw [hcols]
        intro h
        apply hab
        omega
      rw [if_neg hne]
      apply hout
      intro h
      apply hab
      omega

/-- The indexes the vertical pass leaves when nothing fails: every index of the
destination holds the index of its sample. -/
theorem VerticalFilter_indexes (env : MagickEnv R) (f : ResizeFilter R)
    (image resize_image : Image R) (y_factor : R) (span : ℕ) (offset : ℤ)
    (hmon : ∀ m, image.progress_monitor = some m → ∀ o s, m o s = true)
    (x y : ℕ) (hx : x < resize_image.columns) (hy : y < resize_image.rows) :
    (VerticalFilter env PassOracle.ok f image resize_image y_factor span
      offset).resize_image.indexes x y =
        (verticalSample env f image
          { resize_image with storage_class := passStorageClass env f image y_factor }
          y_factor x y).2 := by
  have h := vertical_loop_indexes env f image y_factor span hmon
    ⟨true, { resize_image with storage_class := passStorageClass env f image y_factor }, offset⟩
    rfl resize_image.rows
  have hdef : VerticalFilter env PassOracle.ok f image resize_image y_factor span offset =
      (List.range resize_image.rows).foldl
        (verticalLine env PassOracle.ok f image y_factor span)
        ⟨true, { resize_image with storage_class := passStorageClass env f image y_factor },
          offset⟩ := by
    simp [VerticalFilter, PassOracle.ok]
  rw [hdef]
  exact h.1 x y hy hx

end IndexTheorems

/-! ## The reduction to point sampling: theorems -/

section DegenerateTheorems

variable {R : Type} [LinearOrderedField R] [FloorRing R]

/-- A pass whose raw support is below 1/2 runs with support 1/2 and scale 1 and
gives its destination the storage class of the source. -/
theorem degenerate_pass (env : MagickEnv R) (f : ResizeFilter R) (image : Image R) (factor : R)
    (h : rawSupport env f factor < 1 / 2) :
    passSupport env f factor = 1 / 2 ∧ loopScale env f factor = 1 ∧
    passStorageClass env f image factor = image.storage_class := by
  refine ⟨?_, ?_, ?_⟩
  · unfold passSupport
    rw [if_pos h]
  · unfold loopScale
    rw [if_pos h, div_one]
  · unfold passStorageClass
    rw [if_neg (not_lt.mpr (le_of_lt h))]

/-- The window of support 1/2 around a centre `c` in `[0, N)` is the single
source index `⌊c⌋`. -/
theorem degenerate_window (c : R) (N : ℕ) (hc0 : 0 ≤ c) (hcN : c < (N : R)) :
    passStart (1 / 2) c = ⌊c⌋ ∧ passStop (1 / 2) c N = ⌊c⌋ + 1 := by
  have hfl0 : (0 : ℤ) ≤ ⌊c⌋ := Int.floor_nonneg.mpr hc0
  have hflN : ⌊c⌋ < (N : ℤ) := by
    have : ((⌊c⌋ : ℤ) : R) < ((N : ℤ) : R) := by
      push_cast
      exact lt_of_le_of_lt (Int.floor_le c) hcN
    exact_mod_cast this
  constructor
  · unfold passStart
    rw [castToInt_MagickMax_zero, show c - 1 / 2 + 1 / 2 = c by ring]
    omega
  · unfold passStop
    rw [castToInt_MagickMin_natCast _ _ (by linarith),
      show c + 1 / 2 + 1 / 2 = c + 1 by ring, Int.floor_add_one]
    omega

/-- The normalization step on a single contribution: its weight becomes 1
unless it is 0. -/
theorem normalize_single (w : R) (pixel : ℤ) :
    normalize [(⟨w, pixel⟩ : ContributionInfo R)] = [⟨if w = 0 then 0 else 1, pixel⟩] := by
  have hd : density [(⟨w, pixel⟩ : ContributionInfo R)] = w := by
    simp [density]
  unfold normalize
  rw [hd]
  by_cases h0 : w = 0
  · rw [if_neg (fun h => h.1 h0), if_pos h0, h0]
  · by_cases h1 : w = 1
    · rw [if_neg (fun h => h.2 h1), if_neg h0, h1]
    · rw [if_pos ⟨h0, h1⟩, if_neg h0]
      simp only [List.map_cons, List.map_nil]
      rw [mul_one_div, div_self h0]

/-- The contribution list of a pass reduced to point sampling, for an output
coordinate whose centre lies inside the source: the single source index
`⌊center⌋`, with weight 1 unless the filter weighs it 0. -/
theorem degenerate_contributions (env : MagickEnv R) (f : ResizeFilter R) (factor : R)
    (extent x : ℕ) (hraw : rawSupport env f factor < 1 / 2)
    (hc0 : 0 ≤ passCenter factor x) (hcN : passCenter factor x < (extent : R)) :
    contributionList env f factor extent x =
      [⟨if GetResizeFilterWeight env f
          (((⌊passCenter factor x⌋ : ℤ) : R) - passCenter factor x + 1 / 2) = 0 then 0 else 1,
        ⌊passCenter factor x⌋⟩] := by
  obtain ⟨hs, hl, _⟩ := degenerate_pass env f
    (⟨0, 0, ClassType.UndefinedClass, ColorspaceType.RGBColorspace, false, 0,
      fun _ _ => ⟨0, 0, 0, 0⟩, fun _ _ => 0, Artifacts.none, none⟩ : Image R) factor hraw
  obtain ⟨hstart, hstop⟩ := degenerate_window (passCenter factor x) extent hc0 hcN
  unfold contributionList
  simp only []
  rw [hs, hl, hstart, hstop]
  have hraw : rawContribution env f 1 (passCenter factor x) ⌊passCenter factor x⌋
      (⌊passCenter factor x⌋ + 1) =
      [⟨GetResizeFilterWeight env f
          (((⌊passCenter factor x⌋ : ℤ) : R) - passCenter factor x + 1 / 2),
        ⌊passCenter factor x⌋⟩] := by
    unfold rawContribution
    have h1 : (⌊passCenter factor x⌋ + 1 - ⌊passCenter factor x⌋).toNat = 1 := by omega
    rw [h1]
    simp [List.range_succ]
  rw [hraw, normalize_single]

/-- The index the palette branch of a sample writes: that of the contribution
nearest to the centre. -/
theorem filterSample_snd_pseudo (env : MagickEnv R) (image r : Image R)
    (l : List (ContributionInfo R)) (p : ℤ → PixelPacket) (indexes : ℤ → ℕ)
    (offset : ContributionInfo R → ℤ) (center : R) (start stop : ℤ) (old : ℕ)
    (hr : r.storage_class = ClassType.PseudoClass)
    (hi : image.storage_class = ClassType.PseudoClass) :
    (filterSample env image r l p indexes offset center start stop old).2 =
      indexes (offset (contributionAt l
        (castToInt (MagickMin (MagickMax center (start : R)) ((stop : R) - 1) + 1 / 2) -
          start))) := by
  unfold filterSample
  simp only [hr, hi, and_self, if_true]

/-- The contribution nearest to a centre `c` in the window `[⌊c⌋, ⌊c⌋ + 1)` is
the first one. -/
theorem nearest_degenerate (c : R) (hc0 : 0 ≤ c) :
    castToInt (MagickMin (MagickMax c ((⌊c⌋ : ℤ) : R)) (((⌊c⌋ + 1 : ℤ) : R) - 1) + 1 / 2) -
      ⌊c⌋ = 0 := by
  have hfl : ((⌊c⌋ : ℤ) : R) ≤ c := Int.floor_le c
  have hfl0 : (0 : R) ≤ ((⌊c⌋ : ℤ) : R) := by
    exact_mod_cast Int.floor_nonneg.mpr hc0
  have hmax : ((⌊c⌋ : ℤ) : R) ≤ MagickMax c ((⌊c⌋ : ℤ) : R) := by
    unfold MagickMax
    split_ifs <;> linarith
  have hmin : MagickMin (MagickMax c ((⌊c⌋ : ℤ) : R)) (((⌊c⌋ + 1 : ℤ) : R) - 1) =
      ((⌊c⌋ : ℤ) : R) := by
    unfold MagickMin
    push_cast
    rw [if_neg (by linarith)]
    ring
  rw [hmin, castToInt_eq_of_mem _ ⌊c⌋ (by linarith) (by linarith) (by linarith)]
  omega

/-- The index a horizontal pass reduced to point sampling writes from a palette
image to a palette destination: that of the source pixel at `⌊center⌋`. -/
theorem horizontalSample_index_degenerate (env : MagickEnv R) (f : ResizeFilter R)
    (image r : Image R) (factor : R) (x y : ℕ)
    (hr : r.storage_class = ClassType.PseudoClass)
    (hi : image.storage_class = ClassType.PseudoClass)
    (hraw : rawSupport env f factor < 1 / 2)
    (hc0 : 0 ≤ passCenter factor x) (hcN : passCenter factor x < (image.columns : R)) :
    (horizontalSample env f image r factor x y).2 =
      image.indexes ⌊passCenter factor x⌋ (y : ℤ) := by
  obtain ⟨hs, _, _⟩ := degenerate_pass env f image factor hraw
  obtain ⟨hstart, hstop⟩ := degenerate_window (passCenter factor x) image.columns hc0 hcN
  have hlist := degenerate_contributions env f factor image.columns x hraw hc0 hcN
  unfold horizontalSample
  simp only []
  rw [filterSample_snd_pseudo _ _ _ _ _ _ _ _ _ _ _ hr hi, hs, hstart, hstop,
    nearest_degenerate _ hc0, hlist]
  simp [contributionAt, spanWidth, GetCacheViewVirtualIndexQueue]

/-- The index a vertical pass reduced to point sampling writes from a palette
image to a palette destination: that of the source pixel at `⌊center⌋`. -/
theorem verticalSample_index_degenerate (env : MagickEnv R) (f : ResizeFilter R)
    (image r : Image R) (factor : R) (x y : ℕ)
    (hr : r.storage_class = ClassType.PseudoClass)
    (hi : image.storage_class = ClassType.PseudoClass)
    (hraw : rawSupport env f factor < 1 / 2) (hx : x < image.columns)
    (hc0 : 0 ≤ passCenter factor y) (hcN : passCenter factor y < (image.rows : R)) :
    (verticalSample env f image r factor x y).2 =
      image.indexes (x : ℤ) ⌊passCenter factor y⌋ := by
  obtain ⟨hs, _, _⟩ := degenerate_pass env f image factor hraw
  obtain ⟨hstart, hstop⟩ := degenerate_window (passCenter factor y) image.rows hc0 hcN
  have hlist := degenerate_contributions env f factor image.rows y hraw hc0 hcN
  have hxc : (x : ℤ) < (image.columns : ℤ) := by exact_mod_cast hx
  have hx0 : (0 : ℤ) ≤ (x : ℤ) := Int.natCast_nonneg x
  unfold verticalSample
  simp only []
  rw [filterSample_snd_pseudo _ _ _ _ _ _ _ _ _ _ _ hr hi, hs, hstart, hstop,
    nearest_degenerate _ hc0, hlist]
  simp [contributionAt, GetCacheViewVirtualIndexQueue, Int.emod_eq_of_lt hx0 hxc,
    Int.ediv_eq_zero_of_lt hx0 hxc]

/-- The pixel a horizontal pass writes from a single contribution of weight 1
over an image without alpha: the source pixel of the contribution. -/
theorem horizontalSample_single (env : MagickEnv R) (f : ResizeFilter R) (image r : Image R)
    (factor : R) (x y : ℕ) (pixel : ℤ) (hmatte : image.matte = false)
    (hlist : contributionList env f factor image.columns x = [⟨1, pixel⟩])
    (hclamp : ∀ q : ℕ, q ≤ env.QuantumRange → env.ClampToQuantum (q : R) = q)
    (hrange : (image.pixels pixel (y : ℤ)).red ≤ env.QuantumRange ∧
      (image.pixels pixel (y : ℤ)).green ≤ env.QuantumRange ∧
      (image.pixels pixel (y : ℤ)).blue ≤ env.QuantumRange ∧
      (image.pixels pixel (y : ℤ)).opacity ≤ env.QuantumRange) :
    (horizontalSample env f image r factor x y).1 = image.pixels pixel (y : ℤ) := by
  rw [horizontalSample_noAlpha env f image r factor x y hmatte, hlist]
  simp only [List.map_cons, List.map_nil, List.sum_cons, List.sum_nil, one_mul, add_zero]
  rw [hclamp _ hrange.1, hclamp _ hrange.2.1, hclamp _ hrange.2.2.1, hclamp _ hrange.2.2.2]

/-- The pixel a vertical pass writes from a single contribution of weight 1
over an image without alpha: the source pixel of the contribution. -/
theorem verticalSample_single (env : MagickEnv R) (f : ResizeFilter R) (image r : Image R)
    (factor : R) (x y : ℕ) (pixel : ℤ) (hmatte : image.matte = false) (hx : x < image.columns)
    (hlist : contributionList env f factor image.rows y = [⟨1, pixel⟩])
    (hclamp : ∀ q : ℕ, q ≤ env.QuantumRange → env.ClampToQuantum (q : R) = q)
    (hrange : (image.pixels (x : ℤ) pixel).red ≤ env.QuantumRange ∧
      (image.pixels (x : ℤ) pixel).green ≤ env.QuantumRange ∧
      (image.pixels (x : ℤ) pixel).blue ≤ env.QuantumRange ∧
      (image.pixels (x : ℤ) pixel).opacity ≤ env.QuantumRange) :
    (verticalSample env f image r factor x y).1 = image.pixels (x : ℤ) pixel := by
  rw [verticalSample_noAlpha env f image r factor x y hmatte hx, hlist]
  simp only [List.map_cons, List.map_nil, List.sum_cons, List.sum_nil, one_mul, add_zero]
  rw [hclamp _ hrange.1, hclamp _ hrange.2.1, hclamp _ hrange.2.2.1, hclamp _ hrange.2.2.2]

end DegenerateTheorems

/-! ## The Point filter on a palette image: theorems -/

section PointTheorems

variable {R : Type} [LinearOrderedField R] [FloorRing R]

/-- The Point filter built with no artifacts. -/
theorem point_filter_fields (env : MagickEnv R) (image : Image R) (blur : R)
    (hart : image.artifacts = Artifacts.none) :
    (AcquireResizeFilter env image FilterTypes.PointFilter blur false).filter =
      FilterFunction.Box ∧
    (AcquireResizeFilter env image FilterTypes.PointFilter blur false).window =
      FilterFunction.Box ∧
    (AcquireResizeFilter env image FilterTypes.PointFilter blur false).support = 0 := by
  refine ⟨?_, ?_, ?_⟩ <;>
    simp [AcquireResizeFilter, acquireTypes, acquireSupport, mapping, filters, hart,
      Artifacts.none]

/-- A filter of support 0 has raw support 0 in every pass. -/
theorem rawSupport_of_support_zero (env : MagickEnv R) (f : ResizeFilter R) (factor : R)
    (hs : f.support = 0) : rawSupport env f factor < 1 / 2 := by
  unfold rawSupport GetResizeFilterSupport
  rw [hs, zero_mul, mul_zero]
  norm_num

/-- The centre of output coordinate `x` at scale factor 1 is `x + 1/2`, whose
floor is `x`. -/
theorem passCenter_one (x : ℕ) :
    ⌊passCenter (1 : R) x⌋ = (x : ℤ) ∧ 0 ≤ passCenter (1 : R) x ∧
    ∀ N : ℕ, x < N → passCenter (1 : R) x < (N : R) := by
  have hc : passCenter (1 : R) x = (x : R) + 1 / 2 := by
    unfold passCenter
    rw [div_one]
  have hx0 : (0 : R) ≤ (x : R) := Nat.cast_nonneg x
  rw [hc]
  refine ⟨?_, by linarith, ?_⟩
  · apply Int.floor_eq_iff.mpr
    push_cast
    constructor <;> linarith
  · intro N hN
    have : (x : R) + 1 ≤ (N : R) := by exact_mod_cast hN
    linarith

/-- The contribution list of a pass with the Point filter at scale factor 1:
the single source index `x`, of weight 1. -/
theorem point_identity_contributions (env : MagickEnv R) (f : ResizeFilter R)
    (hf : f.filter = FilterFunction.Box) (hw : f.window = FilterFunction.Box)
    (hs : f.support = 0) (extent x : ℕ) (hx : x < extent) :
    contributionList env f 1 extent x = [⟨1, (x : ℤ)⟩] := by
  obtain ⟨hfl, hc0, hcN⟩ := passCenter_one (R := R) x
  rw [degenerate_contributions env f 1 extent x (rawSupport_of_support_zero env f 1 hs) hc0
    (hcN extent hx), weight_box env f _ hf hw, hfl, if_neg one_ne_zero]

/-- C18: for every palette-class image (no artifacts set), a pass with the
Point filter at scale factor 1 in which nothing fails keeps the destination
palette-class, gives every output sample `x` exactly one contribution (source
index `x`, weight 1), and copies the colormap index of source pixel `x`
unchanged to output pixel `x`; in the horizontal pass and in the vertical
one. -/
theorem point_palette_preserved (env : MagickEnv R) (image resize_image : Image R) (blur : R)
    (span : ℕ) (offset : ℤ) (x y : ℕ)
    (hart : image.artifacts = Artifacts.none)
    (hpalette : image.storage_class = ClassType.PseudoClass)
    (hmon : ∀ m, image.progress_monitor = some m → ∀ o s, m o s = true)
    (hcolumns : resize_image.columns = image.columns) (hrows : resize_image.rows = image.rows)
    (hx : x < image.columns) (hy : y < image.rows) :
    ((HorizontalFilter env PassOracle.ok
        (AcquireResizeFilter env image FilterTypes.PointFilter blur false) image resize_image 1
        span offset).resize_image.storage_class = ClassType.PseudoClass ∧
      contributionList env (AcquireResizeFilter env image FilterTypes.PointFilter blur false) 1
        image.columns x = [⟨1, (x : ℤ)⟩] ∧
      (HorizontalFilter env PassOracle.ok
        (AcquireResizeFilter env image FilterTypes.PointFilter blur false) image resize_image 1
        span offset).resize_image.indexes x y = image.indexes x y) ∧
    ((VerticalFilter env PassOracle.ok
        (AcquireResizeFilter env image FilterTypes.PointFilter blur false) image resize_image 1
        span offset).resize_image.storage_class = ClassType.PseudoClass ∧
      contributionList env (AcquireResizeFilter env image FilterTypes.PointFilter blur false) 1
        image.rows y = [⟨1, (y : ℤ)⟩] ∧
      (VerticalFilter env PassOracle.ok
        (AcquireResizeFilter env image FilterTypes.PointFilter blur false) image resize_image 1
        span offset).resize_image.indexes x y = image.indexes x y) := by
  obtain ⟨hf, hw, hs⟩ := point_filter_fields env image blur hart
  generalize AcquireResizeFilter env image FilterTypes.PointFilter blur false = f at hf hw hs
  have hraw := rawSupport_of_support_zero env f 1 hs
  have hclass : passStorageClass env f image 1 = ClassType.PseudoClass := by
    rw [(degenerate_pass env f image 1 hraw).2.2, hpalette]
  obtain ⟨hflx, hcx0, hcxN⟩ := passCenter_one (R := R) x
  obtain ⟨hfly, hcy0, hcyN⟩ := passCenter_one (R := R) y
  refine ⟨⟨?_, point_identity_contributions env f hf hw hs image.columns x hx, ?_⟩,
    ⟨?_, point_identity_contributions env f hf hw hs image.rows y hy, ?_⟩⟩
  · rw [HorizontalFilter_storage_class env PassOracle.ok f image resize_image 1 span offset rfl,
      hclass]
  · rw [HorizontalFilter_indexes env f image resize_image 1 span offset hmon x y
        (by rw [hcolumns]; exact hx) (by rw [hrows]; exact hy),
      horizontalSample_index_degenerate env f image _ 1 x y hclass hpalette hraw hcx0
        (hcxN _ hx), hflx]
  · rw [VerticalFilter_storage_class env PassOracle.ok f image resize_image 1 span offset rfl,
      hclass]
  · rw [VerticalFilter_indexes env f image resize_image 1 span offset hmon x y
        (by rw [hcolumns]; exact hx) (by rw [hrows]; exact hy),
      verticalSample_index_degenerate env f image _ 1 x y hclass hpalette hraw hx hcy0
        (hcyN _ hy), hfly]

end PointTheorems

/-- Witness of C18: the 2 by 1 palette image, output pixel (1, 0) of the
horizontal pass; its colormap index is 9, that of source pixel (1, 0). -/
theorem point_palette_preserved_witness :
    (HorizontalFilter envQ16 PassOracle.ok
      (AcquireResizeFilter envQ16 paletteImage FilterTypes.PointFilter 1 false) paletteImage
      paletteImage 1 3 0).resize_image.storage_class = ClassType.PseudoClass ∧
    contributionList envQ16
      (AcquireResizeFilter envQ16 paletteImage FilterTypes.PointFilter 1 false) 1
      paletteImage.columns 1 = [⟨1, ((1 : ℕ) : ℤ)⟩] ∧
    (HorizontalFilter envQ16 PassOracle.ok
      (AcquireResizeFilter envQ16 paletteImage FilterTypes.PointFilter 1 false) paletteImage
      paletteImage 1 3 0).resize_image.indexes (1 : ℕ) (0 : ℕ) =
        paletteImage.indexes (1 : ℕ) (0 : ℕ) :=
  (point_palette_preserved envQ16 paletteImage paletteImage 1 3 0 1 0 rfl rfl
    (fun m h => by simp [paletteImage, solidImage] at h) rfl rfl (by decide) (by decide)).1

/-! ## The reduction to point sampling: the claim -/

section DegenerateClaim

variable {R : Type} [LinearOrderedField R] [FloorRing R]

end DegenerateClaim

/-- The reduction to point sampling when the filter weighs the nearest pixel 0:
with the Triangle filter at blur 1/4, a horizontal pass from 1 column to 2
(scale factor 2, effective support 1/4) gives output sample 0 the single
contribution of source index 0 with weight 0, and writes a black pixel whatever
the colour of the source. -/
theorem degenerate_zero_weight :
    rawSupport envQ16
      (AcquireResizeFilter envQ16 (solidImage 1 1 ⟨30000, 30000, 30000, 0⟩)
        FilterTypes.TriangleFilter (1 / 4) false) 2 < 1 / 2 ∧
    contributionList envQ16
      (AcquireResizeFilter envQ16 (solidImage 1 1 ⟨30000, 30000, 30000, 0⟩)
        FilterTypes.TriangleFilter (1 / 4) false) 2 1 0 = [⟨0, 0⟩] ∧
    (HorizontalFilter envQ16 PassOracle.ok
      (AcquireResizeFilter envQ16 (solidImage 1 1 ⟨30000, 30000, 30000, 0⟩)
        FilterTypes.TriangleFilter (1 / 4) false) (solidImage 1 1 ⟨30000, 30000, 30000, 0⟩)
      (solidImage 2 1 ⟨30000, 30000, 30000, 0⟩) 2 3 0).resize_image.pixels 0 0 =
        ⟨0, 0, 0, 0⟩ := by
  have hf : (AcquireResizeFilter envQ16 (solidImage 1 1 ⟨30000, 30000, 30000, 0⟩)
      FilterTypes.TriangleFilter (1 / 4) false).filter = FilterFunction.Triangle := rfl
  have hw : (AcquireResizeFilter envQ16 (solidImage 1 1 ⟨30000, 30000, 30000, 0⟩)
      FilterTypes.TriangleFilter (1 / 4) false).window = FilterFunction.Box := rfl
  have hs : (AcquireResizeFilter envQ16 (solidImage 1 1 ⟨30000, 30000, 30000, 0⟩)
      FilterTypes.TriangleFilter (1 / 4) false).support = 1 := rfl
  have hb : (AcquireResizeFilter envQ16 (solidImage 1 1 ⟨30000, 30000, 30000, 0⟩)
      FilterTypes.TriangleFilter (1 / 4) false).blur = 1 / 4 := by
    norm_num [AcquireResizeFilter, acquireBlur, solidImage, Artifacts.none, envQ16]
  generalize AcquireResizeFilter envQ16 (solidImage 1 1 ⟨30000, 30000, 30000, 0⟩)
    FilterTypes.TriangleFilter (1 / 4) false = f at hf hw hs hb
  have hraw : rawSupport envQ16 f 2 < 1 / 2 := by
    unfold rawSupport GetResizeFilterSupport
    rw [hs, hb]
    norm_num [passScale, MagickMax, envQ16]
  have hcen : passCenter (2 : ℚ) 0 = 1 / 4 := by norm_num [passCenter]
  have hfl : ⌊(1 / 4 : ℚ)⌋ = 0 := by
    rw [Int.floor_eq_iff]
    norm_num
  have hweight : GetResizeFilterWeight envQ16 f (((0 : ℤ) : ℚ) - 1 / 4 + 1 / 2) = 0 := by
    rw [weight_triangle_blur envQ16 f _ hf hw, hb]
    rw [show |(((0 : ℤ) : ℚ) - 1 / 4 + 1 / 2)| = 1 / 4 from by
      rw [abs_of_pos] <;> norm_num]
    norm_num [Triangle]
  have hlist : contributionList envQ16 f 2 1 0 = [⟨0, 0⟩] := by
    rw [degenerate_contributions envQ16 f 2 1 0 hraw (by rw [hcen]; norm_num)
      (by rw [hcen]; norm_num), hcen, hfl, if_pos hweight]
  refine ⟨hraw, hlist, ?_⟩
  have h := (HorizontalFilter_ok envQ16 f (solidImage 1 1 ⟨30000, 30000, 30000, 0⟩)
    (solidImage 2 1 ⟨30000, 30000, 30000, 0⟩) 2 3 0 (by intro mon h; cases h)).2.2 0 0
    (by decide) (by decide)
  rw [horizontalSample_noAlpha envQ16 f _ _ 2 0 0 rfl] at h
  have hl : contributionList envQ16 f 2 (solidImage 1 1 ⟨30000, 30000, 30000, 0⟩).columns 0 =
      [⟨0, 0⟩] := hlist
  rw [hl] at h
  simp only [List.map_cons, List.map_nil, List.sum_cons, List.sum_nil, zero_mul, add_zero] at h
  have hc : envQ16.ClampToQuantum 0 = 0 := clamp_zero
  rw [hc] at h
  exact_mod_cast h

/-- Witness of C15: the Point filter at scale factor 1, output coordinate 0 of a
source of extent 4. -/
theorem contribution_window_floor_witness :
    (0 : ℚ) < 1 ∧
    passStop (passSupport envQ16
        (AcquireResizeFilter envQ16 (solidImage 4 1 ⟨0, 0, 0, 0⟩) FilterTypes.PointFilter 1
          false) 1) (passCenter 1 0) 4 =
      min ⌊passCenter (1 : ℚ) 0 + passSupport envQ16
        (AcquireResizeFilter envQ16 (solidImage 4 1 ⟨0, 0, 0, 0⟩) FilterTypes.PointFilter 1
          false) 1 + 1 / 2⌋ ((4 : ℕ) : ℤ) :=
  ⟨by norm_num, (contribution_window_floor envQ16
    (AcquireResizeFilter envQ16 (solidImage 4 1 ⟨0, 0, 0, 0⟩) FilterTypes.PointFilter 1 false)
    1 4 0 (by norm_num)).2.1⟩

/-- C15 as stated fails: with the Point filter at scale factor 1 over a source
of extent 4, output coordinate 0 has support 1/2 and centre 1/2, so
`center + support + 0.5` is 3/2; the code stops the window at 1, the floor,
where `min(ceil(center + support + 0.5), sourceExtent)` is 2. -/
theorem window_stop_not_ceil :
    passSupport envQ16
      (AcquireResizeFilter envQ16 (solidImage 4 1 ⟨0, 0, 0, 0⟩) FilterTypes.PointFilter 1
        false) 1 = 1 / 2 ∧
    passCenter (1 : ℚ) 0 = 1 / 2 ∧
    passStop (passSupport envQ16
        (AcquireResizeFilter envQ16 (solidImage 4 1 ⟨0, 0, 0, 0⟩) FilterTypes.PointFilter 1
          false) 1) (passCenter 1 0) 4 = 1 ∧
    min ⌈passCenter (1 : ℚ) 0 + passSupport envQ16
      (AcquireResizeFilter envQ16 (solidImage 4 1 ⟨0, 0, 0, 0⟩) FilterTypes.PointFilter 1
        false) 1 + 1 / 2⌉ (4 : ℤ) = 2 ∧
    passStop (passSupport envQ16
        (AcquireResizeFilter envQ16 (solidImage 4 1 ⟨0, 0, 0, 0⟩) FilterTypes.PointFilter 1
          false) 1) (passCenter 1 0) 4 ≠
      min ⌈passCenter (1 : ℚ) 0 + passSupport envQ16
        (AcquireResizeFilter envQ16 (solidImage 4 1 ⟨0, 0, 0, 0⟩) FilterTypes.PointFilter 1
          false) 1 + 1 / 2⌉ (4 : ℤ) := by
  obtain ⟨_, _, hs⟩ := point_filter_fields envQ16 (solidImage 4 1 ⟨0, 0, 0, 0⟩) 1 rfl
  have hsup := (degenerate_pass envQ16 _ (solidImage 4 1 ⟨0, 0, 0, 0⟩) 1
    (rawSupport_of_support_zero envQ16 _ 1 hs)).1
  have hcen : passCenter (1 : ℚ) 0 = 1 / 2 := by norm_num [passCenter]
  have hstop : passStop (1 / 2 : ℚ) (1 / 2) 4 = 1 := by
    unfold passStop
    apply castToInt_eq_of_mem <;> norm_num [MagickMin]
  have hceil : min ⌈(1 / 2 : ℚ) + 1 / 2 + 1 / 2⌉ (4 : ℤ) = 2 := by
    have : ⌈(1 / 2 : ℚ) + 1 / 2 + 1 / 2⌉ = 2 := by
      rw [Int.ceil_eq_iff]
      norm_num
    rw [this]
    decide
  rw [hsup, hcen, hstop, hceil]
  exact ⟨rfl, rfl, rfl, rfl, by decide⟩

/-- Witness of C17: the horizontal pass with the Triangle filter at scale factor
1 over the 2 by 1 palette image; the effective support is above 1/2 and the
destination becomes direct class. -/
theorem pass_storage_class_witness :
    PassOracle.ok.setStorageClass = true ∧
    paletteImage.storage_class = ClassType.PseudoClass ∧
    (HorizontalFilter envQ16 PassOracle.ok
      (AcquireResizeFilter envQ16 paletteImage FilterTypes.TriangleFilter 1 false) paletteImage
      paletteImage 1 3 0).resize_image.storage_class = ClassType.DirectClass := by
  obtain ⟨_, _, hs, hb⟩ := triangle_filter_fields envQ16 paletteImage rfl
    (by norm_num [envQ16])
  exact ⟨rfl, rfl, ((pass_storage_class envQ16 PassOracle.ok
    (AcquireResizeFilter envQ16 paletteImage FilterTypes.TriangleFilter 1 false) paletteImage
    paletteImage 1 3 0 rfl).2.2 rfl (by
      unfold GetResizeFilterSupport
      rw [hs, hb]
      norm_num [MagickMax, envQ16])).1⟩

/-! ## The orchestrator by parts: theorems -/

section PartsTheorems

variable {R : Type} [LinearOrderedField R] [FloorRing R]

/-- The function `ResizeImage` off the fast path, in terms of its intermediate
image and its two passes. -/
theorem ResizeImage_eq (env : MagickEnv R) (oracle : ResizeOracle) (image : Image R)
    (columns rows : ℕ) (filter : FilterTypes) (blur : R)
    (hzero : ¬ (columns = 0 ∨ rows = 0))
    (hslow : ¬ (columns = image.columns ∧ rows = image.rows ∧
      filter = FilterTypes.UndefinedFilter ∧ blur = 1)) :
    ResizeImage env oracle image columns rows filter blur =
      match CloneImage image columns rows oracle.cloneResize with
      | none => ResizeOutcome.null
      | some resize_image =>
        match filterImage image columns rows oracle.cloneFilter with
        | none => ResizeOutcome.null
        | some filter_image =>
          if (resizePasses env oracle
              (AcquireResizeFilter env image
                (resizeFilterType image filter ((columns : R) / (image.columns : R))
                  ((rows : R) / (image.rows : R))) blur false)
              image filter_image resize_image columns rows).status = false then
            ResizeOutcome.null
          else ResizeOutcome.image
            { (resizePasses env oracle
                (AcquireResizeFilter env image
                  (resizeFilterType image filter ((columns : R) / (image.columns : R))
                    ((rows : R) / (image.rows : R))) blur false)
                image filter_image resize_image columns rows).resize_image with
              type := image.type } := by
  unfold ResizeImage
  rw [if_neg hzero, if_neg hslow]
  rfl

/-- C21, as the code has it: `ResizeImage` filters horizontally first, with a
`C x r` intermediate image, when `x_factor * y_factor > WorkLoadFactor`
(0.265), and vertically first, with a `c x R` intermediate image, otherwise;
the intermediate image it allocates has no more pixels than that of the other
order exactly when `x_factor <= y_factor` in the first case and
`y_factor <= x_factor` in the second. -/
theorem pass_order_by_workload (env : MagickEnv R) (oracle : ResizeOracle)
    (resize_filter : ResizeFilter R) (image resize_image : Image R) (columns rows : ℕ)
    (scratch : Scratch)
    (hic : 0 < image.columns) (hir : 0 < image.rows) :
    ∃ mid : Image R, filterImage image columns rows (some scratch) = some mid ∧
      ((columns : R) / (image.columns : R) * ((rows : R) / (image.rows : R)) > WorkLoadFactor →
        mid.columns = columns ∧ mid.rows = image.rows ∧
        (resizePasses env oracle resize_filter image mid resize_image columns rows).resize_image =
          (VerticalFilter env oracle.second resize_filter
            (HorizontalFilter env oracle.first resize_filter image mid
              ((columns : R) / (image.columns : R)) (mid.columns + rows) 0).resize_image
            resize_image ((rows : R) / (image.rows : R)) (mid.columns + rows)
            (HorizontalFilter env oracle.first resize_filter image mid
              ((columns : R) / (image.columns : R)) (mid.columns + rows) 0).offset).resize_image ∧
        (mid.columns * mid.rows ≤ image.columns * rows ↔
          (columns : R) / (image.columns : R) ≤ (rows : R) / (image.rows : R))) ∧
      (¬ (columns : R) / (image.columns : R) * ((rows : R) / (image.rows : R)) >
          WorkLoadFactor →
        mid.columns = image.columns ∧ mid.rows = rows ∧
        (resizePasses env oracle resize_filter image mid resize_image columns rows).resize_image =
          (HorizontalFilter env oracle.second resize_filter
            (VerticalFilter env oracle.first resize_filter image mid
              ((rows : R) / (image.rows : R)) (mid.rows + columns) 0).resize_image
            resize_image ((columns : R) / (image.columns : R)) (mid.rows + columns)
            (VerticalFilter env oracle.first resize_filter image mid
              ((rows : R) / (image.rows : R)) (mid.rows + columns) 0).offset).resize_image ∧
        (mid.columns * mid.rows ≤ columns * image.rows ↔
          (rows : R) / (image.rows : R) ≤ (columns : R) / (image.columns : R))) := by
  have hicR : (0 : R) < (image.columns : R) := by exact_mod_cast hic
  have hirR : (0 : R) < (image.rows : R) := by exact_mod_cast hir
  by_cases hw : (columns : R) / (image.columns : R) * ((rows : R) / (image.rows : R)) >
      WorkLoadFactor
  · refine ⟨{ image with
      columns := columns, rows := image.rows, pixels := scratch.pixels,
      indexes := scratch.indexes }, ?_, ?_, fun h => absurd hw h⟩
    · unfold filterImage
      simp only []
      rw [if_pos hw]
      exact CloneImage_sized image columns image.rows scratch (Or.inr hir)
    · intro _
      refine ⟨rfl, rfl, ?_, ?_⟩
      · unfold resizePasses
        simp only []
        rw [if_pos hw]
      · show columns * image.rows ≤ image.columns * rows ↔ _
        rw [div_le_div_iff₀ hicR hirR]
        constructor
        · intro h
          exact_mod_cast (by nlinarith : columns * image.rows ≤ rows * image.columns)
        · intro h
          have h' : columns * image.rows ≤ rows * image.columns := by exact_mod_cast h
          nlinarith
  · refine ⟨{ image with
      columns := image.columns, rows := rows, pixels := scratch.pixels,
      indexes := scratch.indexes }, ?_, fun h => absurd h hw, ?_⟩
    · unfold filterImage
      simp only []
      rw [if_neg hw]
      exact CloneImage_sized image image.columns rows scratch (Or.inl hic)
    · intro _
      refine ⟨rfl, rfl, ?_, ?_⟩
      · unfold resizePasses
        simp only []
        rw [if_neg hw]
      · show image.columns * rows ≤ columns * image.rows ↔ _
        rw [div_le_div_iff₀ hirR hicR]
        constructor
        · intro h
          exact_mod_cast (by nlinarith : rows * image.columns ≤ columns * image.rows)
        · intro h
          have h' : rows * image.columns ≤ columns * image.rows := by exact_mod_cast h
          nlinarith

/-- C22: `ResizeImage` with `columns = 0` or `rows = 0` returns no image after
`ThrowImageException(ImageError,"NegativeOrZeroImageSize")`, for every image,
filter and blur, whatever the clones and the passes would do: none is
reached. -/
theorem zero_size_rejected (env : MagickEnv R) (oracle : ResizeOracle) (image : Image R)
    (columns rows : ℕ) (filter : FilterTypes) (blur : R) (hzero : columns = 0 ∨ rows = 0) :
    ResizeImage env oracle image columns rows filter blur =
      ResizeOutcome.thrown "ImageError" "NegativeOrZeroImageSize" := by
  unfold ResizeImage
  rw [if_pos hzero]

/-- C29, as the code has it: the default support stored in the table `filters`
for each function is Box 0.5, Triangle 1.0, Gaussian 1.5, Sinc 4.0,
SincPolynomial 4.0, 1.0 for each of Hanning, Hamming, Blackman, Bohman, Welsh
and Kaiser, and 1.5 for Quadratic. -/
theorem catalog_supports :
    ((filters FilterTypes.BoxFilter : FilterEntry R).function = FilterFunction.Box ∧
      (filters FilterTypes.BoxFilter : FilterEntry R).support = 1 / 2) ∧
    ((filters FilterTypes.TriangleFilter : FilterEntry R).function = FilterFunction.Triangle ∧
      (filters FilterTypes.TriangleFilter : FilterEntry R).support = 1) ∧
    ((filters FilterTypes.GaussianFilter : FilterEntry R).function = FilterFunction.Gaussian ∧
      (filters FilterTypes.GaussianFilter : FilterEntry R).support = 3 / 2) ∧
    ((filters FilterTypes.SincFilter : FilterEntry R).function = FilterFunction.Sinc ∧
      (filters FilterTypes.SincFilter : FilterEntry R).support = 4) ∧
    ((filters FilterTypes.SincPolynomialFilter : FilterEntry R).function =
        FilterFunction.SincPolynomial ∧
      (filters FilterTypes.SincPolynomialFilter : FilterEntry R).support = 4) ∧
    ((filters FilterTypes.HanningFilter : FilterEntry R).function = FilterFunction.Hanning ∧
      (filters FilterTypes.HanningFilter : FilterEntry R).support = 1) ∧
    ((filters FilterTypes.HammingFilter : FilterEntry R).function = FilterFunction.Hamming ∧
      (filters FilterTypes.HammingFilter : FilterEntry R).support = 1) ∧
    ((filters FilterTypes.BlackmanFilter : FilterEntry R).function = FilterFunction.Blackman ∧
      (filters FilterTypes.BlackmanFilter : FilterEntry R).support = 1) ∧
    ((filters FilterTypes.BohmanFilter : FilterEntry R).function = FilterFunction.Bohman ∧
      (filters FilterTypes.BohmanFilter : FilterEntry R).support = 1) ∧
    ((filters FilterTypes.WelshFilter : FilterEntry R).function = FilterFunction.Welsh ∧
      (filters FilterTypes.WelshFilter : FilterEntry R).support = 1) ∧
    ((filters FilterTypes.KaiserFilter : FilterEntry R).function = FilterFunction.Kaiser ∧
      (filters FilterTypes.KaiserFilter : FilterEntry R).support = 1) ∧
    ((filters FilterTypes.QuadraticFilter : FilterEntry R).function =
        FilterFunction.Quadratic ∧
      (filters FilterTypes.QuadraticFilter : FilterEntry R).support = 3 / 2) := by
  simp [filters]

/-- The blur the builder computes in radial mode with no artifacts: the
requested blur, raised to `MagickEpsilon`, and multiplied by `bessel_zeros[0]`
only for the filter `BesselFilter`. -/
theorem acquireBlur_radial (env : MagickEnv R) (image : Image R) (filter : FilterTypes)
    (blur : R) (hart : image.artifacts = Artifacts.none) :
    (filter = FilterTypes.BesselFilter →
      acquireBlur env image filter blur true =
        (if blur < env.MagickEpsilon then env.MagickEpsilon else blur) *
          1.21966989126651) ∧
    (filter ≠ FilterTypes.BesselFilter →
      (filters (acquireTypes image filter true).1 : FilterEntry R).function =
        FilterFunction.Bessel →
      acquireBlur env image filter blur true =
        (if blur < env.MagickEpsilon then env.MagickEpsilon else blur)) := by
  constructor
  · intro h
    subst h
    simp [acquireBlur, hart, Artifacts.none, mapping, bessel_zeros]
  · intro hne hb
    cases filter <;>
      simp_all [acquireBlur, acquireTypes, Artifacts.none, mapping, filters]

/-- C30, as the code has it: in radial mode with no artifacts, the blur of the
built filter is the requested blur (raised to `MagickEpsilon` when below it)
multiplied by `bessel_zeros[0]` when `BesselFilter` is requested directly; when
the weighting function `Bessel` is obtained by promotion from a Sinc-based
preset or from Lanczos, the blur is the requested blur (raised to
`MagickEpsilon`), not rescaled. -/
theorem bessel_blur_direct_only (env : MagickEnv R) (image : Image R) (filter : FilterTypes)
    (blur : R) :
    ((AcquireResizeFilter env { image with artifacts := Artifacts.none }
        FilterTypes.BesselFilter blur true).filter = FilterFunction.Bessel ∧
      (AcquireResizeFilter env { image with artifacts := Artifacts.none }
        FilterTypes.BesselFilter blur true).blur =
          (if blur < env.MagickEpsilon then env.MagickEpsilon else blur) *
            1.21966989126651) ∧
    (filter ≠ FilterTypes.BesselFilter →
      (AcquireResizeFilter env { image with artifacts := Artifacts.none }
        filter blur true).filter = FilterFunction.Bessel →
      (AcquireResizeFilter env { image with artifacts := Artifacts.none }
        filter blur true).blur =
          (if blur < env.MagickEpsilon then env.MagickEpsilon else blur)) := by
  have h := acquireBlur_radial env { image with artifacts := Artifacts.none } filter blur rfl
  have hb := acquireBlur_radial env { image with artifacts := Artifacts.none }
    FilterTypes.BesselFilter blur rfl
  refine ⟨⟨?_, hb.1 rfl⟩, fun hne hf => h.2 hne hf⟩
  simp [AcquireResizeFilter, acquireTypes, mapping, filters, Artifacts.none]

end PartsTheorems

/-- Witness of C21: a 4 by 4 image reduced to 2 by 2; the product of the scale
factors is 1/4, the vertical pass runs first and the intermediate image is 4 by
2. -/
theorem pass_order_by_workload_witness :
    ∃ mid : Image ℚ,
      filterImage (solidImage 4 4 ⟨0, 0, 0, 0⟩) 2 2 (some blackScratch) = some mid ∧
      mid.columns = 4 ∧ mid.rows = 2 := by
  obtain ⟨mid, h, _, h2⟩ := pass_order_by_workload envQ16 (ResizeOracle.ok blackScratch)
    (AcquireResizeFilter envQ16 (solidImage 4 4 ⟨0, 0, 0, 0⟩) FilterTypes.BoxFilter 1 false)
    (solidImage 4 4 ⟨0, 0, 0, 0⟩) (solidImage 2 2 ⟨0, 0, 0, 0⟩) 2 2 blackScratch
    (by decide) (by decide)
  obtain ⟨hc, hr, _⟩ := h2 (by norm_num [solidImage, WorkLoadFactor])
  exact ⟨mid, h, hc, hr⟩

/-- C21 as stated fails: for a 1 by 2 source and a 2 by 1 target the scale
factors are 2 and 1/2, their product 1 is above `WorkLoadFactor`, and
`ResizeImage` allocates the 2 by 2 intermediate image of the horizontal-first
order, 4 pixels, where the vertical-first order needs 1 by 1, 1 pixel. -/
theorem pass_order_not_cheaper :
    ∃ mid : Image ℚ,
      filterImage (solidImage 1 2 ⟨0, 0, 0, 0⟩) 2 1 (some blackScratch) = some mid ∧
      mid.columns = 2 ∧ mid.rows = 2 ∧
      ¬ (mid.columns * mid.rows ≤ (solidImage 1 2 ⟨0, 0, 0, 0⟩).columns * 1) := by
  refine ⟨{ solidImage 1 2 ⟨0, 0, 0, 0⟩ with
    columns := 2, rows := 2, pixels := blackScratch.pixels, indexes := blackScratch.indexes },
    ?_, rfl, rfl, by decide⟩
  unfold filterImage
  simp only []
  rw [if_pos (by norm_num [solidImage, WorkLoadFactor])]
  exact CloneImage_sized _ 2 2 blackScratch (Or.inl (by decide))

/-- Witness of C22: a target of 0 columns. -/
theorem zero_size_rejected_witness :
    ResizeImage envQ16 (ResizeOracle.ok blackScratch) stepImage 0 1 FilterTypes.BoxFilter 1 =
      ResizeOutcome.thrown "ImageError" "NegativeOrZeroImageSize" :=
  zero_size_rejected envQ16 (ResizeOracle.ok blackScratch) stepImage 0 1 FilterTypes.BoxFilter 1
    (Or.inl rfl)

/-- C29 as stated fails: the row of the function `Quadratic` in the table
`filters` has the support 1.5, not 1.0. -/
theorem quadratic_support_not_one :
    (filters FilterTypes.QuadraticFilter : FilterEntry ℚ).function = FilterFunction.Quadratic ∧
    (filters FilterTypes.QuadraticFilter : FilterEntry ℚ).support = 3 / 2 ∧
    (filters FilterTypes.QuadraticFilter : FilterEntry ℚ).support ≠ 1 := by
  norm_num [filters]

/-- Witness of C30: the Hanning filter in radial mode, promoted to the
weighting function `Bessel`, requested with blur 2; the built blur is 2. -/
theorem bessel_blur_direct_only_witness :
    FilterTypes.HanningFilter ≠ FilterTypes.BesselFilter ∧
    (AcquireResizeFilter envQ16
      { solidImage 1 1 ⟨0, 0, 0, 0⟩ with artifacts := Artifacts.none }
      FilterTypes.HanningFilter 2 true).filter = FilterFunction.Bessel ∧
    (AcquireResizeFilter envQ16
      { solidImage 1 1 ⟨0, 0, 0, 0⟩ with artifacts := Artifacts.none }
      FilterTypes.HanningFilter 2 true).blur =
        (if (2 : ℚ) < envQ16.MagickEpsilon then envQ16.MagickEpsilon else 2) :=
  ⟨by decide, rfl,
    (bessel_blur_direct_only envQ16 (solidImage 1 1 ⟨0, 0, 0, 0⟩) FilterTypes.HanningFilter
      2).2 (by decide) rfl⟩

/-- C30 as stated fails: `LanczosFilter` in radial mode with no artifacts and
blur 1 is built with the weighting function `Bessel` and blur 1, not
1 * `bessel_zeros[0]`. -/
theorem lanczos_radial_blur_not_rescaled :
    (AcquireResizeFilter envQ16 (solidImage 1 1 ⟨0, 0, 0, 0⟩)
      FilterTypes.LanczosFilter 1 true).filter = FilterFunction.Bessel ∧
    (AcquireResizeFilter envQ16 (solidImage 1 1 ⟨0, 0, 0, 0⟩)
      FilterTypes.LanczosFilter 1 true).blur = 1 ∧
    (bessel_zeros : List ℚ)[0]? = some (1.21966989126651 : ℚ) ∧
    (AcquireResizeFilter envQ16 (solidImage 1 1 ⟨0, 0, 0, 0⟩)
      FilterTypes.LanczosFilter 1 true).blur ≠ 1 * 1.21966989126651 := by
  have hb : (AcquireResizeFilter envQ16 (solidImage 1 1 ⟨0, 0, 0, 0⟩)
      FilterTypes.LanczosFilter 1 true).blur = 1 := by
    norm_num [AcquireResizeFilter, acquireBlur, solidImage, Artifacts.none, mapping, envQ16]
  refine ⟨rfl, hb, rfl, ?_⟩
  rw [hb]
  norm_num

/-! ## A pass that fails or is cancelled: theorems -/

section FailureTheorems

variable {R : Type} [LinearOrderedField R] [FloorRing R]

/-- A loop whose lines leave a failed state as it is leaves a failed state as it
is. -/
theorem foldl_frozen (step : PassState R → ℕ → PassState R)
    (hfreeze : ∀ st x, st.status = false → step st x = st)
    (l : List ℕ) (init : PassState R) (hinit : init.status = false) :
    l.foldl step init = init := by
  induction l with
  | nil => rfl
  | cons a l ih => rw [List.foldl_cons, hfreeze init a hinit, ih]

/-- In a loop whose successful lines each add `inc` to the progress offset, a
state that is still successful after `n` lines has the offset advanced by
`inc * n`. -/
theorem foldl_offset (step : PassState R → ℕ → PassState R) (inc : ℤ)
    (hfreeze : ∀ st x, st.status = false → step st x = st)
    (hoffset : ∀ st x, st.status = true → (step st x).status = true →
      (step st x).offset = st.offset + inc)
    (init : PassState R) (n : ℕ)
    (h : ((List.range n).foldl step init).status = true) :
    ((List.range n).foldl step init).offset = init.offset + inc * (n : ℤ) := by
  induction n with
  | zero => simp
  | succ n ih =>
    rw [List.range_succ, List.foldl_append, List.foldl_cons, List.foldl_nil] at h ⊢
    have hprev : ((List.range n).foldl step init).status = true := by
      by_contra hne
      have hf : ((List.range n).foldl step init).status = false := by
        simpa using hne
      rw [hfreeze _ n hf] at h
      rw [hf] at h
      cases h
    rw [hoffset _ n hprev h, ih hprev]
    push_cast
    ring

/-- A loop stops at the first line that fails: when line `k` fails at the
offset it is reached with, the loop over `n > k` lines ends failed, in the
state it has after line `k`. -/
theorem foldl_stops (step : PassState R → ℕ → PassState R) (inc : ℤ)
    (fails : ℤ → ℕ → Prop)
    (hfreeze : ∀ st x, st.status = false → step st x = st)
    (hoffset : ∀ st x, st.status = true → (step st x).status = true →
      (step st x).offset = st.offset + inc)
    (hfail : ∀ st x, st.status = true → fails st.offset x → (step st x).status = false)
    (init : PassState R) (k n : ℕ) (hk : k < n)
    (hf : fails (init.offset + inc * (k : ℤ)) k) :
    ((List.range n).foldl step init).status = false ∧
    (List.range n).foldl step init = (List.range (k + 1)).foldl step init := by
  have hbase : ((List.range (k + 1)).foldl step init).status = false := by
    rw [List.range_succ, List.foldl_append, List.foldl_cons, List.foldl_nil]
    by_cases hprev : ((List.range k).foldl step init).status = true
    · apply hfail _ k hprev
      rw [foldl_offset step inc hfreeze hoffset init k hprev]
      exact hf
    · have hf' : ((List.range k).foldl step init).status = false := by
        simpa using hprev
      rw [hfreeze _ k hf']
      exact hf'
  have hall : ∀ m : ℕ, (List.range (k + 1 + m)).foldl step init =
      (List.range (k + 1)).foldl step init := by
    intro m
    induction m with
    | zero => rfl
    | succ m ih =>
      rw [← Nat.add_assoc, List.range_succ, List.foldl_append, List.foldl_cons,
        List.foldl_nil, ih, hfreeze _ _ hbase]
  obtain ⟨m, rfl⟩ : ∃ m, n = k + 1 + m := ⟨n - (k + 1), by omega⟩
  rw [hall m]
  exact ⟨hbase, rfl⟩

/-- A loop whose lines leave a field of the destination as it is leaves the
field as it is. -/
theorem foldl_frame {α : Type} (g : Image R → α) (step : PassState R → ℕ → PassState R)
    (hstep : ∀ st x, g (step st x).resize_image = g st.resize_image)
    (l : List ℕ) (init : PassState R) :
    g (l.foldl step init).resize_image = g init.resize_image := by
  induction l generalizing init with
  | nil => rfl
  | cons a l ih => rw [List.foldl_cons, ih, hstep]

/-- A line of the horizontal pass leaves a failed state as it is. -/
theorem horizontalLine_frozen (env : MagickEnv R) (oracle : PassOracle) (f : ResizeFilter R)
    (image : Image R) (x_factor : R) (span : ℕ) (st : PassState R) (x : ℕ)
    (h : st.status = false) :
    horizontalLine env oracle f image x_factor span st x = st := by
  unfold horizontalLine
  rw [if_pos h]

/-- A line of the vertical pass leaves a failed state as it is. -/
theorem verticalLine_frozen (env : MagickEnv R) (oracle : PassOracle) (f : ResizeFilter R)
    (image : Image R) (y_factor : R) (span : ℕ) (st : PassState R) (y : ℕ)
    (h : st.status = false) :
    verticalLine env oracle f image y_factor span st y = st := by
  unfold verticalLine
  rw [if_pos h]

/-- A line of the horizontal pass that ends successful has called the progress
monitor, if there is one, once. -/
theorem horizontalLine_offset (env : MagickEnv R) (oracle : PassOracle) (f : ResizeFilter R)
    (image : Image R) (x_factor : R) (span : ℕ) (st : PassState R) (x : ℕ)
    (h : st.status = true)
    (h' : (horizontalLine env oracle f image x_factor span st x).status = true) :
    (horizontalLine env oracle f image x_factor span st x).offset =
      st.offset + (if image.progress_monitor.isSome then 1 else 0) := by
  unfold horizontalLine at h' ⊢
  simp only [h, Bool.true_eq_false, if_false] at h' ⊢
  split_ifs at h' ⊢ with h1 h2
  all_goals first
    | (simp at h'; done)
    | (cases hm : image.progress_monitor <;> simp_all)

/-- A line of the vertical pass that ends successful has called the progress
monitor, if there is one, once. -/
theorem verticalLine_offset (env : MagickEnv R) (oracle : PassOracle) (f : ResizeFilter R)
    (image : Image R) (y_factor : R) (span : ℕ) (st : PassState R) (y : ℕ)
    (h : st.status = true)
    (h' : (verticalLine env oracle f image y_factor span st y).status = true) :
    (verticalLine env oracle f image y_factor span st y).offset =
      st.offset + (if image.progress_monitor.isSome then 1 else 0) := by
  unfold verticalLine at h' ⊢
  simp only [h, Bool.true_eq_false, if_false] at h' ⊢
  split_ifs at h' ⊢ with h1 h2
  all_goals first
    | (simp at h'; done)
    | (cases hm : image.progress_monitor <;> simp_all)

/-- A line of the horizontal pass fails when its read, its queue or its sync
fails, or when the progress monitor declines at the offset it is called
with. -/
theorem horizontalLine_fails (env : MagickEnv R) (oracle : PassOracle) (f : ResizeFilter R)
    (image : Image R) (x_factor : R) (span : ℕ) (st : PassState R) (x : ℕ)
    (h : st.status = true)
    (hfail : oracle.getVirtualPixels x = false ∨ oracle.queueAuthenticPixels x = false ∨
      oracle.syncAuthenticPixels x = false ∨
      ∃ m, image.progress_monitor = some m ∧ m st.offset span = false) :
    (horizontalLine env oracle f image x_factor span st x).status = false := by
  unfold horizontalLine
  simp only [h, Bool.true_eq_false, if_false]
  rcases hfail with h1 | h1 | h1 | ⟨m, hm, h1⟩
  · simp [h1]
  · simp [h1]
  · split_ifs
    · rfl
    · cases hm : image.progress_monitor <;> simp [h1]
  · split_ifs
    · rfl
    · simp [hm, h1]
    · simp [hm, h1]

/-- A line of the vertical pass fails when its read, its queue or its sync
fails, or when the progress monitor declines at the offset it is called
with. -/
theorem verticalLine_fails (env : MagickEnv R) (oracle : PassOracle) (f : ResizeFilter R)
    (image : Image R) (y_factor : R) (span : ℕ) (st : PassState R) (y : ℕ)
    (h : st.status = true)
    (hfail : oracle.getVirtualPixels y = false ∨ oracle.queueAuthenticPixels y = false ∨
      oracle.syncAuthenticPixels y = false ∨
      ∃ m, image.progress_monitor = some m ∧ m st.offset span = false) :
    (verticalLine env oracle f image y_factor span st y).status = false := by
  unfold verticalLine
  simp only [h, Bool.true_eq_false, if_false]
  rcases hfail with h1 | h1 | h1 | ⟨m, hm, h1⟩
  · simp [h1]
  · simp [h1]
  · split_ifs
    · rfl
    · cases hm : image.progress_monitor <;> simp [h1]
  · split_ifs
    · rfl
    · simp [hm, h1]
    · simp [hm, h1]

/-- A line of the horizontal pass writes nothing outside its column, whatever
fails. -/
theorem horizontalLine_untouched (env : MagickEnv R) (oracle : PassOracle) (f : ResizeFilter R)
    (image : Image R) (x_factor : R) (span : ℕ) (st : PassState R) (x : ℕ) (a b : ℤ)
    (ha : a ≠ (x : ℤ)) :
    (horizontalLine env oracle f image x_factor span st x).resize_image.pixels a b =
      st.resize_image.pixels a b ∧
    (horizontalLine env oracle f image x_factor span st x).resize_image.indexes a b =
      st.resize_image.indexes a b := by
  unfold horizontalLine
  simp only []
  repeat' split
  all_goals simp [ha]

/-- A line of the vertical pass writes nothing outside its row, whatever
fails. -/
theorem verticalLine_untouched (env : MagickEnv R) (oracle : PassOracle) (f : ResizeFilter R)
    (image : Image R) (y_factor : R) (span : ℕ) (st : PassState R) (y : ℕ) (a b : ℤ)
    (hb : b ≠ (y : ℤ)) :
    (verticalLine env oracle f image y_factor span st y).resize_image.pixels a b =
      st.resize_image.pixels a b ∧
    (verticalLine env oracle f image y_factor span st y).resize_image.indexes a b =
      st.resize_image.indexes a b := by
  unfold verticalLine
  simp only []
  repeat' split
  all_goals simp [hb]

/-- The first `n` lines of the horizontal pass write nothing in the columns
from `n` on, whatever fails. -/
theorem horizontal_loop_untouched (env : MagickEnv R) (oracle : PassOracle)
    (f : ResizeFilter R) (image : Image R) (x_factor : R) (span : ℕ) (init : PassState R)
    (n : ℕ) (a b : ℤ) (ha : (n : ℤ) ≤ a) :
    ((List.range n).foldl (horizontalLine env oracle f image x_factor span)
      init).resize_image.pixels a b = init.resize_image.pixels a b ∧
    ((List.range n).foldl (horizontalLine env oracle f image x_factor span)
      init).resize_image.indexes a b = init.resize_image.indexes a b := by
  induction n with
  | zero => simp
  | succ n ih =>
    rw [List.range_succ, List.foldl_append, List.foldl_cons, List.foldl_nil]
    have h1 := horizontalLine_untouched env oracle f image x_factor span
      ((List.range n).foldl (horizontalLine env oracle f image x_factor span) init) n a b
      (by push_cast at ha; omega)
    have h2 := ih (by push_cast at ha; omega)
    exact ⟨h1.1.trans h2.1, h1.2.trans h2.2⟩

/-- The first `n` lines of the vertical pass write nothing in the rows from `n`
on, whatever fails. -/
theorem vertical_loop_untouched (env : MagickEnv R) (oracle : PassOracle)
    (f : ResizeFilter R) (image : Image R) (y_factor : R) (span : ℕ) (init : PassState R)
    (n : ℕ) (a b : ℤ) (hb : (n : ℤ) ≤ b) :
    ((List.range n).foldl (verticalLine env oracle f image y_factor span)
      init).resize_image.pixels a b = init.resize_image.pixels a b ∧
    ((List.range n).foldl (verticalLine env oracle f image y_factor span)
      init).resize_image.indexes a b = init.resize_image.indexes a b := by
  induction n with
  | zero => simp
  | succ n ih =>
    rw [List.range_succ, List.foldl_append, List.foldl_cons, List.foldl_nil]
    have h1 := verticalLine_untouched env oracle f image y_factor span
      ((List.range n).foldl (verticalLine env oracle f image y_factor span) init) n a b
      (by push_cast at hb; omega)
    have h2 := ih (by push_cast at hb; omega)
    exact ⟨h1.1.trans h2.1, h1.2.trans h2.2⟩

/-- The horizontal pass stops at the first line that fails: when the read, the
queue or the sync of line `k` fails, or the progress monitor declines at the
call of line `k`, the pass returns false and no column after `k` is written. -/
theorem HorizontalFilter_stops (env : MagickEnv R) (oracle : PassOracle) (f : ResizeFilter R)
    (image resize_image : Image R) (x_factor : R) (span : ℕ) (offset : ℤ) (k : ℕ)
    (hk : k < resize_image.columns)
    (hfail : oracle.getVirtualPixels k = false ∨ oracle.queueAuthenticPixels k = false ∨
      oracle.syncAuthenticPixels k = false ∨
      ∃ m, image.progress_monitor = some m ∧ m (offset + (k : ℤ)) span = false) :
    (HorizontalFilter env oracle f image resize_image x_factor span offset).status = false ∧
    ∀ a b : ℤ, (k : ℤ) < a →
      (HorizontalFilter env oracle f image resize_image x_factor span
        offset).resize_image.pixels a b = resize_image.pixels a b ∧
      (HorizontalFilter env oracle f image resize_image x_factor span
        offset).resize_image.indexes a b = resize_image.indexes a b := by
  unfold HorizontalFilter
  split_ifs with h1 h2
  · exact ⟨rfl, fun a b _ => ⟨rfl, rfl⟩⟩
  · exact ⟨rfl, fun a b _ => ⟨rfl, rfl⟩⟩
  · simp only []
    have hstop := foldl_stops (horizontalLine env oracle f image x_factor span)
      (if image.progress_monitor.isSome then 1 else 0)
      (fun o x => oracle.getVirtualPixels x = false ∨ oracle.queueAuthenticPixels x = false ∨
        oracle.syncAuthenticPixels x = false ∨
        ∃ m, image.progress_monitor = some m ∧ m o span = false)
      (horizontalLine_frozen env oracle f image x_factor span)
      (horizontalLine_offset env oracle f image x_factor span)
      (horizontalLine_fails env oracle f image x_factor span)
      ⟨true, { resize_image with storage_class := passStorageClass env f image x_factor },
        offset⟩ k resize_image.columns hk
      (by
        rcases hfail with h | h | h | ⟨m, hm, h⟩
        · exact Or.inl h
        · exact Or.inr (Or.inl h)
        · exact Or.inr (Or.inr (Or.inl h))
        · refine Or.inr (Or.inr (Or.inr ⟨m, hm, ?_⟩))
          simp only [hm, Option.isSome_some, if_true, one_mul]
          exact h)
    refine ⟨hstop.1, ?_⟩
    intro a b hab
    rw [hstop.2]
    exact horizontal_loop_untouched env oracle f image x_factor span _ (k + 1) a b
      (by push_cast; omega)

/-- The progress offset a horizontal pass that returns true leaves: one call of
the progress monitor, if there is one, for each column. -/
theorem HorizontalFilter_offset (env : MagickEnv R) (oracle : PassOracle) (f : ResizeFilter R)
    (image resize_image : Image R) (x_factor : R) (span : ℕ) (offset : ℤ)
    (h : (HorizontalFilter env oracle f image resize_image x_factor span offset).status = true) :
    (HorizontalFilter env oracle f image resize_image x_factor span offset).offset =
      offset + (if image.progress_monitor.isSome then 1 else 0) *
        (resize_image.columns : ℤ) := by
  unfold HorizontalFilter at h ⊢
  by_cases h1 : oracle.setStorageClass = false
  · rw [if_pos h1] at h
    simp at h
  · rw [if_neg h1] at h ⊢
    simp only [] at h ⊢
    by_cases h2 : oracle.acquireContributions = false
    · rw [if_pos h2] at h
      simp at h
    · rw [if_neg h2] at h ⊢
      exact foldl_offset (horizontalLine env oracle f image x_factor span) _
        (horizontalLine_frozen env oracle f image x_factor span)
        (horizontalLine_offset env oracle f image x_factor span) _ _ h

/-- A line of the horizontal pass changes the pixels and the indexes of the
destination only, whatever fails. -/
theorem horizontalLine_frame (env : MagickEnv R) (oracle : PassOracle) (f : ResizeFilter R)
    (image : Image R) (x_factor : R) (span : ℕ) (st : PassState R) (x : ℕ) :
    (horizontalLine env oracle f image x_factor span st x).resize_image.columns =
      st.resize_image.columns ∧
    (horizontalLine env oracle f image x_factor span st x).resize_image.rows =
      st.resize_image.rows ∧
    (horizontalLine env oracle f image x_factor span st x).resize_image.progress_monitor =
      st.resize_image.progress_monitor := by
  unfold horizontalLine
  simp only []
  repeat' split
  all_goals exact ⟨rfl, rfl, rfl⟩

/-- The horizontal pass leaves the size and the progress monitor of its
destination as they are, whatever fails. -/
theorem HorizontalFilter_frame (env : MagickEnv R) (oracle : PassOracle) (f : ResizeFilter R)
    (image resize_image : Image R) (x_factor : R) (span : ℕ) (offset : ℤ) :
    (HorizontalFilter env oracle f image resize_image x_factor span
      offset).resize_image.columns = resize_image.columns ∧
    (HorizontalFilter env oracle f image resize_image x_factor span
      offset).resize_image.rows = resize_image.rows ∧
    (HorizontalFilter env oracle f image resize_image x_factor span
      offset).resize_image.progress_monitor = resize_image.progress_monitor := by
  unfold HorizontalFilter
  split_ifs with h1 h2
  · exact ⟨rfl, rfl, rfl⟩
  · exact ⟨rfl, rfl, rfl⟩
  · simp only []
    refine ⟨?_, ?_, ?_⟩
    · rw [foldl_frame Image.columns _
        (fun st x => (horizontalLine_frame env oracle f image x_factor span st x).1)]
    · rw [foldl_frame Image.rows _
        (fun st x => (horizontalLine_frame env oracle f image x_factor span st x).2.1)]
    · rw [foldl_frame Image.progress_monitor _
        (fun st x => (horizontalLine_frame env oracle f image x_factor span st x).2.2)]

/-- The vertical pass stops at the first line that fails: when the read, the
queue or the sync of line `k` fails, or the progress monitor declines at the
call of line `k`, the pass returns false and no row after `k` is written. -/
theorem VerticalFilter_stops (env : MagickEnv R) (oracle : PassOracle) (f : ResizeFilter R)
    (image resize_image : Image R) (y_factor : R) (span : ℕ) (offset : ℤ) (k : ℕ)
    (hk : k < resize_image.rows)
    (hfail : oracle.getVirtualPixels k = false ∨ oracle.queueAuthenticPixels k = false ∨
      oracle.syncAuthenticPixels k = false ∨
      ∃ m, image.progress_monitor = some m ∧ m (offset + (k : ℤ)) span = false) :
    (VerticalFilter env oracle f image resize_image y_factor span offset).status = false ∧
    ∀ a b : ℤ, (k : ℤ) < b →
      (VerticalFilter env oracle f image resize_image y_factor span
        offset).resize_image.pixels a b = resize_image.pixels a b ∧
      (VerticalFilter env oracle f image resize_image y_factor span
        offset).resize_image.indexes a b = resize_image.indexes a b := by
  unfold VerticalFilter
  split_ifs with h1 h2
  · exact ⟨rfl, fun a b _ => ⟨rfl, rfl⟩⟩
  · exact ⟨rfl, fun a b _ => ⟨rfl, rfl⟩⟩
  · simp only []
    have hstop := foldl_stops (verticalLine env oracle f image y_factor span)
      (if image.progress_monitor.isSome then 1 else 0)
      (fun o x => oracle.getVirtualPixels x = false ∨ oracle.queueAuthenticPixels x = false ∨
        oracle.syncAuthenticPixels x = false ∨
        ∃ m, image.progress_monitor = some m ∧ m o span = false)
      (verticalLine_frozen env oracle f image y_factor span)
      (verticalLine_offset env oracle f image y_factor span)
      (verticalLine_fails env oracle f image y_factor span)
      ⟨true, { resize_image with storage_class := passStorageClass env f image y_factor },
        offset⟩ k resize_image.rows hk
      (by
        rcases hfail with h | h | h | ⟨m, hm, h⟩
        · exact Or.inl h
        · exact Or.inr (Or.inl h)
        · exact Or.inr (Or.inr (Or.inl h))
        · refine Or.inr (Or.inr (Or.inr ⟨m, hm, ?_⟩))
          simp only [hm, Option.isSome_some, if_true, one_mul]
          exact h)
    refine ⟨hstop.1, ?_⟩
    intro a b hab
    rw [hstop.2]
    exact vertical_loop_untouched env oracle f image y_factor span _ (k + 1) a b
      (by push_cast; omega)

/-- The progress offset a vertical pass that returns true leaves: one call of
the progress monitor, if there is one, for each row. -/
theorem VerticalFilter_offset (env : MagickEnv R) (oracle : PassOracle) (f : ResizeFilter R)
    (image resize_image : Image R) (y_factor : R) (span : ℕ) (offset : ℤ)
    (h : (VerticalFilter env oracle f image resize_image y_factor span offset).status = true) :
    (VerticalFilter env oracle f image resize_image y_factor span offset).offset =
      offset + (if image.progress_monitor.isSome then 1 else 0) *
        (resize_image.rows : ℤ) := by
  unfold VerticalFilter at h ⊢
  by_cases h1 : oracle.setStorageClass = false
  · rw [if_pos h1] at h
    simp at h
  · rw [if_neg h1] at h ⊢
    simp only [] at h ⊢
    by_cases h2 : oracle.acquireContributions = false
    · rw [if_pos h2] at h
      simp at h
    · rw [if_neg h2] at h ⊢
      exact foldl_offset (verticalLine env oracle f image y_factor span) _
        (verticalLine_frozen env oracle f image y_factor span)
        (verticalLine_offset env oracle f image y_factor span) _ _ h

/-- A line of the vertical pass changes the pixels and the indexes of the
destination only, whatever fails. -/
theorem verticalLine_frame (env : MagickEnv R) (oracle : PassOracle) (f : ResizeFilter R)
    (image : Image R) (y_factor : R) (span : ℕ) (st : PassState R) (x : ℕ) :
    (verticalLine env oracle f image y_factor span st x).resize_image.columns =
      st.resize_image.columns ∧
    (verticalLine env oracle f image y_factor span st x).resize_image.rows =
      st.resize_image.rows ∧
    (verticalLine env oracle f image y_factor span st x).resize_image.progress_monitor =
      st.resize_image.progress_monitor := by
  unfold verticalLine
  simp only []
  repeat' split
  all_goals exact ⟨rfl, rfl, rfl⟩

/-- The vertical pass leaves the size and the progress monitor of its
destination as they are, whatever fails. -/
theorem VerticalFilter_frame (env : MagickEnv R) (oracle : PassOracle) (f : ResizeFilter R)
    (image resize_image : Image R) (y_factor : R) (span : ℕ) (offset : ℤ) :
    (VerticalFilter env oracle f image resize_image y_factor span
      offset).resize_image.columns = resize_image.columns ∧
    (VerticalFilter env oracle f image resize_image y_factor span
      offset).resize_image.rows = resize_image.rows ∧
    (VerticalFilter env oracle f image resize_image y_factor span
      offset).resize_image.progress_monitor = resize_image.progress_monitor := by
  unfold VerticalFilter
  split_ifs with h1 h2
  · exact ⟨rfl, rfl, rfl⟩
  · exact ⟨rfl, rfl, rfl⟩
  · simp only []
    refine ⟨?_, ?_, ?_⟩
    · rw [foldl_frame Image.columns _
        (fun st x => (verticalLine_frame env oracle f image y_factor span st x).1)]
    · rw [foldl_frame Image.rows _
        (fun st x => (verticalLine_frame env oracle f image y_factor span st x).2.1)]
    · rw [foldl_frame Image.progress_monitor _
        (fun st x => (verticalLine_frame env oracle f image y_factor span st x).2.2)]

end FailureTheorems

section ResizeFailureTheorems

variable {R : Type} [LinearOrderedField R] [FloorRing R]

/-- A clone of a size that is not 0 by 0 has the size asked for and the
progress monitor of the image. -/
theorem CloneImage_some (image clone : Image R) (columns rows : ℕ) (outcome : Option Scratch)
    (h : CloneImage image columns rows outcome = some clone)
    (hsize : ¬ (columns = 0 ∧ rows = 0)) :
    clone.columns = columns ∧ clone.rows = rows ∧
    clone.progress_monitor = image.progress_monitor ∧ clone.matte = image.matte := by
  unfold CloneImage at h
  cases outcome with
  | none => simp at h
  | some scratch =>
    simp only [if_neg hsize, Option.some.injEq] at h
    rw [← h]
    exact ⟨rfl, rfl, rfl, rfl⟩

/-- The intermediate image of `ResizeImage` for a target that is not empty: its
size and its progress monitor. -/
theorem filterImage_some (image mid : Image R) (columns rows : ℕ) (outcome : Option Scratch)
    (h : filterImage image columns rows outcome = some mid)
    (hc : columns ≠ 0) (hr : rows ≠ 0) :
    mid.progress_monitor = image.progress_monitor ∧ mid.matte = image.matte ∧
    ((columns : R) / (image.columns : R) * ((rows : R) / (image.rows : R)) > WorkLoadFactor →
      mid.columns = columns ∧ mid.rows = image.rows) ∧
    (¬ (columns : R) / (image.columns : R) * ((rows : R) / (image.rows : R)) > WorkLoadFactor →
      mid.columns = image.columns ∧ mid.rows = rows) := by
  unfold filterImage at h
  simp only [] at h
  by_cases hw : (columns : R) / (image.columns : R) * ((rows : R) / (image.rows : R)) >
      WorkLoadFactor
  · rw [if_pos hw] at h
    obtain ⟨h1, h2, h3, h4⟩ := CloneImage_some image mid columns image.rows outcome h
      (fun hz => hc hz.1)
    exact ⟨h3, h4, fun _ => ⟨h1, h2⟩, fun hn => absurd hw hn⟩
  · rw [if_neg hw] at h
    obtain ⟨h1, h2, h3, h4⟩ := CloneImage_some image mid image.columns rows outcome h
      (fun hz => hr hz.2)
    exact ⟨h3, h4, fun hp => absurd hp hw, fun _ => ⟨h1, h2⟩⟩

/-- The two passes of `ResizeImage` end failed when the read, the queue or the
sync of a line fails in the first pass or in the second. -/
theorem resizePasses_failed (env : MagickEnv R) (oracle : ResizeOracle) (f : ResizeFilter R)
    (image mid resize_image : Image R) (columns rows k : ℕ)
    (hmid : ((columns : R) / (image.columns : R) * ((rows : R) / (image.rows : R)) >
        WorkLoadFactor → mid.columns = columns) ∧
      (¬ (columns : R) / (image.columns : R) * ((rows : R) / (image.rows : R)) >
        WorkLoadFactor → mid.rows = rows))
    (hcolumns : resize_image.columns = columns) (hrows : resize_image.rows = rows)
    (hkc : k < columns) (hkr : k < rows)
    (hfail : (oracle.first.getVirtualPixels k = false ∨
        oracle.first.queueAuthenticPixels k = false ∨
        oracle.first.syncAuthenticPixels k = false) ∨
      (oracle.second.getVirtualPixels k = false ∨
        oracle.second.queueAuthenticPixels k = false ∨
        oracle.second.syncAuthenticPixels k = false)) :
    (resizePasses env oracle f image mid resize_image columns rows).status = false := by
  unfold resizePasses
  simp only []
  split_ifs with hw
  · simp only []
    rcases hfail with h | h
    · have h1 := (HorizontalFilter_stops env oracle.first f image mid
        ((columns : R) / (image.columns : R)) (mid.columns + rows) 0 k
        (by rw [hmid.1 hw]; exact hkc)
        (by rcases h with h | h | h
            · exact Or.inl h
            · exact Or.inr (Or.inl h)
            · exact Or.inr (Or.inr (Or.inl h)))).1
      rw [h1, Bool.false_and]
    · have h2 := (VerticalFilter_stops env oracle.second f
        (HorizontalFilter env oracle.first f image mid
          ((columns : R) / (image.columns : R)) (mid.columns + rows) 0).resize_image
        resize_image ((rows : R) / (image.rows : R)) (mid.columns + rows)
        (HorizontalFilter env oracle.first f image mid
          ((columns : R) / (image.columns : R)) (mid.columns + rows) 0).offset k
        (by rw [hrows]; exact hkr)
        (by rcases h with h | h | h
            · exact Or.inl h
            · exact Or.inr (Or.inl h)
            · exact Or.inr (Or.inr (Or.inl h)))).1
      rw [h2, Bool.and_false]
  · simp only []
    rcases hfail with h | h
    · have h1 := (VerticalFilter_stops env oracle.first f image mid
        ((rows : R) / (image.rows : R)) (mid.rows + columns) 0 k
        (by rw [hmid.2 hw]; exact hkr)
        (by rcases h with h | h | h
            · exact Or.inl h
            · exact Or.inr (Or.inl h)
            · exact Or.inr (Or.inr (Or.inl h)))).1
      rw [h1, Bool.false_and]
    · have h2 := (HorizontalFilter_stops env oracle.second f
        (VerticalFilter env oracle.first f image mid
          ((rows : R) / (image.rows : R)) (mid.rows + columns) 0).resize_image
        resize_image ((columns : R) / (image.columns : R)) (mid.rows + columns)
        (VerticalFilter env oracle.first f image mid
          ((rows : R) / (image.rows : R)) (mid.rows + columns) 0).offset k
        (by rw [hcolumns]; exact hkc)
        (by rcases h with h | h | h
            · exact Or.inl h
            · exact Or.inr (Or.inl h)
            · exact Or.inr (Or.inr (Or.inl h)))).1
      rw [h2, Bool.and_false]

/-- The function `ResizeImage` returns no image when its two passes end
failed. -/
theorem ResizeImage_null_of_failed (env : MagickEnv R) (oracle : ResizeOracle)
    (image : Image R) (columns rows : ℕ) (filter : FilterTypes) (blur : R)
    (hzero : ¬ (columns = 0 ∨ rows = 0))
    (hslow : ¬ (columns = image.columns ∧ rows = image.rows ∧
      filter = FilterTypes.UndefinedFilter ∧ blur = 1))
    (hfailed : ∀ mid resize_image : Image R,
      CloneImage image columns rows oracle.cloneResize = some resize_image →
      filterImage image columns rows oracle.cloneFilter = some mid →
      (resizePasses env oracle
        (AcquireResizeFilter env image
          (resizeFilterType image filter ((columns : R) / (image.columns : R))
            ((rows : R) / (image.rows : R))) blur false)
        image mid resize_image columns rows).status = false) :
    ResizeImage env oracle image columns rows filter blur = ResizeOutcome.null := by
  rw [ResizeImage_eq env oracle image columns rows filter blur hzero hslow]
  cases h1 : CloneImage image columns rows oracle.cloneResize with
  | none => rfl
  | some resize_image =>
    simp only []
    cases h2 : filterImage image columns rows oracle.cloneFilter with
    | none => rfl
    | some mid =>
      simp only []
      rw [if_pos (hfailed mid resize_image h1 h2)]

/-- The two passes of `ResizeImage` end failed when the progress monitor
declines at one of its first `columns + rows` calls, whatever else happens. -/
theorem resizePasses_cancelled (env : MagickEnv R) (oracle : ResizeOracle) (f : ResizeFilter R)
    (image mid resize_image : Image R) (columns rows o : ℕ) (m : ℤ → ℕ → Bool)
    (hmon : image.progress_monitor = some m) (hmidmon : mid.progress_monitor = some m)
    (hmid : ((columns : R) / (image.columns : R) * ((rows : R) / (image.rows : R)) >
        WorkLoadFactor → mid.columns = columns) ∧
      (¬ (columns : R) / (image.columns : R) * ((rows : R) / (image.rows : R)) >
        WorkLoadFactor → mid.rows = rows))
    (hcolumns : resize_image.columns = columns) (hrows : resize_image.rows = rows)
    (ho : o < columns + rows) (hdecline : m (o : ℤ) (columns + rows) = false) :
    (resizePasses env oracle f image mid resize_image columns rows).status = false := by
  unfold resizePasses
  simp only []
  split_ifs with hw
  · simp only []
    have hmc := hmid.1 hw
    by_cases hoc : o < columns
    · have h1 := (HorizontalFilter_stops env oracle.first f image mid
        ((columns : R) / (image.columns : R)) (mid.columns + rows) 0 o
        (by rw [hmc]; exact hoc)
        (Or.inr (Or.inr (Or.inr ⟨m, hmon, by rw [hmc, zero_add]; exact hdecline⟩)))).1
      rw [h1, Bool.false_and]
    · by_cases hp : (HorizontalFilter env oracle.first f image mid
          ((columns : R) / (image.columns : R)) (mid.columns + rows) 0).status = true
      · have hoff := HorizontalFilter_offset env oracle.first f image mid
          ((columns : R) / (image.columns : R)) (mid.columns + rows) 0 hp
        simp only [hmon, Option.isSome_some, if_true, one_mul, zero_add] at hoff
        have hfr := (HorizontalFilter_frame env oracle.first f image mid
          ((columns : R) / (image.columns : R)) (mid.columns + rows) 0).2.2
        have h2 := (VerticalFilter_stops env oracle.second f
          (HorizontalFilter env oracle.first f image mid
            ((columns : R) / (image.columns : R)) (mid.columns + rows) 0).resize_image
          resize_image ((rows : R) / (image.rows : R)) (mid.columns + rows)
          (HorizontalFilter env oracle.first f image mid
            ((columns : R) / (image.columns : R)) (mid.columns + rows) 0).offset
          (o - columns) (by rw [hrows]; omega)
          (Or.inr (Or.inr (Or.inr ⟨m, by rw [hfr]; exact hmidmon, by
            rw [hoff, hmc]
            have hcast : (columns : ℤ) + ((o - columns : ℕ) : ℤ) = (o : ℤ) := by omega
            rw [hcast]
            exact hdecline⟩)))).1
        rw [h2, Bool.and_false]
      · have hf : (HorizontalFilter env oracle.first f image mid
            ((columns : R) / (image.columns : R)) (mid.columns + rows) 0).status = false := by
          simpa using hp
        rw [hf, Bool.false_and]
  · simp only []
    have hmr := hmid.2 hw
    have hdecline' : m (o : ℤ) (rows + columns) = false := by
      rw [Nat.add_comm]; exact hdecline
    by_cases hor : o < rows
    · have h1 := (VerticalFilter_stops env oracle.first f image mid
        ((rows : R) / (image.rows : R)) (mid.rows + columns) 0 o
        (by rw [hmr]; exact hor)
        (Or.inr (Or.inr (Or.inr ⟨m, hmon, by rw [hmr, zero_add]; exact hdecline'⟩)))).1
      rw [h1, Bool.false_and]
    · by_cases hp : (VerticalFilter env oracle.first f image mid
          ((rows : R) / (image.rows : R)) (mid.rows + columns) 0).status = true
      · have hoff := VerticalFilter_offset env oracle.first f image mid
          ((rows : R) / (image.rows : R)) (mid.rows + columns) 0 hp
        simp only [hmon, Option.isSome_some, if_true, one_mul, zero_add] at hoff
        have hfr := (VerticalFilter_frame env oracle.first f image mid
          ((rows : R) / (image.rows : R)) (mid.rows + columns) 0).2.2
        have h2 := (HorizontalFilter_stops env oracle.second f
          (VerticalFilter env oracle.first f image mid
            ((rows : R) / (image.rows : R)) (mid.rows + columns) 0).resize_image
          resize_image ((columns : R) / (image.columns : R)) (mid.rows + columns)
          (VerticalFilter env oracle.first f image mid
            ((rows : R) / (image.rows : R)) (mid.rows + columns) 0).offset
          (o - rows) (by rw [hcolumns]; omega)
          (Or.inr (Or.inr (Or.inr ⟨m, by rw [hfr]; exact hmidmon, by
            rw [hoff, hmr]
            have hcast : (rows : ℤ) + ((o - rows : ℕ) : ℤ) = (o : ℤ) := by omega
            rw [hcast]
            exact hdecline'⟩)))).1
        rw [h2, Bool.and_false]
      · have hf : (VerticalFilter env oracle.first f image mid
            ((rows : R) / (image.rows : R)) (mid.rows + columns) 0).status = false := by
          simpa using hp
        rw [hf, Bool.false_and]

/-- The function `ResizeImage` returns no image when the progress monitor of the
image declines at one of its first `columns + rows` calls. -/
theorem ResizeImage_cancelled (env : MagickEnv R) (oracle : ResizeOracle) (image : Image R)
    (columns rows : ℕ) (filter : FilterTypes) (blur : R) (o : ℕ) (monitor : ℤ → ℕ → Bool)
    (hmonitor : image.progress_monitor = some monitor)
    (hzero : ¬ (columns = 0 ∨ rows = 0))
    (hslow : ¬ (columns = image.columns ∧ rows = image.rows ∧
      filter = FilterTypes.UndefinedFilter ∧ blur = 1))
    (ho : o < columns + rows) (hdecline : monitor (o : ℤ) (columns + rows) = false) :
    ResizeImage env oracle image columns rows filter blur = ResizeOutcome.null := by
  have hc : columns ≠ 0 := fun h => hzero (Or.inl h)
  have hr : rows ≠ 0 := fun h => hzero (Or.inr h)
  apply ResizeImage_null_of_failed env oracle image columns rows filter blur hzero hslow
  intro mid dst h1 h2
  obtain ⟨hd1, hd2, _, _⟩ := CloneImage_some image dst columns rows _ h1 (fun hz => hc hz.1)
  obtain ⟨hmm, _, hm1, hm2⟩ := filterImage_some image mid columns rows _ h2 hc hr
  exact resizePasses_cancelled env oracle _ image mid dst columns rows o monitor hmonitor
    (by rw [hmm]; exact hmonitor) ⟨fun hw => (hm1 hw).1, fun hw => (hm2 hw).2⟩ hd1 hd2 ho
    hdecline

/-- C23, as the code has it: when a pixel read, queue or sync fails on output
line `k` of a pass, the pass marks itself failed, skips every remaining output
line (no line after `k` is computed or written) and returns failure, so that
`ResizeImage` returns no image, whichever of its two passes the failure is
in. -/
theorem failed_line_stops_pass (env : MagickEnv R) (oracle : PassOracle)
    (resize_filter : ResizeFilter R) (image resize_image : Image R) (factor : R) (span : ℕ)
    (offset : ℤ) (k : ℕ)
    (hfail : oracle.getVirtualPixels k = false ∨ oracle.queueAuthenticPixels k = false ∨
      oracle.syncAuthenticPixels k = false) :
    (k < resize_image.columns →
      (HorizontalFilter env oracle resize_filter image resize_image factor span
        offset).status = false ∧
      ∀ a b : ℤ, (k : ℤ) < a →
        (HorizontalFilter env oracle resize_filter image resize_image factor span
          offset).resize_image.pixels a b = resize_image.pixels a b ∧
        (HorizontalFilter env oracle resize_filter image resize_image factor span
          offset).resize_image.indexes a b = resize_image.indexes a b) ∧
    (k < resize_image.rows →
      (VerticalFilter env oracle resize_filter image resize_image factor span
        offset).status = false ∧
      ∀ a b : ℤ, (k : ℤ) < b →
        (VerticalFilter env oracle resize_filter image resize_image factor span
          offset).resize_image.pixels a b = resize_image.pixels a b ∧
        (VerticalFilter env oracle resize_filter image resize_image factor span
          offset).resize_image.indexes a b = resize_image.indexes a b) ∧
    (∀ (whole : ResizeOracle) (columns rows : ℕ) (filter : FilterTypes) (blur : R),
      ¬ (columns = image.columns ∧ rows = image.rows ∧
        filter = FilterTypes.UndefinedFilter ∧ blur = 1) →
      k < columns → k < rows → (whole.first = oracle ∨ whole.second = oracle) →
      ResizeImage env whole image columns rows filter blur = ResizeOutcome.null) := by
  have hfail' : oracle.getVirtualPixels k = false ∨ oracle.queueAuthenticPixels k = false ∨
      oracle.syncAuthenticPixels k = false ∨
      ∃ m, image.progress_monitor = some m ∧ m (offset + (k : ℤ)) span = false := by
    rcases hfail with h | h | h
    · exact Or.inl h
    · exact Or.inr (Or.inl h)
    · exact Or.inr (Or.inr (Or.inl h))
  refine ⟨fun hk => HorizontalFilter_stops env oracle resize_filter image resize_image factor
      span offset k hk hfail',
    fun hk => VerticalFilter_stops env oracle resize_filter image resize_image factor
      span offset k hk hfail', ?_⟩
  intro whole columns rows filter blur hslow hkc hkr hwhich
  have hc : columns ≠ 0 := by omega
  have hr : rows ≠ 0 := by omega
  apply ResizeImage_null_of_failed env whole image columns rows filter blur (by omega) hslow
  intro mid dst h1 h2
  obtain ⟨hd1, hd2, _, _⟩ := CloneImage_some image dst columns rows _ h1 (fun hz => hc hz.1)
  obtain ⟨_, _, hm1, hm2⟩ := filterImage_some image mid columns rows _ h2 hc hr
  apply resizePasses_failed env whole _ image mid dst columns rows k
    ⟨fun hw => (hm1 hw).1, fun hw => (hm2 hw).2⟩ hd1 hd2 hkc hkr
  rcases hwhich with h | h
  · left
    rw [h]
    exact hfail
  · right
    rw [h]
    exact hfail

/-- C24, as the code has it: once the progress callback returns "do not
continue" at the call that follows output line `k` of a pass, no further output
line of that pass is processed or written, the pass returns failure, and
`ResizeImage` returns no image whenever the callback declines at one of its
first `columns + rows` calls. -/
theorem cancelled_pass_stops (env : MagickEnv R) (oracle : PassOracle)
    (resize_filter : ResizeFilter R) (image resize_image : Image R) (factor : R) (span : ℕ)
    (offset : ℤ) (k : ℕ) (monitor : ℤ → ℕ → Bool)
    (hmonitor : image.progress_monitor = some monitor)
    (hdecline : monitor (offset + (k : ℤ)) span = false) :
    (k < resize_image.columns →
      (HorizontalFilter env oracle resize_filter image resize_image factor span
        offset).status = false ∧
      ∀ a b : ℤ, (k : ℤ) < a →
        (HorizontalFilter env oracle resize_filter image resize_image factor span
          offset).resize_image.pixels a b = resize_image.pixels a b ∧
        (HorizontalFilter env oracle resize_filter image resize_image factor span
          offset).resize_image.indexes a b = resize_image.indexes a b) ∧
    (k < resize_image.rows →
      (VerticalFilter env oracle resize_filter image resize_image factor span
        offset).status = false ∧
      ∀ a b : ℤ, (k : ℤ) < b →
        (VerticalFilter env oracle resize_filter image resize_image factor span
          offset).resize_image.pixels a b = resize_image.pixels a b ∧
        (VerticalFilter env oracle resize_filter image resize_image factor span
          offset).resize_image.indexes a b = resize_image.indexes a b) ∧
    (∀ (whole : ResizeOracle) (columns rows : ℕ) (filter : FilterTypes) (blur : R) (o : ℕ),
      ¬ (columns = 0 ∨ rows = 0) →
      ¬ (columns = image.columns ∧ rows = image.rows ∧
        filter = FilterTypes.UndefinedFilter ∧ blur = 1) →
      o < columns + rows → monitor (o : ℤ) (columns + rows) = false →
      ResizeImage env whole image columns rows filter blur = ResizeOutcome.null) := by
  have hfail' : oracle.getVirtualPixels k = false ∨ oracle.queueAuthenticPixels k = false ∨
      oracle.syncAuthenticPixels k = false ∨
      ∃ m, image.progress_monitor = some m ∧ m (offset + (k : ℤ)) span = false :=
    Or.inr (Or.inr (Or.inr ⟨monitor, hmonitor, hdecline⟩))
  refine ⟨fun hk => HorizontalFilter_stops env oracle resize_filter image resize_image factor
      span offset k hk hfail',
    fun hk => VerticalFilter_stops env oracle resize_filter image resize_image factor
      span offset k hk hfail', ?_⟩
  intro whole columns rows filter blur o hzero hslow ho hdec
  exact ResizeImage_cancelled env whole image columns rows filter blur o monitor hmonitor hzero
    hslow ho hdec

end ResizeFailureTheorems

section WrittenTheorems

variable {R : Type} [LinearOrderedField R] [FloorRing R]

/-- A line of the horizontal pass whose read, queue and sync succeed writes its
samples, whatever the progress monitor answers afterwards. -/
theorem horizontalLine_written (env : MagickEnv R) (oracle : PassOracle) (f : ResizeFilter R)
    (image : Image R) (x_factor : R) (span : ℕ) (st : PassState R) (x b : ℕ)
    (h : st.status = true) (hget : oracle.getVirtualPixels x = true)
    (hqueue : oracle.queueAuthenticPixels x = true) (hsync : oracle.syncAuthenticPixels x = true)
    (hb : b < st.resize_image.rows) :
    (horizontalLine env oracle f image x_factor span st x).resize_image.pixels x b =
      (horizontalSample env f image st.resize_image x_factor x b).1 := by
  have hb' : (b : ℤ) < (st.resize_image.rows : ℤ) := by exact_mod_cast hb
  unfold horizontalLine
  cases hm : image.progress_monitor <;>
    simp [h, hget, hqueue, hsync, hb']

/-- A line of the vertical pass whose read, queue and sync succeed writes its
samples, whatever the progress monitor answers afterwards. -/
theorem verticalLine_written (env : MagickEnv R) (oracle : PassOracle) (f : ResizeFilter R)
    (image : Image R) (y_factor : R) (span : ℕ) (st : PassState R) (a y : ℕ)
    (h : st.status = true) (hget : oracle.getVirtualPixels y = true)
    (hqueue : oracle.queueAuthenticPixels y = true) (hsync : oracle.syncAuthenticPixels y = true)
    (ha : a < st.resize_image.columns) :
    (verticalLine env oracle f image y_factor span st y).resize_image.pixels a y =
      (verticalSample env f image st.resize_image y_factor a y).1 := by
  have ha' : (a : ℤ) < (st.resize_image.columns : ℤ) := by exact_mod_cast ha
  unfold verticalLine
  cases hm : image.progress_monitor <;>
    simp [h, hget, hqueue, hsync, ha']

/-- A line of the horizontal pass leaves the alpha flag of the destination as
it is, whatever fails. -/
theorem horizontalLine_matte (env : MagickEnv R) (oracle : PassOracle) (f : ResizeFilter R)
    (image : Image R) (x_factor : R) (span : ℕ) (st : PassState R) (x : ℕ) :
    (horizontalLine env oracle f image x_factor span st x).resize_image.matte =
      st.resize_image.matte := by
  unfold horizontalLine
  simp only []
  repeat' split
  all_goals rfl

/-- The horizontal pass leaves the alpha flag of its destination as it is,
whatever fails. -/
theorem HorizontalFilter_matte (env : MagickEnv R) (oracle : PassOracle) (f : ResizeFilter R)
    (image resize_image : Image R) (x_factor : R) (span : ℕ) (offset : ℤ) :
    (HorizontalFilter env oracle f image resize_image x_factor span
      offset).resize_image.matte = resize_image.matte := by
  unfold HorizontalFilter
  split_ifs with h1 h2
  · rfl
  · rfl
  · simp only []
    rw [foldl_frame Image.matte _ (horizontalLine_matte env oracle f image x_factor span)]

/-- The first line of a horizontal pass in which nothing fails is written even
when the progress monitor declines at the call that follows it. -/
theorem HorizontalFilter_first_line (env : MagickEnv R) (f : ResizeFilter R)
    (image resize_image : Image R) (x_factor : R) (span : ℕ) (offset : ℤ)
    (m : ℤ → ℕ → Bool) (hmon : image.progress_monitor = some m)
    (hdecline : m offset span = false) (hcolumns : 0 < resize_image.columns) (b : ℕ)
    (hb : b < resize_image.rows) :
    (HorizontalFilter env PassOracle.ok f image resize_image x_factor span
      offset).resize_image.pixels (0 : ℕ) b = (horizontalSample env f image image x_factor 0 b).1 := by
  have hstop := foldl_stops (horizontalLine env PassOracle.ok f image x_factor span)
    (if image.progress_monitor.isSome then 1 else 0)
    (fun o x => PassOracle.ok.getVirtualPixels x = false ∨
      PassOracle.ok.queueAuthenticPixels x = false ∨
      PassOracle.ok.syncAuthenticPixels x = false ∨
      ∃ m, image.progress_monitor = some m ∧ m o span = false)
    (horizontalLine_frozen env PassOracle.ok f image x_factor span)
    (horizontalLine_offset env PassOracle.ok f image x_factor span)
    (horizontalLine_fails env PassOracle.ok f image x_factor span)
    ⟨true, { resize_image with storage_class := passStorageClass env f image x_factor },
      offset⟩ 0 resize_image.columns hcolumns
    (Or.inr (Or.inr (Or.inr ⟨m, hmon, by simpa using hdecline⟩)))
  have hdef : HorizontalFilter env PassOracle.ok f image resize_image x_factor span offset =
      (List.range resize_image.columns).foldl
        (horizontalLine env PassOracle.ok f image x_factor span)
        ⟨true, { resize_image with storage_class := passStorageClass env f image x_factor },
          offset⟩ := by
    simp [HorizontalFilter, PassOracle.ok]
  rw [hdef, hstop.2]
  rw [show List.range (0 + 1) = [0] from rfl]
  simp only [List.foldl_cons, List.foldl_nil]
  rw [horizontalLine_written env PassOracle.ok f image x_factor span _ 0 b rfl rfl rfl rfl hb]
  exact horizontalSample_fst _ _ _ _ _ _ _ _

/-- A line of the vertical pass leaves the alpha flag of the destination as
it is, whatever fails. -/
theorem verticalLine_matte (env : MagickEnv R) (oracle : PassOracle) (f : ResizeFilter R)
    (image : Image R) (y_factor : R) (span : ℕ) (st : PassState R) (x : ℕ) :
    (verticalLine env oracle f image y_factor span st x).resize_image.matte =
      st.resize_image.matte := by
  unfold verticalLine
  simp only []
  repeat' split
  all_goals rfl

/-- The vertical pass leaves the alpha flag of its destination as it is,
whatever fails. -/
theorem VerticalFilter_matte (env : MagickEnv R) (oracle : PassOracle) (f : ResizeFilter R)
    (image resize_image : Image R) (y_factor : R) (span : ℕ) (offset : ℤ) :
    (VerticalFilter env oracle f image resize_image y_factor span
      offset).resize_image.matte = resize_image.matte := by
  unfold VerticalFilter
  split_ifs with h1 h2
  · rfl
  · rfl
  · simp only []
    rw [foldl_frame Image.matte _ (verticalLine_matte env oracle f image y_factor span)]

/-- The first line of a vertical pass in which nothing fails is written even
when the progress monitor declines at the call that follows it. -/
theorem VerticalFilter_first_line (env : MagickEnv R) (f : ResizeFilter R)
    (image resize_image : Image R) (y_factor : R) (span : ℕ) (offset : ℤ)
    (m : ℤ → ℕ → Bool) (hmon : image.progress_monitor = some m)
    (hdecline : m offset span = false) (hrows : 0 < resize_image.rows) (a : ℕ)
    (ha : a < resize_image.columns) :
    (VerticalFilter env PassOracle.ok f image resize_image y_factor span
      offset).resize_image.pixels a (0 : ℕ) = (verticalSample env f image image y_factor a 0).1 := by
  have hstop := foldl_stops (verticalLine env PassOracle.ok f image y_factor span)
    (if image.progress_monitor.isSome then 1 else 0)
    (fun o x => PassOracle.ok.getVirtualPixels x = false ∨
      PassOracle.ok.queueAuthenticPixels x = false ∨
      PassOracle.ok.syncAuthenticPixels x = false ∨
      ∃ m, image.progress_monitor = some m ∧ m o span = false)
    (verticalLine_frozen env PassOracle.ok f image y_factor span)
    (verticalLine_offset env PassOracle.ok f image y_factor span)
    (verticalLine_fails env PassOracle.ok f image y_factor span)
    ⟨true, { resize_image with storage_class := passStorageClass env f image y_factor },
      offset⟩ 0 resize_image.rows hrows
    (Or.inr (Or.inr (Or.inr ⟨m, hmon, by simpa using hdecline⟩)))
  have hdef : VerticalFilter env PassOracle.ok f image resize_image y_factor span offset =
      (List.range resize_image.rows).foldl
        (verticalLine env PassOracle.ok f image y_factor span)
        ⟨true, { resize_image with storage_class := passStorageClass env f image y_factor },
          offset⟩ := by
    simp [VerticalFilter, PassOracle.ok]
  rw [hdef, hstop.2]
  rw [show List.range (0 + 1) = [0] from rfl]
  simp only [List.foldl_cons, List.foldl_nil]
  rw [verticalLine_written env PassOracle.ok f image y_factor span _ a 0 rfl rfl rfl rfl ha]
  exact verticalSample_fst _ _ _ _ _ _ _ _

end WrittenTheorems

/-- Witness of C23: the read of line 0 fails in a horizontal pass with the Point
filter from a grey 2 by 1 image to a black one; the pass returns false. -/
theorem failed_line_stops_pass_witness :
    (readFailsAt 0).getVirtualPixels 0 = false ∧
    (HorizontalFilter envQ16 (readFailsAt 0)
      (AcquireResizeFilter envQ16 (solidImage 2 1 ⟨30000, 30000, 30000, 0⟩)
        FilterTypes.PointFilter 1 false)
      (solidImage 2 1 ⟨30000, 30000, 30000, 0⟩) (solidImage 2 1 ⟨0, 0, 0, 0⟩) 1 3 0).status =
        false :=
  ⟨rfl, ((failed_line_stops_pass envQ16 (readFailsAt 0)
    (AcquireResizeFilter envQ16 (solidImage 2 1 ⟨30000, 30000, 30000, 0⟩)
      FilterTypes.PointFilter 1 false)
    (solidImage 2 1 ⟨30000, 30000, 30000, 0⟩) (solidImage 2 1 ⟨0, 0, 0, 0⟩) 1 3 0 0
    (Or.inl rfl)).1 (by decide)).1⟩

/-- C23 as stated fails: in a horizontal pass with the Point filter at scale
factor 1 from a grey 2 by 1 image to a black one, in which only the read of
line 0 fails, line 1 is not computed and written: the sample of output pixel
(1, 0) is the grey (30000, 30000, 30000), and the pass leaves the pixel
black. -/
theorem failed_line_rest_not_written :
    (HorizontalFilter envQ16 (readFailsAt 0)
      (AcquireResizeFilter envQ16 (solidImage 2 1 ⟨30000, 30000, 30000, 0⟩)
        FilterTypes.PointFilter 1 false)
      (solidImage 2 1 ⟨30000, 30000, 30000, 0⟩) (solidImage 2 1 ⟨0, 0, 0, 0⟩) 1 3 0).status =
        false ∧
    (readFailsAt 0).getVirtualPixels 1 = true ∧
    (horizontalSample envQ16
      (AcquireResizeFilter envQ16 (solidImage 2 1 ⟨30000, 30000, 30000, 0⟩)
        FilterTypes.PointFilter 1 false)
      (solidImage 2 1 ⟨30000, 30000, 30000, 0⟩) (solidImage 2 1 ⟨0, 0, 0, 0⟩) 1 1 0).1 =
        ⟨30000, 30000, 30000, 0⟩ ∧
    (HorizontalFilter envQ16 (readFailsAt 0)
      (AcquireResizeFilter envQ16 (solidImage 2 1 ⟨30000, 30000, 30000, 0⟩)
        FilterTypes.PointFilter 1 false)
      (solidImage 2 1 ⟨30000, 30000, 30000, 0⟩) (solidImage 2 1 ⟨0, 0, 0, 0⟩) 1 3
        0).resize_image.pixels 1 0 = ⟨0, 0, 0, 0⟩ := by
  obtain ⟨hf, hw, hs⟩ := point_filter_fields envQ16 (solidImage 2 1 ⟨30000, 30000, 30000, 0⟩) 1
    rfl
  have hstop := HorizontalFilter_stops envQ16 (readFailsAt 0)
    (AcquireResizeFilter envQ16 (solidImage 2 1 ⟨30000, 30000, 30000, 0⟩)
      FilterTypes.PointFilter 1 false)
    (solidImage 2 1 ⟨30000, 30000, 30000, 0⟩) (solidImage 2 1 ⟨0, 0, 0, 0⟩) 1 3 0 0
    (by decide) (Or.inl rfl)
  refine ⟨hstop.1, rfl, ?_, ?_⟩
  · exact horizontalSample_single envQ16 _ (solidImage 2 1 ⟨30000, 30000, 30000, 0⟩) _ 1 1 0 1
      rfl (point_identity_contributions envQ16 _ hf hw hs 2 1 (by decide))
      (fun q hq => ClampToQuantumInteger_natCast 65535 q hq) (by decide)
  · exact (hstop.2 1 0 (by decide)).1

/-- Witness of C24: a horizontal pass over the image whose progress monitor
always declines; the pass returns false after its first line. -/
theorem cancelled_pass_stops_witness :
    (HorizontalFilter envQ16 PassOracle.ok
      (AcquireResizeFilter envQ16 cancelImage FilterTypes.PointFilter 1 false)
      cancelImage (solidImage 2 1 ⟨0, 0, 0, 0⟩) 1 3 0).status = false ∧
    ResizeImage envQ16 (ResizeOracle.ok blackScratch) cancelImage 2 1 FilterTypes.PointFilter 1 =
      ResizeOutcome.null := by
  have h := cancelled_pass_stops envQ16 PassOracle.ok
    (AcquireResizeFilter envQ16 cancelImage FilterTypes.PointFilter 1 false)
    cancelImage (solidImage 2 1 ⟨0, 0, 0, 0⟩) 1 3 0 0 (fun _ _ => false) rfl rfl
  exact ⟨(h.1 (by decide)).1,
    h.2.2 (ResizeOracle.ok blackScratch) 2 1 FilterTypes.PointFilter 1 0 (by decide)
      (by intro hf; exact absurd hf.2.2.1 (by decide)) (by decide) rfl⟩

/-- C24 as stated fails: `ResizeImage` of the 2 by 1 grey image whose progress
monitor always declines, to 2 by 1 with the Point filter, runs the horizontal
pass first; the monitor declines after output line 0 of that pass, which
returns false, and yet the vertical pass then processes its line 0 and writes
the grey pixel (0, 0) into the black destination, before `ResizeImage` returns
no image. -/
theorem cancelled_resize_second_pass_writes :
    ∃ mid dst : Image ℚ,
      filterImage cancelImage 2 1 (some blackScratch) = some mid ∧
      CloneImage cancelImage 2 1 (some blackScratch) = some dst ∧
      dst.pixels 0 0 = ⟨0, 0, 0, 0⟩ ∧
      (HorizontalFilter envQ16 PassOracle.ok
        (AcquireResizeFilter envQ16 cancelImage FilterTypes.PointFilter 1 false)
        cancelImage mid 1 3 0).status = false ∧
      (resizePasses envQ16 (ResizeOracle.ok blackScratch)
        (AcquireResizeFilter envQ16 cancelImage FilterTypes.PointFilter 1 false)
        cancelImage mid dst 2 1).resize_image.pixels 0 0 = ⟨30000, 30000, 30000, 0⟩ ∧
      ResizeImage envQ16 (ResizeOracle.ok blackScratch) cancelImage 2 1
        FilterTypes.PointFilter 1 = ResizeOutcome.null := by
  obtain ⟨hf, hw, hs⟩ := point_filter_fields envQ16 cancelImage 1 rfl
  have hcl : CloneImage cancelImage 2 1 (some blackScratch) =
      some { cancelImage with
        columns := 2, rows := 1, pixels := blackScratch.pixels,
        indexes := blackScratch.indexes } :=
    CloneImage_sized cancelImage 2 1 blackScratch (Or.inl (by decide))
  have hxf : ((2 : ℕ) : ℚ) / (cancelImage.columns : ℚ) = 1 := by
    norm_num [cancelImage, solidImage]
  have hyf : ((1 : ℕ) : ℚ) / (cancelImage.rows : ℚ) = 1 := by
    norm_num [cancelImage, solidImage]
  have hwork : ((2 : ℕ) : ℚ) / (cancelImage.columns : ℚ) *
      (((1 : ℕ) : ℚ) / (cancelImage.rows : ℚ)) > WorkLoadFactor := by
    rw [hxf, hyf]
    norm_num [WorkLoadFactor]
  have hmid : filterImage cancelImage 2 1 (some blackScratch) =
      some { cancelImage with
        columns := 2, rows := 1, pixels := blackScratch.pixels,
        indexes := blackScratch.indexes } := by
    unfold filterImage
    simp only []
    rw [if_pos hwork]
    exact hcl
  generalize hclone : ({ cancelImage with
      columns := 2, rows := 1, pixels := blackScratch.pixels,
      indexes := blackScratch.indexes } : Image ℚ) = clone at hcl hmid
  have hcc : clone.columns = 2 := by rw [← hclone]
  have hcr : clone.rows = 1 := by rw [← hclone]
  have hcm : clone.matte = false := by rw [← hclone]; rfl
  have hcp : clone.progress_monitor = some fun _ _ => false := by rw [← hclone]; rfl
  have hcx : clone.pixels 0 0 = ⟨0, 0, 0, 0⟩ := by rw [← hclone]; rfl
  have hnull : ResizeImage envQ16 (ResizeOracle.ok blackScratch) cancelImage 2 1
      FilterTypes.PointFilter 1 = ResizeOutcome.null :=
    ResizeImage_cancelled envQ16 (ResizeOracle.ok blackScratch) cancelImage 2 1
      FilterTypes.PointFilter 1 0 (fun _ _ => false) rfl (by decide)
      (by intro hf; exact absurd hf.2.2.1 (by decide)) (by decide) rfl
  generalize hfilter : AcquireResizeFilter envQ16 cancelImage FilterTypes.PointFilter 1 false =
    f at hf hw hs
  -- the first pass
  have hp1s : (HorizontalFilter envQ16 PassOracle.ok f cancelImage clone 1 3 0).status =
      false :=
    (HorizontalFilter_stops envQ16 PassOracle.ok f cancelImage clone 1 3 0 0
      (by rw [hcc]; decide) (Or.inr (Or.inr (Or.inr ⟨fun _ _ => false, rfl, rfl⟩)))).1
  have hp1x : (HorizontalFilter envQ16 PassOracle.ok f cancelImage clone 1 3
      0).resize_image.pixels (0 : ℕ) (0 : ℕ) = ⟨30000, 30000, 30000, 0⟩ := by
    rw [HorizontalFilter_first_line envQ16 f cancelImage clone 1 3 0 (fun _ _ => false) rfl rfl
      (by rw [hcc]; decide) 0 (by rw [hcr]; decide)]
    exact horizontalSample_single envQ16 f cancelImage cancelImage 1 0 0 0 rfl
      (point_identity_contributions envQ16 f hf hw hs 2 0 (by decide))
      (fun q hq => ClampToQuantumInteger_natCast 65535 q hq) (by decide)
  have hp1x' : (HorizontalFilter envQ16 PassOracle.ok f cancelImage clone 1 3
      0).resize_image.pixels ((0 : ℕ) : ℤ) 0 = ⟨30000, 30000, 30000, 0⟩ := by
    exact_mod_cast hp1x
  obtain ⟨hfc, hfr, hfm⟩ := HorizontalFilter_frame envQ16 PassOracle.ok f cancelImage clone 1 3 0
  have hfa := HorizontalFilter_matte envQ16 PassOracle.ok f cancelImage clone 1 3 0
  refine ⟨clone, clone, hmid, hcl, hcx, hp1s, ?_, hnull⟩
  unfold resizePasses
  simp only []
  rw [if_pos hwork, hxf, hyf, hcc]
  show (VerticalFilter envQ16 PassOracle.ok f
    (HorizontalFilter envQ16 PassOracle.ok f cancelImage clone 1 3 0).resize_image clone 1 3
    (HorizontalFilter envQ16 PassOracle.ok f cancelImage clone 1 3 0).offset
      ).resize_image.pixels (0 : ℕ) (0 : ℕ) = _
  rw [VerticalFilter_first_line envQ16 f _ clone 1 3 _ (fun _ _ => false)
    (by rw [hfm]; exact hcp) rfl (by rw [hcr]; decide) 0 (by rw [hcc]; decide)]
  rw [verticalSample_single envQ16 f _ _ 1 0 0 0 (by rw [hfa]; exact hcm)
    (by rw [hfc, hcc]; decide)
    (by rw [hfr, hcr]; exact point_identity_contributions envQ16 f hf hw hs 1 0 (by decide))
    (fun q hq => ClampToQuantumInteger_natCast 65535 q hq)
    (by rw [hp1x']; decide)]
  exact hp1x'

/-! ## A run of fully transparent pixels: theorems -/

section TransparentTheorems

variable {R : Type} [LinearOrderedField R] [FloorRing R]

/-- The sample a pass writes from contributions that are all fully transparent
pixels of an image with an alpha channel: `gamma` is 0, its reciprocal is
replaced by 1, red, green and blue are 0 and the opacity is the clamped weighted
sum of the opacities. -/
theorem filterSample_transparent (env : MagickEnv R) (image r : Image R)
    (l : List (ContributionInfo R)) (p : ℤ → PixelPacket) (indexes : ℤ → ℕ)
    (offset : ContributionInfo R → ℤ) (center : R) (start stop : ℤ) (old : ℕ)
    (hmatte : image.matte = true) (heps : 0 ≤ env.MagickEpsilon)
    (htransparent : ∀ c ∈ l, (p (offset c)).opacity = env.QuantumRange)
    (hclamp : env.ClampToQuantum 0 = 0) :
    (accumulateAlpha env l p offset).2 = 0 ∧
    gammaInverse env (accumulateAlpha env l p offset).2 = 1 ∧
    (filterSample env image r l p indexes offset center start stop old).1 =
      { red := 0, green := 0, blue := 0
        opacity := env.ClampToQuantum (l.map fun c => c.weight * ((p (offset c)).opacity : R)).sum } := by
  have hgamma : (accumulateAlpha env l p offset).2 = 0 := by
    rw [accumulateAlpha_eq]
    exact gamma_sum_transparent env l p offset htransparent
  have hinv : gammaInverse env (accumulateAlpha env l p offset).2 = 1 := by
    rw [hgamma]
    unfold gammaInverse
    rw [abs_zero, if_pos heps, div_one]
  refine ⟨hgamma, hinv, ?_⟩
  rw [filterSample_alpha _ _ _ _ _ _ _ _ _ _ _ hmatte, hinv]
  rw [accumulateAlpha_eq,
    alpha_sum_transparent env l p offset (fun q => (q.red : R)) htransparent,
    alpha_sum_transparent env l p offset (fun q => (q.green : R)) htransparent,
    alpha_sum_transparent env l p offset (fun q => (q.blue : R)) htransparent]
  simp [hclamp]

/-- The weights of a contribution list sum to 0 or to 1. -/
theorem weights_sum_zero_or_one (env : MagickEnv R) (f : ResizeFilter R) (factor : R)
    (extent x : ℕ) :
    ((contributionList env f factor extent x).map ContributionInfo.weight).sum = 0 ∨
    ((contributionList env f factor extent x).map ContributionInfo.weight).sum = 1 := by
  unfold contributionList
  simp only []
  generalize rawContribution env f (loopScale env f factor) (passCenter factor x)
    (passStart (passSupport env f factor) (passCenter factor x))
    (passStop (passSupport env f factor) (passCenter factor x) extent) = raw
  by_cases h : density raw = 0
  · left
    rw [normalize_of_density_zero raw h, ← density_eq_sum, h]
  · right
    exact normalize_sum raw h

/-- The weighted sum of opacities that are all `QuantumRange`, over a
contribution list, is a quantum: clamping leaves it as it is. -/
theorem clamp_transparent_sum (env : MagickEnv R) (l : List (ContributionInfo R))
    (g : ContributionInfo R → ℕ) (hg : ∀ c ∈ l, g c = env.QuantumRange)
    (hsum : (l.map ContributionInfo.weight).sum = 0 ∨ (l.map ContributionInfo.weight).sum = 1)
    (hclamp : ∀ q : ℕ, q ≤ env.QuantumRange → env.ClampToQuantum (q : R) = q) :
    ((env.ClampToQuantum (l.map fun c => c.weight * ((g c : ℕ) : R)).sum : ℕ) : R) =
      (l.map fun c => c.weight * ((g c : ℕ) : R)).sum := by
  have h : (l.map fun c => c.weight * ((g c : ℕ) : R)) =
      (l.map fun c => c.weight * ((env.QuantumRange : ℕ) : R)) := by
    apply List.map_congr_left
    intro c hc
    rw [hg c hc]
  rw [h, List.sum_map_mul_right]
  rcases hsum with h0 | h1
  · rw [h0, zero_mul]
    have := hclamp 0 (Nat.zero_le _)
    simp only [Nat.cast_zero] at this
    rw [this, Nat.cast_zero]
  · rw [h1, one_mul, hclamp _ (le_refl _)]

/-- The pixel a horizontal pass writes from contributions that are all fully
transparent pixels. -/
theorem horizontalSample_transparent (env : MagickEnv R) (f : ResizeFilter R)
    (image r : Image R) (factor : R) (x y : ℕ) (hmatte : image.matte = true)
    (heps : 0 ≤ env.MagickEpsilon)
    (hclamp : ∀ q : ℕ, q ≤ env.QuantumRange → env.ClampToQuantum (q : R) = q)
    (htransparent : ∀ c ∈ contributionList env f factor image.columns x,
      (image.pixels c.pixel (y : ℤ)).opacity = env.QuantumRange) :
    (horizontalSample env f image r factor x y).1.red = 0 ∧
    (horizontalSample env f image r factor x y).1.green = 0 ∧
    (horizontalSample env f image r factor x y).1.blue = 0 ∧
    (((horizontalSample env f image r factor x y).1.opacity : ℕ) : R) =
      ((contributionList env f factor image.columns x).map fun c =>
        c.weight * ((image.pixels c.pixel (y : ℤ)).opacity : R)).sum := by
  have hread := horizontal_read env f image factor x y
  have h0 : env.ClampToQuantum 0 = 0 := by
    have := hclamp 0 (Nat.zero_le _)
    simpa using this
  have hs : (horizontalSample env f image r factor x y).1 =
      { red := 0, green := 0, blue := 0
        opacity := env.ClampToQuantum ((contributionList env f factor image.columns x).map
          fun c => c.weight * ((image.pixels c.pixel (y : ℤ)).opacity : R)).sum } := by
    unfold horizontalSample
    simp only []
    rw [(filterSample_transparent env image r _ _ _ _ _ _ _ _ hmatte heps
      (fun c hc => by rw [hread c hc]; exact htransparent c hc) h0).2.2]
    congr 2
    apply congrArg List.sum
    apply List.map_congr_left
    intro c hc
    rw [hread c hc]
  rw [hs]
  refine ⟨rfl, rfl, rfl, ?_⟩
  exact clamp_transparent_sum env _ (fun c => (image.pixels c.pixel (y : ℤ)).opacity)
    htransparent (weights_sum_zero_or_one env f factor image.columns x) hclamp

/-- The pixel a vertical pass writes from contributions that are all fully
transparent pixels. -/
theorem verticalSample_transparent (env : MagickEnv R) (f : ResizeFilter R)
    (image r : Image R) (factor : R) (x y : ℕ) (hmatte : image.matte = true)
    (hx : x < image.columns) (heps : 0 ≤ env.MagickEpsilon)
    (hclamp : ∀ q : ℕ, q ≤ env.QuantumRange → env.ClampToQuantum (q : R) = q)
    (htransparent : ∀ c ∈ contributionList env f factor image.rows y,
      (image.pixels (x : ℤ) c.pixel).opacity = env.QuantumRange) :
    (verticalSample env f image r factor x y).1.red = 0 ∧
    (verticalSample env f image r factor x y).1.green = 0 ∧
    (verticalSample env f image r factor x y).1.blue = 0 ∧
    (((verticalSample env f image r factor x y).1.opacity : ℕ) : R) =
      ((contributionList env f factor image.rows y).map fun c =>
        c.weight * ((image.pixels (x : ℤ) c.pixel).opacity : R)).sum := by
  have hread := vertical_read env f image factor x y hx
  have h0 : env.ClampToQuantum 0 = 0 := by
    have := hclamp 0 (Nat.zero_le _)
    simpa using this
  have hs : (verticalSample env f image r factor x y).1 =
      { red := 0, green := 0, blue := 0
        opacity := env.ClampToQuantum ((contributionList env f factor image.rows y).map
          fun c => c.weight * ((image.pixels (x : ℤ) c.pixel).opacity : R)).sum } := by
    unfold verticalSample
    simp only []
    rw [(filterSample_transparent env image r _ _ _ _ _ _ _ _ hmatte heps
      (fun c hc => by rw [hread c hc]; exact htransparent c hc) h0).2.2]
    congr 2
    apply congrArg List.sum
    apply List.map_congr_left
    intro c hc
    rw [hread c hc]
  rw [hs]
  refine ⟨rfl, rfl, rfl, ?_⟩
  exact clamp_transparent_sum env _ (fun c => (image.pixels (x : ℤ) c.pixel).opacity)
    htransparent (weights_sum_zero_or_one env f factor image.rows y) hclamp

/-- C26: in a pass over an image with alpha, when every contributing source
pixel of an output sample is fully transparent, the alpha-weight sum `gamma` is
0, the divisor is replaced by 1, and the output red, green and blue are 0 while
the output opacity is the weighted sum of the source opacities; in the
horizontal pass and in the vertical one. -/
theorem transparent_run_sample (env : MagickEnv R) (resize_filter : ResizeFilter R)
    (image resize_image : Image R) (factor : R) (x y : ℕ) (hmatte : image.matte = true)
    (heps : 0 ≤ env.MagickEpsilon)
    (hclamp : ∀ q : ℕ, q ≤ env.QuantumRange → env.ClampToQuantum (q : R) = q) :
    (∀ (l : List (ContributionInfo R)) (p : ℤ → PixelPacket) (indexes : ℤ → ℕ)
      (offset : ContributionInfo R → ℤ) (center : R) (start stop : ℤ) (old : ℕ),
      (∀ c ∈ l, (p (offset c)).opacity = env.QuantumRange) →
      (accumulateAlpha env l p offset).2 = 0 ∧
      gammaInverse env (accumulateAlpha env l p offset).2 = 1 ∧
      (filterSample env image resize_image l p indexes offset center start stop old).1 =
        { red := 0, green := 0, blue := 0
          opacity := env.ClampToQuantum
            (l.map fun c => c.weight * ((p (offset c)).opacity : R)).sum }) ∧
    ((∀ c ∈ contributionList env resize_filter factor image.columns x,
        (image.pixels c.pixel (y : ℤ)).opacity = env.QuantumRange) →
      (horizontalSample env resize_filter image resize_image factor x y).1.red = 0 ∧
      (horizontalSample env resize_filter image resize_image factor x y).1.green = 0 ∧
      (horizontalSample env resize_filter image resize_image factor x y).1.blue = 0 ∧
      (((horizontalSample env resize_filter image resize_image factor x y).1.opacity : ℕ) : R) =
        ((contributionList env resize_filter factor image.columns x).map fun c =>
          c.weight * ((image.pixels c.pixel (y : ℤ)).opacity : R)).sum) ∧
    (x < image.columns →
      (∀ c ∈ contributionList env resize_filter factor image.rows y,
        (image.pixels (x : ℤ) c.pixel).opacity = env.QuantumRange) →
      (verticalSample env resize_filter image resize_image factor x y).1.red = 0 ∧
      (verticalSample env resize_filter image resize_image factor x y).1.green = 0 ∧
      (verticalSample env resize_filter image resize_image factor x y).1.blue = 0 ∧
      (((verticalSample env resize_filter image resize_image factor x y).1.opacity : ℕ) : R) =
        ((contributionList env resize_filter factor image.rows y).map fun c =>
          c.weight * ((image.pixels (x : ℤ) c.pixel).opacity : R)).sum) := by
  have h0 : env.ClampToQuantum 0 = 0 := by
    have := hclamp 0 (Nat.zero_le _)
    simpa using this
  exact ⟨fun l p indexes offset center start stop old ht =>
      filterSample_transparent env image resize_image l p indexes offset center start stop old
        hmatte heps ht h0,
    fun ht => horizontalSample_transparent env resize_filter image resize_image factor x y
      hmatte heps hclamp ht,
    fun hx ht => verticalSample_transparent env resize_filter image resize_image factor x y
      hmatte hx heps hclamp ht⟩

end TransparentTheorems

/-- Witness of C26: output sample 1 of the horizontal pass with the Point
filter at scale factor 1 over the 2 by 1 image with alpha; its one contributing
pixel is fully transparent, and red, green and blue come out 0. -/
theorem transparent_run_sample_witness :
    alphaImage.matte = true ∧
    (horizontalSample envQ16
      (AcquireResizeFilter envQ16 alphaImage FilterTypes.PointFilter 1 false)
      alphaImage alphaImage 1 1 0).1.red = 0 ∧
    (horizontalSample envQ16
      (AcquireResizeFilter envQ16 alphaImage FilterTypes.PointFilter 1 false)
      alphaImage alphaImage 1 1 0).1.green = 0 ∧
    (horizontalSample envQ16
      (AcquireResizeFilter envQ16 alphaImage FilterTypes.PointFilter 1 false)
      alphaImage alphaImage 1 1 0).1.blue = 0 := by
  obtain ⟨hf, hw, hs⟩ := point_filter_fields envQ16 alphaImage 1 rfl
  have hlist := point_identity_contributions envQ16 _ hf hw hs 2 1 (by decide)
  have h := (transparent_run_sample envQ16
    (AcquireResizeFilter envQ16 alphaImage FilterTypes.PointFilter 1 false)
    alphaImage alphaImage 1 1 0 rfl (by norm_num [envQ16])
    (fun q hq => ClampToQuantumInteger_natCast 65535 q hq)).2.1
    (by
      intro c hc
      have hl : contributionList envQ16
          (AcquireResizeFilter envQ16 alphaImage FilterTypes.PointFilter 1 false) 1
          alphaImage.columns 1 = [⟨1, ((1 : ℕ) : ℤ)⟩] := hlist
      rw [hl] at hc
      rw [List.mem_singleton.mp hc]
      simp [alphaImage, envQ16])
  exact ⟨rfl, h.1, h.2.1, h.2.2.1⟩

/-! ## Separability: theorems -/

section SeparabilityTheorems

variable {R : Type} [LinearOrderedField R] [FloorRing R]

/-- The pixel the horizontal pass computes from an image without alpha is the
clamped pass over the row of the sample. -/
theorem horizontalSample_clampedPass (env : MagickEnv R) (f : ResizeFilter R)
    (image r : Image R) (x_factor : R) (x y : ℕ) (hmatte : image.matte = false) :
    (horizontalSample env f image r x_factor x y).1 =
      clampedPass env (contributionList env f x_factor image.columns x)
        (fun a => image.pixels a (y : ℤ)) :=
  horizontalSample_noAlpha env f image r x_factor x y hmatte

/-- The pixel the vertical pass computes from an image without alpha is the
clamped pass over the column of the sample. -/
theorem verticalSample_clampedPass (env : MagickEnv R) (f : ResizeFilter R)
    (image r : Image R) (y_factor : R) (x y : ℕ) (hmatte : image.matte = false)
    (hx : x < image.columns) :
    (verticalSample env f image r y_factor x y).1 =
      clampedPass env (contributionList env f y_factor image.rows y)
        (fun b => image.pixels (x : ℤ) b) :=
  verticalSample_noAlpha env f image r y_factor x y hmatte hx

/-- The clamped pass depends on the line only at the source indices of the
contribution list. -/
theorem clampedPass_congr (env : MagickEnv R) (l : List (ContributionInfo R))
    (line1 line2 : ℤ → PixelPacket) (h : ∀ c ∈ l, line1 c.pixel = line2 c.pixel) :
    clampedPass env l line1 = clampedPass env l line2 := by
  unfold clampedPass unroundedChannel
  have hch : ∀ g : PixelPacket → ℕ,
      (l.map fun c => c.weight * ((g (line1 c.pixel) : ℕ) : R)) =
        (l.map fun c => c.weight * ((g (line2 c.pixel) : ℕ) : R)) := by
    intro g
    apply List.map_congr_left
    intro c hc
    rw [h c hc]
  rw [hch PixelPacket.red, hch PixelPacket.green, hch PixelPacket.blue, hch PixelPacket.opacity]

/-- Without rounding in between, the weighted sums of the two passes commute. -/
theorem unroundedChannel_comm (l1 l2 : List (ContributionInfo R)) (s : ℤ → ℤ → R) :
    unroundedChannel l2 (fun b => unroundedChannel l1 (fun a => s a b)) =
      unroundedChannel l1 (fun a => unroundedChannel l2 (fun b => s a b)) := by
  unfold unroundedChannel
  induction l2 with
  | nil => simp
  | cons d ds ih =>
    simp only [List.map_cons, List.sum_cons]
    rw [ih]
    have h : (l1.map fun c => c.weight *
          (d.weight * s c.pixel d.pixel + (ds.map fun e => e.weight * s c.pixel e.pixel).sum)) =
        (l1.map fun c => d.weight * (c.weight * s c.pixel d.pixel) +
          c.weight * (ds.map fun e => e.weight * s c.pixel e.pixel).sum) := by
      apply List.map_congr_left
      intro c _
      ring
    rw [h, List.sum_map_add, List.sum_map_mul_left]

/-- The pixel that the horizontal pass followed by the vertical pass leaves at
`(x, y)`, for an image without alpha. -/
theorem horizontal_then_vertical (env : MagickEnv R) (f : ResizeFilter R)
    (image mid out : Image R) (x_factor y_factor : R) (span1 span2 : ℕ) (offset1 offset2 : ℤ)
    (x y : ℕ) (hmatte : image.matte = false) (hmidmatte : mid.matte = false)
    (hmon : ∀ m, image.progress_monitor = some m → ∀ o s, m o s = true)
    (hmidmon : ∀ m, mid.progress_monitor = some m → ∀ o s, m o s = true)
    (hmidcols : mid.columns = out.columns) (hmidrows : mid.rows = image.rows)
    (hx : x < out.columns) (hy : y < out.rows) :
    (VerticalFilter env PassOracle.ok f
      (HorizontalFilter env PassOracle.ok f image mid x_factor span1 offset1).resize_image
      out y_factor span2 offset2).resize_image.pixels x y =
      clampedPass env (contributionList env f y_factor image.rows y) (fun b =>
        clampedPass env (contributionList env f x_factor image.columns x) (fun a =>
          image.pixels a b)) := by
  obtain ⟨_, ⟨px, ix, himg⟩, hpix⟩ := HorizontalFilter_ok env f image mid x_factor span1
    offset1 hmon
  generalize (HorizontalFilter env PassOracle.ok f image mid x_factor span1
    offset1).resize_image = P at himg hpix
  have hPc : P.columns = mid.columns := by rw [himg]
  have hPr : P.rows = mid.rows := by rw [himg]
  have hPm : P.matte = false := by rw [himg]; exact hmidmatte
  have hPmon : ∀ m, P.progress_monitor = some m → ∀ o s, m o s = true := by
    rw [himg]; exact hmidmon
  rw [(VerticalFilter_ok env f P out y_factor span2 offset2 hPmon).2.2 x y hx hy,
    verticalSample_clampedPass env f P P y_factor x y hPm (by rw [hPc, hmidcols]; exact hx),
    hPr, hmidrows]
  apply clampedPass_congr
  intro c hc
  obtain ⟨h0, h1⟩ := contributionList_bounds env f y_factor image.rows y c hc
  have hcast : c.pixel = ((c.pixel.toNat : ℕ) : ℤ) := by omega
  rw [hcast, hpix x c.pixel.toNat (by rw [hmidcols]; exact hx) (by rw [hmidrows]; omega)]
  exact horizontalSample_clampedPass env f image image x_factor x c.pixel.toNat hmatte

/-- The pixel that the vertical pass followed by the horizontal pass leaves at
`(x, y)`, for an image without alpha. -/
theorem vertical_then_horizontal (env : MagickEnv R) (f : ResizeFilter R)
    (image mid out : Image R) (x_factor y_factor : R) (span1 span2 : ℕ) (offset1 offset2 : ℤ)
    (x y : ℕ) (hmatte : image.matte = false) (hmidmatte : mid.matte = false)
    (hmon : ∀ m, image.progress_monitor = some m → ∀ o s, m o s = true)
    (hmidmon : ∀ m, mid.progress_monitor = some m → ∀ o s, m o s = true)
    (hmidcols : mid.columns = image.columns) (hmidrows : mid.rows = out.rows)
    (hx : x < out.columns) (hy : y < out.rows) :
    (HorizontalFilter env PassOracle.ok f
      (VerticalFilter env PassOracle.ok f image mid y_factor span1 offset1).resize_image
      out x_factor span2 offset2).resize_image.pixels x y =
      clampedPass env (contributionList env f x_factor image.columns x) (fun a =>
        clampedPass env (contributionList env f y_factor image.rows y) (fun b =>
          image.pixels a b)) := by
  obtain ⟨_, ⟨px, ix, himg⟩, hpix⟩ := VerticalFilter_ok env f image mid y_factor span1
    offset1 hmon
  generalize (VerticalFilter env PassOracle.ok f image mid y_factor span1
    offset1).resize_image = P at himg hpix
  have hPc : P.columns = mid.columns := by rw [himg]
  have hPr : P.rows = mid.rows := by rw [himg]
  have hPm : P.matte = false := by rw [himg]; exact hmidmatte
  have hPmon : ∀ m, P.progress_monitor = some m → ∀ o s, m o s = true := by
    rw [himg]; exact hmidmon
  rw [(HorizontalFilter_ok env f P out x_factor span2 offset2 hPmon).2.2 x y hx hy,
    horizontalSample_clampedPass env f P P x_factor x y hPm, hPc, hmidcols]
  apply clampedPass_congr
  intro c hc
  obtain ⟨h0, h1⟩ := contributionList_bounds env f x_factor image.columns x c hc
  have hcast : c.pixel = ((c.pixel.toNat : ℕ) : ℤ) := by omega
  rw [hcast, hpix c.pixel.toNat y (by rw [hmidcols]; omega) (by rw [hmidrows]; exact hy)]
  exact verticalSample_clampedPass env f image image y_factor c.pixel.toNat y hmatte (by omega)

end SeparabilityTheorems

/-! ## Pixel sampling: theorems -/

section SamplingTheorems

variable {R : Type} [LinearOrderedField R] [FloorRing R]

end SamplingTheorems

/-! ## The Lanczos filter: theorems -/

section LanczosTheorems

variable {R : Type} [LinearOrderedField R] [FloorRing R]

/-- The constant `MagickPIL` is positive. -/
theorem MagickPIL_pos : (0 : R) < (MagickPIL : R) := by
  unfold MagickPIL
  norm_num

/-- The Lanczos filter built with no artifacts, orthogonal, blur 1. -/
theorem lanczos_filter_fields (env : MagickEnv R) (image : Image R)
    (hart : image.artifacts = Artifacts.none) (heps : env.MagickEpsilon ≤ 1) :
    AcquireResizeFilter env image FilterTypes.LanczosFilter 1 false =
      { filter := FilterFunction.Sinc, window := FilterFunction.Sinc, support := 3,
        window_support := 3, scale := 1 / 3, blur := 1, cubic := fun _ => 0 } := by
  have hb : acquireBlur env image FilterTypes.LanczosFilter 1 false = 1 := by
    simp [acquireBlur, hart, Artifacts.none, not_lt.mpr heps]
  unfold AcquireResizeFilter
  rw [hb]
  simp [acquireTypes, acquireSupport, mapping, filters, hart, Artifacts.none]

/-- The weight of the Lanczos filter built with no artifacts, orthogonal,
blur 1: the product of the window `Sinc(|x|/3)` and the filter `Sinc(|x|)`. -/
theorem lanczos_weight (env : MagickEnv R) (image : Image R)
    (hart : image.artifacts = Artifacts.none) (heps : env.MagickEpsilon ≤ 1) (x : R) :
    GetResizeFilterWeight env (AcquireResizeFilter env image FilterTypes.LanczosFilter 1 false)
      x = Sinc env |x| * Sinc env (|x| / 3) := by
  rw [lanczos_filter_fields env image hart heps]
  unfold GetResizeFilterWeight
  simp only [div_one]
  rw [if_neg (by
    intro h
    rcases h with h | h
    · linarith
    · cases h)]
  simp only [FilterFunction.call]
  rw [mul_comm, mul_one_div]

/-- Away from 0, `Sinc` vanishes exactly where the sine it calls returns 0. -/
theorem Sinc_eq_zero_iff (env : MagickEnv R) (x : R) (hx : x ≠ 0) :
    Sinc env x = 0 ↔ env.sin (MagickPIL * x) = 0 := by
  unfold Sinc
  rw [if_neg hx]
  simp only []
  have hp : (MagickPIL : R) * x ≠ 0 := mul_ne_zero (ne_of_gt MagickPIL_pos) hx
  rw [div_eq_zero_iff]
  constructor
  · intro h
    rcases h with h | h
    · exact h
    · exact absurd h hp
  · intro h
    exact Or.inl h

/-- The real sine does not vanish at a rational other than 0. -/
theorem real_sin_rat_ne_zero (q : ℚ) (hq : q ≠ 0) : Real.sin (q : ℝ) ≠ 0 := by
  intro h
  obtain ⟨n, hn⟩ := Real.sin_eq_zero_iff.mp h
  have hn0 : n ≠ 0 := by
    intro h0
    rw [h0] at hn
    simp at hn
    exact hq (by exact_mod_cast hn.symm)
  have hnR : (n : ℝ) ≠ 0 := by exact_mod_cast hn0
  apply irrational_pi
  refine ⟨q / (n : ℚ), ?_⟩
  push_cast
  rw [← hn]
  field_simp

/-- Claim C27, as the code has it: with no artifacts, cylindrical = false and
blur 1 (and `MagickEpsilon` at most 1), `AcquireResizeFilter(Lanczos)` yields
support 3, window support 3, scale 1/3 and blur 1, so `GetResizeFilterSupport`
returns 3 and `GetResizeFilterWeight(x) = Sinc(|x|) * Sinc(|x|/3)` for every
`x`, which is 1 at `x = 0`; at `x = 1, 2, 3` it is 0 exactly when the sine
returns 0 at `MagickPIL * x` or at `MagickPIL * (x / 3)`. -/
theorem lanczos_three_lobes (env : MagickEnv R) (image : Image R)
    (hart : image.artifacts = Artifacts.none) (heps : env.MagickEpsilon ≤ 1) :
    (AcquireResizeFilter env image FilterTypes.LanczosFilter 1 false).support = 3 ∧
    (AcquireResizeFilter env image FilterTypes.LanczosFilter 1 false).window_support = 3 ∧
    (AcquireResizeFilter env image FilterTypes.LanczosFilter 1 false).scale = 1 / 3 ∧
    (AcquireResizeFilter env image FilterTypes.LanczosFilter 1 false).blur = 1 ∧
    GetResizeFilterSupport (AcquireResizeFilter env image FilterTypes.LanczosFilter 1 false) =
      3 ∧
    (∀ x : R, GetResizeFilterWeight env
      (AcquireResizeFilter env image FilterTypes.LanczosFilter 1 false) x =
        Sinc env |x| * Sinc env (|x| / 3)) ∧
    GetResizeFilterWeight env
      (AcquireResizeFilter env image FilterTypes.LanczosFilter 1 false) 0 = 1 ∧
    ∀ k : ℕ, k = 1 ∨ k = 2 ∨ k = 3 →
      (GetResizeFilterWeight env
        (AcquireResizeFilter env image FilterTypes.LanczosFilter 1 false) (k : R) = 0 ↔
        env.sin (MagickPIL * (k : R)) = 0 ∨ env.sin (MagickPIL * ((k : R) / 3)) = 0) := by
  have hf := lanczos_filter_fields env image hart heps
  have hw := lanczos_weight env image hart heps
  refine ⟨by rw [hf], by rw [hf], by rw [hf], by rw [hf], ?_, hw, ?_, ?_⟩
  · rw [hf]
    unfold GetResizeFilterSupport
    norm_num
  · rw [hw]
    simp [Sinc]
  · intro k hk
    have hk0 : (0 : R) < (k : R) := by
      rcases hk with h | h | h <;> rw [h] <;> norm_num
    rw [hw, abs_of_pos hk0, mul_eq_zero, Sinc_eq_zero_iff env _ (ne_of_gt hk0),
      Sinc_eq_zero_iff env _ (ne_of_gt (by positivity))]

end LanczosTheorems

/-- Witness of C27: the Lanczos filter of the stock build over the reals with
libm's own functions, for an image without artifacts. -/
theorem lanczos_three_lobes_witness :
    (⟨1, 1, ClassType.DirectClass, ColorspaceType.RGBColorspace, false, 0,
        fun _ _ => ⟨0, 0, 0, 0⟩, fun _ _ => 0, Artifacts.none, none⟩ : Image ℝ).artifacts =
      Artifacts.none ∧
    (1 / 10000000000 : ℝ) ≤ 1 ∧
    GetResizeFilterSupport (AcquireResizeFilter
      (⟨1 / 10000000000, 3.14159265358979323846264338327950288419716939937510, 16, 65535,
        ClampToQuantumInteger 65535, Real.sin, Real.cos, Real.exp, Real.log, Real.sqrt, 1000⟩ :
        MagickEnv ℝ)
      (⟨1, 1, ClassType.DirectClass, ColorspaceType.RGBColorspace, false, 0,
        fun _ _ => ⟨0, 0, 0, 0⟩, fun _ _ => 0, Artifacts.none, none⟩ : Image ℝ)
      FilterTypes.LanczosFilter 1 false) = 3 ∧
    GetResizeFilterWeight
      (⟨1 / 10000000000, 3.14159265358979323846264338327950288419716939937510, 16, 65535,
        ClampToQuantumInteger 65535, Real.sin, Real.cos, Real.exp, Real.log, Real.sqrt, 1000⟩ :
        MagickEnv ℝ)
      (AcquireResizeFilter
        (⟨1 / 10000000000, 3.14159265358979323846264338327950288419716939937510, 16, 65535,
          ClampToQuantumInteger 65535, Real.sin, Real.cos, Real.exp, Real.log, Real.sqrt,
          1000⟩ : MagickEnv ℝ)
        (⟨1, 1, ClassType.DirectClass, ColorspaceType.RGBColorspace, false, 0,
          fun _ _ => ⟨0, 0, 0, 0⟩, fun _ _ => 0, Artifacts.none, none⟩ : Image ℝ)
        FilterTypes.LanczosFilter 1 false) 0 = 1 := by
  have h := lanczos_three_lobes
    (⟨1 / 10000000000, 3.14159265358979323846264338327950288419716939937510, 16, 65535,
      ClampToQuantumInteger 65535, Real.sin, Real.cos, Real.exp, Real.log, Real.sqrt, 1000⟩ :
      MagickEnv ℝ)
    (⟨1, 1, ClassType.DirectClass, ColorspaceType.RGBColorspace, false, 0,
      fun _ _ => ⟨0, 0, 0, 0⟩, fun _ _ => 0, Artifacts.none, none⟩ : Image ℝ)
    rfl (by norm_num)
  exact ⟨rfl, by norm_num, h.2.2.2.2.1, h.2.2.2.2.2.2.1⟩

/-- Counterexample to C27 as stated: with the real sine the Lanczos weight at
`x = 1` is not 0, `MagickPIL` being a decimal and not a multiple of π. -/
theorem lanczos_weight_one_ne_zero :
    GetResizeFilterWeight
      (⟨1 / 10000000000, 3.14159265358979323846264338327950288419716939937510, 16, 65535,
        ClampToQuantumInteger 65535, Real.sin, Real.cos, Real.exp, Real.log, Real.sqrt, 1000⟩ :
        MagickEnv ℝ)
      (AcquireResizeFilter
        (⟨1 / 10000000000, 3.14159265358979323846264338327950288419716939937510, 16, 65535,
          ClampToQuantumInteger 65535, Real.sin, Real.cos, Real.exp, Real.log, Real.sqrt,
          1000⟩ : MagickEnv ℝ)
        (⟨1, 1, ClassType.DirectClass, ColorspaceType.RGBColorspace, false, 0,
          fun _ _ => ⟨0, 0, 0, 0⟩, fun _ _ => 0, Artifacts.none, none⟩ : Image ℝ)
        FilterTypes.LanczosFilter 1 false) 1 ≠ 0 := by
  rw [lanczos_weight _ _ rfl (by norm_num)]
  rw [abs_one]
  intro h
  rcases mul_eq_zero.mp h with h | h
  · rw [Sinc_eq_zero_iff _ _ one_ne_zero] at h
    have h2 := real_sin_rat_ne_zero (3.14159265358979323846264338327950288420 * 1)
      (by norm_num)
    apply h2
    have e : (((3.14159265358979323846264338327950288420 * 1 : ℚ)) : ℝ) =
        (MagickPIL : ℝ) * 1 := by
      unfold MagickPIL
      push_cast
      norm_num
    rw [e]
    exact h
  · rw [Sinc_eq_zero_iff _ _ (by norm_num)] at h
    have h2 := real_sin_rat_ne_zero (3.14159265358979323846264338327950288420 * (1 / 3))
      (by norm_num)
    apply h2
    have e : (((3.14159265358979323846264338327950288420 * (1 / 3) : ℚ)) : ℝ) =
        (MagickPIL : ℝ) * (1 / 3) := by
      unfold MagickPIL
      push_cast
      norm_num
    rw [e]
    exact h

/-! ## The filter functions: theorems -/

section CubicTheorems

variable {R : Type} [LinearOrderedField R] [FloorRing R]

/-- Claim C37: partition of unity of the cubic family.  For all `B` and `C`,
with the coefficients computed as in `AcquireResizeFilter`, and every `x` with
`0 <= x < 1`: `CubicBC(x) + CubicBC(1-x) + CubicBC(1+x) + CubicBC(2-x) = 1`. -/
theorem cubic_partition_of_unity (B C : R) (f : ResizeFilter R) (x : R)
    (hx0 : 0 ≤ x) (hx1 : x < 1) :
    CubicBC x { f with cubic := cubicCoefficients B C } +
      CubicBC (1 - x) { f with cubic := cubicCoefficients B C } +
      CubicBC (1 + x) { f with cubic := cubicCoefficients B C } +
      CubicBC (2 - x) { f with cubic := cubicCoefficients B C } = 1 := by
  rcases eq_or_lt_of_le hx0 with h0 | h0
  · subst h0
    unfold CubicBC
    simp only [cubicCoefficients]
    norm_num
    ring
  · unfold CubicBC
    simp only [cubicCoefficients]
    rw [if_pos hx1, if_pos (by linarith : 1 - x < 1), if_neg (by linarith : ¬ (1 + x < 1)),
      if_pos (by linarith : 1 + x < 2), if_neg (by linarith : ¬ (2 - x < 1)),
      if_pos (by linarith : 2 - x < 2)]
    ring

end CubicTheorems

/-- Witness of C37: the Mitchell cubic (B = C = 1/3) at `x = 1/4`. -/
theorem cubic_partition_of_unity_witness :
    (0 : ℚ) ≤ 1 / 4 ∧ (1 / 4 : ℚ) < 1 ∧
    CubicBC (1 / 4 : ℚ)
      (AcquireResizeFilter envQ16 (solidImage 1 1 ⟨0, 0, 0, 0⟩) FilterTypes.MitchellFilter 1
        false) +
      CubicBC (1 - 1 / 4 : ℚ)
        (AcquireResizeFilter envQ16 (solidImage 1 1 ⟨0, 0, 0, 0⟩) FilterTypes.MitchellFilter 1
          false) +
      CubicBC (1 + 1 / 4 : ℚ)
        (AcquireResizeFilter envQ16 (solidImage 1 1 ⟨0, 0, 0, 0⟩) FilterTypes.MitchellFilter 1
          false) +
      CubicBC (2 - 1 / 4 : ℚ)
        (AcquireResizeFilter envQ16 (solidImage 1 1 ⟨0, 0, 0, 0⟩) FilterTypes.MitchellFilter 1
          false) = 1 := by
  have h := cubic_partition_of_unity (1 / 3 : ℚ) (1 / 3)
    (AcquireResizeFilter envQ16 (solidImage 1 1 ⟨0, 0, 0, 0⟩) FilterTypes.MitchellFilter 1
      false) (1 / 4) (by norm_num) (by norm_num)
  have hc : (AcquireResizeFilter envQ16 (solidImage 1 1 ⟨0, 0, 0, 0⟩)
      FilterTypes.MitchellFilter 1 false).cubic = cubicCoefficients (1 / 3 : ℚ) (1 / 3) := by
    simp [AcquireResizeFilter, acquireTypes, acquireBC, mapping, filters, solidImage,
      Artifacts.none]
  refine ⟨by norm_num, by norm_num, ?_⟩
  have e : ({ AcquireResizeFilter envQ16 (solidImage 1 1 ⟨0, 0, 0, 0⟩)
      FilterTypes.MitchellFilter 1 false with cubic := cubicCoefficients (1 / 3 : ℚ) (1 / 3) } :
      ResizeFilter ℚ) = AcquireResizeFilter envQ16 (solidImage 1 1 ⟨0, 0, 0, 0⟩)
      FilterTypes.MitchellFilter 1 false := by
    rw [← hc]
  rw [e] at h
  exact h

/-! ## The polynomial approximation of Sinc: theorems -/

section SincPolynomialTheorems

variable {R : Type} [LinearOrderedField R] [FloorRing R]

/-- The product `(xx-1)(xx-4)(xx-9)(xx-16)` by which every tier of
`SincPolynomial` multiplies its `p`: whatever `p` is, the value inside the
approximation interval is this product times some `p`. -/
theorem SincPolynomial_factored (env : MagickEnv R) (x : R) (hx : ¬ (x * x > 16)) :
    ∃ p : R, SincPolynomial env x =
      (x * x - 1) * (x * x - 4) * (x * x - 9) * (x * x - 16) * p := by
  unfold SincPolynomial
  simp only []
  rw [if_neg hx]
  exact ⟨_, rfl⟩

/-- Claim C39: in every precision tier, `SincPolynomial(k) = 0` exactly for
`k = 1, 2, 3` and `4`. -/
theorem sinc_polynomial_zeros (env : MagickEnv R) :
    SincPolynomial env 1 = 0 ∧ SincPolynomial env 2 = 0 ∧ SincPolynomial env 3 = 0 ∧
    SincPolynomial env 4 = 0 := by
  refine ⟨?_, ?_, ?_, ?_⟩
  · obtain ⟨p, hp⟩ := SincPolynomial_factored env (1 : R) (by norm_num)
    rw [hp]
    norm_num
  · obtain ⟨p, hp⟩ := SincPolynomial_factored env (2 : R) (by norm_num)
    rw [hp]
    norm_num
  · obtain ⟨p, hp⟩ := SincPolynomial_factored env (3 : R) (by norm_num)
    rw [hp]
    norm_num
  · obtain ⟨p, hp⟩ := SincPolynomial_factored env (4 : R) (by norm_num)
    rw [hp]
    norm_num

/-- The nested form of six coefficients is the polynomial with these
coefficients. -/
theorem nested_six (t a0 a1 a2 a3 a4 a5 : R) :
    nested t [a0, a1, a2, a3, a4, a5] = polynomialValue [a0, a1, a2, a3, a4, a5] t := by
  simp [nested, polynomialValue, List.range_succ]
  ring

/-- The nested form of eight coefficients is the polynomial with these
coefficients. -/
theorem nested_eight (t a0 a1 a2 a3 a4 a5 a6 a7 : R) :
    nested t [a0, a1, a2, a3, a4, a5, a6, a7] =
      polynomialValue [a0, a1, a2, a3, a4, a5, a6, a7] t := by
  simp [nested, polynomialValue, List.range_succ]
  ring

/-- The nested form of ten coefficients is the polynomial with these
coefficients. -/
theorem nested_ten (t a0 a1 a2 a3 a4 a5 a6 a7 a8 a9 : R) :
    nested t [a0, a1, a2, a3, a4, a5, a6, a7, a8, a9] =
      polynomialValue [a0, a1, a2, a3, a4, a5, a6, a7, a8, a9] t := by
  simp [nested, polynomialValue, List.range_succ]
  ring

/-- The nested form of sixteen coefficients, the last one replaced by `d`, is
the polynomial with the sixteen coefficients plus `(d - a15) * t^15`. -/
theorem nested_sixteen (t a0 a1 a2 a3 a4 a5 a6 a7 a8 a9 a10 a11 a12 a13 a14 a15 d : R) :
    nested t [a0, a1, a2, a3, a4, a5, a6, a7, a8, a9, a10, a11, a12, a13, a14, d] =
      polynomialValue [a0, a1, a2, a3, a4, a5, a6, a7, a8, a9, a10, a11, a12, a13, a14, a15] t +
        (d - a15) * t ^ 15 := by
  simp [nested, polynomialValue, List.range_succ]
  ring

/-- The nested form of the last tier of `SincPolynomial`, with its literal
`15`, against the polynomial of the sixteen declared constants. -/
theorem nested_last_tier (t : R) :
    nested t ((SincPolynomial_c64 : List R).take 15 ++ [15]) =
      polynomialValue SincPolynomial_c64 t +
        (15 - (SincPolynomial_c64 : List R).getD 15 0) * t ^ 15 := by
  unfold SincPolynomial_c64
  exact nested_sixteen t _ _ _ _ _ _ _ _ _ _ _ _ _ _ _ _ _

/-- Claim C33, as the code has it: beyond the approximation interval
(`x*x > 16`) `SincPolynomial` returns `sin(MagickPIL x)/(MagickPIL x)`; inside
it returns `(x^2-1)(x^2-4)(x^2-9)(x^2-16) * p(x^2)`, where `p` is the polynomial
of the tier's declared constants `c0..c5`, `c0..c7`, `c0..c9` for a quantum
depth of at most 8, 16 and 32, and above 32 the polynomial of `c0..c15` plus
`(15 - c15) * (x^2)^15`: the source writes the literal `15` where `c15` is
meant. -/
theorem sinc_polynomial_tiers (env : MagickEnv R) (x : R) :
    (x * x > 16 → SincPolynomial env x = env.sin (MagickPIL * x) / (MagickPIL * x)) ∧
    (¬ (x * x > 16) → env.QuantumDepth ≤ 8 →
      SincPolynomial env x = (x * x - 1) * (x * x - 4) * (x * x - 9) * (x * x - 16) *
        polynomialValue SincPolynomial_c8 (x * x)) ∧
    (¬ (x * x > 16) → 8 < env.QuantumDepth → env.QuantumDepth ≤ 16 →
      SincPolynomial env x = (x * x - 1) * (x * x - 4) * (x * x - 9) * (x * x - 16) *
        polynomialValue SincPolynomial_c16 (x * x)) ∧
    (¬ (x * x > 16) → 16 < env.QuantumDepth → env.QuantumDepth ≤ 32 →
      SincPolynomial env x = (x * x - 1) * (x * x - 4) * (x * x - 9) * (x * x - 16) *
        polynomialValue SincPolynomial_c32 (x * x)) ∧
    (¬ (x * x > 16) → 32 < env.QuantumDepth →
      SincPolynomial env x = (x * x - 1) * (x * x - 4) * (x * x - 9) * (x * x - 16) *
        (polynomialValue SincPolynomial_c64 (x * x) +
          (15 - (SincPolynomial_c64 : List R).getD 15 0) * (x * x) ^ 15)) := by
  refine ⟨?_, ?_, ?_, ?_, ?_⟩
  · intro hx
    unfold SincPolynomial
    simp only []
    rw [if_pos hx]
  · intro hx h8
    unfold SincPolynomial
    simp only []
    rw [if_neg hx, if_pos h8]
    unfold SincPolynomial_c8
    rw [nested_six]
  · intro hx h8 h16
    unfold SincPolynomial
    simp only []
    rw [if_neg hx, if_neg (by omega), if_pos h16]
    unfold SincPolynomial_c16
    rw [nested_eight]
  · intro hx h16 h32
    unfold SincPolynomial
    simp only []
    rw [if_neg hx, if_neg (by omega), if_neg (by omega), if_pos h32]
    unfold SincPolynomial_c32
    rw [nested_ten]
  · intro hx h32
    unfold SincPolynomial
    simp only []
    rw [if_neg hx, if_neg (by omega), if_neg (by omega), if_neg (by omega), nested_last_tier]

end SincPolynomialTheorems

/-- Witness of C33: a build of quantum depth 64 at `x = 1/2`.  The value
`SincPolynomial` returns carries the term of the literal `15` and is not the
product with the polynomial of the declared constants `c0..c15`. -/
theorem sinc_polynomial_tiers_witness :
    ¬ ((1 / 2 : ℚ) * (1 / 2) > 16) ∧
    32 < ({ envQ16 with QuantumDepth := 64 } : MagickEnv ℚ).QuantumDepth ∧
    SincPolynomial ({ envQ16 with QuantumDepth := 64 } : MagickEnv ℚ) (1 / 2) =
      ((1 / 2 : ℚ) * (1 / 2) - 1) * ((1 / 2) * (1 / 2) - 4) * ((1 / 2) * (1 / 2) - 9) *
        ((1 / 2) * (1 / 2) - 16) *
        (polynomialValue SincPolynomial_c64 ((1 / 2) * (1 / 2)) +
          (15 - (SincPolynomial_c64 : List ℚ).getD 15 0) * ((1 / 2) * (1 / 2)) ^ 15) ∧
    SincPolynomial ({ envQ16 with QuantumDepth := 64 } : MagickEnv ℚ) (1 / 2) ≠
      ((1 / 2 : ℚ) * (1 / 2) - 1) * ((1 / 2) * (1 / 2) - 4) * ((1 / 2) * (1 / 2) - 9) *
        ((1 / 2) * (1 / 2) - 16) * polynomialValue SincPolynomial_c64 ((1 / 2) * (1 / 2)) := by
  have hx : ¬ ((1 / 2 : ℚ) * (1 / 2) > 16) := by norm_num
  have hd : 32 < ({ envQ16 with QuantumDepth := 64 } : MagickEnv ℚ).QuantumDepth := by decide
  have h := (sinc_polynomial_tiers ({ envQ16 with QuantumDepth := 64 } : MagickEnv ℚ)
    (1 / 2)).2.2.2.2 hx hd
  refine ⟨hx, hd, h, ?_⟩
  rw [h]
  intro h2
  have hne : ((1 / 2 : ℚ) * (1 / 2) - 1) * ((1 / 2) * (1 / 2) - 4) * ((1 / 2) * (1 / 2) - 9) *
      ((1 / 2) * (1 / 2) - 16) *
      ((15 - (SincPolynomial_c64 : List ℚ).getD 15 0) * ((1 / 2) * (1 / 2)) ^ 15) ≠ 0 := by
    norm_num [SincPolynomial_c64]
  apply hne
  linear_combination h2

/-! ## The Blackman window: theorems -/

section BlackmanTheorems

variable {R : Type} [LinearOrderedField R] [FloorRing R]

end BlackmanTheorems

/-- The derivative of a cubic in the nested form in which `CubicBC` evaluates
its pieces. -/
theorem cubic_piece_hasDerivAt (a0 a1 a2 a3 x : ℝ) :
    HasDerivAt (fun t : ℝ => a0 + t * (a1 + t * (a2 + t * a3)))
      (a1 + 2 * a2 * x + 3 * a3 * x ^ 2) x := by
  have h1 : HasDerivAt (fun t : ℝ => t) 1 x := hasDerivAt_id x
  have h2 : HasDerivAt (fun t : ℝ => a2 + t * a3) (1 * a3) x := (h1.mul_const a3).const_add a2
  have h3 : HasDerivAt (fun t : ℝ => a1 + t * (a2 + t * a3))
      (1 * (a2 + x * a3) + x * (1 * a3)) x := (h1.mul h2).const_add a1
  have h4 : HasDerivAt (fun t : ℝ => a0 + t * (a1 + t * (a2 + t * a3)))
      (1 * (a1 + x * (a2 + x * a3)) + x * (1 * (a2 + x * a3) + x * (1 * a3))) x :=
    (h1.mul h3).const_add a0
  convert h4 using 1
  ring

/-- Claim C31: for all real `B` and `C`, with `cubic[0..7]` computed from
`(B, C)` as in `AcquireResizeFilter`, the two polynomial pieces of `CubicBC`
agree in value and in first derivative at `x = 1` (the kernel has a derivative
there, the common slope `-(B/2) - C` of the two pieces), and the outer piece
has value 0 and first derivative 0 at `x = 2`, where the kernel has the
derivative 0 and beyond which it is 0. -/
theorem cubic_joins_smoothly (B C : ℝ) (f : ResizeFilter ℝ) :
    (cubicCoefficients B C 0 + 1 * (cubicCoefficients B C 1 + 1 *
        (cubicCoefficients B C 2 + 1 * cubicCoefficients B C 3)) =
      cubicCoefficients B C 4 + 1 * (cubicCoefficients B C 5 + 1 *
        (cubicCoefficients B C 6 + 1 * cubicCoefficients B C 7))) ∧
    (cubicCoefficients B C 1 + 2 * cubicCoefficients B C 2 * 1 +
        3 * cubicCoefficients B C 3 * 1 ^ 2 =
      cubicCoefficients B C 5 + 2 * cubicCoefficients B C 6 * 1 +
        3 * cubicCoefficients B C 7 * 1 ^ 2) ∧
    (cubicCoefficients B C 4 + 2 * (cubicCoefficients B C 5 + 2 *
        (cubicCoefficients B C 6 + 2 * cubicCoefficients B C 7)) = 0) ∧
    (cubicCoefficients B C 5 + 2 * cubicCoefficients B C 6 * 2 +
        3 * cubicCoefficients B C 7 * 2 ^ 2 = 0) ∧
    HasDerivAt (fun x : ℝ => CubicBC x { f with cubic := cubicCoefficients B C })
      (-(B / 2) - C) 1 ∧
    HasDerivAt (fun x : ℝ => CubicBC x { f with cubic := cubicCoefficients B C }) 0 2 ∧
    (∀ x : ℝ, 2 ≤ x → CubicBC x { f with cubic := cubicCoefficients B C } = 0) ∧
    Continuous (fun x : ℝ => CubicBC x { f with cubic := cubicCoefficients B C }) := by
  have v1 : cubicCoefficients B C 0 + 1 * (cubicCoefficients B C 1 + 1 *
        (cubicCoefficients B C 2 + 1 * cubicCoefficients B C 3)) =
      cubicCoefficients B C 4 + 1 * (cubicCoefficients B C 5 + 1 *
        (cubicCoefficients B C 6 + 1 * cubicCoefficients B C 7)) := by
    simp only [cubicCoefficients]
    ring
  have d1 : cubicCoefficients B C 1 + 2 * cubicCoefficients B C 2 * 1 +
        3 * cubicCoefficients B C 3 * 1 ^ 2 =
      cubicCoefficients B C 5 + 2 * cubicCoefficients B C 6 * 1 +
        3 * cubicCoefficients B C 7 * 1 ^ 2 := by
    simp only [cubicCoefficients]
    ring
  have d1v : cubicCoefficients B C 1 + 2 * cubicCoefficients B C 2 * 1 +
        3 * cubicCoefficients B C 3 * 1 ^ 2 = -(B / 2) - C := by
    simp only [cubicCoefficients]
    ring
  have v2 : cubicCoefficients B C 4 + 2 * (cubicCoefficients B C 5 + 2 *
        (cubicCoefficients B C 6 + 2 * cubicCoefficients B C 7)) = 0 := by
    simp only [cubicCoefficients]
    ring
  have d2 : cubicCoefficients B C 5 + 2 * cubicCoefficients B C 6 * 2 +
        3 * cubicCoefficients B C 7 * 2 ^ 2 = 0 := by
    simp only [cubicCoefficients]
    ring
  have hpiece1 : ∀ x : ℝ, x < 1 → CubicBC x { f with cubic := cubicCoefficients B C } =
      cubicCoefficients B C 0 + x * (cubicCoefficients B C 1 + x *
        (cubicCoefficients B C 2 + x * cubicCoefficients B C 3)) := by
    intro x hx
    unfold CubicBC
    rw [if_pos hx]
  have hpiece2 : ∀ x : ℝ, 1 ≤ x → x < 2 →
      CubicBC x { f with cubic := cubicCoefficients B C } =
      cubicCoefficients B C 4 + x * (cubicCoefficients B C 5 + x *
        (cubicCoefficients B C 6 + x * cubicCoefficients B C 7)) := by
    intro x hx1 hx2
    unfold CubicBC
    rw [if_neg (not_lt.mpr hx1), if_pos hx2]
  have hpiece3 : ∀ x : ℝ, 2 ≤ x → CubicBC x { f with cubic := cubicCoefficients B C } = 0 := by
    intro x hx
    unfold CubicBC
    rw [if_neg (by linarith), if_neg (by linarith)]
  have hat1 : HasDerivAt (fun x : ℝ => CubicBC x { f with cubic := cubicCoefficients B C })
      (-(B / 2) - C) 1 := by
    have hl : HasDerivWithinAt
        (fun x : ℝ => CubicBC x { f with cubic := cubicCoefficients B C })
        (-(B / 2) - C) (Set.Iic 1) 1 := by
      have hp := (cubic_piece_hasDerivAt (cubicCoefficients B C 0) (cubicCoefficients B C 1)
        (cubicCoefficients B C 2) (cubicCoefficients B C 3) 1).hasDerivWithinAt (s := Set.Iic 1)
      rw [d1v] at hp
      refine hp.congr ?_ ?_
      · intro x hx
        rcases lt_or_eq_of_le (Set.mem_Iic.mp hx) with h | h
        · exact hpiece1 x h
        · rw [h, hpiece2 1 le_rfl (by norm_num)]
          exact v1.symm
      · rw [hpiece2 1 le_rfl (by norm_num)]
        exact v1.symm
    have hr : HasDerivWithinAt
        (fun x : ℝ => CubicBC x { f with cubic := cubicCoefficients B C })
        (-(B / 2) - C) (Set.Ici 1) 1 := by
      have hp := (cubic_piece_hasDerivAt (cubicCoefficients B C 4) (cubicCoefficients B C 5)
        (cubicCoefficients B C 6) (cubicCoefficients B C 7) 1).hasDerivWithinAt (s := Set.Ici 1)
      rw [← d1, d1v] at hp
      refine hp.congr_of_eventuallyEq ?_ (hpiece2 1 le_rfl (by norm_num))
      filter_upwards [self_mem_nhdsWithin,
        mem_nhdsWithin_of_mem_nhds (Iio_mem_nhds (by norm_num : (1 : ℝ) < 2))] with x hx1 hx2
      exact hpiece2 x hx1 hx2
    have hu := hl.union hr
    rw [Set.Iic_union_Ici, hasDerivWithinAt_univ] at hu
    exact hu
  have hat2 : HasDerivAt (fun x : ℝ => CubicBC x { f with cubic := cubicCoefficients B C })
      0 2 := by
    have hl : HasDerivWithinAt
        (fun x : ℝ => CubicBC x { f with cubic := cubicCoefficients B C }) 0 (Set.Iic 2) 2 := by
      have hp := (cubic_piece_hasDerivAt (cubicCoefficients B C 4) (cubicCoefficients B C 5)
        (cubicCoefficients B C 6) (cubicCoefficients B C 7) 2).hasDerivWithinAt (s := Set.Iic 2)
      rw [d2] at hp
      refine hp.congr_of_eventuallyEq ?_ ?_
      · filter_upwards [self_mem_nhdsWithin,
          mem_nhdsWithin_of_mem_nhds (Ioi_mem_nhds (by norm_num : (1 : ℝ) < 2))] with x hx1 hx2
        rcases lt_or_eq_of_le (Set.mem_Iic.mp hx1) with h | h
        · exact hpiece2 x (le_of_lt hx2) h
        · rw [h, hpiece3 2 le_rfl]
          exact v2.symm
      · rw [hpiece3 2 le_rfl]
        exact v2.symm
    have hr : HasDerivWithinAt
        (fun x : ℝ => CubicBC x { f with cubic := cubicCoefficients B C }) 0 (Set.Ici 2) 2 := by
      have hp := (hasDerivAt_const (2 : ℝ) (0 : ℝ)).hasDerivWithinAt (s := Set.Ici 2)
      refine hp.congr ?_ ?_
      · intro x hx
        exact hpiece3 x (Set.mem_Ici.mp hx)
      · exact hpiece3 2 le_rfl
    have hu := hl.union hr
    rw [Set.Iic_union_Ici, hasDerivWithinAt_univ] at hu
    exact hu
  refine ⟨v1, d1, v2, d2, hat1, hat2, hpiece3, ?_⟩
  rw [continuous_iff_continuousAt]
  intro x
  rcases lt_trichotomy x 1 with h | h | h
  · have hp := (cubic_piece_hasDerivAt (cubicCoefficients B C 0) (cubicCoefficients B C 1)
      (cubicCoefficients B C 2) (cubicCoefficients B C 3) x).continuousAt
    refine hp.congr ?_
    filter_upwards [Iio_mem_nhds h] with y hy
    exact (hpiece1 y hy).symm
  · rw [h]
    exact hat1.continuousAt
  · rcases lt_trichotomy x 2 with h2 | h2 | h2
    · have hp := (cubic_piece_hasDerivAt (cubicCoefficients B C 4) (cubicCoefficients B C 5)
        (cubicCoefficients B C 6) (cubicCoefficients B C 7) x).continuousAt
      refine hp.congr ?_
      filter_upwards [Ioi_mem_nhds h, Iio_mem_nhds h2] with y hy1 hy2
      exact (hpiece2 y (le_of_lt hy1) hy2).symm
    · rw [h2]
      exact hat2.continuousAt
    · have hp : ContinuousAt (fun _ : ℝ => (0 : ℝ)) x := continuousAt_const
      refine hp.congr ?_
      filter_upwards [Ioi_mem_nhds h2] with y hy
      exact (hpiece3 y (le_of_lt hy)).symm

/-! ## The Lagrange filter: theorems -/

section LagrangeTheorems

variable {R : Type} [LinearOrderedField R] [FloorRing R]

/-- A loop that multiplies `value` by `g i` for the `i` that pass a test is the
product of the `g i` over the `i` that pass. -/
theorem foldl_cond_mul (l : List ℕ) (p : ℕ → Prop) [DecidablePred p] (g : ℕ → R) (a : R) :
    l.foldl (fun (value : R) (i : ℕ) => if p i then value * g i else value) a =
      a * ((l.filter fun i => decide (p i)).map g).prod := by
  induction l generalizing a with
  | nil => simp
  | cons i l ih =>
    rw [List.foldl_cons, ih]
    by_cases hp : p i
    · rw [if_pos hp, List.filter_cons_of_pos (by simpa using hp), List.map_cons, List.prod_cons,
        mul_assoc]
    · rw [if_neg hp, List.filter_cons_of_neg (by simpa using hp)]

/-- Within its support, `Lagrange` is the product of its factors. -/
theorem Lagrange_eq_prod (x : R) (f : ResizeFilter R) (hx : x ≤ f.support) :
    Lagrange x f = (lagrangeFactors x f).prod := by
  unfold Lagrange lagrangeFactors
  rw [if_neg (not_lt.mpr hx)]
  simp only []
  rw [foldl_cond_mul, one_mul]

/-- Beyond its support, `Lagrange` is 0. -/
theorem Lagrange_beyond (x : R) (f : ResizeFilter R) (hx : f.support < x) :
    Lagrange x f = 0 := by
  unfold Lagrange
  rw [if_pos hx]

/-- No index below `m` is left out when `n` is not below `m`. -/
theorem length_filter_ne_of_le (m : ℕ) (n : ℤ) (hn : (m : ℤ) ≤ n ∨ n < 0) :
    ((List.range m).filter fun (i : ℕ) => decide ((i : ℤ) ≠ n)).length = m := by
  have : ((List.range m).filter fun (i : ℕ) => decide ((i : ℤ) ≠ n)) = List.range m := by
    apply List.filter_eq_self.mpr
    intro i hi
    have him : i < m := List.mem_range.mp hi
    simp only [decide_eq_true_eq]
    omega
  rw [this, List.length_range]

/-- Exactly one index below `m` is left out when `0 <= n < m`. -/
theorem length_filter_ne_of_lt (m : ℕ) (n : ℤ) (h0 : 0 ≤ n) (hn : n < (m : ℤ)) :
    ((List.range m).filter fun (i : ℕ) => decide ((i : ℤ) ≠ n)).length = m - 1 := by
  induction m with
  | zero => omega
  | succ m ih =>
    rw [List.range_succ, List.filter_append, List.length_append]
    by_cases hm : (m : ℤ) = n
    · rw [length_filter_ne_of_le m n (Or.inl (by omega))]
      simp [hm]
    · rw [ih (by push_cast at hn; omega)]
      have hm1 : 1 ≤ m := by
        rcases Nat.eq_zero_or_pos m with h | h
        · subst h
          push_cast at hn hm
          omega
        · exact h
      simp [hm]
      omega

/-- The piece index `n` of `Lagrange` for `x >= 0` and an order `o >= 0`. -/
theorem lagrange_piece (o : ℤ) (x : R) (ho : 0 ≤ o) (hx : 0 ≤ x) :
    castToInt ((1 * (o : R)) / 2 + x) = ⌊(o : R) / 2 + x⌋ ∧
    0 ≤ castToInt ((1 * (o : R)) / 2 + x) := by
  have hoR : (0 : R) ≤ (o : R) := by exact_mod_cast ho
  have hpos : (0 : R) ≤ (1 * (o : R)) / 2 + x := by positivity
  unfold castToInt
  rw [if_pos hpos, one_mul]
  refine ⟨rfl, ?_⟩
  rw [one_mul] at hpos
  exact Int.floor_nonneg.mpr hpos

/-- The Lagrange filter built with no artifacts, orthogonal. -/
theorem lagrange_filter_fields (env : MagickEnv R) (image : Image R) (blur : R)
    (hart : image.artifacts = Artifacts.none) :
    (AcquireResizeFilter env image FilterTypes.LagrangeFilter blur false).filter =
      FilterFunction.Lagrange ∧
    (AcquireResizeFilter env image FilterTypes.LagrangeFilter blur false).support = 2 ∧
    (AcquireResizeFilter env image FilterTypes.LagrangeFilter blur false).window_support = 2 := by
  refine ⟨?_, ?_, ?_⟩ <;>
    simp [AcquireResizeFilter, acquireTypes, acquireSupport, mapping, filters, hart,
      Artifacts.none]

/-- Claim C34, as the code has it: the order of the Lagrange filter is
`floor(2 * window_support)`; within the support `Lagrange(x)` is the product of
its factors `(n-i-x)/(n-i)`, one for each `i < order` other than the piece
index `n`: `order - 1` linear factors for `0 <= x < order/2`, and `order`
factors for `x >= order/2`, where no index is left out. -/
theorem lagrange_piece_factors (f : ResizeFilter R) (x : R) (hx0 : 0 ≤ x)
    (hxs : x ≤ f.support) :
    (0 ≤ f.window_support →
      castToInt (2 * f.window_support) = ⌊2 * f.window_support⌋) ∧
    Lagrange x f = (lagrangeFactors x f).prod ∧
    (x < ((castToInt (2 * f.window_support) : ℤ) : R) / 2 →
      ((lagrangeFactors x f).length : ℤ) = castToInt (2 * f.window_support) - 1) ∧
    (0 ≤ castToInt (2 * f.window_support) →
      ((castToInt (2 * f.window_support) : ℤ) : R) / 2 ≤ x →
      ((lagrangeFactors x f).length : ℤ) = castToInt (2 * f.window_support)) := by
  refine ⟨?_, Lagrange_eq_prod x f hxs, ?_, ?_⟩
  · intro hw
    unfold castToInt
    rw [if_pos (by positivity)]
  · intro hx
    generalize ho : castToInt (2 * f.window_support) = o at hx
    have hoR : (0 : R) < (o : R) := by linarith
    have ho0 : 0 < o := by exact_mod_cast hoR
    obtain ⟨hn, hn0⟩ := lagrange_piece o x (le_of_lt ho0) hx0
    have hnlt : castToInt ((1 * (o : R)) / 2 + x) < o := by
      rw [hn]
      have h1 : ((⌊(o : R) / 2 + x⌋ : ℤ) : R) < (o : R) := by
        have := Int.floor_le ((o : R) / 2 + x)
        linarith
      exact_mod_cast h1
    unfold lagrangeFactors
    simp only []
    rw [ho, List.length_map, length_filter_ne_of_lt o.toNat _ hn0 (by omega)]
    omega
  · intro ho0 hx
    generalize ho : castToInt (2 * f.window_support) = o at hx ho0
    obtain ⟨hn, -⟩ := lagrange_piece o x ho0 hx0
    have hnge : o ≤ castToInt ((1 * (o : R)) / 2 + x) := by
      rw [hn]
      apply Int.le_floor.mpr
      linarith
    unfold lagrangeFactors
    simp only []
    rw [ho, List.length_map, length_filter_ne_of_le o.toNat _ (Or.inl (by omega))]
    omega

/-- Claim C38: the Lagrange filter is interpolating.  For a filter with
`order = floor(2 * window_support) >= 1` (and a support that is not negative),
`Lagrange(0) = 1` and `Lagrange(k) = 0` for every integer `k >= 1`: within the
support the vanishing factor is among the factors of `Lagrange(k)`, beyond it
the early return gives 0; and no factor has the denominator `n - i = 0`. -/
theorem lagrange_interpolating (f : ResizeFilter R) (hs : 0 ≤ f.support)
    (horder : 1 ≤ castToInt (2 * f.window_support)) :
    Lagrange 0 f = 1 ∧
    (∀ k : ℕ, 1 ≤ k → Lagrange (k : R) f = 0) ∧
    (∀ k : ℕ, 1 ≤ k → (k : R) ≤ f.support → (0 : R) ∈ lagrangeFactors (k : R) f) ∧
    (∀ (x : R) (i : ℕ),
      (i : ℤ) ≠ castToInt ((1 * ((castToInt (2 * f.window_support) : ℤ) : R)) / 2 + x) →
      ((castToInt ((1 * ((castToInt (2 * f.window_support) : ℤ) : R)) / 2 + x) : ℤ) : R) -
        (i : R) ≠ 0) := by
  have hden : ∀ (x : R) (i : ℕ),
      (i : ℤ) ≠ castToInt ((1 * ((castToInt (2 * f.window_support) : ℤ) : R)) / 2 + x) →
      ((castToInt ((1 * ((castToInt (2 * f.window_support) : ℤ) : R)) / 2 + x) : ℤ) : R) -
        (i : R) ≠ 0 := by
    intro x i hi h
    apply hi
    have h2 : ((castToInt ((1 * ((castToInt (2 * f.window_support) : ℤ) : R)) / 2 + x) : ℤ) :
        R) = (((i : ℤ) : ℤ) : R) := by
      push_cast
      linarith
    exact (Int.cast_injective h2).symm
  have hmem : ∀ k : ℕ, 1 ≤ k → (k : R) ≤ f.support → (0 : R) ∈ lagrangeFactors (k : R) f := by
    intro k hk hks
    unfold lagrangeFactors
    simp only []
    generalize ho : castToInt (2 * f.window_support) = o at horder
    have hoR : (1 : R) ≤ (o : R) := by exact_mod_cast horder
    have hk0 : (0 : R) ≤ (k : R) := Nat.cast_nonneg k
    obtain ⟨hn, -⟩ := lagrange_piece o (k : R) (by omega) hk0
    have hfl : ⌊(o : R) / 2 + (k : R)⌋ = ⌊(o : R) / 2⌋ + (k : ℤ) := Int.floor_add_nat _ k
    have hm0 : 0 ≤ ⌊(o : R) / 2⌋ := Int.floor_nonneg.mpr (by positivity)
    have hmo : ⌊(o : R) / 2⌋ < o := by
      have h1 : ((⌊(o : R) / 2⌋ : ℤ) : R) < (o : R) := by
        have := Int.floor_le ((o : R) / 2)
        linarith
      exact_mod_cast h1
    rw [hn, hfl]
    apply List.mem_map.mpr
    refine ⟨⌊(o : R) / 2⌋.toNat, ?_, ?_⟩
    · apply List.mem_filter.mpr
      constructor
      · apply List.mem_range.mpr
        omega
      · simp only [decide_eq_true_eq]
        rw [Int.toNat_of_nonneg hm0]
        omega
    · have hc : ((⌊(o : R) / 2⌋.toNat : ℕ) : R) = ((⌊(o : R) / 2⌋ : ℤ) : R) := by
        have : ((⌊(o : R) / 2⌋.toNat : ℕ) : ℤ) = ⌊(o : R) / 2⌋ := Int.toNat_of_nonneg hm0
        exact_mod_cast this
      rw [hc]
      push_cast
      rw [div_eq_zero_iff]
      left
      ring
  refine ⟨?_, ?_, hmem, hden⟩
  · rw [Lagrange_eq_prod 0 f hs]
    apply List.prod_eq_one
    intro v hv
    unfold lagrangeFactors at hv
    simp only [] at hv
    obtain ⟨i, hi, hiv⟩ := List.mem_map.mp hv
    have hne := (List.mem_filter.mp hi).2
    simp only [decide_eq_true_eq] at hne
    rw [← hiv, sub_zero]
    exact div_self (hden 0 i hne)
  · intro k hk
    rcases le_or_lt ((k : R)) f.support with h | h
    · rw [Lagrange_eq_prod _ f h]
      exact List.prod_eq_zero (hmem k hk h)
    · exact Lagrange_beyond _ f h

/-- The factors of a Lagrange filter of window support 2 for `0 <= x < 1`: the
piece index is 2 and the indices 0, 1 and 3 give the three factors. -/
theorem lagrange_stock_factors (f : ResizeFilter R) (hw : f.window_support = 2) (x : R)
    (hx0 : 0 ≤ x) (hx1 : x < 1) :
    lagrangeFactors x f = [(2 - x) / 2, (1 - x) / 1, (-1 - x) / (-1)] := by
  have ho : castToInt (2 * f.window_support) = 4 := by
    rw [hw]
    exact castToInt_eq_of_mem _ 4 (by norm_num) (by norm_num) (by norm_num)
  have hn : castToInt ((1 * (((4 : ℤ) : ℤ) : R)) / 2 + x) = 2 :=
    castToInt_eq_of_mem _ 2 (by push_cast; linarith) (by push_cast; linarith)
      (by push_cast; linarith)
  unfold lagrangeFactors
  simp only []
  rw [ho, hn]
  have hl : ((List.range (4 : ℤ).toNat).filter fun (i : ℕ) => decide ((i : ℤ) ≠ 2)) =
      [0, 1, 3] := by decide
  rw [hl]
  simp only [List.map_cons, List.map_nil]
  push_cast
  norm_num

end LagrangeTheorems

/-- Witness of C34: the stock Lagrange filter at `x = 1/2`. -/
theorem lagrange_piece_factors_witness :
    (0 : ℚ) ≤ 1 / 2 ∧
    (1 / 2 : ℚ) ≤ (AcquireResizeFilter envQ16 (solidImage 1 1 ⟨0, 0, 0, 0⟩)
      FilterTypes.LagrangeFilter 1 false).support ∧
    Lagrange (1 / 2 : ℚ) (AcquireResizeFilter envQ16 (solidImage 1 1 ⟨0, 0, 0, 0⟩)
      FilterTypes.LagrangeFilter 1 false) =
      (lagrangeFactors (1 / 2 : ℚ) (AcquireResizeFilter envQ16 (solidImage 1 1 ⟨0, 0, 0, 0⟩)
        FilterTypes.LagrangeFilter 1 false)).prod := by
  have hs := (lagrange_filter_fields envQ16 (solidImage 1 1 ⟨0, 0, 0, 0⟩) (1 : ℚ) rfl).2.1
  have hle : (1 / 2 : ℚ) ≤ (AcquireResizeFilter envQ16 (solidImage 1 1 ⟨0, 0, 0, 0⟩)
      FilterTypes.LagrangeFilter 1 false).support := by
    rw [hs]
    norm_num
  exact ⟨by norm_num, hle,
    (lagrange_piece_factors (AcquireResizeFilter envQ16 (solidImage 1 1 ⟨0, 0, 0, 0⟩)
      FilterTypes.LagrangeFilter 1 false) (1 / 2) (by norm_num) hle).2.1⟩

/-- Counterexample to C34 as stated: the stock Lagrange filter has window
support 2, and `2 * floor(2) = 4`; its piece for `0 <= x < 1` has three linear
factors, not four, and is the cubic `(2 - x) (1 - x) (1 + x) / 2`. -/
theorem lagrange_stock_cubic :
    (AcquireResizeFilter envQ16 (solidImage 1 1 ⟨0, 0, 0, 0⟩)
      FilterTypes.LagrangeFilter 1 false).window_support = 2 ∧
    2 * ⌊(2 : ℚ)⌋ = 4 ∧
    (lagrangeFactors (1 / 2 : ℚ) (AcquireResizeFilter envQ16 (solidImage 1 1 ⟨0, 0, 0, 0⟩)
      FilterTypes.LagrangeFilter 1 false)).length = 3 ∧
    ∀ x : ℚ, 0 ≤ x → x < 1 →
      Lagrange x (AcquireResizeFilter envQ16 (solidImage 1 1 ⟨0, 0, 0, 0⟩)
        FilterTypes.LagrangeFilter 1 false) = (2 - x) * (1 - x) * (1 + x) / 2 := by
  obtain ⟨-, hs, hw⟩ := lagrange_filter_fields envQ16 (solidImage 1 1 ⟨0, 0, 0, 0⟩) (1 : ℚ) rfl
  refine ⟨hw, ?_, ?_, ?_⟩
  · have h : ⌊((2 : ℤ) : ℚ)⌋ = 2 := Int.floor_intCast 2
    have h2 : ⌊(2 : ℚ)⌋ = 2 := by exact_mod_cast h
    rw [h2]
    rfl
  · rw [lagrange_stock_factors _ hw (1 / 2) (by norm_num) (by norm_num)]
    rfl
  · intro x hx0 hx1
    rw [Lagrange_eq_prod x _ (by rw [hs]; linarith), lagrange_stock_factors _ hw x hx0 hx1]
    simp only [List.prod_cons, List.prod_nil]
    ring

/-- Witness of C38: the stock Lagrange filter, of support 2 and order 4. -/
theorem lagrange_interpolating_witness :
    (0 : ℚ) ≤ (AcquireResizeFilter envQ16 (solidImage 1 1 ⟨0, 0, 0, 0⟩)
      FilterTypes.LagrangeFilter 1 false).support ∧
    1 ≤ castToInt (2 * (AcquireResizeFilter envQ16 (solidImage 1 1 ⟨0, 0, 0, 0⟩)
      FilterTypes.LagrangeFilter 1 false).window_support) ∧
    Lagrange (0 : ℚ) (AcquireResizeFilter envQ16 (solidImage 1 1 ⟨0, 0, 0, 0⟩)
      FilterTypes.LagrangeFilter 1 false) = 1 ∧
    Lagrange (((1 : ℕ) : ℚ)) (AcquireResizeFilter envQ16 (solidImage 1 1 ⟨0, 0, 0, 0⟩)
      FilterTypes.LagrangeFilter 1 false) = 0 ∧
    Lagrange (((2 : ℕ) : ℚ)) (AcquireResizeFilter envQ16 (solidImage 1 1 ⟨0, 0, 0, 0⟩)
      FilterTypes.LagrangeFilter 1 false) = 0 := by
  obtain ⟨-, hs, hw⟩ := lagrange_filter_fields envQ16 (solidImage 1 1 ⟨0, 0, 0, 0⟩) (1 : ℚ) rfl
  have h0 : (0 : ℚ) ≤ (AcquireResizeFilter envQ16 (solidImage 1 1 ⟨0, 0, 0, 0⟩)
      FilterTypes.LagrangeFilter 1 false).support := by
    rw [hs]
    norm_num
  have h1 : 1 ≤ castToInt (2 * (AcquireResizeFilter envQ16 (solidImage 1 1 ⟨0, 0, 0, 0⟩)
      FilterTypes.LagrangeFilter 1 false).window_support) := by
    rw [hw, castToInt_eq_of_mem (2 * 2 : ℚ) 4 (by norm_num) (by norm_num) (by norm_num)]
    decide
  have h := lagrange_interpolating (AcquireResizeFilter envQ16 (solidImage 1 1 ⟨0, 0, 0, 0⟩)
    FilterTypes.LagrangeFilter 1 false) h0 h1
  exact ⟨h0, h1, h.1, h.2.1 1 le_rfl, h.2.1 2 (by decide)⟩

/-! ## The contribution window: bounds of the reads -/

section WindowBoundsTheorems

variable {R : Type} [LinearOrderedField R] [FloorRing R]

/-- The contribution list of an output coordinate has `stop - start` entries. -/
theorem contributionList_length (env : MagickEnv R) (f : ResizeFilter R) (factor : R)
    (extent x : ℕ) :
    (contributionList env f factor extent x).length =
      (passStop (passSupport env f factor) (passCenter factor x) extent -
        passStart (passSupport env f factor) (passCenter factor x)).toNat := by
  have h := congrArg List.length (contributionList_pixels env f factor extent x)
  simpa using h

/-- The window of an output coordinate `x < M` of a pass from extent `N >= 1` to
extent `M >= 1` with a support of at least 1/2 is not empty and holds the
source index `⌊center⌋`. -/
theorem window_holds_center (N M x : ℕ) (hN : 1 ≤ N) (hM : 1 ≤ M) (hx : x < M) (s : R)
    (hs : 1 / 2 ≤ s) :
    passStart s (passCenter ((M : R) / (N : R)) x) <
      passStop s (passCenter ((M : R) / (N : R)) x) N ∧
    passStart s (passCenter ((M : R) / (N : R)) x) ≤ ⌊passCenter ((M : R) / (N : R)) x⌋ ∧
    ⌊passCenter ((M : R) / (N : R)) x⌋ < passStop s (passCenter ((M : R) / (N : R)) x) N := by
  obtain ⟨hc0, hcN⟩ := passCenter_mem (R := R) N M x hN hM hx
  obtain ⟨h1, h2⟩ := floor_center_in_window s _ N hs (le_of_lt hc0) hcN
  refine ⟨?_, h1, ?_⟩ <;> omega

/-- Claim C35: for every source extent `N >= 1`, target extent `M >= 1` and
output coordinate `x < M`, with `center = (x + 0.5) * N / M` and an effective
support of at least 0.5 (that of a pass always is), the contribution window is
not empty: `start < stop`, and the source index `floor(center)` lies in
`[start, stop)`; the contribution list has `n = stop - start >= 1` entries, so
that `contribution[0]` and `contribution[n-1]` are entries of it. -/
theorem window_nonempty (env : MagickEnv R) (f : ResizeFilter R) (N M x : ℕ) (hN : 1 ≤ N)
    (hM : 1 ≤ M) (hx : x < M) :
    passCenter ((M : R) / (N : R)) x = ((x : R) + 1 / 2) * (N : R) / (M : R) ∧
    1 / 2 ≤ passSupport env f ((M : R) / (N : R)) ∧
    (∀ s : R, 1 / 2 ≤ s →
      passStart s (passCenter ((M : R) / (N : R)) x) <
        passStop s (passCenter ((M : R) / (N : R)) x) N ∧
      passStart s (passCenter ((M : R) / (N : R)) x) ≤ ⌊passCenter ((M : R) / (N : R)) x⌋ ∧
      ⌊passCenter ((M : R) / (N : R)) x⌋ < passStop s (passCenter ((M : R) / (N : R)) x) N) ∧
    ((contributionList env f ((M : R) / (N : R)) N x).length : ℤ) =
      passStop (passSupport env f ((M : R) / (N : R))) (passCenter ((M : R) / (N : R)) x) N -
        passStart (passSupport env f ((M : R) / (N : R))) (passCenter ((M : R) / (N : R)) x) ∧
    0 < (contributionList env f ((M : R) / (N : R)) N x).length ∧
    (contributionList env f ((M : R) / (N : R)) N x).length - 1 <
      (contributionList env f ((M : R) / (N : R)) N x).length := by
  have hNR : (0 : R) < (N : R) := by exact_mod_cast hN
  have hMR : (0 : R) < (M : R) := by exact_mod_cast hM
  have hc : passCenter ((M : R) / (N : R)) x = ((x : R) + 1 / 2) * (N : R) / (M : R) := by
    unfold passCenter
    field_simp
  have hs := passSupport_ge_half env f ((M : R) / (N : R))
  have hw := window_holds_center N M x hN hM hx _ hs
  have hl := contributionList_length env f ((M : R) / (N : R)) N x
  refine ⟨hc, hs, fun s hs' => window_holds_center N M x hN hM hx s hs', ?_, ?_, ?_⟩
  · rw [hl]
    omega
  · rw [hl]
    omega
  · rw [hl]
    omega

/-- The index the palette sub-path selects lies in the window. -/
theorem palette_index_mem (center : R) (start stop : ℤ) (h0 : 0 ≤ start) (hwin : start < stop) :
    start ≤ castToInt (MagickMin (MagickMax center (start : R)) ((stop : R) - 1) + 1 / 2) ∧
    castToInt (MagickMin (MagickMax center (start : R)) ((stop : R) - 1) + 1 / 2) ≤ stop - 1 := by
  have hsR : (0 : R) ≤ (start : R) := by exact_mod_cast h0
  have hss : (start : R) ≤ (stop : R) - 1 := by
    have : ((start + 1 : ℤ) : R) ≤ (stop : R) := by exact_mod_cast hwin
    push_cast at this
    linarith
  have hlo : (start : R) ≤ MagickMin (MagickMax center (start : R)) ((stop : R) - 1) := by
    unfold MagickMin MagickMax
    split_ifs <;> linarith
  have hhi : MagickMin (MagickMax center (start : R)) ((stop : R) - 1) ≤ (stop : R) - 1 :=
    MagickMin_le_right _ _
  generalize MagickMin (MagickMax center (start : R)) ((stop : R) - 1) = v at hlo hhi
  unfold castToInt
  rw [if_pos (by linarith)]
  constructor
  · apply Int.le_floor.mpr
    linarith
  · have h1 : ⌊v + 1 / 2⌋ < stop := by
      apply Int.floor_lt.mpr
      linarith
    omega

/-- Claim C36: in the palette-preserving sub-path, for every output coordinate
of a pass with `start < stop`, the selected source index
`i = floor(min(max(center, start), stop - 1) + 0.5)` satisfies
`start <= i <= stop - 1`, so that `contribution[i - start]` is an entry of the
contribution list. -/
theorem palette_index_valid (env : MagickEnv R) (f : ResizeFilter R) (factor : R)
    (extent x : ℕ)
    (hwin : passStart (passSupport env f factor) (passCenter factor x) <
      passStop (passSupport env f factor) (passCenter factor x) extent) :
    passStart (passSupport env f factor) (passCenter factor x) ≤
      castToInt (MagickMin (MagickMax (passCenter factor x)
        ((passStart (passSupport env f factor) (passCenter factor x) : ℤ) : R))
        (((passStop (passSupport env f factor) (passCenter factor x) extent : ℤ) : R) - 1) +
        1 / 2) ∧
    castToInt (MagickMin (MagickMax (passCenter factor x)
        ((passStart (passSupport env f factor) (passCenter factor x) : ℤ) : R))
        (((passStop (passSupport env f factor) (passCenter factor x) extent : ℤ) : R) - 1) +
        1 / 2) ≤ passStop (passSupport env f factor) (passCenter factor x) extent - 1 ∧
    0 ≤ castToInt (MagickMin (MagickMax (passCenter factor x)
        ((passStart (passSupport env f factor) (passCenter factor x) : ℤ) : R))
        (((passStop (passSupport env f factor) (passCenter factor x) extent : ℤ) : R) - 1) +
        1 / 2) - passStart (passSupport env f factor) (passCenter factor x) ∧
    (castToInt (MagickMin (MagickMax (passCenter factor x)
        ((passStart (passSupport env f factor) (passCenter factor x) : ℤ) : R))
        (((passStop (passSupport env f factor) (passCenter factor x) extent : ℤ) : R) - 1) +
        1 / 2) - passStart (passSupport env f factor) (passCenter factor x)).toNat <
      (contributionList env f factor extent x).length := by
  obtain ⟨h1, h2⟩ := palette_index_mem (passCenter factor x) _ _
    (passStart_nonneg (passSupport env f factor) (passCenter factor x)) hwin
  have hl := contributionList_length env f factor extent x
  refine ⟨h1, h2, by omega, ?_⟩
  rw [hl]
  omega

end WindowBoundsTheorems

/-- Witness of C35: output coordinate 1 of a pass from extent 4 to extent 2
with the Box filter. -/
theorem window_nonempty_witness :
    1 ≤ 4 ∧ 1 ≤ 2 ∧ 1 < 2 ∧
    0 < (contributionList envQ16
      (AcquireResizeFilter envQ16 (solidImage 4 1 ⟨0, 0, 0, 0⟩) FilterTypes.BoxFilter 1 false)
      (((2 : ℕ) : ℚ) / ((4 : ℕ) : ℚ)) 4 1).length :=
  ⟨by decide, by decide, by decide,
    (window_nonempty envQ16
      (AcquireResizeFilter envQ16 (solidImage 4 1 ⟨0, 0, 0, 0⟩) FilterTypes.BoxFilter 1 false)
      4 2 1 (by decide) (by decide) (by decide)).2.2.2.2.1⟩

/-- Witness of C36: output coordinate 1 of a pass from extent 4 to extent 2
with the Box filter, whose window is not empty. -/
theorem palette_index_valid_witness :
    passStart (passSupport envQ16
        (AcquireResizeFilter envQ16 (solidImage 4 1 ⟨0, 0, 0, 0⟩) FilterTypes.BoxFilter 1 false)
        (((2 : ℕ) : ℚ) / ((4 : ℕ) : ℚ))) (passCenter (((2 : ℕ) : ℚ) / ((4 : ℕ) : ℚ)) 1) <
      passStop (passSupport envQ16
        (AcquireResizeFilter envQ16 (solidImage 4 1 ⟨0, 0, 0, 0⟩) FilterTypes.BoxFilter 1 false)
        (((2 : ℕ) : ℚ) / ((4 : ℕ) : ℚ))) (passCenter (((2 : ℕ) : ℚ) / ((4 : ℕ) : ℚ)) 1) 4 ∧
    (castToInt (MagickMin (MagickMax (passCenter (((2 : ℕ) : ℚ) / ((4 : ℕ) : ℚ)) 1)
        ((passStart (passSupport envQ16
          (AcquireResizeFilter envQ16 (solidImage 4 1 ⟨0, 0, 0, 0⟩) FilterTypes.BoxFilter 1
            false) (((2 : ℕ) : ℚ) / ((4 : ℕ) : ℚ)))
          (passCenter (((2 : ℕ) : ℚ) / ((4 : ℕ) : ℚ)) 1) : ℤ) : ℚ))
        (((passStop (passSupport envQ16
          (AcquireResizeFilter envQ16 (solidImage 4 1 ⟨0, 0, 0, 0⟩) FilterTypes.BoxFilter 1
            false) (((2 : ℕ) : ℚ) / ((4 : ℕ) : ℚ)))
          (passCenter (((2 : ℕ) : ℚ) / ((4 : ℕ) : ℚ)) 1) 4 : ℤ) : ℚ) - 1) +
        1 / 2) - passStart (passSupport envQ16
          (AcquireResizeFilter envQ16 (solidImage 4 1 ⟨0, 0, 0, 0⟩) FilterTypes.BoxFilter 1
            false) (((2 : ℕ) : ℚ) / ((4 : ℕ) : ℚ)))
          (passCenter (((2 : ℕ) : ℚ) / ((4 : ℕ) : ℚ)) 1)).toNat <
      (contributionList envQ16
        (AcquireResizeFilter envQ16 (solidImage 4 1 ⟨0, 0, 0, 0⟩) FilterTypes.BoxFilter 1 false)
        (((2 : ℕ) : ℚ) / ((4 : ℕ) : ℚ)) 4 1).length := by
  have hwin := (window_holds_center (R := ℚ) 4 2 1 (by decide) (by decide) (by decide) _
    (passSupport_ge_half envQ16
      (AcquireResizeFilter envQ16 (solidImage 4 1 ⟨0, 0, 0, 0⟩) FilterTypes.BoxFilter 1 false)
      (((2 : ℕ) : ℚ) / ((4 : ℕ) : ℚ)))).1
  exact ⟨hwin, (palette_index_valid envQ16
    (AcquireResizeFilter envQ16 (solidImage 4 1 ⟨0, 0, 0, 0⟩) FilterTypes.BoxFilter 1 false)
    (((2 : ℕ) : ℚ) / ((4 : ℕ) : ℚ)) 4 1 hwin).2.2.2⟩

/-! ## The series of `I0`: theorems -/

section SeriesTheorems

variable {R : Type} [LinearOrderedField R] [FloorRing R]

/-- Once `2 y <= i * i` every turn of the loop of `I0` at least halves the
term: from a term of at most `eps * 2^n` the loop ends within `n + 1` turns,
with a sum that is at least the sum it started from. -/
theorem I0Loop_halving (eps y : R) (heps : 0 < eps) (hy : 0 ≤ y) (n : ℕ) :
    ∀ (fuel i : ℕ) (t sum : R), 1 ≤ i → 2 * y ≤ (i : R) * (i : R) → 0 ≤ t →
      t ≤ eps * 2 ^ n → n < fuel →
      ∃ s, I0Loop eps y fuel i t sum = some s ∧ sum ≤ s := by
  induction n with
  | zero =>
    intro fuel i t sum _ _ _ ht hfuel
    obtain ⟨f, rfl⟩ : ∃ f, fuel = f + 1 := ⟨fuel - 1, by omega⟩
    unfold I0Loop
    rw [if_neg (by simpa using ht)]
    exact ⟨sum, rfl, le_refl sum⟩
  | succ n ih =>
    intro fuel i t sum hi h2y ht0 ht hfuel
    obtain ⟨f, rfl⟩ : ∃ f, fuel = f + 1 := ⟨fuel - 1, by omega⟩
    unfold I0Loop
    by_cases hte : t > eps
    · rw [if_pos hte]
      have hiR : (1 : R) ≤ (i : R) := by exact_mod_cast hi
      have hii : (0 : R) < (i : R) * (i : R) := by positivity
      have hr0 : 0 ≤ y / ((i : R) * (i : R)) := by positivity
      have hr : y / ((i : R) * (i : R)) ≤ 1 / 2 := by
        rw [div_le_iff₀ hii]
        linarith
      have ht' : t * (y / ((i : R) * (i : R))) ≤ eps * 2 ^ n := by
        have h1 : t * (y / ((i : R) * (i : R))) ≤ t * (1 / 2) :=
          mul_le_mul_of_nonneg_left hr ht0
        have h2 : t * (1 / 2) ≤ eps * 2 ^ (n + 1) * (1 / 2) :=
          mul_le_mul_of_nonneg_right ht (by norm_num)
        have h3 : eps * 2 ^ (n + 1) * (1 / 2) = eps * 2 ^ n := by
          rw [pow_succ]
          ring
        linarith
      have h2y' : 2 * y ≤ ((i + 1 : ℕ) : R) * ((i + 1 : ℕ) : R) := by
        push_cast
        nlinarith
      obtain ⟨s, hs, hle⟩ := ih f (i + 1) (t * (y / ((i : R) * (i : R)))) (sum + t)
        (by omega) h2y' (mul_nonneg ht0 hr0) ht' (by omega)
      exact ⟨s, hs, by linarith⟩
    · rw [if_neg hte]
      exact ⟨sum, rfl, le_refl sum⟩

/-- The loop of `I0` ends: from every state with a term that is not negative
there is a number of turns that is enough, and the sum returned is at least the
sum the loop started from. -/
theorem I0Loop_terminates (eps y : R) (heps : 0 < eps) (hy : 0 ≤ y) (d : ℕ) :
    ∀ (i : ℕ) (t sum : R), 1 ≤ i → 2 * y ≤ ((i + d : ℕ) : R) * ((i + d : ℕ) : R) → 0 ≤ t →
      ∃ N : ℕ, ∀ fuel : ℕ, N ≤ fuel → ∃ s, I0Loop eps y fuel i t sum = some s ∧ sum ≤ s := by
  induction d with
  | zero =>
    intro i t sum hi h2y ht0
    obtain ⟨n, hn⟩ := pow_unbounded_of_one_lt (t / eps) (by norm_num : (1 : R) < 2)
    have ht : t ≤ eps * 2 ^ n := by
      have := (div_lt_iff₀ heps).mp hn
      linarith
    refine ⟨n + 1, ?_⟩
    intro fuel hfuel
    exact I0Loop_halving eps y heps hy n fuel i t sum hi (by simpa using h2y) ht0 ht (by omega)
  | succ d ih =>
    intro i t sum hi h2y ht0
    have hiR : (1 : R) ≤ (i : R) := by exact_mod_cast hi
    have hr0 : 0 ≤ y / ((i : R) * (i : R)) := by positivity
    obtain ⟨N, hN⟩ := ih (i + 1) (t * (y / ((i : R) * (i : R)))) (sum + t) (by omega)
      (by
        have e : i + 1 + d = i + (d + 1) := by omega
        rw [e]
        exact h2y)
      (mul_nonneg ht0 hr0)
    refine ⟨N + 1, ?_⟩
    intro fuel hfuel
    obtain ⟨f, rfl⟩ : ∃ f, fuel = f + 1 := ⟨fuel - 1, by omega⟩
    unfold I0Loop
    by_cases hte : t > eps
    · rw [if_pos hte]
      obtain ⟨s, hs, hle⟩ := hN f (by omega)
      exact ⟨s, hs, by linarith⟩
    · rw [if_neg hte]
      exact ⟨sum, rfl, le_refl sum⟩

/-- With enough fuel `I0` returns a sum of at least 1, whatever its
argument. -/
theorem I0_returns (eps : R) (heps : 0 < eps) (x : R) :
    ∃ N : ℕ, ∀ env : MagickEnv R, env.MagickEpsilon = eps → N ≤ env.fuel →
      ∃ s, I0 env x = some s ∧ 1 ≤ s := by
  have hy : 0 ≤ x * x / 4 := div_nonneg (mul_self_nonneg x) (by norm_num)
  have hd : 2 * (x * x / 4) ≤ ((2 + ⌈2 * (x * x / 4)⌉₊ : ℕ) : R) *
      ((2 + ⌈2 * (x * x / 4)⌉₊ : ℕ) : R) := by
    have h1 : 2 * (x * x / 4) ≤ ((⌈2 * (x * x / 4)⌉₊ : ℕ) : R) := Nat.le_ceil _
    have h0 : (0 : R) ≤ ((⌈2 * (x * x / 4)⌉₊ : ℕ) : R) := Nat.cast_nonneg _
    push_cast
    nlinarith
  obtain ⟨N, hN⟩ := I0Loop_terminates eps (x * x / 4) heps hy ⌈2 * (x * x / 4)⌉₊ 2
    (x * x / 4) 1 (by omega) hd hy
  refine ⟨N, ?_⟩
  intro env he hfuel
  unfold I0
  rw [he]
  exact hN env.fuel hfuel

/-- One turn of the loop of `I0` whose term is above `eps`. -/
theorem I0Loop_step (eps y : R) (fuel i : ℕ) (t sum : R) (ht : t > eps) :
    I0Loop eps y (fuel + 1) i t sum =
      I0Loop eps y fuel (i + 1) (t * (y / ((i : R) * (i : R)))) (sum + t) := by
  rw [I0Loop, if_pos ht]

/-- In a build with `MagickEpsilon` 1.0e-10 and a fuel of at least 50, `I0(6.5)`
returns a sum of at least 1. -/
theorem I0_stock (env : MagickEnv R) (he : env.MagickEpsilon = 1 / 10000000000)
    (hfuel : 50 ≤ env.fuel) : ∃ a, I0 env (65 / 10) = some a ∧ 1 ≤ a := by
  obtain ⟨f, hf⟩ : ∃ f, env.fuel = f + 1 + 1 + 1 := ⟨env.fuel - 3, by omega⟩
  unfold I0
  rw [he, hf, I0Loop_step _ _ _ _ _ _ (by norm_num), I0Loop_step _ _ _ _ _ _ (by norm_num),
    I0Loop_step _ _ _ _ _ _ (by norm_num)]
  obtain ⟨s, hs, hle⟩ := I0Loop_halving (1 / 10000000000 : R) (65 / 10 * (65 / 10) / 4)
    (by norm_num) (by norm_num) 38 f (2 + 1 + 1 + 1)
    (65 / 10 * (65 / 10) / 4 * (65 / 10 * (65 / 10) / 4 / (((2 : ℕ) : R) * ((2 : ℕ) : R))) *
        (65 / 10 * (65 / 10) / 4 / (((2 + 1 : ℕ) : R) * ((2 + 1 : ℕ) : R))) *
      (65 / 10 * (65 / 10) / 4 / (((2 + 1 + 1 : ℕ) : R) * ((2 + 1 + 1 : ℕ) : R))))
    (1 + 65 / 10 * (65 / 10) / 4 +
        65 / 10 * (65 / 10) / 4 * (65 / 10 * (65 / 10) / 4 / (((2 : ℕ) : R) * ((2 : ℕ) : R))) +
      65 / 10 * (65 / 10) / 4 * (65 / 10 * (65 / 10) / 4 / (((2 : ℕ) : R) * ((2 : ℕ) : R))) *
        (65 / 10 * (65 / 10) / 4 / (((2 + 1 : ℕ) : R) * ((2 + 1 : ℕ) : R))))
    (by omega) (by push_cast; norm_num) (by push_cast; norm_num) (by push_cast; norm_num)
    (by omega)
  refine ⟨s, hs, le_trans ?_ hle⟩
  push_cast
  norm_num

/-- The value of `Kaiser` at 0 when `I0(6.5)` has returned and the square root
of 1 is 1. -/
theorem Kaiser_zero (env : MagickEnv R) (a : R) (ha : I0 env (65 / 10) = some a) (ha0 : a ≠ 0)
    (hsqrt : env.sqrt 1 = 1) : Kaiser env 0 = 1 := by
  unfold Kaiser
  rw [show (1 : R) - 0 * 0 = 1 by ring, hsqrt, mul_one, ha]
  simp only []
  rw [one_div, inv_mul_cancel₀ ha0]

/-- Claim C40: for every `x` the series loop of `I0` terminates when
`MagickEpsilon` is positive: with enough fuel `I0(x)` returns, and the sum it
returns is at least 1; `I0(0) = 1`; a turn of the loop takes the term
`y^k / (k!)^2` to `y^(k+1) / ((k+1)!)^2` (with `y = x^2/4`, from the first term
`y`); hence `I0(6.5)` is at least 1, its reciprocal is well defined, and
`Kaiser(0) = 1` (the square root of 1 being 1). -/
theorem bessel_series_terminates (eps : R) (heps : 0 < eps) :
    (∀ x : R, ∃ N : ℕ, ∀ env : MagickEnv R, env.MagickEpsilon = eps → N ≤ env.fuel →
      ∃ s, I0 env x = some s ∧ 1 ≤ s) ∧
    (∀ env : MagickEnv R, env.MagickEpsilon = eps → 1 ≤ env.fuel → I0 env 0 = some 1) ∧
    (∀ (env : MagickEnv R) (x : R), I0 env x =
      I0Loop env.MagickEpsilon (x * x / 4) env.fuel (1 + 1)
        ((x * x / 4) ^ 1 / ((Nat.factorial 1 : ℕ) : R) ^ 2) 1) ∧
    (∀ (y : R) (k fuel : ℕ) (sum : R), 1 ≤ k → eps < y ^ k / ((Nat.factorial k : ℕ) : R) ^ 2 →
      I0Loop eps y (fuel + 1) (k + 1) (y ^ k / ((Nat.factorial k : ℕ) : R) ^ 2) sum =
        I0Loop eps y fuel (k + 1 + 1) (y ^ (k + 1) / ((Nat.factorial (k + 1) : ℕ) : R) ^ 2)
          (sum + y ^ k / ((Nat.factorial k : ℕ) : R) ^ 2)) ∧
    (∃ N : ℕ, ∀ env : MagickEnv R, env.MagickEpsilon = eps → N ≤ env.fuel → env.sqrt 1 = 1 →
      (∃ a, I0 env (65 / 10) = some a ∧ 1 ≤ a ∧ a ≠ 0) ∧ Kaiser env 0 = 1) := by
  refine ⟨fun x => I0_returns eps heps x, ?_, ?_, ?_, ?_⟩
  · intro env he hfuel
    unfold I0
    obtain ⟨f, hf⟩ : ∃ f, env.fuel = f + 1 := ⟨env.fuel - 1, by omega⟩
    rw [hf, he]
    unfold I0Loop
    rw [if_neg (by
      rw [mul_zero, zero_div]
      exact not_lt.mpr (le_of_lt heps))]
  · intro env x
    unfold I0
    norm_num
  · intro y k fuel sum hk ht
    have hk0 : ((Nat.factorial k : ℕ) : R) ≠ 0 := by
      exact_mod_cast Nat.factorial_ne_zero k
    have hk1 : ((k : R) + 1) ≠ 0 := by positivity
    rw [I0Loop]
    rw [if_pos ht]
    congr 1
    rw [Nat.factorial_succ]
    push_cast
    field_simp
    ring
  · obtain ⟨N, hN⟩ := I0_returns eps heps (65 / 10)
    refine ⟨N, ?_⟩
    intro env he hfuel hsqrt
    obtain ⟨a, ha, ha1⟩ := hN env he hfuel
    have ha0 : a ≠ 0 := by
      intro h
      rw [h] at ha1
      norm_num at ha1
    exact ⟨⟨a, ha, ha1, ha0⟩, Kaiser_zero env a ha ha0 hsqrt⟩

end SeriesTheorems

/-- Witness of C40: the `MagickEpsilon` 1.0e-10 of the stock build; over the
reals with libm's own functions and a fuel of 1000, `Kaiser(0) = 1`. -/
theorem bessel_series_terminates_witness :
    (0 : ℝ) < 1 / 10000000000 ∧
    (∃ N : ℕ, ∀ env : MagickEnv ℝ, env.MagickEpsilon = 1 / 10000000000 → N ≤ env.fuel →
      env.sqrt 1 = 1 →
      (∃ a, I0 env (65 / 10) = some a ∧ 1 ≤ a ∧ a ≠ 0) ∧ Kaiser env 0 = 1) ∧
    Kaiser
      (⟨1 / 10000000000, 3.14159265358979323846264338327950288419716939937510, 16, 65535,
        ClampToQuantumInteger 65535, Real.sin, Real.cos, Real.exp, Real.log, Real.sqrt, 1000⟩ :
        MagickEnv ℝ) 0 = 1 := by
  refine ⟨by norm_num, (bessel_series_terminates (1 / 10000000000 : ℝ) (by norm_num)).2.2.2.2,
    ?_⟩
  obtain ⟨a, ha, ha1⟩ := I0_stock
    (⟨1 / 10000000000, 3.14159265358979323846264338327950288419716939937510, 16, 65535,
      ClampToQuantumInteger 65535, Real.sin, Real.cos, Real.exp, Real.log, Real.sqrt, 1000⟩ :
      MagickEnv ℝ) rfl (by decide)
  exact Kaiser_zero _ a ha (by intro h; rw [h] at ha1; norm_num at ha1) Real.sqrt_one

/-! ## Separability: the two orders against the unrounded sum -/

section SeparabilityBoundTheorems

variable {R : Type} [LinearOrderedField R] [FloorRing R]

/-- A weighted sum with weights that are not negative and sum to 1 lies between
the bounds of the values it weighs. -/
theorem unroundedChannel_mem (l : List (ContributionInfo R)) (u : ℤ → R) (lo hi : R)
    (hw : ∀ c ∈ l, 0 ≤ c.weight) (hs : (l.map ContributionInfo.weight).sum = 1)
    (hu : ∀ c ∈ l, lo ≤ u c.pixel ∧ u c.pixel ≤ hi) :
    lo ≤ unroundedChannel l u ∧ unroundedChannel l u ≤ hi := by
  unfold unroundedChannel
  have hlo : (l.map fun c => c.weight * lo).sum ≤ (l.map fun c => c.weight * u c.pixel).sum := by
    apply List.sum_le_sum
    intro c hc
    exact mul_le_mul_of_nonneg_left (hu c hc).1 (hw c hc)
  have hhi : (l.map fun c => c.weight * u c.pixel).sum ≤ (l.map fun c => c.weight * hi).sum := by
    apply List.sum_le_sum
    intro c hc
    exact mul_le_mul_of_nonneg_left (hu c hc).2 (hw c hc)
  have e : ∀ k : R, (l.map fun c => c.weight * k).sum = k := by
    intro k
    have h : (l.map fun c => c.weight * k).sum = (l.map ContributionInfo.weight).sum * k := by
      rw [List.sum_map_mul_right]
    rw [h, hs, one_mul]
  rw [e lo] at hlo
  rw [e hi] at hhi
  exact ⟨hlo, hhi⟩

/-- The weighted sum is additive in the line it weighs. -/
theorem unroundedChannel_sub (l : List (ContributionInfo R)) (u v : ℤ → R) :
    unroundedChannel l u - unroundedChannel l v = unroundedChannel l (fun a => u a - v a) := by
  unfold unroundedChannel
  induction l with
  | nil => simp
  | cons c cs ih =>
    simp only [List.map_cons, List.sum_cons]
    rw [← ih]
    ring

/-- Two lines that are within `e` of each other at the source indices have
weighted sums within `e`, for weights that are not negative and sum to 1. -/
theorem unroundedChannel_close (l : List (ContributionInfo R)) (u v : ℤ → R) (e : R)
    (hw : ∀ c ∈ l, 0 ≤ c.weight) (hs : (l.map ContributionInfo.weight).sum = 1)
    (huv : ∀ c ∈ l, |u c.pixel - v c.pixel| ≤ e) :
    |unroundedChannel l u - unroundedChannel l v| ≤ e := by
  rw [unroundedChannel_sub]
  obtain ⟨h1, h2⟩ := unroundedChannel_mem l (fun a => u a - v a) (-e) e hw hs
    (fun c hc => abs_le.mp (huv c hc))
  exact abs_le.mpr ⟨h1, h2⟩

/-- A clamp that rounds to within 1/2 inside the quantum range returns a
quantum of the range there. -/
theorem clamp_le_range (clamp : R → ℕ) (Q : ℕ)
    (hround : ∀ v : R, 0 ≤ v → v ≤ (Q : R) → |((clamp v : ℕ) : R) - v| ≤ 1 / 2)
    (v : R) (h0 : 0 ≤ v) (h1 : v ≤ (Q : R)) : clamp v ≤ Q := by
  have h := (abs_le.mp (hround v h0 h1)).2
  have h2 : ((clamp v : ℕ) : R) < ((Q + 1 : ℕ) : R) := by
    push_cast
    linarith
  have h3 : clamp v < Q + 1 := by exact_mod_cast h2
  omega

/-- The value a pass writes from the clamped samples of the other pass is
within 1 of the unrounded double sum, for weights that are not negative and
sum to 1 in both passes and source quanta in range. -/
theorem nested_clamp_close (clamp : R → ℕ) (Q : ℕ)
    (hround : ∀ v : R, 0 ≤ v → v ≤ (Q : R) → |((clamp v : ℕ) : R) - v| ≤ 1 / 2)
    (l1 l2 : List (ContributionInfo R)) (s : ℤ → ℤ → ℕ)
    (hw1 : ∀ c ∈ l1, 0 ≤ c.weight) (hs1 : (l1.map ContributionInfo.weight).sum = 1)
    (hw2 : ∀ c ∈ l2, 0 ≤ c.weight) (hs2 : (l2.map ContributionInfo.weight).sum = 1)
    (hq : ∀ a b, s a b ≤ Q) :
    |((clamp (unroundedChannel l2 fun b =>
        ((clamp (unroundedChannel l1 fun a => ((s a b : ℕ) : R)) : ℕ) : R)) : ℕ) : R) -
      unroundedChannel l2 (fun b => unroundedChannel l1 fun a => ((s a b : ℕ) : R))| ≤ 1 := by
  have hin : ∀ b : ℤ, 0 ≤ unroundedChannel l1 (fun a => ((s a b : ℕ) : R)) ∧
      unroundedChannel l1 (fun a => ((s a b : ℕ) : R)) ≤ (Q : R) := by
    intro b
    apply unroundedChannel_mem l1 _ 0 (Q : R) hw1 hs1
    intro c _
    exact ⟨Nat.cast_nonneg _, Nat.cast_le.mpr (hq c.pixel b)⟩
  have hr : ∀ b : ℤ,
      |((clamp (unroundedChannel l1 fun a => ((s a b : ℕ) : R)) : ℕ) : R) -
        unroundedChannel l1 (fun a => ((s a b : ℕ) : R))| ≤ 1 / 2 :=
    fun b => hround _ (hin b).1 (hin b).2
  have hrq : ∀ b : ℤ, clamp (unroundedChannel l1 fun a => ((s a b : ℕ) : R)) ≤ Q :=
    fun b => clamp_le_range clamp Q hround _ (hin b).1 (hin b).2
  have hout := unroundedChannel_mem l2
    (fun b => ((clamp (unroundedChannel l1 fun a => ((s a b : ℕ) : R)) : ℕ) : R)) 0 (Q : R)
    hw2 hs2 (fun c _ => ⟨Nat.cast_nonneg _, Nat.cast_le.mpr (hrq c.pixel)⟩)
  have h1 := hround _ hout.1 hout.2
  have h2 := unroundedChannel_close l2
    (fun b => ((clamp (unroundedChannel l1 fun a => ((s a b : ℕ) : R)) : ℕ) : R))
    (fun b => unroundedChannel l1 fun a => ((s a b : ℕ) : R)) (1 / 2) hw2 hs2
    (fun c _ => hr c.pixel)
  have h3 := abs_le.mp h1
  have h4 := abs_le.mp h2
  apply abs_le.mpr
  constructor <;> linarith [h3.1, h3.2, h4.1, h4.2]

/-- The two orders of nesting the clamped sums give quanta at most 2 apart, for
weights that are not negative and sum to 1 in both passes and source quanta in
range. -/
theorem nested_clamp_orders (clamp : R → ℕ) (Q : ℕ)
    (hround : ∀ v : R, 0 ≤ v → v ≤ (Q : R) → |((clamp v : ℕ) : R) - v| ≤ 1 / 2)
    (l1 l2 : List (ContributionInfo R)) (s : ℤ → ℤ → ℕ)
    (hw1 : ∀ c ∈ l1, 0 ≤ c.weight) (hs1 : (l1.map ContributionInfo.weight).sum = 1)
    (hw2 : ∀ c ∈ l2, 0 ≤ c.weight) (hs2 : (l2.map ContributionInfo.weight).sum = 1)
    (hq : ∀ a b, s a b ≤ Q) :
    |((clamp (unroundedChannel l2 fun b =>
        ((clamp (unroundedChannel l1 fun a => ((s a b : ℕ) : R)) : ℕ) : R)) : ℕ) : ℤ) -
      ((clamp (unroundedChannel l1 fun a =>
        ((clamp (unroundedChannel l2 fun b => ((s a b : ℕ) : R)) : ℕ) : R)) : ℕ) : ℤ)| ≤ 2 := by
  have h1 := nested_clamp_close clamp Q hround l1 l2 s hw1 hs1 hw2 hs2 hq
  have h2 := nested_clamp_close clamp Q hround l2 l1 (fun b a => s a b) hw2 hs2 hw1 hs1
    (fun b a => hq a b)
  have hc := unroundedChannel_comm l1 l2 (fun a b => ((s a b : ℕ) : R))
  rw [hc] at h1
  have h3 := abs_le.mp h1
  have h4 := abs_le.mp h2
  have h5 : |(((clamp (unroundedChannel l2 fun b =>
        ((clamp (unroundedChannel l1 fun a => ((s a b : ℕ) : R)) : ℕ) : R)) : ℕ) : ℤ) : R) -
      (((clamp (unroundedChannel l1 fun a =>
        ((clamp (unroundedChannel l2 fun b => ((s a b : ℕ) : R)) : ℕ) : R)) : ℕ) : ℤ) : R)| ≤
      2 := by
    push_cast
    apply abs_le.mpr
    constructor <;> linarith [h3.1, h3.2, h4.1, h4.2]
  have h6 : ((|((clamp (unroundedChannel l2 fun b =>
        ((clamp (unroundedChannel l1 fun a => ((s a b : ℕ) : R)) : ℕ) : R)) : ℕ) : ℤ) -
      ((clamp (unroundedChannel l1 fun a =>
        ((clamp (unroundedChannel l2 fun b => ((s a b : ℕ) : R)) : ℕ) : R)) : ℕ) : ℤ)| : ℤ) :
      R) ≤ ((2 : ℤ) : R) := by
    push_cast
    push_cast at h5
    exact h5
  exact_mod_cast h6

end SeparabilityBoundTheorems

section SeparabilityClaimTheorems

variable {R : Type} [LinearOrderedField R] [FloorRing R]

/-- The integer `ClampToQuantum` rounds a value of the quantum range to within
1/2. -/
theorem ClampToQuantumInteger_round (QuantumRange : ℕ) (v : R) (h0 : 0 ≤ v)
    (h1 : v ≤ (QuantumRange : R)) :
    |((ClampToQuantumInteger QuantumRange v : ℕ) : R) - v| ≤ 1 / 2 := by
  unfold ClampToQuantumInteger
  by_cases hle : v ≤ 0
  · rw [if_pos hle]
    have hv : v = 0 := le_antisymm hle h0
    rw [hv]
    norm_num
  · rw [if_neg hle]
    by_cases hge : v ≥ (QuantumRange : R)
    · rw [if_pos hge]
      have hv : v = (QuantumRange : R) := le_antisymm h1 hge
      rw [hv]
      norm_num
    · rw [if_neg hge]
      have hpos : (0 : R) ≤ v + 1 / 2 := by linarith
      have hc : castToInt (v + 1 / 2) = ⌊v + 1 / 2⌋ := by
        unfold castToInt
        rw [if_pos hpos]
      have hfl0 : 0 ≤ ⌊v + 1 / 2⌋ := Int.floor_nonneg.mpr hpos
      have hcast : (((castToInt (v + 1 / 2)).toNat : ℕ) : R) = ((⌊v + 1 / 2⌋ : ℤ) : R) := by
        rw [hc]
        have : ((⌊v + 1 / 2⌋.toNat : ℕ) : ℤ) = ⌊v + 1 / 2⌋ := Int.toNat_of_nonneg hfl0
        exact_mod_cast this
      rw [hcast]
      have hlo := Int.floor_le (v + 1 / 2)
      have hhi := Int.lt_floor_add_one (v + 1 / 2)
      apply abs_le.mpr
      constructor <;> linarith

/-- Claim C25, as the code has it: for an image without alpha whose quanta are
in range, at an output pixel where the contribution weights of both passes are
not negative and sum to 1, the horizontal pass followed by the vertical pass
and the vertical pass followed by the horizontal pass are the two nestings of
the clamped weighted sums, and their channel values differ by at most 2 quanta,
the rounding of the intermediate image and of the result (`ClampToQuantum`
rounding to within 1/2 inside the quantum range); with the intermediate sums
kept unrounded the two orders give exactly the same value. -/
theorem separable_nonnegative_weights (env : MagickEnv R) (resize_filter : ResizeFilter R)
    (image mid1 mid2 out : Image R) (x_factor y_factor : R) (span : ℕ)
    (offset1 offset2 : ℤ) (x y : ℕ)
    (hmatte : image.matte = false) (hmatte1 : mid1.matte = false)
    (hmatte2 : mid2.matte = false)
    (hmon : ∀ m, image.progress_monitor = some m → ∀ o s, m o s = true)
    (hmon1 : ∀ m, mid1.progress_monitor = some m → ∀ o s, m o s = true)
    (hmon2 : ∀ m, mid2.progress_monitor = some m → ∀ o s, m o s = true)
    (hsize1 : mid1.columns = out.columns ∧ mid1.rows = image.rows)
    (hsize2 : mid2.columns = image.columns ∧ mid2.rows = out.rows)
    (hx : x < out.columns) (hy : y < out.rows)
    (hround : ∀ v : R, 0 ≤ v → v ≤ (env.QuantumRange : R) →
      |((env.ClampToQuantum v : ℕ) : R) - v| ≤ 1 / 2)
    (hquantum : ∀ a b : ℤ, (image.pixels a b).red ≤ env.QuantumRange ∧
      (image.pixels a b).green ≤ env.QuantumRange ∧
      (image.pixels a b).blue ≤ env.QuantumRange ∧
      (image.pixels a b).opacity ≤ env.QuantumRange)
    (hwx : ∀ c ∈ contributionList env resize_filter x_factor image.columns x, 0 ≤ c.weight)
    (hsx : ((contributionList env resize_filter x_factor image.columns x).map
      ContributionInfo.weight).sum = 1)
    (hwy : ∀ c ∈ contributionList env resize_filter y_factor image.rows y, 0 ≤ c.weight)
    (hsy : ((contributionList env resize_filter y_factor image.rows y).map
      ContributionInfo.weight).sum = 1) :
    (VerticalFilter env PassOracle.ok resize_filter
      (HorizontalFilter env PassOracle.ok resize_filter image mid1 x_factor span
        offset1).resize_image
      out y_factor span offset2).resize_image.pixels x y =
      clampedPass env (contributionList env resize_filter y_factor image.rows y) (fun b =>
        clampedPass env (contributionList env resize_filter x_factor image.columns x) (fun a =>
          image.pixels a b)) ∧
    (HorizontalFilter env PassOracle.ok resize_filter
      (VerticalFilter env PassOracle.ok resize_filter image mid2 y_factor span
        offset1).resize_image
      out x_factor span offset2).resize_image.pixels x y =
      clampedPass env (contributionList env resize_filter x_factor image.columns x) (fun a =>
        clampedPass env (contributionList env resize_filter y_factor image.rows y) (fun b =>
          image.pixels a b)) ∧
    |(((VerticalFilter env PassOracle.ok resize_filter
        (HorizontalFilter env PassOracle.ok resize_filter image mid1 x_factor span
          offset1).resize_image
        out y_factor span offset2).resize_image.pixels x y).red : ℤ) -
      (((HorizontalFilter env PassOracle.ok resize_filter
        (VerticalFilter env PassOracle.ok resize_filter image mid2 y_factor span
          offset1).resize_image
        out x_factor span offset2).resize_image.pixels x y).red : ℤ)| ≤ 2 ∧
    |(((VerticalFilter env PassOracle.ok resize_filter
        (HorizontalFilter env PassOracle.ok resize_filter image mid1 x_factor span
          offset1).resize_image
        out y_factor span offset2).resize_image.pixels x y).green : ℤ) -
      (((HorizontalFilter env PassOracle.ok resize_filter
        (VerticalFilter env PassOracle.ok resize_filter image mid2 y_factor span
          offset1).resize_image
        out x_factor span offset2).resize_image.pixels x y).green : ℤ)| ≤ 2 ∧
    |(((VerticalFilter env PassOracle.ok resize_filter
        (HorizontalFilter env PassOracle.ok resize_filter image mid1 x_factor span
          offset1).resize_image
        out y_factor span offset2).resize_image.pixels x y).blue : ℤ) -
      (((HorizontalFilter env PassOracle.ok resize_filter
        (VerticalFilter env PassOracle.ok resize_filter image mid2 y_factor span
          offset1).resize_image
        out x_factor span offset2).resize_image.pixels x y).blue : ℤ)| ≤ 2 ∧
    |(((VerticalFilter env PassOracle.ok resize_filter
        (HorizontalFilter env PassOracle.ok resize_filter image mid1 x_factor span
          offset1).resize_image
        out y_factor span offset2).resize_image.pixels x y).opacity : ℤ) -
      (((HorizontalFilter env PassOracle.ok resize_filter
        (VerticalFilter env PassOracle.ok resize_filter image mid2 y_factor span
          offset1).resize_image
        out x_factor span offset2).resize_image.pixels x y).opacity : ℤ)| ≤ 2 ∧
    ∀ s : ℤ → ℤ → R,
      unroundedChannel (contributionList env resize_filter y_factor image.rows y) (fun b =>
        unroundedChannel (contributionList env resize_filter x_factor image.columns x)
          (fun a => s a b)) =
      unroundedChannel (contributionList env resize_filter x_factor image.columns x) (fun a =>
        unroundedChannel (contributionList env resize_filter y_factor image.rows y)
          (fun b => s a b)) := by
  have hHV := horizontal_then_vertical env resize_filter image mid1 out x_factor y_factor span
    span offset1 offset2 x y hmatte hmatte1 hmon hmon1 hsize1.1 hsize1.2 hx hy
  have hVH := vertical_then_horizontal env resize_filter image mid2 out x_factor y_factor span
    span offset1 offset2 x y hmatte hmatte2 hmon hmon2 hsize2.1 hsize2.2 hx hy
  refine ⟨hHV, hVH, ?_, ?_, ?_, ?_, fun s => unroundedChannel_comm _ _ s⟩
  · rw [hHV, hVH]
    exact nested_clamp_orders env.ClampToQuantum env.QuantumRange hround _ _
      (fun a b => (image.pixels a b).red) hwx hsx hwy hsy (fun a b => (hquantum a b).1)
  · rw [hHV, hVH]
    exact nested_clamp_orders env.ClampToQuantum env.QuantumRange hround _ _
      (fun a b => (image.pixels a b).green) hwx hsx hwy hsy (fun a b => (hquantum a b).2.1)
  · rw [hHV, hVH]
    exact nested_clamp_orders env.ClampToQuantum env.QuantumRange hround _ _
      (fun a b => (image.pixels a b).blue) hwx hsx hwy hsy (fun a b => (hquantum a b).2.2.1)
  · rw [hHV, hVH]
    exact nested_clamp_orders env.ClampToQuantum env.QuantumRange hround _ _
      (fun a b => (image.pixels a b).opacity) hwx hsx hwy hsy (fun a b => (hquantum a b).2.2.2)

end SeparabilityClaimTheorems

/-- Witness of C25: the 2 by 2 image with one red dot reduced to 1 by 1 with the
Box filter, whose weights are 1/2 and 1/2 in both passes. -/
theorem separable_nonnegative_weights_witness :
    (∀ c ∈ contributionList envQ16
        (AcquireResizeFilter envQ16 dotImage FilterTypes.BoxFilter 1 false) (1 / 2)
        dotImage.columns 0, 0 ≤ c.weight) ∧
    ((contributionList envQ16
        (AcquireResizeFilter envQ16 dotImage FilterTypes.BoxFilter 1 false) (1 / 2)
        dotImage.columns 0).map ContributionInfo.weight).sum = 1 ∧
    |(((VerticalFilter envQ16 PassOracle.ok
        (AcquireResizeFilter envQ16 dotImage FilterTypes.BoxFilter 1 false)
        (HorizontalFilter envQ16 PassOracle.ok
          (AcquireResizeFilter envQ16 dotImage FilterTypes.BoxFilter 1 false) dotImage
          (solidImage 1 2 ⟨0, 0, 0, 0⟩) (1 / 2) 3 0).resize_image
        (solidImage 1 1 ⟨0, 0, 0, 0⟩) (1 / 2) 3 1).resize_image.pixels (0 : ℕ) (0 : ℕ)).red :
        ℤ) -
      (((HorizontalFilter envQ16 PassOracle.ok
        (AcquireResizeFilter envQ16 dotImage FilterTypes.BoxFilter 1 false)
        (VerticalFilter envQ16 PassOracle.ok
          (AcquireResizeFilter envQ16 dotImage FilterTypes.BoxFilter 1 false) dotImage
          (solidImage 2 1 ⟨0, 0, 0, 0⟩) (1 / 2) 3 0).resize_image
        (solidImage 1 1 ⟨0, 0, 0, 0⟩) (1 / 2) 3 1).resize_image.pixels (0 : ℕ) (0 : ℕ)).red :
        ℤ)| ≤ 2 := by
  obtain ⟨hf, hw, hs, hb⟩ := box_filter_fields envQ16 dotImage rfl
    (by norm_num [envQ16] : envQ16.MagickEpsilon ≤ 1)
  have hlx : contributionList envQ16
      (AcquireResizeFilter envQ16 dotImage FilterTypes.BoxFilter 1 false) (1 / 2)
      dotImage.columns 0 = [⟨1 / 2, 2 * ((0 : ℕ) : ℤ)⟩, ⟨1 / 2, 2 * ((0 : ℕ) : ℤ) + 1⟩] :=
    box_half_contributions envQ16 _ hf hw hs hb (by norm_num [envQ16]) (by norm_num [envQ16])
      1 0 (by decide)
  have hly : contributionList envQ16
      (AcquireResizeFilter envQ16 dotImage FilterTypes.BoxFilter 1 false) (1 / 2)
      dotImage.rows 0 = [⟨1 / 2, 2 * ((0 : ℕ) : ℤ)⟩, ⟨1 / 2, 2 * ((0 : ℕ) : ℤ) + 1⟩] :=
    box_half_contributions envQ16 _ hf hw hs hb (by norm_num [envQ16]) (by norm_num [envQ16])
      1 0 (by decide)
  have hwx : ∀ c ∈ contributionList envQ16
      (AcquireResizeFilter envQ16 dotImage FilterTypes.BoxFilter 1 false) (1 / 2)
      dotImage.columns 0, 0 ≤ c.weight := by
    intro c hc
    rw [hlx] at hc
    simp only [List.mem_cons, List.mem_singleton, List.not_mem_nil, or_false] at hc
    rcases hc with h | h <;> rw [h] <;> norm_num
  have hsx : ((contributionList envQ16
      (AcquireResizeFilter envQ16 dotImage FilterTypes.BoxFilter 1 false) (1 / 2)
      dotImage.columns 0).map ContributionInfo.weight).sum = 1 := by
    rw [hlx]
    norm_num
  have hwy : ∀ c ∈ contributionList envQ16
      (AcquireResizeFilter envQ16 dotImage FilterTypes.BoxFilter 1 false) (1 / 2)
      dotImage.rows 0, 0 ≤ c.weight := by
    intro c hc
    rw [hly] at hc
    simp only [List.mem_cons, List.mem_singleton, List.not_mem_nil, or_false] at hc
    rcases hc with h | h <;> rw [h] <;> norm_num
  have hsy : ((contributionList envQ16
      (AcquireResizeFilter envQ16 dotImage FilterTypes.BoxFilter 1 false) (1 / 2)
      dotImage.rows 0).map ContributionInfo.weight).sum = 1 := by
    rw [hly]
    norm_num
  have hq : ∀ a b : ℤ, (dotImage.pixels a b).red ≤ envQ16.QuantumRange ∧
      (dotImage.pixels a b).green ≤ envQ16.QuantumRange ∧
      (dotImage.pixels a b).blue ≤ envQ16.QuantumRange ∧
      (dotImage.pixels a b).opacity ≤ envQ16.QuantumRange := by
    intro a b
    by_cases h : a = 0 ∧ b = 0
    · simp [dotImage, envQ16, h]
    · simp [dotImage, envQ16, h]
  exact ⟨hwx, hsx,
    (separable_nonnegative_weights envQ16
      (AcquireResizeFilter envQ16 dotImage FilterTypes.BoxFilter 1 false)
      dotImage (solidImage 1 2 ⟨0, 0, 0, 0⟩) (solidImage 2 1 ⟨0, 0, 0, 0⟩)
      (solidImage 1 1 ⟨0, 0, 0, 0⟩) (1 / 2) (1 / 2) 3 0 1 0 0 rfl rfl rfl
      (by intro m h; cases h) (by intro m h; cases h) (by intro m h; cases h)
      ⟨rfl, rfl⟩ ⟨rfl, rfl⟩ (by decide) (by decide)
      (fun v h0 h1 => ClampToQuantumInteger_round 65535 v h0 h1) hq hwx hsx hwy hsy).2.2.1⟩

/-! ## Separability: a filter with negative lobes -/

/-- The Catrom filter built with blur 1 and no artifacts in the stock build. -/
theorem catrom_filter_fields (image : Image ℚ) (hart : image.artifacts = Artifacts.none) :
    (AcquireResizeFilter envQ16 image FilterTypes.CatromFilter 1 false).filter =
      FilterFunction.CubicBC ∧
    (AcquireResizeFilter envQ16 image FilterTypes.CatromFilter 1 false).window =
      FilterFunction.Box ∧
    (AcquireResizeFilter envQ16 image FilterTypes.CatromFilter 1 false).support = 2 ∧
    (AcquireResizeFilter envQ16 image FilterTypes.CatromFilter 1 false).blur = 1 ∧
    (AcquireResizeFilter envQ16 image FilterTypes.CatromFilter 1 false).cubic =
      cubicCoefficients 0 (1 / 2) := by
  refine ⟨?_, ?_, ?_, ?_, ?_⟩ <;>
    norm_num [AcquireResizeFilter, acquireTypes, acquireSupport, acquireBlur, acquireBC, mapping,
      filters, hart, Artifacts.none, envQ16]

/-- The contribution lists of output coordinates 0 and 1 of a pass of the
Catrom filter from extent 2 to extent 4 (scale factor 2) in the stock build:
the weight of the far pixel of coordinate 0 is negative. -/
theorem catrom_double_contributions (f : ResizeFilter ℚ)
    (hf : f.filter = FilterFunction.CubicBC) (hw : f.window = FilterFunction.Box)
    (hs : f.support = 2) (hb : f.blur = 1) (hcub : f.cubic = cubicCoefficients 0 (1 / 2)) :
    contributionList envQ16 f 2 2 0 = [⟨37 / 34, 0⟩, ⟨-3 / 34, 1⟩] ∧
    contributionList envQ16 f 2 2 1 = [⟨111 / 140, 0⟩, ⟨29 / 140, 1⟩] := by
  have hscale : passScale envQ16 (2 : ℚ) = 1 := by
    norm_num [passScale, MagickMax, envQ16]
  have hraw : rawSupport envQ16 f 2 = 2 := by
    unfold rawSupport GetResizeFilterSupport
    rw [hscale, hs, hb]; norm_num
  have hsup : passSupport envQ16 f 2 = 2 := by
    unfold passSupport
    rw [hraw]; norm_num
  have hls : loopScale envQ16 f 2 = 1 := by
    unfold loopScale
    rw [hraw, hscale]; norm_num
  have hcen0 : passCenter (2 : ℚ) 0 = 1 / 4 := by
    norm_num [passCenter]
  have hcen1 : passCenter (2 : ℚ) 1 = 3 / 4 := by
    norm_num [passCenter]
  have hstart0 : passStart (2 : ℚ) (1 / 4) = 0 := by
    unfold passStart
    apply castToInt_eq_of_mem <;> norm_num [MagickMax]
  have hstop0 : passStop (2 : ℚ) (1 / 4) 2 = 2 := by
    unfold passStop
    apply castToInt_eq_of_mem <;> norm_num [MagickMin]
  have hstart1 : passStart (2 : ℚ) (3 / 4) = 0 := by
    unfold passStart
    apply castToInt_eq_of_mem <;> norm_num [MagickMax]
  have hstop1 : passStop (2 : ℚ) (3 / 4) 2 = 2 := by
    unfold passStop
    apply castToInt_eq_of_mem <;> norm_num [MagickMin]
  have hwq : GetResizeFilterWeight envQ16 f (1 / 4) = 111 / 128 := by
    rw [weight_cubic envQ16 f _ hf hw hb,
      show |(1 / 4 : ℚ)| = 1 / 4 from abs_of_pos (by norm_num)]
    norm_num [CubicBC, hcub, cubicCoefficients]
  have hwqn : GetResizeFilterWeight envQ16 f (-(1 / 4)) = 111 / 128 := by
    rw [weight_cubic envQ16 f _ hf hw hb,
      show |(-(1 / 4) : ℚ)| = 1 / 4 by rw [abs_neg]; exact abs_of_pos (by norm_num)]
    norm_num [CubicBC, hcub, cubicCoefficients]
  have hw5 : GetResizeFilterWeight envQ16 f (5 / 4) = -9 / 128 := by
    rw [weight_cubic envQ16 f _ hf hw hb,
      show |(5 / 4 : ℚ)| = 5 / 4 from abs_of_pos (by norm_num)]
    norm_num [CubicBC, hcub, cubicCoefficients]
  have hw3 : GetResizeFilterWeight envQ16 f (3 / 4) = 29 / 128 := by
    rw [weight_cubic envQ16 f _ hf hw hb,
      show |(3 / 4 : ℚ)| = 3 / 4 from abs_of_pos (by norm_num)]
    norm_num [CubicBC, hcub, cubicCoefficients]
  constructor
  · unfold contributionList
    simp only []
    rw [hsup, hls, hcen0, hstart0, hstop0]
    have hrawl : rawContribution envQ16 f 1 (1 / 4) 0 2 =
        [⟨111 / 128, 0⟩, ⟨-9 / 128, 1⟩] := by
      unfold rawContribution
      have e0 : (1 : ℚ) * (((0 + ((0 : ℕ) : ℤ) : ℤ) : ℚ) - 1 / 4 + 1 / 2) = 1 / 4 := by
        norm_num
      have e1 : (1 : ℚ) * (((0 + ((1 : ℕ) : ℤ) : ℤ) : ℚ) - 1 / 4 + 1 / 2) = 5 / 4 := by
        norm_num
      simp only [show (2 - 0 : ℤ).toNat = 2 from rfl, List.range_succ, List.range_zero,
        List.nil_append, List.cons_append, List.map_cons, List.map_nil, e0, e1, hwq, hw5]
      norm_num
    rw [hrawl]
    norm_num [normalize, density]
  · unfold contributionList
    simp only []
    rw [hsup, hls, hcen1, hstart1, hstop1]
    have hrawl : rawContribution envQ16 f 1 (3 / 4) 0 2 =
        [⟨111 / 128, 0⟩, ⟨29 / 128, 1⟩] := by
      unfold rawContribution
      have e0 : (1 : ℚ) * (((0 + ((0 : ℕ) : ℤ) : ℤ) : ℚ) - 3 / 4 + 1 / 2) = -(1 / 4) := by
        norm_num
      have e1 : (1 : ℚ) * (((0 + ((1 : ℕ) : ℤ) : ℤ) : ℚ) - 3 / 4 + 1 / 2) = 3 / 4 := by
        norm_num
      simp only [show (2 - 0 : ℤ).toNat = 2 from rfl, List.range_succ, List.range_zero,
        List.nil_append, List.cons_append, List.map_cons, List.map_nil, e0, e1, hwqn, hw3]
      norm_num
    rw [hrawl]
    norm_num [normalize, density]

/-- The integer `ClampToQuantum` of a value that is not positive is 0. -/
theorem ClampToQuantumInteger_of_nonpos (QuantumRange : ℕ) (v : ℚ) (h : v ≤ 0) :
    ClampToQuantumInteger QuantumRange v = 0 := by
  unfold ClampToQuantumInteger
  rw [if_pos h]

/-- The integer `ClampToQuantum` of a value inside the quantum range is the
quantum `n` with `n <= v + 1/2 < n + 1`. -/
theorem ClampToQuantumInteger_eq_of_mem (QuantumRange n : ℕ) (v : ℚ) (h0 : 0 < v)
    (h1 : v < (QuantumRange : ℚ)) (hlo : (n : ℚ) ≤ v + 1 / 2) (hhi : v + 1 / 2 < (n : ℚ) + 1) :
    ClampToQuantumInteger QuantumRange v = n := by
  unfold ClampToQuantumInteger
  rw [if_neg (not_le.mpr h0), if_neg (not_le.mpr h1),
    castToInt_eq_of_mem (v + 1 / 2) (n : ℤ) (by linarith) (by exact_mod_cast hlo)
      (by exact_mod_cast hhi)]
  rfl

/-- The clamped pass over a contribution list of two entries. -/
theorem clampedPass_pair (env : MagickEnv ℚ) (w0 w1 : ℚ) (p0 p1 : ℤ) (line : ℤ → PixelPacket) :
    clampedPass env [⟨w0, p0⟩, ⟨w1, p1⟩] line =
      { red := env.ClampToQuantum (w0 * ((line p0).red : ℚ) + (w1 * ((line p1).red : ℚ) + 0))
        green :=
          env.ClampToQuantum (w0 * ((line p0).green : ℚ) + (w1 * ((line p1).green : ℚ) + 0))
        blue :=
          env.ClampToQuantum (w0 * ((line p0).blue : ℚ) + (w1 * ((line p1).blue : ℚ) + 0))
        opacity :=
          env.ClampToQuantum
            (w0 * ((line p0).opacity : ℚ) + (w1 * ((line p1).opacity : ℚ) + 0)) } :=
  rfl

/-- Counterexample to C25 as stated: the Catrom filter from 2 by 2 to 4 by 4
over the image `lobeImage`, at output pixel (0, 1).  The weights of output
column 0 are 37/34 and -3/34.  Horizontal pass first: the intermediate sums of
column 0 are -5782.5, clamped to 0, and 10882.35, rounded to 10882, and the
vertical pass writes red 2254.  Vertical pass first: the intermediate quanta of
row 1 are 2071 and 51960, whose weighted sum is negative, and the horizontal
pass writes red 0. -/
theorem separable_negative_lobe_differs :
    contributionList envQ16
      (AcquireResizeFilter envQ16 lobeImage FilterTypes.CatromFilter 1 false) 2
      lobeImage.columns 0 = [⟨37 / 34, 0⟩, ⟨-3 / 34, 1⟩] ∧
    (VerticalFilter envQ16 PassOracle.ok
      (AcquireResizeFilter envQ16 lobeImage FilterTypes.CatromFilter 1 false)
      (HorizontalFilter envQ16 PassOracle.ok
        (AcquireResizeFilter envQ16 lobeImage FilterTypes.CatromFilter 1 false) lobeImage
        (solidImage 4 2 ⟨0, 0, 0, 0⟩) 2 6 0).resize_image
      (solidImage 4 4 ⟨0, 0, 0, 0⟩) 2 6 4).resize_image.pixels ((0 : ℕ) : ℤ) ((1 : ℕ) : ℤ) =
      ⟨2254, 0, 0, 0⟩ ∧
    (HorizontalFilter envQ16 PassOracle.ok
      (AcquireResizeFilter envQ16 lobeImage FilterTypes.CatromFilter 1 false)
      (VerticalFilter envQ16 PassOracle.ok
        (AcquireResizeFilter envQ16 lobeImage FilterTypes.CatromFilter 1 false) lobeImage
        (solidImage 2 4 ⟨0, 0, 0, 0⟩) 2 6 0).resize_image
      (solidImage 4 4 ⟨0, 0, 0, 0⟩) 2 6 4).resize_image.pixels ((0 : ℕ) : ℤ) ((1 : ℕ) : ℤ) =
      ⟨0, 0, 0, 0⟩ := by
  obtain ⟨hf, hw, hs, hb, hcub⟩ := catrom_filter_fields lobeImage rfl
  obtain ⟨hl0, hl1⟩ := catrom_double_contributions _ hf hw hs hb hcub
  have hc : lobeImage.columns = 2 := rfl
  have hr : lobeImage.rows = 2 := rfl
  have p00 : lobeImage.pixels 0 0 = ⟨0, 0, 0, 0⟩ := by simp [lobeImage]
  have p10 : lobeImage.pixels 1 0 = ⟨65535, 0, 0, 0⟩ := by simp [lobeImage]
  have p01 : lobeImage.pixels 0 1 = ⟨10000, 0, 0, 0⟩ := by simp [lobeImage]
  have p11 : lobeImage.pixels 1 1 = ⟨0, 0, 0, 0⟩ := by simp [lobeImage]
  have hclamp : envQ16.ClampToQuantum = ClampToQuantumInteger 65535 := rfl
  have z : ClampToQuantumInteger 65535 (0 : ℚ) = 0 :=
    ClampToQuantumInteger_of_nonpos 65535 0 le_rfl
  refine ⟨by rw [hc]; exact hl0, ?_, ?_⟩
  · rw [horizontal_then_vertical envQ16 _ lobeImage (solidImage 4 2 ⟨0, 0, 0, 0⟩)
      (solidImage 4 4 ⟨0, 0, 0, 0⟩) 2 2 6 6 0 4 0 1 rfl rfl (by intro m h; cases h)
      (by intro m h; cases h) rfl rfl (by decide) (by decide)]
    rw [hc, hr, hl0, hl1, clampedPass_pair]
    rw [clampedPass_pair, clampedPass_pair, p00, p10, p01, p11, hclamp]
    simp only [Nat.cast_zero, mul_zero, add_zero, zero_add, z]
    have i0 : ClampToQuantumInteger 65535 (-3 / 34 * (((65535 : ℕ) : ℚ))) = 0 :=
      ClampToQuantumInteger_of_nonpos 65535 _ (by norm_num)
    have i1 : ClampToQuantumInteger 65535 (37 / 34 * (((10000 : ℕ) : ℚ))) = 10882 :=
      ClampToQuantumInteger_eq_of_mem 65535 10882 _ (by norm_num) (by norm_num) (by norm_num)
        (by norm_num)
    rw [i0, i1]
    simp only [Nat.cast_zero, mul_zero, add_zero, zero_add, z]
    have o : ClampToQuantumInteger 65535 (29 / 140 * (((10882 : ℕ) : ℚ))) = 2254 :=
      ClampToQuantumInteger_eq_of_mem 65535 2254 _ (by norm_num) (by norm_num) (by norm_num)
        (by norm_num)
    rw [o]
  · rw [vertical_then_horizontal envQ16 _ lobeImage (solidImage 2 4 ⟨0, 0, 0, 0⟩)
      (solidImage 4 4 ⟨0, 0, 0, 0⟩) 2 2 6 6 0 4 0 1 rfl rfl (by intro m h; cases h)
      (by intro m h; cases h) rfl rfl (by decide) (by decide)]
    rw [hc, hr, hl0, hl1, clampedPass_pair]
    rw [clampedPass_pair, clampedPass_pair, p00, p10, p01, p11, hclamp]
    simp only [Nat.cast_zero, mul_zero, add_zero, zero_add, z]
    have i0 : ClampToQuantumInteger 65535 (29 / 140 * (((10000 : ℕ) : ℚ))) = 2071 :=
      ClampToQuantumInteger_eq_of_mem 65535 2071 _ (by norm_num) (by norm_num) (by norm_num)
        (by norm_num)
    have i1 : ClampToQuantumInteger 65535 (111 / 140 * (((65535 : ℕ) : ℚ))) = 51960 :=
      ClampToQuantumInteger_eq_of_mem 65535 51960 _ (by norm_num) (by norm_num) (by norm_num)
        (by norm_num)
    rw [i0, i1]
    have o : ClampToQuantumInteger 65535
        (37 / 34 * (((2071 : ℕ) : ℚ)) + -3 / 34 * (((51960 : ℕ) : ℚ))) = 0 :=
      ClampToQuantumInteger_of_nonpos 65535 _ (by norm_num)
    rw [o]

end Resize
